import Mathlib

/-!
# The programs of Advanced-Unix-CENG536

Shallow embeddings of the supply/demand matching server `hw1/supdemserv.c`
(namespace `SupDem`), of the cipher device `hw3/cipher/cipher.c` (namespace
`Cipher`) and of the system call of `hw2/mm536.c` (namespace `Mm536`), followed by
theorems about them.  The conventions of `Cipher` and `Mm536` stand at the head of
their definitions.

`SupDem` embeds the shared store of the server (supplies, demands, watches, client
registry with the per-client notification ring) and the functions that act on it.
Conventions of that embedding.

* A C `int` is an `Int`.  Signed overflow is undefined in C, so the model
  describes the executions in which no `int` computation overflows.  What the
  compiled server does when one overflows is described apart, by the functions
  named `_wrapped` of the section on the arithmetic of the compiled server.
* The four tables are lists; the capacity of a table (`MAX_SUPPLY`,
  `MAX_DEMAND`, `MAX_WATCH`, `MAX_CLIENTS` in the source) is the length of its
  list, so every statement holds for the capacities of the source and for the
  small tables of the concrete scenarios.  A read outside a table yields the
  free slot and a write outside a table is lost.
* `for (i = 0; i < MAX; i++) body` is a left fold over `List.range MAX`; a scan
  that stops at the first free slot is `first_index` followed by one write; a
  loop that rewrites every slot on its own is a `List.map`.
* The mutexes and condition variables are not part of the state: the functions
  below are the bodies executed while the global mutex is held.  What a thread
  does to the mutexes is described apart, by the sequences of actions of the
  section on the locking of the server.
* `world.trace` is the sequence of visible actions, oldest first: every call of
  `enqueue_notification` (whether the ring accepted the message or dropped it)
  and every `write`/`send` on a client socket.
* An input line is a list of characters.  `sscanf(command, "word %d ... %d")`
  is `sscanf`: the characters of the word must open the line, white space in
  the format matches any run of white space, `%d` skips white space and reads an
  optional sign and decimal digits, and what follows the last conversion is not
  looked at.  `strncmp(command, word, n) == 0` is a test for a leading word.
* The connection is the list of what the successive calls of `read` find:
  waiting bytes, the end of the stream or an error.  `read` with a count stores
  at most that many of the waiting bytes and leaves the others in the socket;
  with count 0 it stores nothing and returns 0.  `command_loop n` is the first
  `n` iterations of the `while(1)` loop of `command_thread_func`.
-/

namespace SupDem

/-! ## Data model -/

/-- The capacity of one notification ring. -/
def MAX_NOTIFICATIONS : Int := 1000

structure supply where
  x : Int
  y : Int
  a_amount : Int
  b_amount : Int
  c_amount : Int
  distance : Int
  client_id : Int
deriving DecidableEq, Repr

structure demand where
  x : Int
  y : Int
  a_amount : Int
  b_amount : Int
  c_amount : Int
  client_id : Int
deriving DecidableEq, Repr

structure watch_t where
  x : Int
  y : Int
  client_id : Int
  watch_id : Int
deriving DecidableEq, Repr

/-- One registry entry; `notifications` is the array of `char message[256]`
buffers, `notif_head` the next slot to fill and `notif_tail` the next to send. -/
structure client where
  client_id : Int
  x : Int
  y : Int
  client_socket : Int
  notifications : List String
  notif_head : Int
  notif_tail : Int
deriving DecidableEq, Repr

/-- A visible action of the server. -/
inductive event where
  | write (fd : Int) (buf : String)
  | enqueue (client_id : Int) (msg : String)
deriving DecidableEq, Repr

/-- The shared memory region together with the trace of visible actions. -/
structure world where
  supplies : List supply
  demands : List demand
  watches : List watch_t
  clients : List client
  trace : List event
deriving DecidableEq, Repr

/-- A supply slot after `memset(.., 0, ..)` and `client_id = -1`. -/
def free_supply : supply := ⟨0, 0, 0, 0, 0, 0, -1⟩

/-- A demand slot after `memset(.., 0, ..)` and `client_id = -1`. -/
def free_demand : demand := ⟨0, 0, 0, 0, 0, -1⟩

/-- A watch slot of the zeroed region with `client_id = -1`. -/
def free_watch : watch_t := ⟨0, 0, -1, 0⟩

/-- A registry slot as `main` leaves it: zeroed, `client_id = client_socket = -1`. -/
def free_client : client :=
  ⟨-1, 0, 0, -1, List.replicate MAX_NOTIFICATIONS.toNat "", 0, 0⟩

/-- The region as `main` initialises it, for the given table capacities. -/
def init_world (max_clients max_supply max_demand max_watch : Nat) : world :=
  { supplies := List.replicate max_supply free_supply
    demands := List.replicate max_demand free_demand
    watches := List.replicate max_watch free_watch
    clients := List.replicate max_clients free_client
    trace := [] }

/-- Reads `shm->supplies[i]`. -/
def supply_at (st : world) (i : Nat) : supply := st.supplies.getD i free_supply

/-- Reads `shm->demands[j]`. -/
def demand_at (st : world) (j : Nat) : demand := st.demands.getD j free_demand

/-- Reads `shm->watches[i]`. -/
def watch_at (st : world) (i : Nat) : watch_t := st.watches.getD i free_watch

/-- Reads `shm->clients[client_id]`. -/
def client_at (st : world) (client_id : Int) : client :=
  if 0 ≤ client_id then st.clients.getD client_id.toNat free_client else free_client

/-- Writes `shm->clients[client_id]`. -/
def client_put (st : world) (client_id : Int) (c : client) : world :=
  if 0 ≤ client_id then { st with clients := st.clients.set client_id.toNat c } else st

/-- The lowest index whose entry satisfies `p`: the scan
`for (i = 0; i < MAX; i++) if (p(slot[i])) { ...; break; }`. -/
def first_index {α : Type} (p : α → Bool) : List α → Option Nat
  | [] => none
  | a :: l => if p a then some 0 else (first_index p l).map (· + 1)

/-! ## Text produced by the server -/

/-- The conversion `%d`. -/
def fmt_d (v : Int) : String := toString v

/-- The conversion `%Nd`: right-aligned in a field of `width` characters. -/
def fmt_wd (width : Nat) (v : Int) : String :=
  "".pushn ' ' (width - (toString v).length) ++ toString v

/-- What `snprintf(buf, size, ...)` leaves in `buf`: at most `size - 1` characters. -/
def snprintf (size : Nat) (s : String) : String := ⟨s.data.take (size - 1)⟩

/-- What `strncpy(dst, src, n); dst[n] = 0` leaves in `dst`: at most `n` characters. -/
def strncpy (src : String) (n : Nat) : String := ⟨src.data.take n⟩

def demand_message (d : demand) (s : supply) : String :=
  snprintf 256 ("Your demand at (" ++ fmt_d d.x ++ "," ++ fmt_d d.y ++ "), [" ++ fmt_d d.a_amount
    ++ "," ++ fmt_d d.b_amount ++ "," ++ fmt_d d.c_amount ++ "] is fulfilled by a supply at ("
    ++ fmt_d s.x ++ "," ++ fmt_d s.y ++ ").\n")

def supply_message (s : supply) (d : demand) : String :=
  snprintf 256 ("Your supply at (" ++ fmt_d s.x ++ "," ++ fmt_d s.y ++ "), [" ++ fmt_d s.a_amount
    ++ "," ++ fmt_d s.b_amount ++ "," ++ fmt_d s.c_amount ++ "] with distance " ++ fmt_d s.distance
    ++ " is delivered to a demand at (" ++ fmt_d d.x ++ "," ++ fmt_d d.y ++ ") ["
    ++ fmt_d d.a_amount ++ "," ++ fmt_d d.b_amount ++ "," ++ fmt_d d.c_amount ++ "].\n")

def removed_message : String := snprintf 256 "Your supply is removed from map.\n"

def watch_message (s : supply) : String :=
  snprintf 256 ("A supply [" ++ fmt_d s.a_amount ++ "," ++ fmt_d s.b_amount ++ ","
    ++ fmt_d s.c_amount ++ "] is inserted at (" ++ fmt_d s.x ++ "," ++ fmt_d s.y ++ ").\n")

def supplies_header (count : Int) : String :=
  snprintf 512 ("There are " ++ fmt_d count ++ " supplies in total.\n"
    ++ "X | Y | A | B | C | D |\n" ++ "-------+-------+-----+-----+-----+-------+\n")

def demands_header (count : Int) : String :=
  snprintf 512 ("There are " ++ fmt_d count ++ " demands in total.\n"
    ++ "X | Y | A | B | C |\n" ++ "-------+-------+-----+-----+-----+\n")

def supply_line (s : supply) : String :=
  snprintf 128 (fmt_wd 7 s.x ++ "|" ++ fmt_wd 7 s.y ++ "|" ++ fmt_wd 5 s.a_amount ++ "|"
    ++ fmt_wd 5 s.b_amount ++ "|" ++ fmt_wd 5 s.c_amount ++ "|" ++ fmt_wd 7 s.distance ++ "|\n")

def demand_line (d : demand) : String :=
  snprintf 128 (fmt_wd 7 d.x ++ "|" ++ fmt_wd 7 d.y ++ "|" ++ fmt_wd 5 d.a_amount ++ "|"
    ++ fmt_wd 5 d.b_amount ++ "|" ++ fmt_wd 5 d.c_amount ++ "|\n")

/-- The three bytes of `write(client_socket, "OK\n", 3)`. -/
def ok_reply : String := "OK\n"

/-- The 24 bytes of `write(client_socket, "Error: Invalid command\n", 24)`: the 23
characters of the literal and its terminating NUL. -/
def error_reply : String := "Error: Invalid command\n" ++ String.singleton (Char.ofNat 0)

/-- Whether a message is a fulfilment notice (the text of `demand_message`). -/
def is_fulfilment (msg : String) : Bool := "Your demand at (".data.isPrefixOf msg.data

/-- Whether a message is a delivery notice (the text of `supply_message`). -/
def is_delivery (msg : String) : Bool := "Your supply at (".data.isPrefixOf msg.data

/-- Whether a message is a supply-appeared notice (the text of `watch_message`). -/
def is_supply_appeared (msg : String) : Bool := "A supply [".data.isPrefixOf msg.data

/-! ## The functions of the server -/

/-- Appends one `write`/`send` on a socket to the trace. -/
def sock_write (st : world) (fd : Int) (buf : String) : world :=
  { st with trace := st.trace ++ [event.write fd buf] }

/-- The function `manhattan_distance` over the mathematical integers; with the
arithmetic of the compiled server it is `manhattan_distance_wrapped`. -/
def manhattan_distance (x1 y1 x2 y2 : Int) : Int :=
  (if x1 - x2 < 0 then -(x1 - x2) else x1 - x2) + (if y1 - y2 < 0 then -(y1 - y2) else y1 - y2)

def enqueue_notification (st : world) (client_id : Int) (msg : String) : world :=
  let c := client_at st client_id
  let next_head := (c.notif_head + 1).tmod MAX_NOTIFICATIONS
  let st := { st with trace := st.trace ++ [event.enqueue client_id msg] }
  if next_head = c.notif_tail then
    st
  else
    client_put st client_id
      { c with
        notifications := c.notifications.set c.notif_head.toNat (strncpy msg 255)
        notif_head := next_head }

def move_client (st : world) (client_id : Int) (x y : Int) : world :=
  client_put st client_id { client_at st client_id with x := x, y := y }

def add_new_demand (st : world) (client_id a b c : Int) : world :=
  match first_index (fun d => d.client_id = -1) st.demands with
  | some i =>
    let slot : demand :=
      { x := (client_at st client_id).x
        y := (client_at st client_id).y
        client_id := client_id
        a_amount := a
        b_amount := b
        c_amount := c }
    { st with demands := st.demands.set i slot }
  | none => st

def add_new_supply (st : world) (client_id distance a b c : Int) : world × Int :=
  match first_index (fun s => s.client_id = -1) st.supplies with
  | some i =>
    let slot : supply :=
      { client_id := client_id
        x := (client_at st client_id).x
        y := (client_at st client_id).y
        a_amount := a
        b_amount := b
        c_amount := c
        distance := distance }
    ({ st with supplies := st.supplies.set i slot }, (i : Int))
  | none => (st, -1)

def remove_watch (st : world) (client_id : Int) : world :=
  { st with watches := st.watches.map fun w =>
      if w.client_id = client_id then { w with client_id := -1, watch_id := 0 } else w }

def add_new_watch (st : world) (client_id new_watch_id : Int) : world :=
  let st1 : world :=
    { st with watches := st.watches.map fun w =>
        if w.client_id = client_id then { w with client_id := -1, watch_id := 0 } else w }
  match first_index (fun w => w.client_id = -1) st1.watches with
  | some i =>
    let slot : watch_t :=
      { client_id := client_id
        x := (client_at st1 client_id).x
        y := (client_at st1 client_id).y
        watch_id := new_watch_id }
    { st1 with watches := st1.watches.set i slot }
  | none => st1

def remove_demand (st : world) (demand_id : Nat) : world :=
  { st with demands := st.demands.set demand_id free_demand }

def remove_supply (st : world) (supply_id : Nat) : world :=
  { st with supplies := st.supplies.set supply_id free_supply }

def check_case_match (st : world) (demand_id supply_id : Nat) : Int :=
  let s := supply_at st supply_id
  let d := demand_at st demand_id
  if d.client_id = -1 ∨ s.client_id = -1 then 0
  else
    let distance := manhattan_distance d.x d.y s.x s.y
    if distance < s.distance ∧ s.a_amount ≥ d.a_amount ∧ s.b_amount ≥ d.b_amount
        ∧ s.c_amount ≥ d.c_amount then 1
    else 0

/-- The function `match_demand_and_supply` over the mathematical integers; with the
arithmetic of the compiled server it is `match_demand_and_supply_wrapped`. -/
def match_demand_and_supply (st : world) (demand_id supply_id : Nat) : world :=
  let s := supply_at st supply_id
  let d := demand_at st demand_id
  let st1 := if d.client_id ≠ -1 then enqueue_notification st d.client_id (demand_message d s) else st
  let st2 := if s.client_id ≠ -1 then enqueue_notification st1 s.client_id (supply_message s d) else st1
  let s1 : supply :=
    { s with
      a_amount := s.a_amount - d.a_amount
      b_amount := s.b_amount - d.b_amount
      c_amount := s.c_amount - d.c_amount }
  let st3 : world := { st2 with supplies := st2.supplies.set supply_id s1 }
  let st4 := remove_demand st3 demand_id
  if s1.a_amount = 0 ∧ s1.b_amount = 0 ∧ s1.c_amount = 0 then
    let st5 := if s1.client_id ≠ -1 then enqueue_notification st4 s1.client_id removed_message else st4
    remove_supply st5 supply_id
  else st4

/-- The body of the inner loop of `check_for_match` for demand `j` and supply `i`. -/
def check_for_match_body (j : Nat) (st : world) (i : Nat) : world :=
  if (supply_at st i).client_id ≠ -1 ∧ check_case_match st j i ≠ 0 then
    match_demand_and_supply st j i
  else st

/-- The first `m` iterations of the inner loop of `check_for_match` for demand `j`. -/
def check_for_match_supplies (st : world) (j m : Nat) : world :=
  (List.range m).foldl (check_for_match_body j) st

/-- The body of the outer loop of `check_for_match` for demand `j`; `max_supply` is
the bound of the inner loop. -/
def check_for_match_demand (max_supply : Nat) (st : world) (j : Nat) : world :=
  if (demand_at st j).client_id ≠ -1 then check_for_match_supplies st j max_supply else st

/-- The first `k` iterations of the outer loop of `check_for_match`. -/
def check_for_match_upto (st : world) (k : Nat) : world :=
  (List.range k).foldl (check_for_match_demand st.supplies.length) st

def check_for_match (st : world) (_client_id : Int) : world :=
  check_for_match_upto st st.demands.length

/-- The body of the loop of `check_for_watch_events_on_new_supply` for watch slot `i`. -/
def watch_event_body (supply_index : Nat) (st : world) (i : Nat) : world :=
  let s := supply_at st supply_index
  let w := watch_at st i
  if w.client_id ≠ -1 ∧ w.watch_id > 0 then
    let distance := manhattan_distance w.x w.y s.x s.y
    if distance ≤ w.watch_id then enqueue_notification st w.client_id (watch_message s) else st
  else st

def check_for_watch_events_on_new_supply (st : world) (supply_index : Nat) : world :=
  if (supply_at st supply_index).client_id = -1 then st
  else (List.range st.watches.length).foldl (watch_event_body supply_index) st

def list_supplies (st : world) (client_id : Int) : world :=
  let count := st.supplies.countP fun s => s.client_id ≠ -1
  let fd := (client_at st client_id).client_socket
  let st1 := sock_write st fd (supplies_header count)
  (st.supplies.filter fun s => s.client_id ≠ -1).foldl
    (fun w s => sock_write w fd (supply_line s)) st1

def list_demands (st : world) (client_id : Int) : world :=
  let count := st.demands.countP fun d => d.client_id ≠ -1
  let fd := (client_at st client_id).client_socket
  let st1 := sock_write st fd (demands_header count)
  (st.demands.filter fun d => d.client_id ≠ -1).foldl
    (fun w d => sock_write w fd (demand_line d)) st1

def my_supplies (st : world) (client_id : Int) : world :=
  let count := st.supplies.countP fun s => s.client_id = client_id
  let fd := (client_at st client_id).client_socket
  let st1 := sock_write st fd (supplies_header count)
  (st.supplies.filter fun s => s.client_id = client_id).foldl
    (fun w s => sock_write w fd (supply_line s)) st1

def my_demands (st : world) (client_id : Int) : world :=
  let count := st.demands.countP fun d => d.client_id = client_id
  let fd := (client_at st client_id).client_socket
  let st1 := sock_write st fd (demands_header count)
  (st.demands.filter fun d => d.client_id = client_id).foldl
    (fun w d => sock_write w fd (demand_line d)) st1

/-- The registry scan of `register_client`; the result is the handle stored through
the out-parameter, `none` when no slot is free and nothing is stored. -/
def register_client (st : world) (client_socket : Int) : world × Option Nat :=
  match first_index (fun c => c.client_socket = -1) st.clients with
  | some i =>
    let slot : client :=
      { st.clients.getD i free_client with
        client_socket := client_socket
        client_id := (i : Int)
        x := 0
        y := 0
        notif_head := 0
        notif_tail := 0 }
    ({ st with clients := st.clients.set i slot }, some i)
  | none => (st, none)

def remove_client_resources (st : world) (client_id : Int) : world :=
  let st1 : world :=
    { st with
      supplies := st.supplies.map fun s => if s.client_id = client_id then free_supply else s
      demands := st.demands.map fun d => if d.client_id = client_id then free_demand else d
      watches := st.watches.map fun w =>
        if w.client_id = client_id then { w with client_id := -1, watch_id := 0 } else w }
  client_put st1 client_id { client_at st1 client_id with client_socket := -1, client_id := -1 }

/-- A decoded input line of `command_thread_func`: the branch of the `sscanf` /
`strncmp` cascade that the line selects, with the integers it carries. -/
inductive command where
  | move (x y : Int)
  | demand (a b c : Int)
  | supply (distance a b c : Int)
  | watch (watch_id : Int)
  | unwatch
  | listsupplies
  | listdemands
  | mysupplies
  | mydemands
  | quit
  | invalid
deriving DecidableEq, Repr

/-- One iteration of the line loop of `command_thread_func`, between taking and
releasing the global mutex, for the session of `client_id` on `client_socket`. -/
def command_thread_func (st : world) (client_socket client_id : Int) : command → world
  | .move x y => sock_write (move_client st client_id x y) client_socket ok_reply
  | .demand a b c =>
    check_for_match (sock_write (add_new_demand st client_id a b c) client_socket ok_reply) client_id
  | .supply distance a b c =>
    let r := add_new_supply st client_id distance a b c
    let st1 := check_for_match (sock_write r.1 client_socket ok_reply) client_id
    if r.2 ≠ -1 then check_for_watch_events_on_new_supply st1 r.2.toNat else st1
  | .watch watch_id => sock_write (add_new_watch st client_id watch_id) client_socket ok_reply
  | .unwatch => sock_write (remove_watch st client_id) client_socket ok_reply
  | .listsupplies => list_supplies st client_id
  | .listdemands => list_demands st client_id
  | .mysupplies => my_supplies st client_id
  | .mydemands => my_demands st client_id
  | .quit => sock_write st client_socket ok_reply
  | .invalid => sock_write st client_socket error_reply

/-- What `notify_client` does: nothing on socket `-1`, one `send` otherwise. -/
def notify_client (st : world) (client_socket : Int) (message : String) : world :=
  if client_socket = -1 then st else sock_write st client_socket message

/-- One iteration of the draining loop of `notification_thread_func`: when the ring
is not empty the message at `notif_tail` is copied out, the tail advances and the
message is sent. -/
def notification_thread_func (st : world) (client_id : Int) : world :=
  let c := client_at st client_id
  if c.notif_tail ≠ c.notif_head then
    let msg := strncpy (c.notifications.getD c.notif_tail.toNat "") 255
    let st1 := client_put st client_id
      { c with notif_tail := (c.notif_tail + 1).tmod MAX_NOTIFICATIONS }
    notify_client st1 (client_at st1 client_id).client_socket msg
  else st

/-- Handle `h` belongs to a connected session. -/
def live (st : world) (h : Int) : Prop :=
  0 ≤ h ∧ h < st.clients.length ∧ (client_at st h).client_socket ≠ -1

instance (st : world) (h : Int) : Decidable (live st h) := by
  unfold live; infer_instance

/-- The states the server reaches when every decoded line satisfies `ok`: a session
is opened by `register_client` on an accepted socket, a connected session processes
one decoded line or sends one pending notification, and a session ends with
`remove_client_resources`.  A session for which `register_client` found no free
slot runs with an uninitialised handle; its behaviour is undefined and it is not
part of the relation. -/
inductive reachable_by (ok : command → Prop) : world → Prop where
  | init (max_clients max_supply max_demand max_watch : Nat) :
      reachable_by ok (init_world max_clients max_supply max_demand max_watch)
  | connect {st : world} (client_socket : Int) (i : Nat) :
      reachable_by ok st → 0 ≤ client_socket → (register_client st client_socket).2 = some i →
      reachable_by ok (register_client st client_socket).1
  | line {st : world} (h : Int) (cmd : command) :
      reachable_by ok st → live st h → ok cmd →
      reachable_by ok (command_thread_func st (client_at st h).client_socket h cmd)
  | notify {st : world} (h : Int) :
      reachable_by ok st → live st h → reachable_by ok (notification_thread_func st h)
  | disconnect {st : world} (h : Int) :
      reachable_by ok st → live st h → reachable_by ok (remove_client_resources st h)

/-- The states the server reaches, whatever the lines it receives. -/
def reachable (st : world) : Prop := reachable_by (fun _ => True) st

/-! ## Definitions used in the statements -/

/-- The supply that `match_demand_and_supply` leaves in slot `supply_id`. -/
def settled_supply (s : supply) (d : demand) : supply :=
  if s.a_amount - d.a_amount = 0 ∧ s.b_amount - d.b_amount = 0 ∧ s.c_amount - d.c_amount = 0 then
    free_supply
  else
    { s with
      a_amount := s.a_amount - d.a_amount
      b_amount := s.b_amount - d.b_amount
      c_amount := s.c_amount - d.c_amount }

/-- The calls of `enqueue_notification` that one settlement makes, in order. -/
def settlement_events (s : supply) (d : demand) : List event :=
  (if d.client_id ≠ -1 then [event.enqueue d.client_id (demand_message d s)] else [])
  ++ (if s.client_id ≠ -1 then [event.enqueue s.client_id (supply_message s d)] else [])
  ++ (if (s.a_amount - d.a_amount = 0 ∧ s.b_amount - d.b_amount = 0 ∧ s.c_amount - d.c_amount = 0)
        ∧ s.client_id ≠ -1 then [event.enqueue s.client_id removed_message] else [])

/-- Scenario: client 0 at (0,0) holds supply `(10,0,0)` of radius 5 in slot 0 and
client 1 at (1,1) holds the demand `(a,0,0)` in slot 0. -/
def depletion_world (a : Int) : world :=
  { supplies := [⟨0, 0, 10, 0, 0, 5, 0⟩, free_supply]
    demands := [⟨1, 1, a, 0, 0, 1⟩, free_demand]
    watches := [free_watch]
    clients := [{ free_client with client_id := 0, client_socket := 4 },
                { free_client with client_id := 1, client_socket := 5, x := 1, y := 1 }]
    trace := [] }

/-- Scenario: supplies in slots 0 and 1 are both eligible for the demand in slot 0. -/
def tie_break_world : world :=
  { supplies := [⟨0, 0, 5, 5, 5, 10, 0⟩, ⟨1, 0, 7, 7, 7, 10, 1⟩]
    demands := [⟨0, 1, 2, 2, 2, 2⟩]
    watches := []
    clients := [{ free_client with client_id := 0, client_socket := 4 },
                { free_client with client_id := 1, client_socket := 5, x := 1 },
                { free_client with client_id := 2, client_socket := 6, y := 1 }]
    trace := [] }

/-- The calls of `enqueue_notification` that the watch scan makes for one watch slot
`w` and the new supply `s`: one supply-appeared notice to the owner when the slot
is occupied, its radius is positive and the supply lies within the radius of the
recorded position, none otherwise. -/
def watch_slot_events (w : watch_t) (s : supply) : List event :=
  if w.client_id ≠ -1 ∧ 0 < w.watch_id ∧ |w.x - s.x| + |w.y - s.y| ≤ w.watch_id then
    [event.enqueue w.client_id (watch_message s)]
  else []

/-- The event is a supply-appeared notice addressed to client `c`. -/
def appeared_to (c : Int) : event → Bool
  | .enqueue c1 msg => decide (c1 = c) && is_supply_appeared msg
  | .write _ _ => false

/-- Scenario: client 1 holds a watch of radius `r` recorded at (0,0) in watch slot
0, and client 0 holds a supply at `(x, y)` in supply slot 0. -/
def watch_world (r x y : Int) : world :=
  { supplies := [⟨x, y, 1, 1, 1, 4, 0⟩]
    demands := [free_demand]
    watches := [⟨0, 0, 1, r⟩, free_watch]
    clients := [{ free_client with client_id := 0, client_socket := 4, x := x, y := y },
                { free_client with client_id := 1, client_socket := 5 }]
    trace := [] }

/-- Every supply slot is free. -/
def no_supplies (st : world) : Prop := ∀ s ∈ st.supplies, s.client_id = -1

/-- Every demand slot is free. -/
def no_demands (st : world) : Prop := ∀ d ∈ st.demands, d.client_id = -1

instance (st : world) : Decidable (no_supplies st) := by
  unfold no_supplies; infer_instance

instance (st : world) : Decidable (no_demands st) := by
  unfold no_demands; infer_instance

/-- The part of a registry entry that is not the notification ring. -/
def registry_key (c : client) : Int × Int × Int × Int :=
  (c.client_id, c.x, c.y, c.client_socket)

/-- The second world has the same registry as the first apart from the
notification rings: same capacity, and the same handle, position and socket in
every entry. -/
def same_registry (st st1 : world) : Prop :=
  st1.clients.map registry_key = st.clients.map registry_key

/-- The event is a fulfilment notice or a delivery notice: one half of a settlement. -/
def is_settlement_notice : event → Bool
  | .enqueue _ msg => is_fulfilment msg || is_delivery msg
  | .write _ _ => false

/-- The demand that the command `demand a b c` of client `cd` stores in state `st`. -/
def posted_demand (st : world) (cd a b c : Int) : demand :=
  { x := (client_at st cd).x, y := (client_at st cd).y, a_amount := a, b_amount := b,
    c_amount := c, client_id := cd }

/-- The supply that the command `supply dist a b c` of client `cs` stores in state `st`. -/
def posted_supply (st : world) (cs dist a b c : Int) : supply :=
  { x := (client_at st cs).x, y := (client_at st cs).y, a_amount := a, b_amount := b,
    c_amount := c, distance := dist, client_id := cs }

/-- Scenario: on tables of capacity 2 client A connects on socket 4 and gets
handle 0, client B connects on socket 5 and gets handle 1, A sends `move 0 0` and
B sends `move 2 2`. -/
def market_world : world :=
  command_thread_func
    (command_thread_func
      (register_client (register_client (init_world 2 2 2 1) 4).1 5).1 4 0 (.move 0 0))
    5 1 (.move 2 2)

/-- The event is a notice enqueued by the matching engine: a fulfilment notice, a
delivery notice or the supply-removed notice. -/
def is_engine_notice : event → Bool
  | .enqueue _ msg => is_fulfilment msg || is_delivery msg || decide (msg = removed_message)
  | .write _ _ => false

/-- The loop of `remove_watch`, of the first half of `add_new_watch` and of the watch
part of `remove_client_resources`: every slot owned by `h` is freed. -/
def free_watches_of (h : Int) (l : List watch_t) : List watch_t :=
  l.map fun w => if w.client_id = h then { w with client_id := -1, watch_id := 0 } else w

/-- The number of watch slots owned by client `h`. -/
def watches_of (st : world) (h : Int) : Nat := st.watches.countP fun w => w.client_id = h

/-- A sequence of `move` lines, each given as (socket, handle, x, y), processed in
order. -/
def run_moves (st : world) (moves : List (Int × Int × Int × Int)) : world :=
  moves.foldl (fun w m => command_thread_func w m.1 m.2.1 (.move m.2.2.1 m.2.2.2)) st

/-- The amounts of a `supply` line are non-negative `int`s, not all zero, and the
amounts of a `demand` line are non-negative; lines of the other kinds are not
restricted. -/
def valid_amounts : command → Prop
  | .supply _ a b c =>
    (0 ≤ a ∧ 0 ≤ b ∧ 0 ≤ c ∧ (0 < a ∨ 0 < b ∨ 0 < c))
      ∧ a ≤ 2147483647 ∧ b ≤ 2147483647 ∧ c ≤ 2147483647
  | .demand a b c => 0 ≤ a ∧ 0 ≤ b ∧ 0 ≤ c
  | _ => True

instance (cmd : command) : Decidable (valid_amounts cmd) := by
  cases cmd <;> unfold valid_amounts <;> infer_instance

/-- All three amounts are non-negative and at least one is positive. -/
def positive_supply (s : supply) : Prop :=
  0 ≤ s.a_amount ∧ 0 ≤ s.b_amount ∧ 0 ≤ s.c_amount ∧
    (0 < s.a_amount ∨ 0 < s.b_amount ∨ 0 < s.c_amount)

instance (s : supply) : Decidable (positive_supply s) := by
  unfold positive_supply; infer_instance

/-- Every occupied supply slot holds a `positive_supply`. -/
def supplies_ok (st : world) : Prop :=
  ∀ s ∈ st.supplies, s.client_id ≠ -1 → positive_supply s

instance (st : world) : Decidable (supplies_ok st) := by
  unfold supplies_ok; infer_instance

/-- The states the server passes through when every decoded line satisfies `ok`:
the states between two lines, and the states inside a matching pass started by a
`demand` or `supply` line, before iteration `m` of the inner loop in round `k` of
the outer loop. -/
inductive passes_through (ok : command → Prop) : world → Prop where
  | between {st : world} : reachable_by ok st → passes_through ok st
  | in_demand {st : world} (h a b c : Int) (k m : Nat) :
      reachable_by ok st → live st h → ok (.demand a b c) →
      passes_through ok (check_for_match_supplies (check_for_match_upto
        (sock_write (add_new_demand st h a b c) (client_at st h).client_socket ok_reply) k) k m)
  | in_supply {st : world} (h dist a b c : Int) (k m : Nat) :
      reachable_by ok st → live st h → ok (.supply dist a b c) →
      passes_through ok (check_for_match_supplies (check_for_match_upto
        (sock_write (add_new_supply st h dist a b c).1 (client_at st h).client_socket ok_reply)
          k) k m)

/-- The trace of the second world is the trace of the first followed by events that
all satisfy `P`. -/
def extends_with (P : event → Prop) (st st1 : world) : Prop :=
  ∃ E, st1.trace = st.trace ++ E ∧ ∀ e ∈ E, P e

/-- Scenario: in `market_world` client 1, at (2,2), sends `watch 5` and then
`demand 5 5 5`. -/
def waiting_world : world :=
  command_thread_func (command_thread_func market_world 5 1 (.watch 5)) 5 1 (.demand 5 5 5)

/-- Scenario: in `market_world` client 1, at (2,2), sends `watch 0` and then
`supply 5 1 1 1`. -/
def zero_watch_world : world :=
  command_thread_func (command_thread_func market_world 5 1 (.watch 0)) 5 1 (.supply 5 1 1 1)

/-- No supply, demand or watch slot is owned by `h`. -/
def owns_nothing (st : world) (h : Int) : Prop :=
  (∀ s ∈ st.supplies, s.client_id ≠ h) ∧ (∀ d ∈ st.demands, d.client_id ≠ h) ∧
  (∀ w ∈ st.watches, w.client_id ≠ h)

instance (st : world) (h : Int) : Decidable (owns_nothing st h) := by
  unfold owns_nothing; infer_instance

/-- The event is not a notification for client `h`. -/
def not_for (h : Int) (e : event) : Prop := ∀ msg, e ≠ event.enqueue h msg

/-- The part of a registry entry that says which session holds it. -/
def session_key (c : client) : Int × Int := (c.client_id, c.client_socket)

/-- The second world has the same sessions as the first: same registry capacity,
and the same handle and socket in every entry. -/
def same_sessions (st st1 : world) : Prop :=
  st1.clients.map session_key = st.clients.map session_key

/-- The registry entry that `register_client` writes into slot `i` for socket
`client_socket`: the old entry with socket, handle, position and ring indices set. -/
def registered_entry (c : client) (client_socket : Int) (i : Nat) : client :=
  { c with
    client_socket := client_socket
    client_id := (i : Int)
    x := 0
    y := 0
    notif_head := 0
    notif_tail := 0 }

/-- Index `i` is the lowest index of `l` whose entry satisfies `p`. -/
def is_lowest {α : Type} (p : α → Bool) (l : List α) (i : Nat) : Prop :=
  ∃ hi : i < l.length, p (l.get ⟨i, hi⟩) = true ∧
    ∀ j (hj : j < i), p (l.get ⟨j, lt_trans hj hi⟩) = false

/-- Scenario: in `market_world`, whose supply table has two slots, client 0 has sent
`supply 1 1 1 1` twice. -/
def full_supply_world : world :=
  command_thread_func (command_thread_func market_world 4 0 (.supply 1 1 1 1)) 4 0
    (.supply 1 1 1 1)

/-- The watch that the command `watch r` of client `h` stores in state `st`. -/
def posted_watch (st : world) (h r : Int) : watch_t :=
  { x := (client_at st h).x, y := (client_at st h).y, client_id := h, watch_id := r }

/-- The ring of a registry entry is well formed: both indices lie in
`0 .. MAX_NOTIFICATIONS - 1`, the array has `MAX_NOTIFICATIONS` buffers and every
buffer holds at most 255 characters. -/
def ring_ok (c : client) : Prop :=
  0 ≤ c.notif_head ∧ c.notif_head < MAX_NOTIFICATIONS ∧
  0 ≤ c.notif_tail ∧ c.notif_tail < MAX_NOTIFICATIONS ∧
  c.notifications.length = MAX_NOTIFICATIONS.toNat ∧
  ∀ m ∈ c.notifications, m.data.length ≤ 255

/-- The test of `enqueue_notification` for a full ring. -/
def ring_full (c : client) : Prop :=
  (c.notif_head + 1).tmod MAX_NOTIFICATIONS = c.notif_tail

instance (c : client) : Decidable (ring_ok c) := by
  unfold ring_ok; infer_instance

instance (c : client) : Decidable (ring_full c) := by
  unfold ring_full; infer_instance

/-- The messages waiting in the ring, oldest first: the buffers from `notif_tail` up
to, not including, `notif_head`, going round the end of the array. -/
def ring_pending (c : client) : List String :=
  (List.range ((c.notif_head - c.notif_tail) % MAX_NOTIFICATIONS).toNat).map
    fun (k : Nat) => c.notifications.getD ((c.notif_tail + Int.ofNat k) % MAX_NOTIFICATIONS).toNat ""

/-- Every ring of the registry is well formed. -/
def rings_ok (st : world) : Prop := ∀ c ∈ st.clients, ring_ok c

/-- One step on the notification rings: a producer calls `enqueue_notification` for a
client, or the consumer thread of a client runs one iteration of its draining loop. -/
inductive ring_op where
  | produce (client_id : Int) (msg : String)
  | consume (client_id : Int)
deriving DecidableEq, Repr

def ring_step (st : world) : ring_op → world
  | .produce client_id msg => enqueue_notification st client_id msg
  | .consume client_id => notification_thread_func st client_id

/-- The world after the steps of `ops`, in order. -/
def ring_run (st : world) (ops : List ring_op) : world := ops.foldl ring_step st

/-- The messages of the `produce` steps of `ops` for client `h` that found the ring of
`h` not full, in the order of the calls. -/
def accepted_for (h : Int) : world → List ring_op → List String
  | _, [] => []
  | st, .produce client_id msg :: ops =>
    (if client_id = h ∧ ¬ ring_full (client_at st h) then [msg] else [])
      ++ accepted_for h (enqueue_notification st client_id msg) ops
  | st, .consume client_id :: ops => accepted_for h (notification_thread_func st client_id) ops

/-- Scenario: `market_world` with the ring of client 1 empty and both indices at the
last buffer of the array. -/
def wrap_world : world :=
  client_put market_world 1 { client_at market_world 1 with notif_head := 999, notif_tail := 999 }

/-- Scenario: `market_world` with the ring of client 1 full: the head is one buffer
behind the tail. -/
def full_ring_world : world :=
  client_put market_world 1 { client_at market_world 1 with notif_head := 5, notif_tail := 6 }

/-- Scenario: calls for clients 1 and 0 and consumer iterations of both, starting in
`wrap_world`. -/
def wrap_ops : List ring_op :=
  [.produce 1 "a", .produce 0 "z", .produce 1 "b", .consume 1, .consume 0, .produce 1 "c",
   .consume 1, .consume 1, .consume 1]

/-- The calls `enqueue_notification(c, msg)` of `calls`, made in order. -/
def enqueue_all (st : world) (calls : List (Int × String)) : world :=
  calls.foldl (fun w p => enqueue_notification w p.1 p.2) st

/-- The notifications of the settlement of demand `d` against supply `s`, with their
receivers: the fulfilment notice, the delivery notice and, when the settlement
leaves all three amounts zero, the supply-removed notice. -/
def settlement_calls (s : supply) (d : demand) : List (Int × String) :=
  [(d.client_id, demand_message d s), (s.client_id, supply_message s d)]
    ++ (if s.a_amount - d.a_amount = 0 ∧ s.b_amount - d.b_amount = 0 ∧ s.c_amount - d.c_amount = 0
        then [(s.client_id, removed_message)] else [])

/-- The messages of `calls` addressed to client `c`, in order. -/
def calls_for (c : Int) (calls : List (Int × String)) : List String :=
  (calls.filter fun p => p.1 = c).map fun p => p.2

/-- The indices of the supply slots that satisfy `p`, in ascending order. -/
def supply_slots (st : world) (p : supply → Bool) : List Nat :=
  (List.range st.supplies.length).filter fun i => p (supply_at st i)

/-- The indices of the demand slots that satisfy `p`, in ascending order. -/
def demand_slots (st : world) (p : demand → Bool) : List Nat :=
  (List.range st.demands.length).filter fun j => p (demand_at st j)

/-- The writes of a list reply on socket `fd`: the header, then one row per slot. -/
def listing (fd : Int) (header : String) (rows : List String) : List event :=
  event.write fd header :: rows.map fun r => event.write fd r

/-- Scenario: in `market_world` client 0, at (0,0), sends `supply 5 1 2 3`, then
client 1, at (2,2), sends `demand 9 9 9` and `supply 7 4 5 6`. -/
def listing_world : world :=
  command_thread_func
    (command_thread_func (command_thread_func market_world 4 0 (.supply 5 1 2 3)) 5 1
      (.demand 9 9 9))
    5 1 (.supply 7 4 5 6)

/-- The owner field `o` of a slot is in order: the slot is free, or `o` is the handle
of a connected client whose registry entry carries that handle. -/
def owner_ok (st : world) (o : Int) : Prop :=
  o = -1 ∨ (live st o ∧ (client_at st o).client_id = o)

instance (st : world) (o : Int) : Decidable (owner_ok st o) := by
  unfold owner_ok; infer_instance

/-- Every supply, demand and watch slot is free or owned by a connected client. -/
def owners_ok (st : world) : Prop :=
  (∀ s ∈ st.supplies, owner_ok st s.client_id) ∧ (∀ d ∈ st.demands, owner_ok st d.client_id) ∧
  (∀ w ∈ st.watches, owner_ok st w.client_id)

instance (st : world) : Decidable (owners_ok st) := by
  unfold owners_ok; infer_instance

/-- A handle that is not connected owns no slot. -/
def no_orphans (st : world) : Prop :=
  ∀ h : Int, h ≠ -1 → ¬ live st h → owns_nothing st h

/-- The registry entry of every connected handle carries that handle. -/
def ids_ok (st : world) : Prop :=
  ∀ h : Int, live st h → (client_at st h).client_id = h

/-! ## The line decoder and the line loop -/

/-- The characters `isspace` accepts: space, `\t`, `\n`, `\v`, `\f`, `\r`. -/
def is_space (c : Char) : Bool :=
  c = ' ' || c = Char.ofNat 9 || c = Char.ofNat 10 || c = Char.ofNat 11 || c = Char.ofNat 12
    || c = Char.ofNat 13

/-- The value of a run of decimal digits. -/
def digits_value (ds : List Char) : Int :=
  ds.foldl (fun n c => 10 * n + ((c.toNat - 48 : Nat) : Int)) 0

/-- The conversion `%d` of `sscanf` on the input `s`: white space is skipped, then an
optional sign and a non-empty run of decimal digits are read.  The result is the
value and the input left, `none` when no digit follows.  The value is taken to fit
an `int`. -/
def scan_int (s : List Char) : Option (Int × List Char) :=
  let s1 := s.dropWhile is_space
  let neg := s1.head? = some '-'
  let s2 := if s1.head? = some '-' ∨ s1.head? = some '+' then s1.tail else s1
  let ds := s2.takeWhile Char.isDigit
  if ds = [] then none
  else some (if neg then -digits_value ds else digits_value ds, s2.dropWhile Char.isDigit)

/-- The values stored by up to `n` successive `%d` conversions, separated in the format
by white space: the scan stops at the first conversion that fails. -/
def scan_ints : Nat → List Char → List Int
  | 0, _ => []
  | n + 1, s =>
    match scan_int s with
    | some (v, rest) => v :: scan_ints n rest
    | none => []

/-- The conversions of `sscanf(command, "<word> %d ... %d", ...)` with `n` conversions on
the line `command`:
the characters of the word must be the first characters of the line, then the
integers are scanned; the length of the result is the value `sscanf` returns when
at least one conversion succeeds, and it is `n` exactly when `sscanf` returns `n`. -/
def sscanf (line : List Char) (word : String) (n : Nat) : List Int :=
  if word.data.isPrefixOf line then scan_ints n (line.drop word.data.length) else []

/-- Whether `strncmp(command, word, strlen(word)) == 0`: the line `command` begins with
the word. -/
def strncmp_eq (line : List Char) (word : String) : Bool := word.data.isPrefixOf line

/-- The cascade of `sscanf` and `strncmp` tests of `command_thread_func` on one line,
in the order of the source. -/
def decode (line : List Char) : command :=
  match sscanf line "move" 2 with
  | [x, y] => .move x y
  | _ =>
    match sscanf line "demand" 3 with
    | [a, b, c] => .demand a b c
    | _ =>
      match sscanf line "supply" 4 with
      | [distance, a, b, c] => .supply distance a b c
      | _ =>
        match sscanf line "watch" 1 with
        | [watch_id] => .watch watch_id
        | _ =>
          if strncmp_eq line "unwatch" then .unwatch
          else if strncmp_eq line "listsupplies" then .listsupplies
          else if strncmp_eq line "listdemands" then .listdemands
          else if strncmp_eq line "mysupplies" then .mysupplies
          else if strncmp_eq line "mydemands" then .mydemands
          else if strncmp_eq line "quit" then .quit
          else .invalid

/-- The inner loop `while ((newline_pos = strchr(line_start, '\n')) != NULL)` seen from
the bytes of the buffer: the lines it hands to the cascade, in order, and the bytes
kept for the next `read` (`strlen(line_start)` bytes).  `strchr` and `strlen` stop at
a NUL byte, so nothing behind a NUL byte is seen. -/
def c_lines : List Char → List (List Char) × List Char
  | [] => ([], [])
  | c :: cs =>
    if c = Char.ofNat 0 then ([], [])
    else if c = Char.ofNat 10 then ([] :: (c_lines cs).1, (c_lines cs).2)
    else
      match (c_lines cs).1 with
      | [] => ([], c :: (c_lines cs).2)
      | l :: ls => ((c :: l) :: ls, (c_lines cs).2)

/-- The lines of one pass of the inner loop, processed in order: each line is decoded
and executed; after a `quit` line the function returns, which the flag reports, and
the lines behind it are not processed. -/
def run_lines (st : world) (client_socket client_id : Int) : List (List Char) → world × Bool
  | [] => (st, false)
  | l :: ls =>
    if decode l = .quit then (command_thread_func st client_socket client_id .quit, true)
    else run_lines (command_thread_func st client_socket client_id (decode l)) client_socket
      client_id ls

/-- What a call of `read` on the connection finds: bytes waiting in the socket, the
end of the stream, or an error.  A call with a positive count that finds no byte
waiting blocks, so for such a call an empty `data` is not an event of the connection
and is passed over. -/
inductive read_result where
  | data (bytes : List Char)
  | eof
  | error
deriving DecidableEq, Repr

/-- The call `read(client_socket, buffer + buffer_len, count)`: the value returned,
the bytes stored in the buffer, and the bytes left in the socket.  With `count = 0`
nothing is stored and the value is 0. -/
def sys_read (count : Nat) : read_result → Int × List Char × List Char
  | .data bytes => (((bytes.take count).length : Int), bytes.take count, bytes.drop count)
  | .eof => (0, [], [])
  | .error => (-1, [], [])

/-- Why `command_thread_func` returned. -/
inductive loop_return where
  | after_quit
  | after_read (bytes_read : Int)
deriving DecidableEq, Repr

/-- A session inside `command_thread_func`: the shared region, the first `buffer_len`
bytes of `buffer`, what the following calls of `read` will find, and whether and why
the function has returned. -/
structure session where
  st : world
  buffer : List Char
  conn : List read_result
  returned : Option loop_return

/-- One iteration of the outer loop `while(1)` of `command_thread_func`: one `read`
with `count = sizeof(buffer) - buffer_len - 1`, the return at `bytes_read <= 0`, and
otherwise the inner loop over the complete lines.  A session that has returned, or
that waits in `read` for a connection with nothing more to deliver, stays as it is;
a `read` with `count = 0` does not wait, it returns 0 at once.  `buffer_len` never
exceeds 1023 (`command_loop_buffer_length`), so the subtraction does not wrap. -/
def command_loop_step (client_socket client_id : Int) (s : session) : session :=
  match s.returned, s.conn with
  | some _, _ => s
  | none, [] =>
    if 1024 - s.buffer.length - 1 = 0 then { s with returned := some (.after_read 0) } else s
  | none, r :: rest =>
    if r = .data [] ∧ 0 < 1024 - s.buffer.length - 1 then { s with conn := rest }
    else
      let res := sys_read (1024 - s.buffer.length - 1) r
      let conn1 := if res.2.2 = [] then rest else read_result.data res.2.2 :: rest
      if res.1 ≤ 0 then { s with conn := conn1, returned := some (.after_read res.1) }
      else
        let ls := c_lines (s.buffer ++ res.2.1)
        let out := run_lines s.st client_socket client_id ls.1
        { st := out.1
          buffer := ls.2
          conn := conn1
          returned := if out.2 then some .after_quit else none }

/-- The first `n` iterations of the outer loop of `command_thread_func`. -/
def command_loop (client_socket client_id : Int) (n : Nat) (s : session) : session :=
  (List.range n).foldl (fun w _ => command_loop_step client_socket client_id w) s

/-- A word of decimal digits with an optional leading minus sign. -/
def is_integer_word (w : List Char) : Bool :=
  match w with
  | [] => false
  | c :: t => if c = '-' then t ≠ [] && t.all Char.isDigit else (c :: t).all Char.isDigit

/-- The words of a line, separated by single spaces. -/
def line_words : List Char → List (List Char)
  | [] => [[]]
  | c :: cs =>
    if c = ' ' then [] :: line_words cs
    else
      match line_words cs with
      | [] => [[c]]
      | w :: ws => (c :: w) :: ws

/-- Modelled from the spec: the accepted command forms of the command table, `move X Y`,
`demand A B C`, `supply D A B C`, `watch R` with integer arguments, and the bare
words `unwatch`, `listsupplies`, `listdemands`, `mysupplies`, `mydemands`, `quit`. -/
def listed_form (line : List Char) : Bool :=
  match line_words line with
  | [w] =>
    w = "unwatch".data || w = "listsupplies".data || w = "listdemands".data
      || w = "mysupplies".data || w = "mydemands".data || w = "quit".data
  | [w, r] => w = "watch".data && is_integer_word r
  | [w, x, y] => w = "move".data && is_integer_word x && is_integer_word y
  | [w, a, b, c] =>
    w = "demand".data && is_integer_word a && is_integer_word b && is_integer_word c
  | [w, d, a, b, c] =>
    w = "supply".data && is_integer_word d && is_integer_word a && is_integer_word b
      && is_integer_word c
  | _ => false

/-- Every occupied demand slot holds three non-negative amounts. -/
def demands_nonneg (st : world) : Prop :=
  ∀ d ∈ st.demands, d.client_id ≠ -1 → 0 ≤ d.a_amount ∧ 0 ≤ d.b_amount ∧ 0 ≤ d.c_amount

instance (st : world) : Decidable (demands_nonneg st) := by
  unfold demands_nonneg; infer_instance

/-- Every occupied supply slot holds three non-negative amounts. -/
def supplies_nonneg (st : world) : Prop :=
  ∀ s ∈ st.supplies, s.client_id ≠ -1 → 0 ≤ s.a_amount ∧ 0 ≤ s.b_amount ∧ 0 ≤ s.c_amount

instance (st : world) : Decidable (supplies_nonneg st) := by
  unfold supplies_nonneg; infer_instance

/-- The second world holds no more than the first: a supply slot occupied in the
second world was occupied in the first by the same owner, at the same position and
with the same radius, and none of its amounts has grown; a demand slot occupied in
the second world held the same demand in the first. -/
def shrinks (st st1 : world) : Prop :=
  (∀ i, (supply_at st1 i).client_id ≠ -1 →
    (supply_at st1 i).client_id = (supply_at st i).client_id ∧
    (supply_at st1 i).x = (supply_at st i).x ∧ (supply_at st1 i).y = (supply_at st i).y ∧
    (supply_at st1 i).distance = (supply_at st i).distance ∧
    (supply_at st1 i).a_amount ≤ (supply_at st i).a_amount ∧
    (supply_at st1 i).b_amount ≤ (supply_at st i).b_amount ∧
    (supply_at st1 i).c_amount ≤ (supply_at st i).c_amount) ∧
  (∀ j, (demand_at st1 j).client_id ≠ -1 → demand_at st1 j = demand_at st j)

/-- Scenario: two demands of client 1 and one supply `(5,5,5)` of client 0; the supply
covers either demand but not both. -/
def contested_world : world :=
  { supplies := [⟨0, 0, 5, 5, 5, 10, 0⟩, free_supply]
    demands := [⟨1, 1, 3, 3, 3, 1⟩, ⟨1, 1, 4, 4, 4, 1⟩]
    watches := [free_watch]
    clients := [{ free_client with client_id := 0, client_socket := 4 },
                { free_client with client_id := 1, client_socket := 5, x := 1, y := 1 }]
    trace := [] }

/-- Scenario: the demand in slot 0 asks for more than the supply holds, and the demand
in slot 1 carries a negative amount, so settling it raises the supply. -/
def negative_demand_world : world :=
  { supplies := [⟨0, 0, 5, 5, 5, 10, 0⟩]
    demands := [⟨1, 1, 6, 6, 6, 1⟩, ⟨1, 1, -2, -2, -2, 1⟩]
    watches := [free_watch]
    clients := [{ free_client with client_id := 0, client_socket := 4 },
                { free_client with client_id := 1, client_socket := 5, x := 1, y := 1 }]
    trace := [] }

/-! ## The locking of the server -/

/-- What a thread does, as far as the mutexes are concerned: it takes or releases the
global mutex `shm->mutex` or the mutex of the ring of client `c`, waits on the
condition of that ring, reads or writes the supply, demand or watch table or a
position `clients[..].x/.y` (`store`), reads or writes the ring of client `c` in a
queue operation (`ring`), touches another field of the registry (`registry`), or
does input or output on a socket (`io`). -/
inductive act where
  | lock_global
  | unlock_global
  | lock_queue (c : Int)
  | unlock_queue (c : Int)
  | wait_queue (c : Int)
  | store
  | ring (c : Int)
  | registry
  | io
deriving DecidableEq, Repr

/-- The mutexes a thread holds: the global mutex, and the mutex of at most one ring. -/
structure locks where
  global : Bool
  queue : Option Int
deriving DecidableEq, Repr

/-- One action under the locking rules: the global mutex is taken only when it is not
held and released only when it is held, the same for the mutex of a ring, a `store`
access needs the global mutex and a `ring` access or a wait needs the mutex of that
ring; `none` when the action breaks a rule. -/
def lock_step (s : locks) : act → Option locks
  | .lock_global => if s.global then none else some { s with global := true }
  | .unlock_global => if s.global then some { s with global := false } else none
  | .lock_queue c => if s.queue = none then some { s with queue := some c } else none
  | .unlock_queue c => if s.queue = some c then some { s with queue := none } else none
  | .wait_queue c => if s.queue = some c then some s else none
  | .store => if s.global then some s else none
  | .ring c => if s.queue = some c then some s else none
  | .registry => some s
  | .io => some s

/-- The mutexes held after a sequence of actions, `none` when an action breaks a rule. -/
def run_locks (s : locks) : List act → Option locks
  | [] => some s
  | a :: l =>
    match lock_step s a with
    | some s1 => run_locks s1 l
    | none => none

/-- The actions of the first `n` iterations of a loop `for (k = 0; k < n; k++)` whose
body turns state `w` into `f w k` and performs the actions `g w k`. -/
def loop_acts (f : world → Nat → world) (g : world → Nat → List act) (st : world) :
    Nat → List act
  | 0 => []
  | n + 1 => loop_acts f g st n ++ g ((List.range n).foldl f st) n

/-- The actions of `enqueue_notification(c, msg)`: the ring is read and, when it is not
full, written between taking and releasing its mutex. -/
def enqueue_notification_acts (c : Int) : List act :=
  [.lock_queue c, .ring c, .unlock_queue c]

/-- The actions of `match_demand_and_supply`, in the order of the source. -/
def match_demand_and_supply_acts (st : world) (demand_id supply_id : Nat) : List act :=
  let s := supply_at st supply_id
  let d := demand_at st demand_id
  [act.store]
    ++ (if d.client_id ≠ -1 then enqueue_notification_acts d.client_id else [])
    ++ (if s.client_id ≠ -1 then enqueue_notification_acts s.client_id else [])
    ++ [act.store, act.store]
    ++ (if s.a_amount - d.a_amount = 0 ∧ s.b_amount - d.b_amount = 0
          ∧ s.c_amount - d.c_amount = 0 then
        (if s.client_id ≠ -1 then enqueue_notification_acts s.client_id else []) ++ [act.store]
      else [])

def check_for_match_body_acts (j : Nat) (st : world) (i : Nat) : List act :=
  act.store ::
    (if (supply_at st i).client_id ≠ -1 ∧ check_case_match st j i ≠ 0 then
      match_demand_and_supply_acts st j i
    else [])

def check_for_match_demand_acts (max_supply : Nat) (st : world) (j : Nat) : List act :=
  act.store ::
    (if (demand_at st j).client_id ≠ -1 then
      loop_acts (check_for_match_body j) (check_for_match_body_acts j) st max_supply
    else [])

def check_for_match_acts (st : world) : List act :=
  loop_acts (check_for_match_demand st.supplies.length)
    (check_for_match_demand_acts st.supplies.length) st st.demands.length

def watch_event_body_acts (supply_index : Nat) (st : world) (i : Nat) : List act :=
  let s := supply_at st supply_index
  let w := watch_at st i
  act.store ::
    (if w.client_id ≠ -1 ∧ w.watch_id > 0 then
      if manhattan_distance w.x w.y s.x s.y ≤ w.watch_id then
        enqueue_notification_acts w.client_id
      else []
    else [])

def check_for_watch_events_on_new_supply_acts (st : world) (supply_index : Nat) : List act :=
  act.store ::
    (if (supply_at st supply_index).client_id = -1 then []
    else loop_acts (watch_event_body supply_index) (watch_event_body_acts supply_index) st
      st.watches.length)

/-- The actions of a list function on the table `l`, `p` selecting the slots listed:
the counting loop reads every slot, the header is written to the socket read from
the registry, and the second loop reads every slot and writes a row for each slot
listed. -/
def list_acts {α : Type} (l : List α) (p : α → Bool) : List act :=
  (l.map fun _ => act.store) ++ [act.registry, act.io]
    ++ l.flatMap fun s => act.store :: (if p s then [act.registry, act.io] else [])

/-- The actions of one iteration of the line loop of `command_thread_func` between
`pthread_mutex_lock(&shm->mutex)` and the `pthread_mutex_unlock(&shm->mutex)` of the
branch taken: the calls on the store and the `write` of the reply. -/
def command_body_acts (st : world) (client_socket client_id : Int) : command → List act
  | .move _ _ => [.store, .io]
  | .demand a b c =>
    [.store, .io]
      ++ check_for_match_acts (sock_write (add_new_demand st client_id a b c) client_socket ok_reply)
  | .supply distance a b c =>
    let r := add_new_supply st client_id distance a b c
    let st1 := sock_write r.1 client_socket ok_reply
    [.store, .io] ++ check_for_match_acts st1
      ++ (if r.2 ≠ -1 then
          check_for_watch_events_on_new_supply_acts (check_for_match st1 client_id) r.2.toNat
        else [])
  | .watch _ => [.store, .io]
  | .unwatch => [.store, .io]
  | .listsupplies => list_acts st.supplies fun s => s.client_id ≠ -1
  | .listdemands => list_acts st.demands fun d => d.client_id ≠ -1
  | .mysupplies => list_acts st.supplies fun s => s.client_id = client_id
  | .mydemands => list_acts st.demands fun d => d.client_id = client_id
  | .quit => [.io]
  | .invalid => [.io]

/-- The actions of one iteration of the line loop of `command_thread_func`: every
branch of the cascade, the `quit` branch included, releases the global mutex. -/
def command_thread_func_acts (st : world) (client_socket client_id : Int) (cmd : command) :
    List act :=
  act.lock_global :: (command_body_acts st client_socket client_id cmd ++ [act.unlock_global])

/-- The actions of `register_client`: the scan of the registry and the writes of the
new entry, its position and its ring indices included, between taking and releasing
the global mutex. -/
def register_client_acts : List act :=
  [.lock_global, .registry, .store, .registry, .unlock_global]

/-- The actions of `remove_client_resources`. -/
def remove_client_resources_acts : List act :=
  [.lock_global, .store, .store, .store, .registry, .unlock_global]

/-- The actions of one round of `notification_thread_func` that waits `waits` times
on the condition and then sends `sent` messages: each message is copied out of the
ring under the mutex of the ring and sent with that mutex released. -/
def notification_thread_func_acts (c : Int) (waits sent : Nat) : List act :=
  [act.lock_queue c] ++ (List.replicate waits [act.ring c, act.wait_queue c]).flatten
    ++ [act.ring c]
    ++ (List.replicate sent
        [act.ring c, act.ring c, act.unlock_queue c, act.registry, act.io, act.lock_queue c,
          act.ring c]).flatten
    ++ [act.unlock_queue c]

/-- The rings whose mutex is taken by a sequence of actions, in order. -/
def locked_queues (l : List act) : List Int :=
  l.filterMap fun a =>
    match a with
    | .lock_queue c => some c
    | _ => none

/-- The clients for which `enqueue_notification` is called in a trace, in order. -/
def enqueued_to (t : List event) : List Int :=
  t.filterMap fun e =>
    match e with
    | .enqueue c _ => some c
    | .write _ _ => none

/-- Whether an action takes or releases the global mutex. -/
def touches_global : act → Bool
  | .lock_global => true
  | .unlock_global => true
  | _ => false

/-! ## The arithmetic of the compiled server

The functions above compute with mathematical integers: they describe the server as
long as no `int` computation overflows.  Signed overflow is undefined in C, and the
compiled server wraps in 32 bits, two's complement.  The functions below are
`manhattan_distance` and `match_demand_and_supply` with every `int` operation that
can overflow reduced by `wrap_int`, and the functions that call them, which differ
from the functions above in nothing else. -/

/-- The largest `int`. -/
def INT_MAX : Int := 2147483647

/-- The `int` that the compiled server holds for the mathematical result `n`. -/
def wrap_int (n : Int) : Int := (n + 2147483648) % 4294967296 - 2147483648

/-- The function `abs` of the C library in the compiled server; the negation wraps, so
`abs(INT_MIN)` is `INT_MIN`. -/
def abs_wrapped (n : Int) : Int := if n < 0 then wrap_int (-n) else n

/-- The function `manhattan_distance` in the compiled server:
`abs(x1 - x2) + abs(y1 - y2)` with the two subtractions, `abs` and the addition
wrapping. -/
def manhattan_distance_wrapped (x1 y1 x2 y2 : Int) : Int :=
  wrap_int (abs_wrapped (wrap_int (x1 - x2)) + abs_wrapped (wrap_int (y1 - y2)))

/-- The function `check_case_match` in the compiled server. -/
def check_case_match_wrapped (st : world) (demand_id supply_id : Nat) : Int :=
  let s := supply_at st supply_id
  let d := demand_at st demand_id
  if d.client_id = -1 ∨ s.client_id = -1 then 0
  else
    let distance := manhattan_distance_wrapped d.x d.y s.x s.y
    if distance < s.distance ∧ s.a_amount ≥ d.a_amount ∧ s.b_amount ≥ d.b_amount
        ∧ s.c_amount ≥ d.c_amount then 1
    else 0

/-- The function `match_demand_and_supply` in the compiled server: the three
subtractions wrap. -/
def match_demand_and_supply_wrapped (st : world) (demand_id supply_id : Nat) : world :=
  let s := supply_at st supply_id
  let d := demand_at st demand_id
  let st1 := if d.client_id ≠ -1 then enqueue_notification st d.client_id (demand_message d s) else st
  let st2 := if s.client_id ≠ -1 then enqueue_notification st1 s.client_id (supply_message s d) else st1
  let s1 : supply :=
    { s with
      a_amount := wrap_int (s.a_amount - d.a_amount)
      b_amount := wrap_int (s.b_amount - d.b_amount)
      c_amount := wrap_int (s.c_amount - d.c_amount) }
  let st3 : world := { st2 with supplies := st2.supplies.set supply_id s1 }
  let st4 := remove_demand st3 demand_id
  if s1.a_amount = 0 ∧ s1.b_amount = 0 ∧ s1.c_amount = 0 then
    let st5 := if s1.client_id ≠ -1 then enqueue_notification st4 s1.client_id removed_message else st4
    remove_supply st5 supply_id
  else st4

/-- The body of the inner loop of `check_for_match` in the compiled server. -/
def check_for_match_body_wrapped (j : Nat) (st : world) (i : Nat) : world :=
  if (supply_at st i).client_id ≠ -1 ∧ check_case_match_wrapped st j i ≠ 0 then
    match_demand_and_supply_wrapped st j i
  else st

/-- The first `m` iterations of the inner loop of `check_for_match` for demand `j` in
the compiled server. -/
def check_for_match_supplies_wrapped (st : world) (j m : Nat) : world :=
  (List.range m).foldl (check_for_match_body_wrapped j) st

/-- The body of the outer loop of `check_for_match` in the compiled server. -/
def check_for_match_demand_wrapped (max_supply : Nat) (st : world) (j : Nat) : world :=
  if (demand_at st j).client_id ≠ -1 then check_for_match_supplies_wrapped st j max_supply
  else st

/-- The first `k` iterations of the outer loop of `check_for_match` in the compiled
server. -/
def check_for_match_upto_wrapped (st : world) (k : Nat) : world :=
  (List.range k).foldl (check_for_match_demand_wrapped st.supplies.length) st

/-- The function `check_for_match` in the compiled server. -/
def check_for_match_wrapped (st : world) (_client_id : Int) : world :=
  check_for_match_upto_wrapped st st.demands.length

/-- The body of the loop of `check_for_watch_events_on_new_supply` in the compiled
server. -/
def watch_event_body_wrapped (supply_index : Nat) (st : world) (i : Nat) : world :=
  let s := supply_at st supply_index
  let w := watch_at st i
  if w.client_id ≠ -1 ∧ w.watch_id > 0 then
    let distance := manhattan_distance_wrapped w.x w.y s.x s.y
    if distance ≤ w.watch_id then enqueue_notification st w.client_id (watch_message s) else st
  else st

/-- The function `check_for_watch_events_on_new_supply` in the compiled server. -/
def check_for_watch_events_on_new_supply_wrapped (st : world) (supply_index : Nat) : world :=
  if (supply_at st supply_index).client_id = -1 then st
  else (List.range st.watches.length).foldl (watch_event_body_wrapped supply_index) st

/-- One iteration of the line loop of `command_thread_func` in the compiled server. -/
def command_thread_func_wrapped (st : world) (client_socket client_id : Int) : command → world
  | .demand a b c =>
    check_for_match_wrapped
      (sock_write (add_new_demand st client_id a b c) client_socket ok_reply) client_id
  | .supply distance a b c =>
    let r := add_new_supply st client_id distance a b c
    let st1 := check_for_match_wrapped (sock_write r.1 client_socket ok_reply) client_id
    if r.2 ≠ -1 then check_for_watch_events_on_new_supply_wrapped st1 r.2.toNat else st1
  | cmd => command_thread_func st client_socket client_id cmd

/-- The states the compiled server reaches when every decoded line satisfies `ok`: the
relation `reachable_by` with the compiled `command_thread_func`. -/
inductive reachable_by_wrapped (ok : command → Prop) : world → Prop where
  | init (max_clients max_supply max_demand max_watch : Nat) :
      reachable_by_wrapped ok (init_world max_clients max_supply max_demand max_watch)
  | connect {st : world} (client_socket : Int) (i : Nat) :
      reachable_by_wrapped ok st → 0 ≤ client_socket →
      (register_client st client_socket).2 = some i →
      reachable_by_wrapped ok (register_client st client_socket).1
  | line {st : world} (h : Int) (cmd : command) :
      reachable_by_wrapped ok st → live st h → ok cmd →
      reachable_by_wrapped ok
        (command_thread_func_wrapped st (client_at st h).client_socket h cmd)
  | notify {st : world} (h : Int) :
      reachable_by_wrapped ok st → live st h →
      reachable_by_wrapped ok (notification_thread_func st h)
  | disconnect {st : world} (h : Int) :
      reachable_by_wrapped ok st → live st h →
      reachable_by_wrapped ok (remove_client_resources st h)

/-- The states the compiled server passes through when every decoded line satisfies
`ok`: the states between two lines, and the states inside a matching pass started by
a `demand` or `supply` line, before iteration `m` of the inner loop in round `k` of
the outer loop. -/
inductive passes_through_wrapped (ok : command → Prop) : world → Prop where
  | between {st : world} : reachable_by_wrapped ok st → passes_through_wrapped ok st
  | in_demand {st : world} (h a b c : Int) (k m : Nat) :
      reachable_by_wrapped ok st → live st h → ok (.demand a b c) →
      passes_through_wrapped ok (check_for_match_supplies_wrapped (check_for_match_upto_wrapped
        (sock_write (add_new_demand st h a b c) (client_at st h).client_socket ok_reply) k) k m)
  | in_supply {st : world} (h dist a b c : Int) (k m : Nat) :
      reachable_by_wrapped ok st → live st h → ok (.supply dist a b c) →
      passes_through_wrapped ok (check_for_match_supplies_wrapped (check_for_match_upto_wrapped
        (sock_write (add_new_supply st h dist a b c).1 (client_at st h).client_socket ok_reply)
          k) k m)

/-- Every occupied supply slot holds three non-negative amounts, not all zero and at
most `INT_MAX`, and every occupied demand slot holds three non-negative amounts. -/
def amounts_ok (st : world) : Prop :=
  supplies_ok st
    ∧ (∀ s ∈ st.supplies, s.client_id ≠ -1 →
        s.a_amount ≤ INT_MAX ∧ s.b_amount ≤ INT_MAX ∧ s.c_amount ≤ INT_MAX)
    ∧ demands_nonneg st

instance (st : world) : Decidable (amounts_ok st) := by
  unfold amounts_ok; infer_instance

/-- The Manhattan distance of the two positions is at most `INT_MAX`, so that
`manhattan_distance` computes it without overflow. -/
def distance_fits (x1 y1 x2 y2 : Int) : Prop := |x1 - x2| + |y1 - y2| ≤ INT_MAX

instance (x1 y1 x2 y2 : Int) : Decidable (distance_fits x1 y1 x2 y2) := by
  unfold distance_fits; infer_instance

/-- The distance from every occupied watch slot of positive radius to the supply in
slot `idx` fits an `int`. -/
def watches_fit (st : world) (idx : Nat) : Prop :=
  ∀ w ∈ st.watches, w.client_id ≠ -1 → 0 < w.watch_id →
    distance_fits w.x w.y (supply_at st idx).x (supply_at st idx).y

instance (st : world) (idx : Nat) : Decidable (watches_fit st idx) := by
  unfold watches_fit; infer_instance

/-- Scenario: in `market_world` client 1 has moved to (2147483647, -2147483648) and
client 0 to (-2, 0). -/
def far_world : world :=
  command_thread_func
    (command_thread_func market_world 5 1 (.move 2147483647 (-2147483648))) 4 0 (.move (-2) 0)

/-- In `far_world` client 1 sends `demand 1 1 1` and then client 0 sends
`supply 1 5 5 5`, on the compiled server. -/
def far_demand_first : world :=
  command_thread_func_wrapped (command_thread_func_wrapped far_world 5 1 (.demand 1 1 1)) 4 0
    (.supply 1 5 5 5)

/-- In `far_world` client 0 sends `supply 1 5 5 5` and then client 1 sends
`demand 1 1 1`, on the compiled server. -/
def far_supply_first : world :=
  command_thread_func_wrapped (command_thread_func_wrapped far_world 4 0 (.supply 1 5 5 5)) 5 1
    (.demand 1 1 1)

/-- Scenario: in `market_world` client 1 has moved to (2147483647, 0), sent `watch 1`
and moved on to (100, 100), and client 0 has moved to (-1, 0). -/
def far_watch_world : world :=
  command_thread_func
    (command_thread_func
      (command_thread_func
        (command_thread_func market_world 5 1 (.move 2147483647 0)) 5 1 (.watch 1))
      5 1 (.move 100 100))
    4 0 (.move (-1) 0)

/-- The buffers written in a trace, in the order of the writes, on whatever socket. -/
def written (t : List event) : List String :=
  t.filterMap fun e =>
    match e with
    | .write _ buf => some buf
    | .enqueue _ _ => none

/-- What the consumer thread of client `h` sends during the steps of `ops`: the events
that each `consume` step of `h` adds to the trace, in order.  Every session is a
process of its own, whose consumer thread sends on the connection of that session,
whatever descriptor number the other sessions hold their connections under. -/
def sent_by (h : Int) : world → List ring_op → List event
  | _, [] => []
  | st, .produce client_id msg :: ops => sent_by h (enqueue_notification st client_id msg) ops
  | st, .consume client_id :: ops =>
    (if client_id = h then (notification_thread_func st client_id).trace.drop st.trace.length
      else [])
      ++ sent_by h (notification_thread_func st client_id) ops

/-- Scenario: `wrap_world` with the two sessions holding their connections under the
same descriptor number 4, as the sessions of the forking server do. -/
def forked_world : world :=
  client_put wrap_world 1 { client_at wrap_world 1 with client_socket := 4 }

end SupDem

namespace Cipher

/-! ## The cipher device `hw3/cipher/cipher.c`

A byte is a natural number below 256 and `^` on bytes is `Nat.xor`.  A bucket is
named by the address of its allocation; a pointer to a bucket is `some addr`, the
null pointer is `none`, and a pointer whose bucket has been freed names no bucket of
the list.  `kmalloc`, `copy_from_user` and `copy_to_user` are taken to succeed, and
`count` to be what the VFS passes on (at most `MAX_RW_COUNT`), so that
`totalwritten + count` does not wrap.  Every function below is the body executed
between `mutex_lock(&dev->mut)` and `mutex_unlock(&dev->mut)`. -/

def BUCKET_SIZE : Int := 256

def MAX_WRITE_LEN : Int := 8192

/-- The bytes of `DEFAULTCIPHER`. -/
def DEFAULTCIPHER : List Nat := "CENG536 IS THE BEST!!!!!".data.map Char.toNat

/-- One `struct bucket`: `buffer` holds the bytes `buffer[0 .. end - 1]`, so `end` is
the length of `buffer`; `addr` is the address of the allocation. -/
structure bucket where
  addr : Nat
  refcount : Int
  buffer : List Nat
deriving DecidableEq, Repr

/-- The field `end` of a bucket. -/
def bucket_end (b : bucket) : Int := b.buffer.length

/-- One `struct fcontext`; `fp` names the open file, `next` points to a bucket. -/
structure fcontext where
  fp : Nat
  next : Option Nat
  off : Int
  keyoff : Int
  mode : Int
  totalwritten : Int
deriving DecidableEq, Repr

/-- One `struct cipher_dev`: `cipher` holds the key string `cipher[0 .. strlen - 1]`;
`brk` is the address the next `kmalloc` of a bucket returns. -/
structure cipher_dev where
  buckets : List bucket
  keyfirst : Int
  keylast : Int
  contexes : List fcontext
  cipher : List Nat
  cipherlen : Int
  brk : Nat
deriving DecidableEq, Repr

/-- A run-time fault of the kernel code: the remainder `keyoff % cipherlen` with
`cipherlen = 0`, a read or write through a pointer to a freed bucket, and the mark
of a loop of the model that was given too few iterations. -/
inductive fault where
  | division_by_zero
  | use_after_free
  | out_of_fuel
deriving DecidableEq, Repr

/-- The outcome of a function that may fault. -/
inductive result (α : Type) where
  | ok (v : α)
  | fault (f : fault)
deriving DecidableEq, Repr

/-- The device as `cipher_init_module` leaves it. -/
def cipher_init_module : cipher_dev :=
  { buckets := []
    keyfirst := 0
    keylast := 0
    contexes := []
    cipher := DEFAULTCIPHER
    cipherlen := DEFAULTCIPHER.length
    brk := 0 }

/-- The loop of `cipher_xor_buffer`: `data[i] ^= dev->cipher[(*keyoff) % dev->cipherlen]`
and `(*keyoff)++` for every byte; the result is the buffer and the key offset. -/
def cipher_xor_buffer (dev : cipher_dev) : List Nat → Int → result (List Nat × Int)
  | [], keyoff => .ok ([], keyoff)
  | b :: data, keyoff =>
    if dev.cipherlen = 0 then .fault .division_by_zero
    else
      match cipher_xor_buffer dev data (keyoff + 1) with
      | .ok r => .ok ((b ^^^ dev.cipher.getD (keyoff.tmod dev.cipherlen).toNat 0) :: r.1, r.2)
      | .fault f => .fault f

/-- The context of the open file `fp`, `filp->private_data`. -/
def find_context (dev : cipher_dev) (fp : Nat) : Option fcontext :=
  dev.contexes.find? fun c => c.fp = fp

/-- Stores the fields of `ctx` in the context of its open file. -/
def put_context (dev : cipher_dev) (ctx : fcontext) : cipher_dev :=
  { dev with contexes := dev.contexes.map fun c => if c.fp = ctx.fp then ctx else c }

/-- The bucket a pointer refers to; `none` for a pointer to a freed bucket. -/
def find_bucket (dev : cipher_dev) (addr : Nat) : Option bucket :=
  dev.buckets.find? fun b => b.addr = addr

/-- Stores the fields of `b` in the bucket at its address. -/
def put_bucket (dev : cipher_dev) (b : bucket) : cipher_dev :=
  { dev with buckets := dev.buckets.map fun x => if x.addr = b.addr then b else x }

/-- The address of the bucket that follows the bucket at `addr` in the list,
`bucket->bucketlist.next`; `none` when that is the head of the list. -/
def next_bucket : List bucket → Nat → Option Nat
  | [], _ => none
  | b :: l, addr => if b.addr = addr then l.head?.map (·.addr) else next_bucket l addr

/-- The access mode of an `open`. -/
inductive accmode where
  | rdonly
  | wronly
  | rdwr
deriving DecidableEq, Repr

def EINVAL : Int := 22

/-- The function `cipher_open` for the new open file `fp`; the result is the device and
the value returned. -/
def cipher_open (dev : cipher_dev) (fp : Nat) (acc : accmode) : cipher_dev × Int :=
  match acc with
  | .rdwr => (dev, -EINVAL)
  | .rdonly =>
    let buckets := dev.buckets.map fun b => { b with refcount := b.refcount + 1 }
    let cont : fcontext :=
      match buckets.head? with
      | some first => ⟨fp, some first.addr, 0, dev.keyfirst, 0, 0⟩
      | none => ⟨fp, none, 0, 0, 0, 0⟩
    ({ dev with buckets := buckets, contexes := cont :: dev.contexes }, 0)
  | .wronly =>
    let buckets := dev.buckets.map fun b => { b with refcount := b.refcount + 1 }
    let cont : fcontext :=
      match buckets.getLast? with
      | some last => ⟨fp, some last.addr, bucket_end last, dev.keylast, 1, 0⟩
      | none => ⟨fp, none, 0, 0, 1, 0⟩
    ({ dev with buckets := buckets, contexes := cont :: dev.contexes }, 0)

/-- The function `cipher_release` for the open file `fp`: every bucket with a positive
reference count loses one reference and is freed when the count reaches 0. -/
def cipher_release (dev : cipher_dev) (fp : Nat) : cipher_dev :=
  match find_context dev fp with
  | none => dev
  | some _ =>
    { dev with
      buckets := dev.buckets.filterMap fun b =>
        if b.refcount > 0 then
          if b.refcount - 1 = 0 then none else some { b with refcount := b.refcount - 1 }
        else some b
      contexes := dev.contexes.filter fun c => c.fp ≠ fp }

/-- The first `fuel` iterations of the loop `while (count > 0 && bucket)` of
`cipher_read` and its return: `out` holds the bytes copied to the user so far.  When
the reference count of the bucket left behind reaches 0 the bucket is freed, and if
other buckets remain the loop then reads `bucket->bucketlist.next` of the freed
bucket. -/
def cipher_read_loop :
    Nat → cipher_dev → fcontext → Int → List Nat → result (cipher_dev × fcontext × List Nat)
  | fuel, dev, ctx, count, out =>
    if count ≤ 0 then .ok (dev, ctx, out)
    else
      match ctx.next with
      | none => .ok (dev, ctx, out)
      | some addr =>
        match fuel with
        | 0 => .fault .out_of_fuel
        | fuel + 1 =>
          match find_bucket dev addr with
          | none => .fault .use_after_free
          | some b =>
            let avail := bucket_end b - ctx.off
            if avail ≤ 0 then
              if b.refcount - 1 = 0 then
                let dev1 : cipher_dev :=
                  { dev with buckets := dev.buckets.filter fun x => x.addr ≠ addr }
                if dev1.buckets = [] then
                  cipher_read_loop fuel dev1 { ctx with next := none, off := 0 } count out
                else .fault .use_after_free
              else
                let dev1 := put_bucket dev { b with refcount := b.refcount - 1 }
                cipher_read_loop fuel dev1
                  { ctx with next := next_bucket dev1.buckets addr, off := 0 } count out
            else
              let to_copy := if avail < count then avail else count
              match cipher_xor_buffer dev ((b.buffer.drop ctx.off.toNat).take to_copy.toNat)
                  ctx.keyoff with
              | .fault f => .fault f
              | .ok r =>
                cipher_read_loop fuel dev
                  { ctx with keyoff := r.2, off := ctx.off + to_copy } (count - to_copy)
                  (out ++ r.1)

/-- The function `cipher_read` for the open file `fp`: the device, the bytes copied to
the user buffer and the value returned.  Every iteration of the loop either copies a
byte or leaves a bucket behind, so `count` plus the number of buckets bounds the
number of iterations. -/
def cipher_read (dev : cipher_dev) (fp : Nat) (count : Nat) :
    result (cipher_dev × List Nat × Int) :=
  match find_context dev fp with
  | none => .ok (dev, [], -EINVAL)
  | some ctx =>
    match cipher_read_loop (count + dev.buckets.length + 1) dev ctx count [] with
    | .fault f => .fault f
    | .ok r => .ok (put_context r.1 r.2.1, r.2.2, (r.2.2.length : Int))

/-- The block `if (!bucket || bucket->end >= BUCKET_SIZE)` of `cipher_write`: the
bucket the next bytes go to.  When the context has no bucket or its bucket is full, a
fresh bucket is linked at the tail of the list; the writer's reference to the full
bucket is dropped and the bucket stays in the list. -/
def current_bucket (dev : cipher_dev) (ctx : fcontext) :
    result (cipher_dev × fcontext × bucket) :=
  let fresh : bucket :=
    { addr := dev.brk
      refcount := 1 + ((dev.contexes.filter fun c => c.mode = 0).length : Int)
      buffer := [] }
  match ctx.next with
  | none =>
    .ok ({ dev with buckets := dev.buckets ++ [fresh], brk := dev.brk + 1 },
      { ctx with next := some fresh.addr, off := 0 }, fresh)
  | some addr =>
    match find_bucket dev addr with
    | none => .fault .use_after_free
    | some b =>
      if bucket_end b ≥ BUCKET_SIZE then
        let dev1 := put_bucket dev { b with refcount := b.refcount - 1 }
        .ok ({ dev1 with buckets := dev1.buckets ++ [fresh], brk := dev.brk + 1 },
          { ctx with next := some fresh.addr, off := 0 }, fresh)
      else .ok (dev, ctx, b)

/-- One iteration of the loop `while (count > 0)` of `cipher_write`, `buf` holding the
`count` bytes still to be written: the device, the context and `to_copy`. -/
def write_chunk (dev : cipher_dev) (ctx : fcontext) (buf : List Nat) :
    result (cipher_dev × fcontext × Int) :=
  match current_bucket dev ctx with
  | .fault f => .fault f
  | .ok cur =>
    let space := BUCKET_SIZE - bucket_end cur.2.2
    let to_copy := if space < (buf.length : Int) then space else (buf.length : Int)
    match cipher_xor_buffer cur.1 (buf.take to_copy.toNat) cur.2.1.keyoff with
    | .fault f => .fault f
    | .ok r =>
      let dev2 := put_bucket cur.1 { cur.2.2 with buffer := cur.2.2.buffer ++ r.1 }
      .ok ({ dev2 with keylast := r.2 },
        { cur.2.1 with keyoff := r.2, totalwritten := cur.2.1.totalwritten + to_copy },
        to_copy)

/-- The first `fuel` iterations of the loop `while (count > 0)` of `cipher_write` and
its return: `buf` holds the `count` bytes still to be written, `total` is
`total_written`. -/
def cipher_write_loop :
    Nat → cipher_dev → fcontext → List Nat → Int → result (cipher_dev × fcontext × Int)
  | fuel, dev, ctx, buf, total =>
    if buf = [] then .ok (dev, ctx, total)
    else
      match fuel with
      | 0 => .fault .out_of_fuel
      | fuel + 1 =>
        match write_chunk dev ctx buf with
        | .fault f => .fault f
        | .ok r => cipher_write_loop fuel r.1 r.2.1 (buf.drop r.2.2.toNat) (total + r.2.2)

/-- The function `cipher_write` for the open file `fp` and the user buffer `buf` of
`count = buf.length` bytes: the device and the value returned.  Every iteration of
the loop writes at least one byte, so `count` bounds the number of iterations. -/
def cipher_write (dev : cipher_dev) (fp : Nat) (buf : List Nat) : result (cipher_dev × Int) :=
  match find_context dev fp with
  | none => .ok (dev, -EINVAL)
  | some ctx =>
    if ctx.totalwritten ≥ MAX_WRITE_LEN then .ok (dev, 0)
    else
      let count : Int :=
        if ctx.totalwritten + (buf.length : Int) > MAX_WRITE_LEN then
          MAX_WRITE_LEN - ctx.totalwritten
        else (buf.length : Int)
      match cipher_write_loop count.toNat dev ctx (buf.take count.toNat) 0 with
      | .fault f => .fault f
      | .ok r => .ok (put_context r.1 r.2.1, r.2.2)

/-- The requests of `cipher_ioctl`; `skey` carries the bytes at the user address. -/
inductive ioctl_cmd where
  | CIPHER_IOCCLR
  | CIPHER_IOCSKEY (kbuf : List Nat)
  | CIPHER_IOCQREM
deriving DecidableEq, Repr

/-- The reset shared by `CIPHER_IOCCLR` and `CIPHER_IOCSKEY`: every bucket is freed,
the key becomes `key`, and every open context is emptied. -/
def reset_device (dev : cipher_dev) (key : List Nat) : cipher_dev :=
  { dev with
    buckets := []
    keyfirst := 0
    keylast := 0
    cipher := key
    cipherlen := key.length
    contexes := dev.contexes.map fun fc =>
      { fc with next := none, off := 0, keyoff := 0, totalwritten := 0 } }

/-- The first `fuel` iterations of the loop `while (b)` of the reader branch of
`CIPHER_IOCQREM`. -/
def remaining_loop : Nat → cipher_dev → Option Nat → Int → Int → result Int
  | _, _, none, _, val => .ok val
  | 0, _, some _, _, _ => .fault .out_of_fuel
  | fuel + 1, dev, some addr, off, val =>
    match find_bucket dev addr with
    | none => .fault .use_after_free
    | some b =>
      remaining_loop fuel dev (next_bucket dev.buckets addr) 0
        (if bucket_end b - off > 0 then val + (bucket_end b - off) else val)

/-- The function `cipher_ioctl` for the open file `fp`: the device, the `int` stored at
the user address by `CIPHER_IOCQREM`, and the value returned. -/
def cipher_ioctl (dev : cipher_dev) (fp : Nat) (cmd : ioctl_cmd) :
    result (cipher_dev × Option Int × Int) :=
  match find_context dev fp with
  | none => .ok (dev, none, -EINVAL)
  | some context =>
    match cmd with
    | .CIPHER_IOCCLR => .ok (reset_device dev DEFAULTCIPHER, none, 0)
    | .CIPHER_IOCSKEY kbuf =>
      .ok (reset_device dev ((kbuf.take 4095).takeWhile fun b => b ≠ 0), none, 0)
    | .CIPHER_IOCQREM =>
      if context.mode = 0 then
        match remaining_loop (dev.buckets.length + 1) dev context.next context.off 0 with
        | .fault f => .fault f
        | .ok val => .ok (dev, some val, 0)
      else
        .ok (dev,
          some (if context.totalwritten < MAX_WRITE_LEN then
            MAX_WRITE_LEN - context.totalwritten else 0), 0)

/-- One call of a file operation on the device. -/
inductive call where
  | open_ (fp : Nat) (acc : accmode)
  | release (fp : Nat)
  | read (fp : Nat) (count : Nat)
  | write (fp : Nat) (buf : List Nat)
  | ioctl (fp : Nat) (cmd : ioctl_cmd)
deriving DecidableEq, Repr

/-- The device after a call, `fault` when the call faults.  The VFS hands `read` only
to files opened for reading and `write` only to files opened for writing, and a file
is opened once. -/
def step (dev : cipher_dev) : call → result cipher_dev
  | .open_ fp acc =>
    if (find_context dev fp).isSome then .ok dev else .ok (cipher_open dev fp acc).1
  | .release fp => .ok (cipher_release dev fp)
  | .read fp count =>
    match find_context dev fp with
    | none => .ok dev
    | some ctx =>
      if ctx.mode = 0 then
        match cipher_read dev fp count with
        | .ok r => .ok r.1
        | .fault f => .fault f
      else .ok dev
  | .write fp buf =>
    match find_context dev fp with
    | none => .ok dev
    | some ctx =>
      if ctx.mode = 1 then
        match cipher_write dev fp buf with
        | .ok r => .ok r.1
        | .fault f => .fault f
      else .ok dev
  | .ioctl fp cmd =>
    match cipher_ioctl dev fp cmd with
    | .ok r => .ok r.1
    | .fault f => .fault f

/-- The device after a sequence of calls, the first fault ending the run. -/
def run (dev : cipher_dev) : List call → result cipher_dev
  | [] => .ok dev
  | c :: cs =>
    match step dev c with
    | .ok dev1 => run dev1 cs
    | .fault f => .fault f

/-- The states of a device that sequences of calls reach from module
initialisation. -/
def reachable (dev : cipher_dev) : Prop := ∃ cs, run cipher_init_module cs = .ok dev

/-- The bytes of a string. -/
def bytes (s : String) : List Nat := s.data.map Char.toNat

/-- Modelled from the specification of `cipher_xor_buffer`: byte `i` of the buffer is
XORed with `key[(k + i) mod cipherlen]`. -/
def xored (dev : cipher_dev) (data : List Nat) (k : Int) : List Nat :=
  (List.range data.length).map fun (i : Nat) =>
    data.getD i 0 ^^^ dev.cipher.getD ((k + Int.ofNat i) % dev.cipherlen).toNat 0

/-- The number of bytes the device stores. -/
def stored (dev : cipher_dev) : Int := (dev.buckets.map bucket_end).sum

/-- The buckets of the list have distinct addresses, all handed out by `kmalloc`
already. -/
def heap_ok (dev : cipher_dev) : Prop :=
  (dev.buckets.map fun b => b.addr).Nodup ∧ ∀ b ∈ dev.buckets, b.addr < dev.brk

/-- What every call keeps: the heap is in order, no context has written more than
`MAX_WRITE_LEN` bytes, `keyfirst` is 0, and `cipherlen` is the length of the key
string, at most 4095. -/
def dev_ok (dev : cipher_dev) : Prop :=
  heap_ok dev
    ∧ (∀ c ∈ dev.contexes, 0 ≤ c.totalwritten ∧ c.totalwritten ≤ MAX_WRITE_LEN)
    ∧ dev.keyfirst = 0
    ∧ dev.cipherlen = dev.cipher.length
    ∧ dev.cipherlen ≤ 4095

/-- The bucket pointer of a context is null or points to a bucket of the list. -/
def next_is_live (dev : cipher_dev) (ctx : fcontext) : Prop :=
  ∀ a, ctx.next = some a → (find_bucket dev a).isSome

/-- The second device has the contexts, the key and `keyfirst` of the first. -/
def same_key (dev dev1 : cipher_dev) : Prop :=
  dev1.contexes = dev.contexes ∧ dev1.keyfirst = dev.keyfirst ∧ dev1.cipher = dev.cipher
    ∧ dev1.cipherlen = dev.cipherlen

/-- The device of `test.c` after the writer has opened it and set the key
`MY-SECRET-KEY`. -/
def keyed_device : cipher_dev :=
  { buckets := []
    keyfirst := 0
    keylast := 0
    contexes := [⟨1, none, 0, 0, 1, 0⟩]
    cipher := bytes "MY-SECRET-KEY"
    cipherlen := 13
    brk := 0 }

/-- The calls `test.c` makes up to its `read`: the writer opens the device, sets the
key, writes 15 bytes, asks for the room left and closes; the reader opens. -/
def test_calls : List call :=
  [.open_ 1 .wronly, .ioctl 1 (.CIPHER_IOCSKEY (bytes "MY-SECRET-KEY")),
    .write 1 (bytes "Testing new key"), .ioctl 1 .CIPHER_IOCQREM, .release 1,
    .open_ 2 .rdonly]

/-- The device of `test.c` after the write: one bucket with the 15 encrypted bytes,
held by the writer alone. -/
def written_device : cipher_dev :=
  { keyed_device with
    buckets := [{ addr := 0, refcount := 1,
                  buffer := xored keyed_device (bytes "Testing new key") 0 }]
    keylast := 15
    contexes := [⟨1, some 0, 0, 15, 1, 15⟩]
    brk := 1 }

/-- The device of `test.c` when the reader has opened it. -/
def reopened_device : cipher_dev :=
  { keyed_device with keylast := 15, contexes := [⟨2, none, 0, 0, 0, 0⟩], brk := 1 }

/-- The device after `CIPHER_IOCSKEY` with the empty string. -/
def unkeyed_device : cipher_dev :=
  { keyed_device with cipher := [], cipherlen := 0 }

/-- The device after two writers have opened it, the first has written one byte and
the second has closed: the bucket is freed and the first writer still points to
it. -/
def orphaned_writer_device : cipher_dev :=
  { cipher_init_module with keylast := 1, contexes := [⟨1, some 0, 0, 1, 1, 1⟩], brk := 1 }

/-- The 300 bytes `A`..`Z` repeated. -/
def letters_300 : List Nat := (List.range 300).map fun i => 65 + i % 26

/-- A writer stores 300 bytes in two buckets under the default key and two readers
open the device. -/
def two_bucket_calls : List call :=
  [.open_ 1 .wronly, .write 1 letters_300, .open_ 2 .rdonly, .open_ 3 .rdonly]

/-- The device after `two_bucket_calls`. -/
def two_bucket_device : cipher_dev :=
  { cipher_init_module with
    buckets := [{ addr := 0, refcount := 2,
                  buffer := xored cipher_init_module (letters_300.take 256) 0 },
                { addr := 1, refcount := 3,
                  buffer := xored cipher_init_module (letters_300.drop 256) 256 }]
    keylast := 300
    contexes := [⟨3, some 0, 0, 0, 0, 0⟩, ⟨2, some 0, 0, 0, 0, 0⟩, ⟨1, some 1, 0, 300, 1, 300⟩]
    brk := 2 }

/-- The first reader then reads the 300 bytes, both readers close, and a new reader
opens the device. -/
def head_freed_calls : List call :=
  two_bucket_calls ++ [.read 2 300, .release 2, .release 3, .open_ 4 .rdonly]

/-- The device after `head_freed_calls`: the first bucket is freed, the second bucket
is the head of the list. -/
def head_freed_device : cipher_dev :=
  { cipher_init_module with
    buckets := [{ addr := 1, refcount := 2,
                  buffer := xored cipher_init_module (letters_300.drop 256) 256 }]
    keylast := 300
    contexes := [⟨4, some 1, 0, 0, 0, 0⟩, ⟨1, some 1, 0, 300, 1, 300⟩]
    brk := 2 }

end Cipher

namespace Mm536

/-! ## The system call `check_addr` of `hw2/mm536.c`

`unsigned long` and `long` have 64 bits.  The memory map of the calling process is the
list of its areas in the order of their addresses, and `find_vma` is the kernel's
lookup: the first area whose `vm_end` lies above the address.  The user buffer is its
contents, and `copy_to_user` either stores the whole structure or fails and stores
nothing. -/

def VM_READ : Nat := 0x1

def VM_WRITE : Nat := 0x2

def VM_EXEC : Nat := 0x4

def VM_SHARED : Nat := 0x8

def EINVAL : Int := 22

def EFAULT : Int := 14

def PAGE_SHIFT : Nat := 12

def MINORBITS : Nat := 20

/-- The largest `long`. -/
def LONG_MAX : Nat := 2 ^ 63 - 1

/-- The value of an `unsigned long` stored in a `long`. -/
def to_long (x : Nat) : Int :=
  if x % 2 ^ 64 < 2 ^ 63 then ((x % 2 ^ 64 : Nat) : Int) else ((x % 2 ^ 64 : Nat) : Int) - 2 ^ 64

/-- The value of a `long` or `int` stored in an `unsigned long`. -/
def to_ulong (x : Int) : Nat := (x % 2 ^ 64).toNat

/-- The fields of a `struct inode` that `check_addr` reads. -/
structure inode where
  i_ino : Nat
  i_rdev : Nat
deriving DecidableEq, Repr

/-- The fields of a `struct file` that `check_addr` reads; `d_path` is the path that
`d_path` resolves, `none` when no page is free or the call fails. -/
structure file where
  f_inode : inode
  d_path : Option (List Nat)
deriving DecidableEq, Repr

/-- The fields of a `struct vm_area_struct` that `check_addr` reads. -/
structure vm_area_struct where
  vm_start : Nat
  vm_end : Nat
  vm_flags : Nat
  vm_pgoff : Nat
  vm_file : Option file
deriving DecidableEq, Repr

/-- The fields of a `struct mm_struct` that `check_addr` reads; `mmap` lists the areas,
`rss_anon` and `rss_file` are the sums of the two counters of `rss_stat`. -/
structure mm_struct where
  mmap : List vm_area_struct
  start_stack : Nat
  start_brk : Nat
  brk : Nat
  total_vm : Nat
  data_vm : Nat
  exec_vm : Nat
  stack_vm : Nat
  rss_anon : Int
  rss_file : Int
  map_count : Int
deriving DecidableEq, Repr

/-- The bit fields `flags` of a `struct vma_info`. -/
structure vma_flags where
  readable : Nat
  writeable : Nat
  executable : Nat
  shared : Nat
  filemapped : Nat
  heap : Nat
  stack : Nat
deriving DecidableEq, Repr

/-- The member `file` of a `struct vma_info`. -/
structure vma_file where
  inode : Nat
  major : Int
  minor : Int
  path : List Nat
  offset : Nat
deriving DecidableEq, Repr

/-- The member `mm` of a `struct vma_info`. -/
structure vma_mm where
  vmpages : Nat
  vmdata : Nat
  vmexec : Nat
  vmstack : Nat
  vmresanon : Nat
  vmresfile : Nat
  vmref : Int
deriving DecidableEq, Repr

/-- One `struct vma_info`; `end_` is the member `end`. -/
structure vma_info where
  start : Int
  end_ : Int
  flags : vma_flags
  file : vma_file
  mm : vma_mm
deriving DecidableEq, Repr

/-- The kernel's `find_vma`: the first area with `addr < vm_end`. -/
def find_vma (mm : mm_struct) (addr : Nat) : Option vm_area_struct :=
  mm.mmap.find? fun vma => addr < vma.vm_end

/-- The member `file` that `check_addr` fills for a file-mapped area. -/
def file_details (vma : vm_area_struct) (f : file) : vma_file :=
  { inode := f.f_inode.i_ino
    major := ((f.f_inode.i_rdev >>> MINORBITS : Nat) : Int)
    minor := ((f.f_inode.i_rdev &&& (2 ^ MINORBITS - 1) : Nat) : Int)
    offset := (vma.vm_pgoff <<< PAGE_SHIFT) % 2 ^ 64
    path :=
      match f.d_path with
      | some resolved_path => (resolved_path.take 255).takeWhile fun c => c ≠ 0
      | none => [] }

/-- The structure `kinfo` that `check_addr` fills for the area it found. -/
def fill_kinfo (mm : mm_struct) (vma : vm_area_struct) : vma_info :=
  { start := to_long vma.vm_start
    end_ := to_long vma.vm_end
    flags :=
      { readable := if vma.vm_flags &&& VM_READ ≠ 0 then 1 else 0
        writeable := if vma.vm_flags &&& VM_WRITE ≠ 0 then 1 else 0
        executable := if vma.vm_flags &&& VM_EXEC ≠ 0 then 1 else 0
        shared := if vma.vm_flags &&& VM_SHARED ≠ 0 then 1 else 0
        filemapped := if vma.vm_file.isSome then 1 else 0
        heap := if vma.vm_start = mm.start_brk ∧ vma.vm_end = mm.brk then 1 else 0
        stack := if vma.vm_start = mm.start_stack then 1 else 0 }
    file :=
      match vma.vm_file with
      | some f => file_details vma f
      | none => ⟨0, 0, 0, [], 0⟩
    mm :=
      { vmpages := mm.total_vm
        vmdata := mm.data_vm
        vmexec := mm.exec_vm
        vmstack := mm.stack_vm
        vmresanon := to_ulong mm.rss_anon
        vmresfile := to_ulong mm.rss_file
        vmref := mm.map_count } }

/-- The system call `check_addr(addr, info)` of a process with the memory map `mm`:
the value returned and the contents of the user buffer afterwards; `buffer` is the
contents before and `writable` tells whether `copy_to_user` succeeds. -/
def check_addr (mm : mm_struct) (addr : Nat) (buffer : Option vma_info) (writable : Bool) :
    Int × Option vma_info :=
  match find_vma mm addr with
  | none => (-EINVAL, buffer)
  | some vma =>
    if addr < vma.vm_start then (-EINVAL, buffer)
    else if writable then (0, some (fill_kinfo mm vma))
    else (-EFAULT, buffer)

/-- The areas of a memory map are not empty, lie in the order of their addresses and
do not overlap, and end below the largest `long`. -/
def mmap_ok (mm : mm_struct) : Prop :=
  mm.mmap.Pairwise (fun a b => a.vm_end ≤ b.vm_start)
    ∧ ∀ vma ∈ mm.mmap, vma.vm_start < vma.vm_end ∧ vma.vm_end ≤ LONG_MAX

instance (mm : mm_struct) : Decidable (mmap_ok mm) := by
  unfold mmap_ok
  infer_instance

/-- The address lies inside the area. -/
def inside (addr : Nat) (vma : vm_area_struct) : Prop :=
  vma.vm_start ≤ addr ∧ addr < vma.vm_end

instance (addr : Nat) (vma : vm_area_struct) : Decidable (inside addr vma) := by
  unfold inside
  infer_instance

/-- A process with a text area mapped from a file, a heap and a stack. -/
def small_mm : mm_struct :=
  { mmap :=
      [⟨0x400000, 0x401000, 0x5, 0, some ⟨⟨42, 0x800001⟩, some ("/bin/true".data.map Char.toNat)⟩⟩,
        ⟨0x600000, 0x621000, 0x3, 0, none⟩,
        ⟨0x7ffd000, 0x7fff000, 0x103, 0, none⟩]
    start_stack := 0x7ffe000
    start_brk := 0x600000
    brk := 0x621000
    total_vm := 36
    data_vm := 35
    exec_vm := 1
    stack_vm := 2
    rss_anon := 10
    rss_file := 1
    map_count := 3 }

end Mm536

namespace SupDem

/-! ## Theorems -/

/-! ### Frame lemmas -/

@[simp] theorem client_put_supplies (st : world) (h : Int) (c : client) :
    (client_put st h c).supplies = st.supplies := by
  unfold client_put; split_ifs <;> rfl

@[simp] theorem client_put_demands (st : world) (h : Int) (c : client) :
    (client_put st h c).demands = st.demands := by
  unfold client_put; split_ifs <;> rfl

@[simp] theorem client_put_watches (st : world) (h : Int) (c : client) :
    (client_put st h c).watches = st.watches := by
  unfold client_put; split_ifs <;> rfl

@[simp] theorem client_put_trace (st : world) (h : Int) (c : client) :
    (client_put st h c).trace = st.trace := by
  unfold client_put; split_ifs <;> rfl

@[simp] theorem client_put_clients_length (st : world) (h : Int) (c : client) :
    (client_put st h c).clients.length = st.clients.length := by
  unfold client_put; split_ifs <;> simp

theorem client_at_client_put (st : world) (h c : Int) (v : client) :
    client_at (client_put st h v) c
      = if 0 ≤ h ∧ h < st.clients.length ∧ c = h then v else client_at st c := by
  unfold client_at client_put
  by_cases hh : 0 ≤ h
  · by_cases hc : 0 ≤ c
    · simp only [hh, hc, if_true, List.getD_eq_getElem?_getD, List.getElem?_set, true_and]
      by_cases e : h.toNat = c.toNat
      · have ech : c = h := by omega
        subst ech
        by_cases hl : c < st.clients.length
        · have : c.toNat < st.clients.length := by omega
          simp [this, hl]
        · have : ¬ c.toNat < st.clients.length := by omega
          simp [this, hl, List.getElem?_eq_none (Nat.le_of_not_lt this)]
      · have ech : ¬ c = h := by omega
        simp [e, ech]
    · have ech : ¬ c = h := by omega
      simp [hh, hc, ech]
  · simp [hh]

@[simp] theorem enqueue_notification_supplies (st : world) (h : Int) (msg : String) :
    (enqueue_notification st h msg).supplies = st.supplies := by
  dsimp only [enqueue_notification]; split_ifs <;> simp

@[simp] theorem enqueue_notification_demands (st : world) (h : Int) (msg : String) :
    (enqueue_notification st h msg).demands = st.demands := by
  dsimp only [enqueue_notification]; split_ifs <;> simp

@[simp] theorem enqueue_notification_watches (st : world) (h : Int) (msg : String) :
    (enqueue_notification st h msg).watches = st.watches := by
  dsimp only [enqueue_notification]; split_ifs <;> simp

@[simp] theorem enqueue_notification_trace (st : world) (h : Int) (msg : String) :
    (enqueue_notification st h msg).trace = st.trace ++ [event.enqueue h msg] := by
  dsimp only [enqueue_notification]; split_ifs <;> simp

@[simp] theorem enqueue_notification_clients_length (st : world) (h : Int) (msg : String) :
    (enqueue_notification st h msg).clients.length = st.clients.length := by
  dsimp only [enqueue_notification]; split_ifs <;> simp

@[simp] theorem match_demand_and_supply_demands (st : world) (j i : Nat) :
    (match_demand_and_supply st j i).demands = st.demands.set j free_demand := by
  dsimp only [match_demand_and_supply, remove_demand, remove_supply]
  split_ifs <;> simp

@[simp] theorem match_demand_and_supply_watches (st : world) (j i : Nat) :
    (match_demand_and_supply st j i).watches = st.watches := by
  dsimp only [match_demand_and_supply, remove_demand, remove_supply]
  split_ifs <;> simp

@[simp] theorem match_demand_and_supply_clients_length (st : world) (j i : Nat) :
    (match_demand_and_supply st j i).clients.length = st.clients.length := by
  dsimp only [match_demand_and_supply, remove_demand, remove_supply]
  split_ifs <;> simp

theorem match_demand_and_supply_supplies (st : world) (j i : Nat) :
    (match_demand_and_supply st j i).supplies
      = st.supplies.set i (settled_supply (supply_at st i) (demand_at st j)) := by
  dsimp only [match_demand_and_supply, remove_demand, remove_supply, settled_supply]
  split_ifs <;> simp

theorem match_demand_and_supply_trace (st : world) (j i : Nat) :
    (match_demand_and_supply st j i).trace
      = st.trace ++ settlement_events (supply_at st i) (demand_at st j) := by
  dsimp only [match_demand_and_supply, remove_demand, remove_supply, settlement_events]
  split_ifs <;> simp_all

theorem manhattan_distance_eq_abs (x1 y1 x2 y2 : Int) :
    manhattan_distance x1 y1 x2 y2 = |x1 - x2| + |y1 - y2| := by
  unfold manhattan_distance
  rcases abs_cases (x1 - x2) with ⟨h1, h1'⟩ | ⟨h1, h1'⟩ <;>
  rcases abs_cases (y1 - y2) with ⟨h2, h2'⟩ | ⟨h2, h2'⟩ <;>
  rw [h1, h2] <;> split_ifs <;> omega

theorem check_case_match_eq_one_iff (st : world) (demand_id supply_id : Nat) :
    check_case_match st demand_id supply_id = 1 ↔
      (demand_at st demand_id).client_id ≠ -1 ∧ (supply_at st supply_id).client_id ≠ -1 ∧
      manhattan_distance (demand_at st demand_id).x (demand_at st demand_id).y
        (supply_at st supply_id).x (supply_at st supply_id).y < (supply_at st supply_id).distance ∧
      (supply_at st supply_id).a_amount ≥ (demand_at st demand_id).a_amount ∧
      (supply_at st supply_id).b_amount ≥ (demand_at st demand_id).b_amount ∧
      (supply_at st supply_id).c_amount ≥ (demand_at st demand_id).c_amount := by
  dsimp only [check_case_match]
  constructor
  · intro h
    split_ifs at h with h1 h2
    · omega
    · exact ⟨fun e => h1 (Or.inl e), fun e => h1 (Or.inr e), h2⟩
    · omega
  · rintro ⟨hd, hs, h⟩
    rw [if_neg (by rintro (e | e); exacts [hd e, hs e]), if_pos h]

theorem check_case_match_cases (st : world) (demand_id supply_id : Nat) :
    check_case_match st demand_id supply_id = 1 ∨ check_case_match st demand_id supply_id = 0 := by
  dsimp only [check_case_match]
  split_ifs <;> simp

theorem demand_at_occupied_lt (st : world) (j : Nat)
    (h : (demand_at st j).client_id ≠ -1) : j < st.demands.length := by
  by_contra hge
  unfold demand_at at h
  rw [List.getD_eq_getElem?_getD, List.getElem?_eq_none (Nat.le_of_not_lt hge)] at h
  exact h rfl

theorem supply_at_occupied_lt (st : world) (i : Nat)
    (h : (supply_at st i).client_id ≠ -1) : i < st.supplies.length := by
  by_contra hge
  unfold supply_at at h
  rw [List.getD_eq_getElem?_getD, List.getElem?_eq_none (Nat.le_of_not_lt hge)] at h
  exact h rfl

/-- C1: `check_case_match` returns 1 exactly when both slots are occupied, the
Manhattan distance between them is below the supply's radius and the supply holds
at least the demanded amount of each resource; in every other case it returns 0. -/
theorem check_case_match_spec (st : world) (demand_id supply_id : Nat) :
    (check_case_match st demand_id supply_id = 1 ↔
      (demand_at st demand_id).client_id ≠ -1 ∧ (supply_at st supply_id).client_id ≠ -1 ∧
      |(demand_at st demand_id).x - (supply_at st supply_id).x|
        + |(demand_at st demand_id).y - (supply_at st supply_id).y|
        < (supply_at st supply_id).distance ∧
      (supply_at st supply_id).a_amount ≥ (demand_at st demand_id).a_amount ∧
      (supply_at st supply_id).b_amount ≥ (demand_at st demand_id).b_amount ∧
      (supply_at st supply_id).c_amount ≥ (demand_at st demand_id).c_amount) ∧
    (check_case_match st demand_id supply_id = 1 ∨ check_case_match st demand_id supply_id = 0) := by
  refine ⟨?_, check_case_match_cases st demand_id supply_id⟩
  rw [check_case_match_eq_one_iff, manhattan_distance_eq_abs]

/-! ### The matching pass -/

theorem check_case_match_of_free_demand (st : world) (j i : Nat)
    (h : (demand_at st j).client_id = -1) : check_case_match st j i = 0 := by
  dsimp only [check_case_match]
  rw [if_pos (Or.inl h)]

theorem check_case_match_congr (st st1 : world) (j i : Nat)
    (hs : st1.supplies = st.supplies) (hd : st1.demands = st.demands) :
    check_case_match st1 j i = check_case_match st j i := by
  simp only [check_case_match, supply_at, demand_at, hs, hd]

theorem demand_at_match_self (st : world) (j i : Nat) (hj : j < st.demands.length) :
    demand_at (match_demand_and_supply st j i) j = free_demand := by
  simp [demand_at, List.getD_eq_getElem?_getD, hj]

theorem demand_at_match_of_ne (st : world) (j i k : Nat) (hk : k ≠ j) :
    demand_at (match_demand_and_supply st j i) k = demand_at st k := by
  simp [demand_at, List.getD_eq_getElem?_getD, List.getElem?_set, Ne.symm hk]

theorem supply_at_match_of_ne (st : world) (j i k : Nat) (hk : k ≠ i) :
    supply_at (match_demand_and_supply st j i) k = supply_at st k := by
  simp [supply_at, match_demand_and_supply_supplies, List.getD_eq_getElem?_getD,
    List.getElem?_set, Ne.symm hk]

theorem supply_at_match_self (st : world) (j i : Nat) (hi : i < st.supplies.length) :
    supply_at (match_demand_and_supply st j i) i
      = settled_supply (supply_at st i) (demand_at st j) := by
  simp [supply_at, match_demand_and_supply_supplies, List.getD_eq_getElem?_getD, hi]

theorem check_for_match_body_of_not_match (st : world) (j i : Nat)
    (h : check_case_match st j i ≠ 1) : check_for_match_body j st i = st := by
  unfold check_for_match_body
  rcases check_case_match_cases st j i with h1 | h0
  · exact absurd h1 h
  · rw [if_neg (by simp [h0])]

theorem check_for_match_body_of_match (st : world) (j i : Nat)
    (h : check_case_match st j i = 1) :
    check_for_match_body j st i = match_demand_and_supply st j i := by
  unfold check_for_match_body
  rw [if_pos ⟨((check_case_match_eq_one_iff st j i).1 h).2.1, by simp [h]⟩]

theorem check_for_match_supplies_succ (st : world) (j m : Nat) :
    check_for_match_supplies st j (m + 1)
      = check_for_match_body j (check_for_match_supplies st j m) m := by
  simp [check_for_match_supplies, List.range_succ, List.foldl_append]

theorem check_for_match_upto_succ (st : world) (k : Nat) :
    check_for_match_upto st (k + 1)
      = check_for_match_demand st.supplies.length (check_for_match_upto st k) k := by
  simp [check_for_match_upto, List.range_succ, List.foldl_append]

/-- No supply below `m` is eligible: the inner loop changes nothing. -/
theorem check_for_match_supplies_of_none (st : world) (j m : Nat)
    (h : ∀ i, i < m → check_case_match st j i ≠ 1) : check_for_match_supplies st j m = st := by
  induction m with
  | zero => rfl
  | succ m ih =>
    rw [check_for_match_supplies_succ, ih (fun i hi => h i (Nat.lt_succ_of_lt hi))]
    exact check_for_match_body_of_not_match st j m (h m (Nat.lt_succ_self m))

/-- Slot `i0` is the lowest eligible supply: the inner loop settles the demand
against `i0` and does nothing else. -/
theorem check_for_match_supplies_of_first (st : world) (j i0 m : Nat)
    (hj : j < st.demands.length) (hm : i0 < m) (h1 : check_case_match st j i0 = 1)
    (hlow : ∀ i, i < i0 → check_case_match st j i ≠ 1) :
    check_for_match_supplies st j m = match_demand_and_supply st j i0 := by
  induction m with
  | zero => omega
  | succ m ih =>
    rw [check_for_match_supplies_succ]
    rcases Nat.lt_or_ge i0 m with hlt | hge
    · rw [ih hlt]
      apply check_for_match_body_of_not_match
      rw [check_case_match_of_free_demand _ _ _ (by rw [demand_at_match_self st j i0 hj]; rfl)]
      decide
    · have hmi : m = i0 := by omega
      subst hmi
      rw [check_for_match_supplies_of_none st j m hlow]
      exact check_for_match_body_of_match st j m h1

theorem check_for_match_body_lengths (st : world) (j i : Nat) :
    (check_for_match_body j st i).supplies.length = st.supplies.length ∧
    (check_for_match_body j st i).demands.length = st.demands.length ∧
    (check_for_match_body j st i).watches = st.watches ∧
    (check_for_match_body j st i).clients.length = st.clients.length := by
  unfold check_for_match_body
  split_ifs <;> simp [match_demand_and_supply_supplies]

theorem check_for_match_supplies_lengths (st : world) (j m : Nat) :
    (check_for_match_supplies st j m).supplies.length = st.supplies.length ∧
    (check_for_match_supplies st j m).demands.length = st.demands.length ∧
    (check_for_match_supplies st j m).watches = st.watches ∧
    (check_for_match_supplies st j m).clients.length = st.clients.length := by
  induction m with
  | zero => exact ⟨rfl, rfl, rfl, rfl⟩
  | succ m ih =>
    rw [check_for_match_supplies_succ]
    obtain ⟨h1, h2, h3, h4⟩ := check_for_match_body_lengths (check_for_match_supplies st j m) j m
    exact ⟨h1.trans ih.1, h2.trans ih.2.1, h3.trans ih.2.2.1, h4.trans ih.2.2.2⟩

theorem check_for_match_demand_lengths (n : Nat) (st : world) (j : Nat) :
    (check_for_match_demand n st j).supplies.length = st.supplies.length ∧
    (check_for_match_demand n st j).demands.length = st.demands.length ∧
    (check_for_match_demand n st j).watches = st.watches ∧
    (check_for_match_demand n st j).clients.length = st.clients.length := by
  unfold check_for_match_demand
  split_ifs
  · exact check_for_match_supplies_lengths st j n
  · exact ⟨rfl, rfl, rfl, rfl⟩

theorem check_for_match_upto_lengths (st : world) (k : Nat) :
    (check_for_match_upto st k).supplies.length = st.supplies.length ∧
    (check_for_match_upto st k).demands.length = st.demands.length ∧
    (check_for_match_upto st k).watches = st.watches ∧
    (check_for_match_upto st k).clients.length = st.clients.length := by
  induction k with
  | zero => exact ⟨rfl, rfl, rfl, rfl⟩
  | succ k ih =>
    rw [check_for_match_upto_succ]
    obtain ⟨h1, h2, h3, h4⟩ :=
      check_for_match_demand_lengths st.supplies.length (check_for_match_upto st k) k
    exact ⟨h1.trans ih.1, h2.trans ih.2.1, h3.trans ih.2.2.1, h4.trans ih.2.2.2⟩

/-- C2: when the outer loop of `check_for_match` reaches an occupied demand `k`,
either no supply slot is eligible and the demand is left alone, or the demand is
settled exactly once, against the lowest-indexed eligible supply slot, and every
other supply slot (in particular every eligible slot with a higher index) is left
as it was. -/
theorem check_for_match_lowest_supply_wins (st : world) (k : Nat)
    (hocc : (demand_at (check_for_match_upto st k) k).client_id ≠ -1) :
    ((∀ i, i < st.supplies.length → check_case_match (check_for_match_upto st k) k i ≠ 1) ∧
      check_for_match_upto st (k + 1) = check_for_match_upto st k) ∨
    (∃ i0, i0 < st.supplies.length ∧
      check_case_match (check_for_match_upto st k) k i0 = 1 ∧
      (∀ i, i < i0 → check_case_match (check_for_match_upto st k) k i ≠ 1) ∧
      check_for_match_upto st (k + 1) = match_demand_and_supply (check_for_match_upto st k) k i0 ∧
      (∀ i, i ≠ i0 →
        supply_at (check_for_match_upto st (k + 1)) i = supply_at (check_for_match_upto st k) i) ∧
      (∀ i, i0 < i → check_case_match (check_for_match_upto st k) k i = 1 →
        supply_at (check_for_match_upto st (k + 1)) i = supply_at (check_for_match_upto st k) i)) := by
  have hstep : check_for_match_upto st (k + 1)
      = check_for_match_supplies (check_for_match_upto st k) k st.supplies.length := by
    rw [check_for_match_upto_succ, check_for_match_demand, if_pos hocc]
  have hk1 : k < (check_for_match_upto st k).demands.length :=
    demand_at_occupied_lt _ k hocc
  by_cases hex : ∃ i, i < st.supplies.length ∧ check_case_match (check_for_match_upto st k) k i = 1
  · right
    classical
    refine ⟨Nat.find hex, (Nat.find_spec hex).1, (Nat.find_spec hex).2, ?_, ?_⟩
    · intro i hi h1
      exact Nat.find_min hex hi ⟨lt_trans hi (Nat.find_spec hex).1, h1⟩
    · have hY : check_for_match_upto st (k + 1)
          = match_demand_and_supply (check_for_match_upto st k) k (Nat.find hex) := by
        rw [hstep]
        refine check_for_match_supplies_of_first _ k _ _ hk1 (Nat.find_spec hex).1
          (Nat.find_spec hex).2 ?_
        intro i hi h1
        exact Nat.find_min hex hi ⟨lt_trans hi (Nat.find_spec hex).1, h1⟩
      refine ⟨hY, ?_, ?_⟩
      · intro i hi
        rw [hY, supply_at_match_of_ne _ _ _ _ hi]
      · intro i hi _
        rw [hY, supply_at_match_of_ne _ _ _ _ (Nat.ne_of_gt hi)]
  · left
    have hnone : ∀ i, i < st.supplies.length →
        check_case_match (check_for_match_upto st k) k i ≠ 1 :=
      fun i hi h1 => hex ⟨i, hi, h1⟩
    exact ⟨hnone, by rw [hstep]; exact check_for_match_supplies_of_none _ k _ hnone⟩

/-- C2 on `tie_break_world`: both supplies are eligible for the demand, the demand
is settled against slot 0 and slot 1 keeps its contents. -/
theorem check_for_match_lowest_supply_wins_witness :
    check_case_match tie_break_world 0 0 = 1 ∧ check_case_match tie_break_world 0 1 = 1 ∧
    check_for_match_upto tie_break_world 1 = match_demand_and_supply tie_break_world 0 0 ∧
    supply_at (check_for_match_upto tie_break_world 1) 1 = ⟨1, 0, 7, 7, 7, 10, 1⟩ := by
  have h0 : check_case_match tie_break_world 0 0 = 1 := by decide
  have h1 : check_case_match tie_break_world 0 1 = 1 := by decide
  refine ⟨h0, h1, ?_⟩
  rcases check_for_match_lowest_supply_wins tie_break_world 0 (by decide) with
    ⟨hnone, _⟩ | ⟨i0, _, _, hlow, hY, _, hhigh⟩
  · exact absurd h0 (hnone 0 (by decide))
  · have hi0 : i0 = 0 := by
      rcases Nat.eq_zero_or_pos i0 with h | h
      · exact h
      · exact absurd h0 (hlow 0 h)
    subst hi0
    exact ⟨hY, (hhigh 1 (by decide) h1).trans (by decide)⟩

theorem first_index_of_all {α : Type} (p : α → Bool) (l : List α) (hne : l ≠ [])
    (h : ∀ a ∈ l, p a = true) : first_index p l = some 0 := by
  cases l with
  | nil => exact absurd rfl hne
  | cons a t => simp [first_index, h a (List.mem_cons_self a t)]

theorem supply_at_of_no_supplies (st : world) (h : no_supplies st) (i : Nat) :
    (supply_at st i).client_id = -1 := by
  unfold supply_at
  rw [List.getD_eq_getElem?_getD]
  rcases Nat.lt_or_ge i st.supplies.length with hi | hi
  · rw [List.getElem?_eq_getElem hi]
    exact h _ (List.getElem_mem hi)
  · rw [List.getElem?_eq_none hi]; rfl

theorem demand_at_of_no_demands (st : world) (h : no_demands st) (j : Nat) :
    (demand_at st j).client_id = -1 := by
  unfold demand_at
  rw [List.getD_eq_getElem?_getD]
  rcases Nat.lt_or_ge j st.demands.length with hj | hj
  · rw [List.getElem?_eq_getElem hj]
    exact h _ (List.getElem_mem hj)
  · rw [List.getElem?_eq_none hj]; rfl

theorem check_case_match_of_free_supply (st : world) (j i : Nat)
    (h : (supply_at st i).client_id = -1) : check_case_match st j i = 0 := by
  dsimp only [check_case_match]
  rw [if_pos (Or.inr h)]

/-- No demand below `k` has an eligible supply: the first `k` rounds of the outer
loop change nothing. -/
theorem check_for_match_upto_of_none (st : world) (k : Nat)
    (h : ∀ j, j < k → ∀ i, check_case_match st j i ≠ 1) : check_for_match_upto st k = st := by
  induction k with
  | zero => rfl
  | succ k ih =>
    rw [check_for_match_upto_succ, ih (fun j hj => h j (Nat.lt_succ_of_lt hj))]
    unfold check_for_match_demand
    split_ifs
    · exact check_for_match_supplies_of_none st k _ (fun i _ => h k (Nat.lt_succ_self k) i)
    · rfl

theorem same_registry_refl (st : world) : same_registry st st := rfl

theorem same_registry_trans {a b c : world} (h1 : same_registry a b) (h2 : same_registry b c) :
    same_registry a c := Eq.trans h2 h1

theorem same_registry_length {st st1 : world} (h : same_registry st st1) :
    st1.clients.length = st.clients.length := by
  have := congrArg List.length h
  simpa using this

theorem same_registry_client_at {st st1 : world} (h : same_registry st st1) (c : Int) :
    registry_key (client_at st1 c) = registry_key (client_at st c) := by
  unfold client_at
  split_ifs
  · have h1 := List.getD_map st1.clients free_client (n := c.toNat) registry_key
    have h2 := List.getD_map st.clients free_client (n := c.toNat) registry_key
    rw [← h1, ← h2, h]
  · rfl

theorem same_registry_x {st st1 : world} (h : same_registry st st1) (c : Int) :
    (client_at st1 c).x = (client_at st c).x :=
  congrArg (fun k => k.2.1) (same_registry_client_at h c)

theorem same_registry_y {st st1 : world} (h : same_registry st st1) (c : Int) :
    (client_at st1 c).y = (client_at st c).y :=
  congrArg (fun k => k.2.2.1) (same_registry_client_at h c)

theorem same_registry_client_socket {st st1 : world} (h : same_registry st st1) (c : Int) :
    (client_at st1 c).client_socket = (client_at st c).client_socket :=
  congrArg (fun k => k.2.2.2) (same_registry_client_at h c)

theorem map_set_of_key_eq {α β : Type} (f : α → β) (l : List α) (i : Nat) (v d : α)
    (h : f v = f (l.getD i d)) : (l.set i v).map f = l.map f := by
  apply List.ext_getElem?
  intro n
  rw [List.map_set, List.getElem?_set]
  split_ifs with e hl
  · subst e
    rw [List.getD_eq_getElem?_getD] at h
    simp only [List.length_map] at hl
    rw [List.getElem?_map, List.getElem?_eq_getElem hl]
    rw [List.getElem?_eq_getElem hl] at h
    simp [h]
  · subst e
    simp only [List.length_map] at hl
    rw [List.getElem?_map, List.getElem?_eq_none (Nat.le_of_not_lt hl)]
    rfl
  · rfl

@[simp] theorem enqueue_notification_registry (st : world) (h : Int) (msg : String) :
    (enqueue_notification st h msg).clients.map registry_key = st.clients.map registry_key := by
  dsimp only [enqueue_notification, client_put, client_at]
  split_ifs <;>
    first
    | rfl
    | exact map_set_of_key_eq registry_key st.clients h.toNat _ free_client rfl

theorem same_registry_enqueue (st : world) (h : Int) (msg : String) :
    same_registry st (enqueue_notification st h msg) :=
  enqueue_notification_registry st h msg

theorem same_registry_match (st : world) (j i : Nat) :
    same_registry st (match_demand_and_supply st j i) := by
  unfold same_registry
  dsimp only [match_demand_and_supply, remove_demand, remove_supply]
  split_ifs <;> simp

theorem same_registry_foldl_range (f : world → Nat → world)
    (hf : ∀ w i, same_registry w (f w i)) (st : world) (k : Nat) :
    same_registry st ((List.range k).foldl f st) := by
  induction k with
  | zero => exact same_registry_refl st
  | succ k ih =>
    rw [List.range_succ, List.foldl_append, List.foldl_cons, List.foldl_nil]
    exact same_registry_trans ih (hf _ k)

theorem same_registry_check_for_match_body (j : Nat) (st : world) (i : Nat) :
    same_registry st (check_for_match_body j st i) := by
  unfold check_for_match_body
  split_ifs
  · exact same_registry_match st j i
  · exact same_registry_refl st

theorem same_registry_check_for_match_demand (n : Nat) (st : world) (j : Nat) :
    same_registry st (check_for_match_demand n st j) := by
  unfold check_for_match_demand
  split_ifs
  · exact same_registry_foldl_range _ (same_registry_check_for_match_body j) st n
  · exact same_registry_refl st

theorem same_registry_check_for_match (st : world) (c : Int) :
    same_registry st (check_for_match st c) :=
  same_registry_foldl_range _ (same_registry_check_for_match_demand _) st _

theorem same_registry_watch_event_body (idx : Nat) (st : world) (i : Nat) :
    same_registry st (watch_event_body idx st i) := by
  dsimp only [watch_event_body]
  split_ifs
  · exact same_registry_enqueue _ _ _
  · exact same_registry_refl st
  · exact same_registry_refl st

theorem same_registry_check_for_watch_events (st : world) (idx : Nat) :
    same_registry st (check_for_watch_events_on_new_supply st idx) := by
  unfold check_for_watch_events_on_new_supply
  split_ifs
  · exact same_registry_refl st
  · exact same_registry_foldl_range _ (same_registry_watch_event_body idx) st _

/-! ### Kinds of notices -/

theorem snprintf_data_append (n : Nat) (p r : String) (h : p.length ≤ n - 1) :
    (snprintf n (p ++ r)).data = p.data ++ r.data.take (n - 1 - p.length) := by
  unfold snprintf
  simp only [String.data_append, List.take_append_eq_append_take]
  rw [List.take_of_length_le (show p.data.length ≤ n - 1 from h)]
  rfl

theorem demand_message_data (d : demand) (s : supply) :
    ∃ r, (demand_message d s).data = "Your demand at (".data ++ r := by
  unfold demand_message
  simp only [String.append_assoc]
  exact ⟨_, snprintf_data_append _ _ _ (by decide)⟩

theorem supply_message_data (s : supply) (d : demand) :
    ∃ r, (supply_message s d).data = "Your supply at (".data ++ r := by
  unfold supply_message
  simp only [String.append_assoc]
  exact ⟨_, snprintf_data_append _ _ _ (by decide)⟩

theorem watch_message_data (s : supply) :
    ∃ r, (watch_message s).data = "A supply [".data ++ r := by
  unfold watch_message
  simp only [String.append_assoc]
  exact ⟨_, snprintf_data_append _ _ _ (by decide)⟩

theorem is_fulfilment_demand_message (d : demand) (s : supply) :
    is_fulfilment (demand_message d s) = true := by
  obtain ⟨r, h⟩ := demand_message_data d s
  unfold is_fulfilment
  rw [h]
  simp

theorem is_delivery_supply_message (s : supply) (d : demand) :
    is_delivery (supply_message s d) = true := by
  obtain ⟨r, h⟩ := supply_message_data s d
  unfold is_delivery
  rw [h]
  simp

theorem is_supply_appeared_watch_message (s : supply) :
    is_supply_appeared (watch_message s) = true := by
  obtain ⟨r, h⟩ := watch_message_data s
  unfold is_supply_appeared
  rw [h]
  simp

theorem is_supply_appeared_demand_message (d : demand) (s : supply) :
    is_supply_appeared (demand_message d s) = false := by
  obtain ⟨r, h⟩ := demand_message_data d s
  unfold is_supply_appeared
  rw [h]
  simp [List.isPrefixOf]

theorem is_supply_appeared_supply_message (s : supply) (d : demand) :
    is_supply_appeared (supply_message s d) = false := by
  obtain ⟨r, h⟩ := supply_message_data s d
  unfold is_supply_appeared
  rw [h]
  simp [List.isPrefixOf]

theorem is_fulfilment_watch_message (s : supply) : is_fulfilment (watch_message s) = false := by
  obtain ⟨r, h⟩ := watch_message_data s
  unfold is_fulfilment
  rw [h]
  simp [List.isPrefixOf]

theorem is_delivery_watch_message (s : supply) : is_delivery (watch_message s) = false := by
  obtain ⟨r, h⟩ := watch_message_data s
  unfold is_delivery
  rw [h]
  simp [List.isPrefixOf]

theorem removed_message_kind :
    is_fulfilment removed_message = false ∧ is_delivery removed_message = false ∧
    is_supply_appeared removed_message = false := by
  decide

@[simp] theorem is_settlement_notice_demand_message (c : Int) (d : demand) (s : supply) :
    is_settlement_notice (event.enqueue c (demand_message d s)) = true := by
  simp only [is_settlement_notice, is_fulfilment_demand_message, Bool.true_or]

@[simp] theorem is_settlement_notice_supply_message (c : Int) (s : supply) (d : demand) :
    is_settlement_notice (event.enqueue c (supply_message s d)) = true := by
  simp only [is_settlement_notice, is_delivery_supply_message, Bool.or_true]

@[simp] theorem is_settlement_notice_removed_message (c : Int) :
    is_settlement_notice (event.enqueue c removed_message) = false := by
  simp only [is_settlement_notice, removed_message_kind.1, removed_message_kind.2.1, Bool.or_self]

@[simp] theorem is_settlement_notice_watch_message (c : Int) (s : supply) :
    is_settlement_notice (event.enqueue c (watch_message s)) = false := by
  simp only [is_settlement_notice, is_fulfilment_watch_message, is_delivery_watch_message,
    Bool.or_self]

@[simp] theorem is_settlement_notice_write (fd : Int) (buf : String) :
    is_settlement_notice (event.write fd buf) = false := rfl

@[simp] theorem appeared_to_demand_message (c c1 : Int) (d : demand) (s : supply) :
    appeared_to c (event.enqueue c1 (demand_message d s)) = false := by
  simp only [appeared_to, is_supply_appeared_demand_message, Bool.and_false]

@[simp] theorem appeared_to_supply_message (c c1 : Int) (s : supply) (d : demand) :
    appeared_to c (event.enqueue c1 (supply_message s d)) = false := by
  simp only [appeared_to, is_supply_appeared_supply_message, Bool.and_false]

@[simp] theorem appeared_to_removed_message (c c1 : Int) :
    appeared_to c (event.enqueue c1 removed_message) = false := by
  simp only [appeared_to, removed_message_kind.2.2, Bool.and_false]

@[simp] theorem appeared_to_watch_message (c c1 : Int) (s : supply) :
    appeared_to c (event.enqueue c1 (watch_message s)) = decide (c1 = c) := by
  simp only [appeared_to, is_supply_appeared_watch_message, Bool.and_true]

@[simp] theorem appeared_to_write (c fd : Int) (buf : String) :
    appeared_to c (event.write fd buf) = false := rfl

theorem filter_watch_slot_events (w : watch_t) (s : supply) :
    (watch_slot_events w s).filter is_settlement_notice = [] := by
  unfold watch_slot_events
  split_ifs <;> simp [List.filter_cons]

theorem filter_watch_events (st : world) (s : supply) (k : Nat) :
    ((List.range k).flatMap (fun i => watch_slot_events (watch_at st i) s)).filter
      is_settlement_notice = [] := by
  induction k with
  | zero => rfl
  | succ k ih =>
    rw [List.range_succ, List.flatMap_append, List.filter_append, ih]
    simp [filter_watch_slot_events]

/-! ### Posting into empty tables -/

theorem add_new_demand_of_no_demands (st : world) (cd a b c : Int)
    (hD : no_demands st) (hDn : st.demands ≠ []) :
    add_new_demand st cd a b c
      = { st with demands := st.demands.set 0 (posted_demand st cd a b c) } := by
  unfold add_new_demand
  rw [first_index_of_all _ _ hDn (fun d hd => by simpa using hD d hd)]
  rfl

theorem add_new_supply_of_no_supplies (st : world) (cs dist a b c : Int)
    (hS : no_supplies st) (hSn : st.supplies ≠ []) :
    add_new_supply st cs dist a b c
      = ({ st with supplies := st.supplies.set 0 (posted_supply st cs dist a b c) }, 0) := by
  unfold add_new_supply
  rw [first_index_of_all _ _ hSn (fun d hd => by simpa using hS d hd)]
  rfl

/-- Nothing is eligible: `check_for_match` changes nothing. -/
theorem check_for_match_of_none (st : world) (c : Int)
    (h : ∀ j i, check_case_match st j i ≠ 1) : check_for_match st c = st :=
  check_for_match_upto_of_none st _ (fun j _ i => h j i)

theorem first_index_some {α : Type} (p : α → Bool) (l : List α) (i : Nat)
    (h : first_index p l = some i) :
    ∃ hi : i < l.length, p l[i] = true ∧ ∀ j (hj : j < i), p (l.get ⟨j, lt_trans hj hi⟩) = false := by
  induction l generalizing i with
  | nil => simp [first_index] at h
  | cons a t ih =>
    unfold first_index at h
    split_ifs at h with ha
    · cases h
      exact ⟨Nat.succ_pos _, ha, fun j hj => absurd hj (Nat.not_lt_zero j)⟩
    · cases hf : first_index p t with
      | none => rw [hf] at h; cases h
      | some k =>
        rw [hf] at h
        cases h
        obtain ⟨hk, hpk, hlow⟩ := ih k hf
        refine ⟨Nat.succ_lt_succ hk, hpk, ?_⟩
        intro j hj
        cases j with
        | zero => simpa using ha
        | succ j => exact hlow j (Nat.lt_of_succ_lt_succ hj)

theorem first_index_none {α : Type} (p : α → Bool) (l : List α)
    (h : first_index p l = none) : ∀ a ∈ l, p a = false := by
  induction l with
  | nil => intro a ha; exact absurd ha (List.not_mem_nil a)
  | cons a t ih =>
    unfold first_index at h
    split_ifs at h with ha
    cases hf : first_index p t with
    | none =>
      intro b hb
      rcases List.mem_cons.1 hb with rfl | hb
      · simpa using ha
      · exact ih hf b hb
    | some k => rw [hf] at h; cases h

theorem first_index_isSome_of_mem {α : Type} (p : α → Bool) (l : List α) (a : α)
    (ha : a ∈ l) (hp : p a = true) : ∃ i, first_index p l = some i := by
  cases hf : first_index p l with
  | none =>
    have := first_index_none p l hf a ha
    rw [hp] at this
    exact Bool.noConfusion this
  | some i => exact ⟨i, rfl⟩

/-! ### Counting the watch slots of a client -/

theorem countP_free_watches_of_self (h : Int) (hh : h ≠ -1) (l : List watch_t) :
    (free_watches_of h l).countP (fun w => w.client_id = h) = 0 := by
  rw [List.countP_eq_zero]
  intro w hw
  unfold free_watches_of at hw
  obtain ⟨v, _, rfl⟩ := List.mem_map.1 hw
  split_ifs with e
  · simpa using fun e1 : (-1 : Int) = h => hh e1.symm
  · simpa using e

theorem countP_free_watches_of_other (h c : Int) (hc : c ≠ -1) (hne : c ≠ h)
    (l : List watch_t) :
    (free_watches_of h l).countP (fun w => w.client_id = c)
      = l.countP (fun w => w.client_id = c) := by
  unfold free_watches_of
  rw [List.countP_map]
  apply List.countP_congr
  intro w _
  simp only [Function.comp]
  split_ifs with e
  · have h1 : ¬ w.client_id = c := by rw [e]; exact fun e1 => hne e1.symm
    have h2 : ¬ (-1 : Int) = c := fun e1 => hc e1.symm
    simp [h1, h2]
  · rfl

theorem countP_free_watches_of_le (h c : Int) (hc : c ≠ -1) (l : List watch_t) :
    (free_watches_of h l).countP (fun w => w.client_id = c)
      ≤ l.countP (fun w => w.client_id = c) := by
  by_cases e : c = h
  · subst e
    rw [countP_free_watches_of_self c hc]
    exact Nat.zero_le _
  · rw [countP_free_watches_of_other h c hc e]

theorem countP_set_free_slot (l : List watch_t) (i : Nat) (hi : i < l.length)
    (hfree : l[i].client_id = -1) (v : watch_t) (c : Int) (hc : c ≠ -1) :
    (l.set i v).countP (fun w => w.client_id = c)
      = l.countP (fun w => w.client_id = c) + if v.client_id = c then 1 else 0 := by
  rw [List.countP_set _ _ _ _ hi]
  have h1 : ¬ l[i].client_id = c := by rw [hfree]; exact fun e => hc e.symm
  simp [h1]

/-! ### The watch scan -/

theorem watch_event_body_spec (idx : Nat) (st : world) (i : Nat) :
    (watch_event_body idx st i).supplies = st.supplies ∧
    (watch_event_body idx st i).demands = st.demands ∧
    (watch_event_body idx st i).watches = st.watches ∧
    (watch_event_body idx st i).clients.length = st.clients.length ∧
    (watch_event_body idx st i).trace
      = st.trace ++ watch_slot_events (watch_at st i) (supply_at st idx) := by
  dsimp only [watch_event_body, watch_slot_events]
  rw [manhattan_distance_eq_abs]
  by_cases h1 : (watch_at st i).client_id ≠ -1 ∧ (watch_at st i).watch_id > 0
  · rw [if_pos h1]
    by_cases h2 : |(watch_at st i).x - (supply_at st idx).x|
        + |(watch_at st i).y - (supply_at st idx).y| ≤ (watch_at st i).watch_id
    · rw [if_pos h2, if_pos ⟨h1.1, h1.2, h2⟩]; simp
    · rw [if_neg h2, if_neg (fun h => h2 h.2.2)]; simp
  · rw [if_neg h1, if_neg (fun h => h1 ⟨h.1, h.2.1⟩)]; simp

theorem watch_scan_upto (idx : Nat) (st : world) (k : Nat) :
    ((List.range k).foldl (watch_event_body idx) st).supplies = st.supplies ∧
    ((List.range k).foldl (watch_event_body idx) st).demands = st.demands ∧
    ((List.range k).foldl (watch_event_body idx) st).watches = st.watches ∧
    ((List.range k).foldl (watch_event_body idx) st).clients.length = st.clients.length ∧
    ((List.range k).foldl (watch_event_body idx) st).trace
      = st.trace ++ (List.range k).flatMap
          (fun i => watch_slot_events (watch_at st i) (supply_at st idx)) := by
  induction k with
  | zero => simp
  | succ k ih =>
    obtain ⟨h1, h2, h3, h4, h5⟩ := ih
    have hb := watch_event_body_spec idx ((List.range k).foldl (watch_event_body idx) st) k
    rw [List.range_succ, List.foldl_append, List.foldl_cons, List.foldl_nil]
    obtain ⟨b1, b2, b3, b4, b5⟩ := hb
    refine ⟨b1.trans h1, b2.trans h2, b3.trans h3, b4.trans h4, ?_⟩
    have hw : watch_at ((List.range k).foldl (watch_event_body idx) st) k = watch_at st k := by
      simp only [watch_at, h3]
    have hsup : supply_at ((List.range k).foldl (watch_event_body idx) st) idx = supply_at st idx := by
      simp only [supply_at, h1]
    rw [b5, h5, hw, hsup, List.flatMap_append, List.flatMap_cons, List.flatMap_nil,
      List.append_nil, List.append_assoc]

/-- The watch scan for an occupied supply slot: the tables are left as they were
and the trace grows by the notices of the watch slots, in slot order. -/
theorem check_for_watch_events_of_occupied (st : world) (idx : Nat)
    (hocc : (supply_at st idx).client_id ≠ -1) :
    (check_for_watch_events_on_new_supply st idx).supplies = st.supplies ∧
    (check_for_watch_events_on_new_supply st idx).demands = st.demands ∧
    (check_for_watch_events_on_new_supply st idx).watches = st.watches ∧
    (check_for_watch_events_on_new_supply st idx).clients.length = st.clients.length ∧
    (check_for_watch_events_on_new_supply st idx).trace
      = st.trace ++ (List.range st.watches.length).flatMap
          (fun i => watch_slot_events (watch_at st i) (supply_at st idx)) := by
  unfold check_for_watch_events_on_new_supply
  rw [if_neg hocc]
  exact watch_scan_upto idx st st.watches.length

theorem check_for_watch_events_of_free (st : world) (idx : Nat)
    (hfree : (supply_at st idx).client_id = -1) :
    check_for_watch_events_on_new_supply st idx = st := by
  unfold check_for_watch_events_on_new_supply
  rw [if_pos hfree]

/-! ### The compiled arithmetic -/

theorem wrap_int_of_range (n : Int) (h0 : -2147483648 ≤ n) (h1 : n ≤ 2147483647) :
    wrap_int n = n := by
  unfold wrap_int
  rw [Int.emod_eq_of_lt (by omega) (by omega)]
  omega

theorem manhattan_distance_wrapped_of_fits (x1 y1 x2 y2 : Int)
    (h : distance_fits x1 y1 x2 y2) :
    manhattan_distance_wrapped x1 y1 x2 y2 = manhattan_distance x1 y1 x2 y2 := by
  unfold distance_fits INT_MAX at h
  have hx := abs_nonneg (x1 - x2)
  have hy := abs_nonneg (y1 - y2)
  have hx1 := abs_le.1 (le_refl |x1 - x2|)
  have hy1 := abs_le.1 (le_refl |y1 - y2|)
  have ex : wrap_int (x1 - x2) = x1 - x2 := wrap_int_of_range _ (by omega) (by omega)
  have ey : wrap_int (y1 - y2) = y1 - y2 := wrap_int_of_range _ (by omega) (by omega)
  have ax : abs_wrapped (x1 - x2) = |x1 - x2| := by
    unfold abs_wrapped
    split_ifs with g
    · rw [wrap_int_of_range _ (by omega) (by omega), abs_of_neg g]
    · rw [abs_of_nonneg (by omega)]
  have ay : abs_wrapped (y1 - y2) = |y1 - y2| := by
    unfold abs_wrapped
    split_ifs with g
    · rw [wrap_int_of_range _ (by omega) (by omega), abs_of_neg g]
    · rw [abs_of_nonneg (by omega)]
  unfold manhattan_distance_wrapped
  rw [ex, ey, ax, ay, wrap_int_of_range _ (by omega) (by omega), manhattan_distance_eq_abs]

theorem check_case_match_wrapped_of_fits (st : world) (j i : Nat)
    (h : (demand_at st j).client_id ≠ -1 → (supply_at st i).client_id ≠ -1 →
      distance_fits (demand_at st j).x (demand_at st j).y (supply_at st i).x (supply_at st i).y) :
    check_case_match_wrapped st j i = check_case_match st j i := by
  unfold check_case_match_wrapped check_case_match
  dsimp only
  by_cases hf : (demand_at st j).client_id = -1 ∨ (supply_at st i).client_id = -1
  · rw [if_pos hf, if_pos hf]
  · rw [if_neg hf, if_neg hf,
      manhattan_distance_wrapped_of_fits _ _ _ _
        (h (fun e => hf (Or.inl e)) (fun e => hf (Or.inr e)))]

theorem watch_event_body_wrapped_of_fits (idx : Nat) (st : world) (i : Nat)
    (h : (watch_at st i).client_id ≠ -1 → 0 < (watch_at st i).watch_id →
      distance_fits (watch_at st i).x (watch_at st i).y (supply_at st idx).x
        (supply_at st idx).y) :
    watch_event_body_wrapped idx st i = watch_event_body idx st i := by
  unfold watch_event_body_wrapped watch_event_body
  dsimp only
  by_cases hf : (watch_at st i).client_id ≠ -1 ∧ (watch_at st i).watch_id > 0
  · rw [if_pos hf, if_pos hf, manhattan_distance_wrapped_of_fits _ _ _ _ (h hf.1 hf.2)]
  · rw [if_neg hf, if_neg hf]

theorem watch_at_mem_of_occupied (st : world) (i : Nat)
    (h : (watch_at st i).client_id ≠ -1) : watch_at st i ∈ st.watches := by
  unfold watch_at at h ⊢
  rw [List.getD_eq_getElem?_getD] at h ⊢
  rcases Nat.lt_or_ge i st.watches.length with hi | hi
  · rw [List.getElem?_eq_getElem hi]
    exact List.getElem_mem hi
  · rw [List.getElem?_eq_none hi] at h
    exact absurd rfl h

theorem watch_scan_wrapped_upto (idx : Nat) (st : world) (hfit : watches_fit st idx) (k : Nat) :
    (List.range k).foldl (watch_event_body_wrapped idx) st
      = (List.range k).foldl (watch_event_body idx) st := by
  induction k with
  | zero => rfl
  | succ k ih =>
    rw [List.range_succ, List.foldl_append, List.foldl_append, ih]
    simp only [List.foldl_cons, List.foldl_nil]
    obtain ⟨h1, _, h3, _⟩ := watch_scan_upto idx st k
    apply watch_event_body_wrapped_of_fits
    have hw : watch_at ((List.range k).foldl (watch_event_body idx) st) k = watch_at st k := by
      simp only [watch_at, h3]
    have hs : supply_at ((List.range k).foldl (watch_event_body idx) st) idx
        = supply_at st idx := by
      simp only [supply_at, h1]
    rw [hw, hs]
    intro hocc hpos
    exact hfit _ (watch_at_mem_of_occupied st k hocc) hocc hpos

/-- When the distances from the watches to the supply fit an `int`, the compiled scan
is the scan of the model. -/
theorem check_for_watch_events_wrapped_of_fits (st : world) (idx : Nat)
    (hfit : watches_fit st idx) :
    check_for_watch_events_on_new_supply_wrapped st idx
      = check_for_watch_events_on_new_supply st idx := by
  unfold check_for_watch_events_on_new_supply_wrapped check_for_watch_events_on_new_supply
  split_ifs
  · rfl
  · exact watch_scan_wrapped_upto idx st hfit _

/-- C7, amended: for an occupied supply slot and watch slots whose distance to the
supply fits an `int`, the watch scan of the compiled server is the scan of the
model, and it enqueues, for every watch slot in slot order, one supply-appeared
notice to the owner of the slot exactly when the slot is occupied, its radius is
positive and the Manhattan distance from the recorded position to the supply is at
most the radius (`watch_slot_events`); it enqueues nothing else and leaves the
tables unchanged. -/
theorem check_for_watch_events_spec (st : world) (idx : Nat)
    (hocc : (supply_at st idx).client_id ≠ -1) (hfit : watches_fit st idx) :
    check_for_watch_events_on_new_supply_wrapped st idx
      = check_for_watch_events_on_new_supply st idx ∧
    (check_for_watch_events_on_new_supply_wrapped st idx).trace
      = st.trace ++ (List.range st.watches.length).flatMap
          (fun i => watch_slot_events (watch_at st i) (supply_at st idx)) ∧
    (∀ i, watch_slot_events (watch_at st i) (supply_at st idx)
        = [event.enqueue (watch_at st i).client_id (watch_message (supply_at st idx))] ↔
      ((watch_at st i).client_id ≠ -1 ∧ 0 < (watch_at st i).watch_id ∧
        |(watch_at st i).x - (supply_at st idx).x| + |(watch_at st i).y - (supply_at st idx).y|
          ≤ (watch_at st i).watch_id)) ∧
    (∀ i, watch_slot_events (watch_at st i) (supply_at st idx) = [] ↔
      ¬((watch_at st i).client_id ≠ -1 ∧ 0 < (watch_at st i).watch_id ∧
        |(watch_at st i).x - (supply_at st idx).x| + |(watch_at st i).y - (supply_at st idx).y|
          ≤ (watch_at st i).watch_id)) ∧
    (check_for_watch_events_on_new_supply_wrapped st idx).supplies = st.supplies ∧
    (check_for_watch_events_on_new_supply_wrapped st idx).demands = st.demands ∧
    (check_for_watch_events_on_new_supply_wrapped st idx).watches = st.watches := by
  have hw := check_for_watch_events_wrapped_of_fits st idx hfit
  obtain ⟨h1, h2, h3, _, h5⟩ := check_for_watch_events_of_occupied st idx hocc
  rw [hw]
  refine ⟨rfl, h5, ?_, ?_, h1, h2, h3⟩
  · intro i
    unfold watch_slot_events
    split_ifs with h <;> simp [h]
  · intro i
    unfold watch_slot_events
    split_ifs with h <;> simp [h]

/-- C7, amended, on the scenario of the specification: a watch of radius 5
recorded at (0,0) is notified of a supply at (3,2) and not of a supply at (3,3). -/
theorem check_for_watch_events_spec_witness :
    (supply_at (watch_world 5 3 2) 0).client_id ≠ -1 ∧
    (supply_at (watch_world 5 3 3) 0).client_id ≠ -1 ∧
    watches_fit (watch_world 5 3 2) 0 ∧ watches_fit (watch_world 5 3 3) 0 ∧
    (check_for_watch_events_on_new_supply_wrapped (watch_world 5 3 2) 0).trace
      = [event.enqueue 1 "A supply [1,1,1] is inserted at (3,2).\n"] ∧
    (check_for_watch_events_on_new_supply_wrapped (watch_world 5 3 3) 0).trace = [] :=
  ⟨by decide, by decide, by decide, by decide,
    (check_for_watch_events_spec (watch_world 5 3 2) 0 (by decide) (by decide)).2.1.trans
      (by decide),
    (check_for_watch_events_spec (watch_world 5 3 3) 0 (by decide) (by decide)).2.1.trans
      (by decide)⟩

theorem watch_events_are_notices (st : world) (s : supply) (k : Nat) :
    ∀ e ∈ (List.range k).flatMap (fun i => watch_slot_events (watch_at st i) s),
      ∃ c, e = event.enqueue c (watch_message s) := by
  intro e he
  obtain ⟨i, _, hi⟩ := List.mem_flatMap.1 he
  unfold watch_slot_events at hi
  split_ifs at hi
  · exact ⟨_, List.mem_singleton.1 hi⟩
  · exact absurd hi (List.not_mem_nil e)

theorem check_for_watch_events_frame (st : world) (idx : Nat) :
    (check_for_watch_events_on_new_supply st idx).supplies = st.supplies ∧
    (check_for_watch_events_on_new_supply st idx).demands = st.demands ∧
    (check_for_watch_events_on_new_supply st idx).watches = st.watches ∧
    same_registry st (check_for_watch_events_on_new_supply st idx) ∧
    ∃ X, (check_for_watch_events_on_new_supply st idx).trace = st.trace ++ X ∧
      X.filter is_settlement_notice = [] ∧
      ∀ e ∈ X, ∃ c, e = event.enqueue c (watch_message (supply_at st idx)) := by
  by_cases hocc : (supply_at st idx).client_id = -1
  · rw [check_for_watch_events_of_free st idx hocc]
    exact ⟨rfl, rfl, rfl, same_registry_refl st, [], by simp, rfl,
      fun e he => absurd he (List.not_mem_nil e)⟩
  · obtain ⟨h1, h2, h3, _, h5⟩ := check_for_watch_events_of_occupied st idx hocc
    exact ⟨h1, h2, h3, same_registry_check_for_watch_events st idx, _, h5,
      filter_watch_events st _ _, watch_events_are_notices st _ _⟩

/-! ### The watch table under the operations: at most one watch per client -/

theorem foldl_sock_write_frame {α : Type} (f : α → String) (fd : Int) (l : List α) (st : world) :
    (l.foldl (fun w a => sock_write w fd (f a)) st).supplies = st.supplies ∧
    (l.foldl (fun w a => sock_write w fd (f a)) st).demands = st.demands ∧
    (l.foldl (fun w a => sock_write w fd (f a)) st).watches = st.watches ∧
    (l.foldl (fun w a => sock_write w fd (f a)) st).clients = st.clients := by
  induction l generalizing st with
  | nil => exact ⟨rfl, rfl, rfl, rfl⟩
  | cons a t ih =>
    rw [List.foldl_cons]
    obtain ⟨h1, h2, h3, h4⟩ := ih (sock_write st fd (f a))
    exact ⟨h1, h2, h3, h4⟩

theorem list_supplies_frame (st : world) (h : Int) :
    (list_supplies st h).supplies = st.supplies ∧ (list_supplies st h).demands = st.demands ∧
    (list_supplies st h).watches = st.watches ∧ (list_supplies st h).clients = st.clients :=
  foldl_sock_write_frame supply_line _ _ _

theorem list_demands_frame (st : world) (h : Int) :
    (list_demands st h).supplies = st.supplies ∧ (list_demands st h).demands = st.demands ∧
    (list_demands st h).watches = st.watches ∧ (list_demands st h).clients = st.clients :=
  foldl_sock_write_frame demand_line _ _ _

theorem my_supplies_frame (st : world) (h : Int) :
    (my_supplies st h).supplies = st.supplies ∧ (my_supplies st h).demands = st.demands ∧
    (my_supplies st h).watches = st.watches ∧ (my_supplies st h).clients = st.clients :=
  foldl_sock_write_frame supply_line _ _ _

theorem my_demands_frame (st : world) (h : Int) :
    (my_demands st h).supplies = st.supplies ∧ (my_demands st h).demands = st.demands ∧
    (my_demands st h).watches = st.watches ∧ (my_demands st h).clients = st.clients :=
  foldl_sock_write_frame demand_line _ _ _

theorem check_for_match_watches (st : world) (c : Int) :
    (check_for_match st c).watches = st.watches :=
  (check_for_match_upto_lengths st _).2.2.1

theorem add_new_supply_watches (st : world) (h dist a b c : Int) :
    (add_new_supply st h dist a b c).1.watches = st.watches := by
  unfold add_new_supply
  split <;> rfl

theorem add_new_demand_watches (st : world) (h a b c : Int) :
    (add_new_demand st h a b c).watches = st.watches := by
  unfold add_new_demand
  split <;> rfl

theorem register_client_watches (st : world) (fd : Int) :
    (register_client st fd).1.watches = st.watches := by
  unfold register_client
  split <;> rfl

theorem notification_thread_func_watches (st : world) (h : Int) :
    (notification_thread_func st h).watches = st.watches := by
  dsimp only [notification_thread_func, notify_client, sock_write]
  split_ifs <;> simp

theorem remove_client_resources_watches (st : world) (h : Int) :
    (remove_client_resources st h).watches = free_watches_of h st.watches := by
  dsimp only [remove_client_resources]
  rw [client_put_watches]
  rfl

theorem add_new_watch_watches (st : world) (h r : Int) :
    (add_new_watch st h r).watches
      = match first_index (fun w => w.client_id = -1) (free_watches_of h st.watches) with
        | some i => (free_watches_of h st.watches).set i
            ⟨(client_at st h).x, (client_at st h).y, h, r⟩
        | none => free_watches_of h st.watches := by
  dsimp only [add_new_watch, free_watches_of]
  split <;> rfl

/-- The watch table after one decoded line. -/
theorem command_thread_func_watches (st : world) (fd h : Int) (cmd : command) :
    (command_thread_func st fd h cmd).watches
      = match cmd with
        | .watch r => (add_new_watch st h r).watches
        | .unwatch => free_watches_of h st.watches
        | _ => st.watches := by
  cases cmd with
  | move x y => simp [command_thread_func, sock_write, move_client]
  | demand a b c =>
    show (check_for_match _ h).watches = _
    rw [check_for_match_watches]
    exact add_new_demand_watches st h a b c
  | supply dist a b c =>
    show (let r := add_new_supply st h dist a b c
          let st1 := check_for_match (sock_write r.1 fd ok_reply) h
          if r.2 ≠ -1 then check_for_watch_events_on_new_supply st1 r.2.toNat else st1).watches
        = st.watches
    dsimp only
    split_ifs
    · rw [(check_for_watch_events_frame _ _).2.2.1, check_for_match_watches]
      exact add_new_supply_watches st h dist a b c
    · rw [check_for_match_watches]
      exact add_new_supply_watches st h dist a b c
  | watch r => rfl
  | unwatch => rfl
  | listsupplies => exact (list_supplies_frame st h).2.2.1
  | listdemands => exact (list_demands_frame st h).2.2.1
  | mysupplies => exact (my_supplies_frame st h).2.2.1
  | mydemands => exact (my_demands_frame st h).2.2.1
  | quit => rfl
  | invalid => rfl

theorem watches_of_add_new_watch_le (st : world) (h r c : Int) (hc : c ≠ -1)
    (hinv : watches_of st c ≤ 1) : watches_of (add_new_watch st h r) c ≤ 1 := by
  unfold watches_of at *
  rw [add_new_watch_watches]
  cases hf : first_index (fun w => w.client_id = -1) (free_watches_of h st.watches) with
  | none => exact le_trans (countP_free_watches_of_le h c hc _) hinv
  | some i =>
    obtain ⟨hi, hp, _⟩ := first_index_some _ _ _ hf
    dsimp only
    rw [countP_set_free_slot _ i hi (by simpa using hp) _ c hc]
    by_cases e : c = h
    · subst e
      rw [countP_free_watches_of_self c hc]
      simp
    · rw [countP_free_watches_of_other h c hc e]
      have : ¬ h = c := fun e1 => e e1.symm
      simpa [this] using hinv

/-- In every reachable state a client owns at most one watch slot. -/
theorem watches_of_le_one {ok : command → Prop} (st : world) (hr : reachable_by ok st)
    (c : Int) (hc : c ≠ -1) : watches_of st c ≤ 1 := by
  induction hr with
  | init mc ms md mw =>
    unfold watches_of init_world
    have : List.countP (fun w : watch_t => decide (w.client_id = c))
        (List.replicate mw free_watch) = 0 := by
      rw [List.countP_eq_zero]
      intro w hw
      rw [List.eq_of_mem_replicate hw]
      simpa [free_watch] using fun e : (-1 : Int) = c => hc e.symm
    rw [this]
    exact Nat.zero_le 1
  | connect fd i _ _ _ ih =>
    unfold watches_of at *
    rw [register_client_watches]
    exact ih
  | line h cmd _ _ _ ih =>
    cases cmd with
    | watch r => exact watches_of_add_new_watch_le _ h r c hc ih
    | unwatch =>
      unfold watches_of at *
      rw [command_thread_func_watches]
      exact le_trans (countP_free_watches_of_le h c hc _) ih
    | _ =>
      unfold watches_of at *
      rw [command_thread_func_watches]
      exact ih
  | notify h _ _ ih =>
    unfold watches_of at *
    rw [notification_thread_func_watches]
    exact ih
  | disconnect h _ _ ih =>
    unfold watches_of at *
    rw [remove_client_resources_watches]
    exact le_trans (countP_free_watches_of_le h c hc _) ih

/-! ### One demand and one supply posted into empty tables -/

theorem demand_at_set_zero (st : world) (l : List demand) (d : demand) (h : l ≠ [])
    (hl : st.demands = l.set 0 d) : demand_at st 0 = d := by
  cases l with
  | nil => exact absurd rfl h
  | cons a t => simp [demand_at, hl]

theorem supply_at_set_zero (st : world) (l : List supply) (v : supply) (h : l ≠ [])
    (hl : st.supplies = l.set 0 v) : supply_at st 0 = v := by
  cases l with
  | nil => exact absurd rfl h
  | cons a t => simp [supply_at, hl]

theorem demand_at_set_zero_of_pos (st st0 : world) (d : demand) (j : Nat) (hj : 0 < j)
    (hl : st.demands = st0.demands.set 0 d) : demand_at st j = demand_at st0 j := by
  simp [demand_at, hl, List.getD_eq_getElem?_getD, List.getElem?_set, Nat.ne_of_lt hj]

theorem supply_at_set_zero_of_ne (st st0 : world) (v : supply) (i : Nat) (hi : i ≠ 0)
    (hl : st.supplies = st0.supplies.set 0 v) : supply_at st i = supply_at st0 i := by
  simp [supply_at, hl, List.getD_eq_getElem?_getD, List.getElem?_set, Ne.symm hi]

theorem demand_command_of_no_supplies (st : world) (fd cd a b c : Int)
    (hS : no_supplies st) (hD : no_demands st) (hDn : st.demands ≠ []) :
    command_thread_func st fd cd (.demand a b c)
      = sock_write { st with demands := st.demands.set 0 (posted_demand st cd a b c) } fd
          ok_reply := by
  show check_for_match (sock_write (add_new_demand st cd a b c) fd ok_reply) cd = _
  rw [add_new_demand_of_no_demands st cd a b c hD hDn]
  apply check_for_match_of_none
  intro j i
  have h0 : check_case_match (sock_write
      { st with demands := st.demands.set 0 (posted_demand st cd a b c) } fd ok_reply) j i = 0 :=
    check_case_match_of_free_supply _ j i (supply_at_of_no_supplies st hS i)
  rw [h0]
  decide

theorem supply_command_of_no_demands (st : world) (fd cs dist a b c : Int)
    (hS : no_supplies st) (hD : no_demands st) (hSn : st.supplies ≠ []) :
    command_thread_func st fd cs (.supply dist a b c)
      = check_for_watch_events_on_new_supply
          (sock_write { st with supplies := st.supplies.set 0 (posted_supply st cs dist a b c) } fd
            ok_reply) 0 := by
  show (let r := add_new_supply st cs dist a b c
        let st1 := check_for_match (sock_write r.1 fd ok_reply) cs
        if r.2 ≠ -1 then check_for_watch_events_on_new_supply st1 r.2.toNat else st1) = _
  rw [add_new_supply_of_no_supplies st cs dist a b c hS hSn]
  dsimp only
  have hnone : check_for_match (sock_write
      { st with supplies := st.supplies.set 0 (posted_supply st cs dist a b c) } fd ok_reply) cs
      = sock_write { st with supplies := st.supplies.set 0 (posted_supply st cs dist a b c) } fd
          ok_reply := by
    apply check_for_match_of_none
    intro j i
    have h0 : check_case_match (sock_write
        { st with supplies := st.supplies.set 0 (posted_supply st cs dist a b c) } fd ok_reply)
        j i = 0 :=
      check_case_match_of_free_demand _ j i (demand_at_of_no_demands st hD j)
    rw [h0]
    decide
  rw [if_pos (by decide), hnone]
  rfl

theorem is_engine_notice_watch_message (c : Int) (s : supply) :
    is_engine_notice (event.enqueue c (watch_message s)) = false := by
  have hne : watch_message s ≠ removed_message := by
    intro h
    have h1 := is_supply_appeared_watch_message s
    rw [h, removed_message_kind.2.2] at h1
    exact Bool.noConfusion h1
  simp only [is_engine_notice, is_fulfilment_watch_message, is_delivery_watch_message,
    Bool.or_self, Bool.false_or, decide_eq_false_iff_not]
  exact hne

theorem filter_engine_notice_of_watch (X : List event) (s : supply)
    (h : ∀ e ∈ X, ∃ c, e = event.enqueue c (watch_message s)) :
    X.filter is_engine_notice = [] := by
  rw [List.filter_eq_nil_iff]
  intro e he
  obtain ⟨c, rfl⟩ := h e he
  rw [is_engine_notice_watch_message]
  exact Bool.false_ne_true

/-- Slot 0 of each table holds the posted pair, everything else is free, and the
pair is not eligible: `check_for_match` changes nothing. -/
theorem check_for_match_posted_pair_none (w st : world) (c : Int) (D : demand) (S : supply)
    (hS : no_supplies st) (hD : no_demands st) (hSn : st.supplies ≠ []) (hDn : st.demands ≠ [])
    (hwd : w.demands = st.demands.set 0 D) (hws : w.supplies = st.supplies.set 0 S)
    (hno : S.distance ≤ manhattan_distance D.x D.y S.x S.y ∨ S.a_amount < D.a_amount ∨
      S.b_amount < D.b_amount ∨ S.c_amount < D.c_amount) :
    check_for_match w c = w := by
  apply check_for_match_of_none
  intro j i h1
  have h := (check_case_match_eq_one_iff w j i).1 h1
  rcases Nat.eq_zero_or_pos j with hj | hj
  · rcases Nat.eq_zero_or_pos i with hi | hi
    · subst hj; subst hi
      rw [demand_at_set_zero w _ D hDn hwd, supply_at_set_zero w _ S hSn hws] at h
      obtain ⟨_, _, h3, h4, h5, h6⟩ := h
      rcases hno with g | g | g | g <;> omega
    · apply h.2.1
      rw [supply_at_set_zero_of_ne w st S i (Nat.ne_of_gt hi) hws]
      exact supply_at_of_no_supplies st hS i
  · apply h.1
    rw [demand_at_set_zero_of_pos w st D j hj hwd]
    exact demand_at_of_no_demands st hD j

theorem demand_then_supply_no_match (st : world) (fd_d cd a b c fd_s cs dist sa sb sc : Int)
    (hS : no_supplies st) (hD : no_demands st) (hSn : st.supplies ≠ []) (hDn : st.demands ≠ [])
    (hno : dist ≤ manhattan_distance (client_at st cd).x (client_at st cd).y
        (client_at st cs).x (client_at st cs).y ∨ sa < a ∨ sb < b ∨ sc < c) :
    (command_thread_func (command_thread_func st fd_d cd (.demand a b c)) fd_s cs
        (.supply dist sa sb sc)).demands = st.demands.set 0 (posted_demand st cd a b c) ∧
    (command_thread_func (command_thread_func st fd_d cd (.demand a b c)) fd_s cs
        (.supply dist sa sb sc)).supplies
      = st.supplies.set 0 (posted_supply st cs dist sa sb sc) ∧
    ∃ X, (command_thread_func (command_thread_func st fd_d cd (.demand a b c)) fd_s cs
        (.supply dist sa sb sc)).trace
      = st.trace ++ [event.write fd_d ok_reply, event.write fd_s ok_reply] ++ X ∧
      ∀ e ∈ X, ∃ c1, e = event.enqueue c1 (watch_message (posted_supply st cs dist sa sb sc)) := by
  rw [demand_command_of_no_supplies st fd_d cd a b c hS hD hDn]
  generalize hw1 : sock_write { st with demands := st.demands.set 0 (posted_demand st cd a b c) }
    fd_d ok_reply = w1
  have hw1s : w1.supplies = st.supplies := by rw [← hw1]; rfl
  have hw1d : w1.demands = st.demands.set 0 (posted_demand st cd a b c) := by rw [← hw1]; rfl
  have hw1t : w1.trace = st.trace ++ [event.write fd_d ok_reply] := by rw [← hw1]; rfl
  have hw1c : w1.clients = st.clients := by rw [← hw1]; rfl
  have hps : posted_supply w1 cs dist sa sb sc = posted_supply st cs dist sa sb sc := by
    simp only [posted_supply, client_at, hw1c]
  have hadd := add_new_supply_of_no_supplies w1 cs dist sa sb sc
    (by unfold no_supplies; rw [hw1s]; exact hS) (by rw [hw1s]; exact hSn)
  have hws : (sock_write
      { w1 with supplies := w1.supplies.set 0 (posted_supply w1 cs dist sa sb sc) }
      fd_s ok_reply).supplies = st.supplies.set 0 (posted_supply st cs dist sa sb sc) := by
    rw [hps, ← hw1s]; rfl
  have hcm := check_for_match_posted_pair_none
    (sock_write { w1 with supplies := w1.supplies.set 0 (posted_supply w1 cs dist sa sb sc) }
      fd_s ok_reply) st cs (posted_demand st cd a b c) (posted_supply st cs dist sa sb sc)
    hS hD hSn hDn hw1d hws hno
  have hrun : command_thread_func w1 fd_s cs (.supply dist sa sb sc)
      = check_for_watch_events_on_new_supply
          (sock_write { w1 with supplies := w1.supplies.set 0 (posted_supply w1 cs dist sa sb sc) }
            fd_s ok_reply) 0 := by
    show (let r := add_new_supply w1 cs dist sa sb sc
          let st1 := check_for_match (sock_write r.1 fd_s ok_reply) cs
          if r.2 ≠ -1 then check_for_watch_events_on_new_supply st1 r.2.toNat else st1) = _
    rw [hadd]
    dsimp only
    rw [if_pos (by decide), hcm]
    rfl
  rw [hrun]
  obtain ⟨f1, f2, _, _, X, f5, _, f7⟩ := check_for_watch_events_frame
    (sock_write { w1 with supplies := w1.supplies.set 0 (posted_supply w1 cs dist sa sb sc) }
      fd_s ok_reply) 0
  rw [supply_at_set_zero _ _ _ hSn hws] at f7
  refine ⟨f2.trans hw1d, f1.trans hws, X, ?_, f7⟩
  rw [f5]
  show (w1.trace ++ [event.write fd_s ok_reply]) ++ X = _
  rw [hw1t]
  simp

theorem supply_then_demand_no_match (st : world) (fd_d cd a b c fd_s cs dist sa sb sc : Int)
    (hS : no_supplies st) (hD : no_demands st) (hSn : st.supplies ≠ []) (hDn : st.demands ≠ [])
    (hno : dist ≤ manhattan_distance (client_at st cd).x (client_at st cd).y
        (client_at st cs).x (client_at st cs).y ∨ sa < a ∨ sb < b ∨ sc < c) :
    (command_thread_func (command_thread_func st fd_s cs (.supply dist sa sb sc)) fd_d cd
        (.demand a b c)).demands = st.demands.set 0 (posted_demand st cd a b c) ∧
    (command_thread_func (command_thread_func st fd_s cs (.supply dist sa sb sc)) fd_d cd
        (.demand a b c)).supplies
      = st.supplies.set 0 (posted_supply st cs dist sa sb sc) ∧
    ∃ X, (command_thread_func (command_thread_func st fd_s cs (.supply dist sa sb sc)) fd_d cd
        (.demand a b c)).trace
      = st.trace ++ [event.write fd_s ok_reply] ++ X ++ [event.write fd_d ok_reply] ∧
      ∀ e ∈ X, ∃ c1, e = event.enqueue c1 (watch_message (posted_supply st cs dist sa sb sc)) := by
  rw [supply_command_of_no_demands st fd_s cs dist sa sb sc hS hD hSn]
  obtain ⟨f1, f2, _, f4, X, f5, _, f7⟩ := check_for_watch_events_frame
    (sock_write { st with supplies := st.supplies.set 0 (posted_supply st cs dist sa sb sc) } fd_s
      ok_reply) 0
  have hs0 : supply_at (sock_write
      { st with supplies := st.supplies.set 0 (posted_supply st cs dist sa sb sc) } fd_s
      ok_reply) 0 = posted_supply st cs dist sa sb sc :=
    supply_at_set_zero _ _ _ hSn rfl
  rw [hs0] at f7
  generalize check_for_watch_events_on_new_supply
    (sock_write { st with supplies := st.supplies.set 0 (posted_supply st cs dist sa sb sc) } fd_s
      ok_reply) 0 = r1 at f1 f2 f4 f5 ⊢
  have hr1s : r1.supplies = st.supplies.set 0 (posted_supply st cs dist sa sb sc) := f1
  have hr1d : r1.demands = st.demands := f2
  have hr1t : r1.trace = st.trace ++ [event.write fd_s ok_reply] ++ X := f5
  have hreg : same_registry st r1 := f4
  have hpd : posted_demand r1 cd a b c = posted_demand st cd a b c := by
    simp only [posted_demand, same_registry_x hreg, same_registry_y hreg]
  have hadd := add_new_demand_of_no_demands r1 cd a b c
    (by unfold no_demands; rw [hr1d]; exact hD) (by rw [hr1d]; exact hDn)
  have hwd : (sock_write { r1 with demands := r1.demands.set 0 (posted_demand r1 cd a b c) }
      fd_d ok_reply).demands = st.demands.set 0 (posted_demand st cd a b c) := by
    rw [hpd, ← hr1d]; rfl
  have hcm := check_for_match_posted_pair_none
    (sock_write { r1 with demands := r1.demands.set 0 (posted_demand r1 cd a b c) } fd_d ok_reply)
    st cd (posted_demand st cd a b c) (posted_supply st cs dist sa sb sc)
    hS hD hSn hDn hwd hr1s hno
  have hrun : command_thread_func r1 fd_d cd (.demand a b c)
      = sock_write { r1 with demands := r1.demands.set 0 (posted_demand r1 cd a b c) } fd_d
          ok_reply := by
    show check_for_match (sock_write (add_new_demand r1 cd a b c) fd_d ok_reply) cd = _
    rw [hadd, hcm]
  rw [hrun]
  refine ⟨hwd, hr1s, X, ?_, f7⟩
  show r1.trace ++ [event.write fd_d ok_reply] = _
  rw [hr1t]

/-- As long as the distance between the two clients fits an `int`: from a store
without supplies and demands, posting a demand `D` and a supply `S` with
`dist(D,S) >= S.distance`, or with some amount of `S` below the same amount of `D`,
in either order, produces no settlement: both slots stay occupied with the posted
contents and the matching engine enqueues no notice. -/
theorem no_false_match (st : world) (fd_d cd a b c fd_s cs dist sa sb sc : Int)
    (hS : no_supplies st) (hD : no_demands st) (hSn : st.supplies ≠ []) (hDn : st.demands ≠ [])
    (hcd : cd ≠ -1) (hcs : cs ≠ -1)
    (_hfit : distance_fits (client_at st cd).x (client_at st cd).y
        (client_at st cs).x (client_at st cs).y)
    (hno : dist ≤ manhattan_distance (client_at st cd).x (client_at st cd).y
        (client_at st cs).x (client_at st cs).y ∨ sa < a ∨ sb < b ∨ sc < c)
    (fin : world)
    (hfin : fin = command_thread_func (command_thread_func st fd_d cd (.demand a b c)) fd_s cs
          (.supply dist sa sb sc) ∨
        fin = command_thread_func (command_thread_func st fd_s cs (.supply dist sa sb sc)) fd_d cd
          (.demand a b c)) :
    demand_at fin 0 = posted_demand st cd a b c ∧ (demand_at fin 0).client_id ≠ -1 ∧
    supply_at fin 0 = posted_supply st cs dist sa sb sc ∧ (supply_at fin 0).client_id ≠ -1 ∧
    (fin.trace.drop st.trace.length).filter is_engine_notice = [] := by
  rcases hfin with hfin | hfin
  · obtain ⟨h1, h2, X, h3, h4⟩ := demand_then_supply_no_match st fd_d cd a b c fd_s cs dist sa
      sb sc hS hD hSn hDn hno
    rw [← hfin] at h1 h2 h3
    have hd0 := demand_at_set_zero fin _ _ hDn h1
    have hs0 := supply_at_set_zero fin _ _ hSn h2
    refine ⟨hd0, by rw [hd0]; exact hcd, hs0, by rw [hs0]; exact hcs, ?_⟩
    rw [h3, List.append_assoc, List.drop_left]
    simp only [List.filter_append, filter_engine_notice_of_watch X _ h4, List.append_nil]
    rfl
  · obtain ⟨h1, h2, X, h3, h4⟩ := supply_then_demand_no_match st fd_d cd a b c fd_s cs dist sa
      sb sc hS hD hSn hDn hno
    rw [← hfin] at h1 h2 h3
    have hd0 := demand_at_set_zero fin _ _ hDn h1
    have hs0 := supply_at_set_zero fin _ _ hSn h2
    refine ⟨hd0, by rw [hd0]; exact hcd, hs0, by rw [hs0]; exact hcs, ?_⟩
    rw [h3, List.append_assoc, List.append_assoc, List.drop_left]
    simp only [List.filter_append, filter_engine_notice_of_watch X _ h4, List.append_nil]
    rfl

/-- On `market_world`: B at (2,2) posts `demand 6 1 1` and A at (0,0) posts
`supply 10 5 5 5`; the supply holds too little of the first resource, so both stay
as posted and the matching engine enqueues nothing. -/
theorem no_false_match_witness :
    no_supplies market_world ∧ no_demands market_world ∧
    demand_at (command_thread_func (command_thread_func market_world 5 1 (.demand 6 1 1))
      4 0 (.supply 10 5 5 5)) 0 = ⟨2, 2, 6, 1, 1, 1⟩ ∧
    supply_at (command_thread_func (command_thread_func market_world 5 1 (.demand 6 1 1))
      4 0 (.supply 10 5 5 5)) 0 = ⟨0, 0, 5, 5, 5, 10, 0⟩ ∧
    ((command_thread_func (command_thread_func market_world 5 1 (.demand 6 1 1))
      4 0 (.supply 10 5 5 5)).trace.drop market_world.trace.length).filter is_engine_notice
      = [] :=
  have h := no_false_match market_world 5 1 6 1 1 4 0 10 5 5 5 (by decide) (by decide)
    (by decide) (by decide) (by decide) (by decide) (by decide) (by decide) _ (Or.inl rfl)
  ⟨by decide, by decide, h.1.trans (by decide), h.2.2.1.trans (by decide), h.2.2.2.2⟩

/-! ### Replacing a watch -/

theorem market_world_reachable_by (ok : command → Prop) (hmove : ∀ x y, ok (.move x y)) :
    reachable_by ok market_world := by
  have h0 : reachable_by ok (init_world 2 2 2 1) := reachable_by.init 2 2 2 1
  have h1 : reachable_by ok (register_client (init_world 2 2 2 1) 4).1 :=
    reachable_by.connect 4 0 h0 (by decide) (by decide)
  have h2 : reachable_by ok (register_client (register_client (init_world 2 2 2 1) 4).1 5).1 :=
    reachable_by.connect 5 1 h1 (by decide) (by decide)
  have h3 := reachable_by.line 0 (.move 0 0) h2 (by decide) (hmove 0 0)
  exact reachable_by.line 1 (.move 2 2) h3 (by decide) (hmove 2 2)

theorem market_world_reachable : reachable market_world :=
  market_world_reachable_by _ (fun _ _ => trivial)

theorem mem_free_watches_of_ne (h : Int) (hh : h ≠ -1) (l : List watch_t) (w : watch_t)
    (hw : w ∈ free_watches_of h l) : w.client_id ≠ h := by
  unfold free_watches_of at hw
  obtain ⟨v, _, rfl⟩ := List.mem_map.1 hw
  split_ifs with e
  · exact fun e1 : (-1 : Int) = h => hh e1.symm
  · exact e

/-- When a slot is free or already owned by the caller, `add_new_watch` leaves the
caller with exactly one watch slot, holding the caller's position and the radius. -/
theorem add_new_watch_of_room (st : world) (h r : Int) (hh : h ≠ -1)
    (hroom : ∃ w ∈ st.watches, w.client_id = -1 ∨ w.client_id = h) :
    watches_of (add_new_watch st h r) h = 1 ∧
    (∀ w ∈ (add_new_watch st h r).watches, w.client_id = h →
      w = ⟨(client_at st h).x, (client_at st h).y, h, r⟩) ∧
    ∃ w ∈ (add_new_watch st h r).watches, w.client_id = h := by
  obtain ⟨w0, hw0, hfree⟩ := hroom
  have hmem : (if w0.client_id = h then { w0 with client_id := -1, watch_id := 0 } else w0)
      ∈ free_watches_of h st.watches := List.mem_map.2 ⟨w0, hw0, rfl⟩
  obtain ⟨i, hi⟩ := first_index_isSome_of_mem (fun w : watch_t => w.client_id = -1)
    (free_watches_of h st.watches) _ hmem (by
      split_ifs with e
      · simp
      · rcases hfree with g | g
        · simpa using g
        · exact absurd g e)
  obtain ⟨hlt, hp, _⟩ := first_index_some _ _ _ hi
  have hw : (add_new_watch st h r).watches = (free_watches_of h st.watches).set i
      ⟨(client_at st h).x, (client_at st h).y, h, r⟩ := by
    rw [add_new_watch_watches, hi]
  refine ⟨?_, ?_, ?_⟩
  · unfold watches_of
    rw [hw, countP_set_free_slot _ i hlt (by simpa using hp) _ h hh,
      countP_free_watches_of_self h hh]
    simp
  · intro w hwm hown
    rw [hw] at hwm
    rcases List.mem_or_eq_of_mem_set hwm with g | g
    · exact absurd hown (mem_free_watches_of_ne h hh _ w g)
    · exact g
  · rw [hw]
    exact ⟨_, List.mem_set _ _ hlt _, rfl⟩

/-- C9: in every reachable state a client owns at most one watch slot; `remove_watch`
leaves the caller with none, `add_new_watch` with at most one, no other command and
no other operation (`register_client`, the notification consumer,
`remove_client_resources`) adds a watch, and when a free watch slot exists `watch r1` followed by `watch r2` from the
same client leaves that client with exactly one watch, of radius `r2`. -/
theorem one_watch_per_client (st : world) (hr : reachable st) (h : Int) (hh : h ≠ -1) :
    watches_of st h ≤ 1 ∧
    watches_of (remove_watch st h) h = 0 ∧
    (∀ r, watches_of (add_new_watch st h r) h ≤ 1) ∧
    (∀ fd h1 cmd, (∀ r, cmd ≠ command.watch r) →
      watches_of (command_thread_func st fd h1 cmd) h ≤ watches_of st h) ∧
    (∀ fd h1, watches_of (register_client st fd).1 h = watches_of st h ∧
      watches_of (notification_thread_func st h1) h = watches_of st h ∧
      watches_of (remove_client_resources st h1) h ≤ watches_of st h) ∧
    ((∃ w ∈ st.watches, w.client_id = -1) → ∀ fd r1 r2,
      watches_of (command_thread_func (command_thread_func st fd h (.watch r1)) fd h
        (.watch r2)) h = 1 ∧
      ∀ w ∈ (command_thread_func (command_thread_func st fd h (.watch r1)) fd h
        (.watch r2)).watches, w.client_id = h → w.watch_id = r2) := by
  have hinv := watches_of_le_one st hr h hh
  refine ⟨hinv, countP_free_watches_of_self h hh _, ?_, ?_, ?_, ?_⟩
  · intro r
    exact watches_of_add_new_watch_le st h r h hh hinv
  · intro fd h1 cmd hcmd
    unfold watches_of
    rw [command_thread_func_watches]
    cases cmd with
    | watch r => exact absurd rfl (hcmd r)
    | unwatch => exact countP_free_watches_of_le h1 h hh _
    | _ => exact le_refl _
  · intro fd h1
    unfold watches_of
    rw [register_client_watches, notification_thread_func_watches,
      remove_client_resources_watches]
    exact ⟨rfl, rfl, countP_free_watches_of_le h1 h hh _⟩
  · rintro ⟨w0, hw0, hfree⟩ fd r1 r2
    obtain ⟨_, _, w1, hw1, hown1⟩ := add_new_watch_of_room st h r1 hh ⟨w0, hw0, Or.inl hfree⟩
    have hroom : ∃ w ∈ (command_thread_func st fd h (.watch r1)).watches,
        w.client_id = -1 ∨ w.client_id = h := ⟨w1, hw1, Or.inr hown1⟩
    obtain ⟨g1, g2, _⟩ := add_new_watch_of_room (command_thread_func st fd h (.watch r1)) h r2
      hh hroom
    refine ⟨g1, ?_⟩
    intro w hw hown
    rw [g2 w hw hown]

/-- C9 on `market_world`: client 1 sends `watch 3` and then `watch 5`; it is left
with one watch slot, of radius 5 at its position (2,2). -/
theorem one_watch_per_client_witness :
    reachable market_world ∧
    watches_of (command_thread_func (command_thread_func market_world 5 1 (.watch 3)) 5 1
      (.watch 5)) 1 = 1 ∧
    (command_thread_func (command_thread_func market_world 5 1 (.watch 3)) 5 1
      (.watch 5)).watches = [⟨2, 2, 1, 5⟩] :=
  ⟨market_world_reachable,
    ((one_watch_per_client market_world market_world_reachable 1 (by decide)).2.2.2.2.2
      ⟨free_watch, by decide, rfl⟩ 5 3 5).1, by decide⟩

/-! ### Moving does not move a watch -/

theorem move_client_frame (st : world) (h x y : Int) :
    (move_client st h x y).supplies = st.supplies ∧
    (move_client st h x y).demands = st.demands ∧
    (move_client st h x y).watches = st.watches ∧
    (move_client st h x y).trace = st.trace ∧
    (∀ c, c ≠ h → client_at (move_client st h x y) c = client_at st c) ∧
    (0 ≤ h → h < st.clients.length →
      client_at (move_client st h x y) h = { client_at st h with x := x, y := y }) := by
  unfold move_client
  refine ⟨client_put_supplies _ _ _, client_put_demands _ _ _, client_put_watches _ _ _,
    client_put_trace _ _ _, ?_, ?_⟩
  · intro c hc
    rw [client_at_client_put, if_neg (fun g => hc g.2.2)]
  · intro h0 h1
    rw [client_at_client_put, if_pos ⟨h0, h1, rfl⟩]

theorem run_moves_frame (moves : List (Int × Int × Int × Int)) (st : world) :
    (run_moves st moves).supplies = st.supplies ∧ (run_moves st moves).demands = st.demands ∧
    (run_moves st moves).watches = st.watches := by
  induction moves generalizing st with
  | nil => exact ⟨rfl, rfl, rfl⟩
  | cons m t ih =>
    obtain ⟨h1, h2, h3⟩ := ih (command_thread_func st m.1 m.2.1 (.move m.2.2.1 m.2.2.2))
    obtain ⟨f1, f2, f3, _⟩ := move_client_frame st m.2.1 m.2.2.1 m.2.2.2
    exact ⟨h1.trans f1, h2.trans f2, h3.trans f3⟩

/-- The function `move_client` changes only the position fields of the caller; after
`watch R` at position `p`, any sequence of `move` lines leaves the three tables as
they were, so the watch slot still holds `p` and `R`, and in every later state with
that watch table, as long as the distances from the watches to the supply fit an
`int`, the watch scan of the compiled server decides from the recorded position `p`
(through `watch_slot_events` of the stored slot), not from the position of the
subscriber at that time. -/
theorem watch_position_frozen (st : world) (fd h R : Int)
    (moves : List (Int × Int × Int × Int)) :
    (∀ (w : world) (h1 x y : Int),
      (move_client w h1 x y).supplies = w.supplies ∧
      (move_client w h1 x y).demands = w.demands ∧
      (move_client w h1 x y).watches = w.watches ∧
      (move_client w h1 x y).trace = w.trace ∧
      (∀ c, c ≠ h1 → client_at (move_client w h1 x y) c = client_at w c) ∧
      (0 ≤ h1 → h1 < w.clients.length →
        client_at (move_client w h1 x y) h1 = { client_at w h1 with x := x, y := y })) ∧
    (run_moves (command_thread_func st fd h (.watch R)) moves).watches
      = (command_thread_func st fd h (.watch R)).watches ∧
    (run_moves (command_thread_func st fd h (.watch R)) moves).supplies = st.supplies ∧
    (run_moves (command_thread_func st fd h (.watch R)) moves).demands = st.demands ∧
    (∀ i, first_index (fun w => w.client_id = -1) (free_watches_of h st.watches) = some i →
      watch_at (run_moves (command_thread_func st fd h (.watch R)) moves) i
        = ⟨(client_at st h).x, (client_at st h).y, h, R⟩) ∧
    (∀ (later : world) (idx : Nat),
      later.watches = (run_moves (command_thread_func st fd h (.watch R)) moves).watches →
      (supply_at later idx).client_id ≠ -1 → watches_fit later idx →
      (check_for_watch_events_on_new_supply_wrapped later idx).trace
        = later.trace ++ (List.range (command_thread_func st fd h (.watch R)).watches.length).flatMap
            (fun i => watch_slot_events (watch_at (command_thread_func st fd h (.watch R)) i)
              (supply_at later idx))) := by
  obtain ⟨m1, m2, m3⟩ := run_moves_frame moves (command_thread_func st fd h (.watch R))
  have hw : (command_thread_func st fd h (.watch R)).watches = (add_new_watch st h R).watches :=
    rfl
  refine ⟨move_client_frame, m3, ?_, ?_, ?_, ?_⟩
  · rw [m1]
    show (add_new_watch st h R).supplies = st.supplies
    dsimp only [add_new_watch]
    split <;> rfl
  · rw [m2]
    show (add_new_watch st h R).demands = st.demands
    dsimp only [add_new_watch]
    split <;> rfl
  · intro i hi
    obtain ⟨hlt, _, _⟩ := first_index_some _ _ _ hi
    unfold watch_at
    rw [m3, hw, add_new_watch_watches, hi]
    simp [List.getD_eq_getElem?_getD, hlt]
  · intro later idx hl hocc hfit
    rw [check_for_watch_events_wrapped_of_fits later idx hfit,
      (check_for_watch_events_of_occupied later idx hocc).2.2.2.2, hl, m3]
    have : ∀ i, watch_at later i = watch_at (command_thread_func st fd h (.watch R)) i := by
      intro i
      unfold watch_at
      rw [hl, m3]
    simp only [this]

/-! ### Supplies stay positive -/

theorem supplies_ok_of_eq {st st1 : world} (h : st1.supplies = st.supplies)
    (hok : supplies_ok st) : supplies_ok st1 := by
  unfold supplies_ok
  rw [h]
  exact hok

theorem supply_at_mem_or_free (st : world) (i : Nat) :
    supply_at st i ∈ st.supplies ∨ supply_at st i = free_supply := by
  unfold supply_at
  rw [List.getD_eq_getElem?_getD]
  rcases Nat.lt_or_ge i st.supplies.length with hi | hi
  · left
    rw [List.getElem?_eq_getElem hi]
    exact List.getElem_mem hi
  · right
    rw [List.getElem?_eq_none hi]
    rfl

theorem supplies_ok_supply_at {st : world} (hok : supplies_ok st) (i : Nat)
    (hocc : (supply_at st i).client_id ≠ -1) : positive_supply (supply_at st i) := by
  rcases supply_at_mem_or_free st i with h | h
  · exact hok _ h hocc
  · rw [h] at hocc
    exact absurd rfl hocc

theorem settled_supply_ok (s : supply) (d : demand)
    (ha : s.a_amount ≥ d.a_amount) (hb : s.b_amount ≥ d.b_amount) (hc : s.c_amount ≥ d.c_amount)
    (hocc : (settled_supply s d).client_id ≠ -1) : positive_supply (settled_supply s d) := by
  unfold settled_supply at hocc ⊢
  split_ifs at hocc ⊢ with hz
  · exact absurd rfl hocc
  · unfold positive_supply
    dsimp only
    refine ⟨by omega, by omega, by omega, ?_⟩
    by_contra hcon
    apply hz
    omega

theorem supplies_ok_match (st : world) (j i : Nat) (hok : supplies_ok st)
    (hm : check_case_match st j i = 1) : supplies_ok (match_demand_and_supply st j i) := by
  obtain ⟨_, _, _, ha, hb, hc⟩ := (check_case_match_eq_one_iff st j i).1 hm
  unfold supplies_ok
  rw [match_demand_and_supply_supplies]
  intro s hs hocc
  rcases List.mem_or_eq_of_mem_set hs with g | g
  · exact hok s g hocc
  · rw [g] at hocc ⊢
    exact settled_supply_ok _ _ ha hb hc hocc

theorem supplies_ok_check_for_match_body (j : Nat) (st : world) (i : Nat)
    (hok : supplies_ok st) : supplies_ok (check_for_match_body j st i) := by
  rcases check_case_match_cases st j i with h1 | h0
  · rw [check_for_match_body_of_match st j i h1]
    exact supplies_ok_match st j i hok h1
  · rw [check_for_match_body_of_not_match st j i (by rw [h0]; decide)]
    exact hok

theorem supplies_ok_check_for_match_supplies (st : world) (j m : Nat)
    (hok : supplies_ok st) : supplies_ok (check_for_match_supplies st j m) := by
  induction m with
  | zero => exact hok
  | succ m ih =>
    rw [check_for_match_supplies_succ]
    exact supplies_ok_check_for_match_body j _ m ih

theorem supplies_ok_check_for_match_upto (st : world) (k : Nat)
    (hok : supplies_ok st) : supplies_ok (check_for_match_upto st k) := by
  induction k with
  | zero => exact hok
  | succ k ih =>
    rw [check_for_match_upto_succ]
    unfold check_for_match_demand
    split_ifs
    · exact supplies_ok_check_for_match_supplies _ k _ ih
    · exact ih

theorem supplies_ok_add_new_demand (st : world) (h a b c : Int) (hok : supplies_ok st) :
    supplies_ok (add_new_demand st h a b c) := by
  refine supplies_ok_of_eq ?_ hok
  unfold add_new_demand
  split <;> rfl

theorem supplies_ok_add_new_supply (st : world) (h dist a b c : Int) (hok : supplies_ok st)
    (hv : valid_amounts (.supply dist a b c)) :
    supplies_ok (add_new_supply st h dist a b c).1 := by
  unfold add_new_supply
  split
  · intro s hs hocc
    rcases List.mem_or_eq_of_mem_set hs with g | g
    · exact hok s g hocc
    · rw [g]
      exact hv.1
  · exact hok

theorem supplies_ok_command (st : world) (fd h : Int) (cmd : command) (hok : supplies_ok st)
    (hv : valid_amounts cmd) : supplies_ok (command_thread_func st fd h cmd) := by
  cases cmd with
  | move x y => exact supplies_ok_of_eq (move_client_frame st h x y).1 hok
  | demand a b c =>
    exact supplies_ok_check_for_match_upto _ _ (supplies_ok_add_new_demand st h a b c hok)
  | supply dist a b c =>
    have h1 : supplies_ok (check_for_match
        (sock_write (add_new_supply st h dist a b c).1 fd ok_reply) h) :=
      supplies_ok_check_for_match_upto _ _ (supplies_ok_add_new_supply st h dist a b c hok hv)
    show supplies_ok (let r := add_new_supply st h dist a b c
          let st1 := check_for_match (sock_write r.1 fd ok_reply) h
          if r.2 ≠ -1 then check_for_watch_events_on_new_supply st1 r.2.toNat else st1)
    dsimp only
    split_ifs
    · exact supplies_ok_of_eq (check_for_watch_events_frame _ _).1 h1
    · exact h1
  | watch r =>
    refine supplies_ok_of_eq ?_ hok
    show (add_new_watch st h r).supplies = st.supplies
    dsimp only [add_new_watch]
    split <;> rfl
  | unwatch => exact hok
  | listsupplies => exact supplies_ok_of_eq (list_supplies_frame st h).1 hok
  | listdemands => exact supplies_ok_of_eq (list_demands_frame st h).1 hok
  | mysupplies => exact supplies_ok_of_eq (my_supplies_frame st h).1 hok
  | mydemands => exact supplies_ok_of_eq (my_demands_frame st h).1 hok
  | quit => exact hok
  | invalid => exact hok

theorem supplies_ok_reachable (st : world) (hr : reachable_by valid_amounts st) :
    supplies_ok st := by
  induction hr with
  | init mc ms md mw =>
    intro s hs hocc
    rw [List.eq_of_mem_replicate hs] at hocc
    exact absurd rfl hocc
  | connect fd i _ _ _ ih =>
    refine supplies_ok_of_eq ?_ ih
    unfold register_client
    split <;> rfl
  | line h cmd _ _ hv ih => exact supplies_ok_command _ _ h cmd ih hv
  | notify h _ _ ih =>
    refine supplies_ok_of_eq ?_ ih
    dsimp only [notification_thread_func, notify_client, sock_write]
    split_ifs <;> simp
  | disconnect h _ _ ih =>
    intro s hs hocc
    dsimp only [remove_client_resources] at hs
    rw [client_put_supplies] at hs
    obtain ⟨v, hv, rfl⟩ := List.mem_map.1 hs
    split_ifs at hocc ⊢ with e
    · exact absurd rfl hocc
    · exact ih v hv hocc

theorem supplies_ok_passes_through (st : world) (hp : passes_through valid_amounts st) :
    supplies_ok st := by
  cases hp with
  | between hr => exact supplies_ok_reachable st hr
  | in_demand h a b c k m hr _ _ =>
    exact supplies_ok_check_for_match_supplies _ k m
      (supplies_ok_check_for_match_upto _ k
        (supplies_ok_add_new_demand _ h a b c (supplies_ok_reachable _ hr)))
  | in_supply h dist a b c k m hr _ hv =>
    exact supplies_ok_check_for_match_supplies _ k m
      (supplies_ok_check_for_match_upto _ k
        (supplies_ok_add_new_supply _ h dist a b c (supplies_ok_reachable _ hr) hv))

/-! ### The `supply` line and the watchers -/

theorem extends_with_refl (P : event → Prop) (st : world) : extends_with P st st :=
  ⟨[], by simp, fun e he => absurd he (List.not_mem_nil e)⟩

theorem extends_with_trans {P : event → Prop} {a b c : world}
    (h1 : extends_with P a b) (h2 : extends_with P b c) : extends_with P a c := by
  obtain ⟨E1, e1, p1⟩ := h1
  obtain ⟨E2, e2, p2⟩ := h2
  refine ⟨E1 ++ E2, by rw [e2, e1, List.append_assoc], ?_⟩
  intro e he
  rcases List.mem_append.1 he with g | g
  · exact p1 e g
  · exact p2 e g

theorem extends_with_foldl_range (P : event → Prop) (f : world → Nat → world)
    (hf : ∀ w i, extends_with P w (f w i)) (st : world) (k : Nat) :
    extends_with P st ((List.range k).foldl f st) := by
  induction k with
  | zero => exact extends_with_refl P st
  | succ k ih =>
    rw [List.range_succ, List.foldl_append, List.foldl_cons, List.foldl_nil]
    exact extends_with_trans ih (hf _ k)

theorem settlement_events_not_appeared (c : Int) (s : supply) (d : demand) :
    ∀ e ∈ settlement_events s d, appeared_to c e = false := by
  intro e he
  unfold settlement_events at he
  rcases List.mem_append.1 he with g | g
  · rcases List.mem_append.1 g with g1 | g1
    · split_ifs at g1
      · rw [List.mem_singleton.1 g1]; exact appeared_to_demand_message _ _ _ _
      · exact absurd g1 (List.not_mem_nil e)
    · split_ifs at g1
      · rw [List.mem_singleton.1 g1]; exact appeared_to_supply_message _ _ _ _
      · exact absurd g1 (List.not_mem_nil e)
  · split_ifs at g
    · rw [List.mem_singleton.1 g]; exact appeared_to_removed_message _ _
    · exact absurd g (List.not_mem_nil e)

theorem extends_with_match (c : Int) (st : world) (j i : Nat) :
    extends_with (fun e => appeared_to c e = false) st (match_demand_and_supply st j i) :=
  ⟨_, match_demand_and_supply_trace st j i, settlement_events_not_appeared c _ _⟩

theorem extends_with_check_for_match_body (c : Int) (j : Nat) (st : world) (i : Nat) :
    extends_with (fun e => appeared_to c e = false) st (check_for_match_body j st i) := by
  unfold check_for_match_body
  split_ifs
  · exact extends_with_match c st j i
  · exact extends_with_refl _ st

theorem extends_with_check_for_match (c : Int) (st : world) (h : Int) :
    extends_with (fun e => appeared_to c e = false) st (check_for_match st h) := by
  refine extends_with_foldl_range _ _ ?_ st _
  intro w j
  unfold check_for_match_demand
  split_ifs
  · exact extends_with_foldl_range _ _ (extends_with_check_for_match_body c j) w _
  · exact extends_with_refl _ w

/-- C7 as stated fails: in `zero_watch_world`, a reachable state, watch slot 0 is
owned by client 1 with radius 0 and recorded position (2,2), supply slot 0 is
occupied at (2,2), so the distance is 0 <= 0; yet the scan for that supply enqueues
nothing. -/
theorem watch_radius_zero_not_notified :
    reachable zero_watch_world ∧
    (supply_at zero_watch_world 0).client_id ≠ -1 ∧
    watch_at zero_watch_world 0 = ⟨2, 2, 1, 0⟩ ∧
    manhattan_distance (watch_at zero_watch_world 0).x (watch_at zero_watch_world 0).y
        (supply_at zero_watch_world 0).x (supply_at zero_watch_world 0).y
      ≤ (watch_at zero_watch_world 0).watch_id ∧
    (check_for_watch_events_on_new_supply zero_watch_world 0).trace = zero_watch_world.trace :=
  ⟨reachable_by.line 1 (.supply 5 1 1 1)
      (reachable_by.line 1 (.watch 0) market_world_reachable (by decide) trivial)
      (by decide) trivial,
    by decide, by decide, by decide, by decide⟩

theorem waiting_world_reachable : reachable waiting_world :=
  reachable_by.line 1 (.demand 5 5 5)
    (reachable_by.line 1 (.watch 5) market_world_reachable (by decide) trivial)
    (by decide) trivial

/-- On `market_world`: client 1 sends `watch 5` at (2,2) and then moves to
(100,100); a supply of client 0 at (0,0), at distance 4 from the recorded position
and 200 from the current one, is announced to client 1. -/
theorem watch_position_frozen_witness :
    (client_at (run_moves (command_thread_func market_world 5 1 (.watch 5))
      [(5, 1, 100, 100)]) 1).x = 100 ∧
    (check_for_watch_events_on_new_supply_wrapped
      (add_new_supply (run_moves (command_thread_func market_world 5 1 (.watch 5))
        [(5, 1, 100, 100)]) 0 10 5 5 5).1 0).trace
      = (add_new_supply (run_moves (command_thread_func market_world 5 1 (.watch 5))
          [(5, 1, 100, 100)]) 0 10 5 5 5).1.trace
        ++ [event.enqueue 1 "A supply [5,5,5] is inserted at (0,0).\n"] :=
  ⟨by decide,
    ((watch_position_frozen market_world 5 1 5 [(5, 1, 100, 100)]).2.2.2.2.2
      (add_new_supply (run_moves (command_thread_func market_world 5 1 (.watch 5))
        [(5, 1, 100, 100)]) 0 10 5 5 5).1 0 (by decide) (by decide) (by decide)).trans
      (by decide)⟩

theorem supply_at_ne_of_owns_nothing {st : world} {h : Int} (hh : h ≠ -1)
    (ho : owns_nothing st h) (i : Nat) : (supply_at st i).client_id ≠ h := by
  rcases supply_at_mem_or_free st i with g | g
  · exact ho.1 _ g
  · rw [g]; exact fun e => hh e.symm

theorem demand_at_mem_or_free (st : world) (j : Nat) :
    demand_at st j ∈ st.demands ∨ demand_at st j = free_demand := by
  unfold demand_at
  rw [List.getD_eq_getElem?_getD]
  rcases Nat.lt_or_ge j st.demands.length with hj | hj
  · left
    rw [List.getElem?_eq_getElem hj]
    exact List.getElem_mem hj
  · right
    rw [List.getElem?_eq_none hj]
    rfl

theorem watch_at_mem_or_free (st : world) (i : Nat) :
    watch_at st i ∈ st.watches ∨ watch_at st i = free_watch := by
  unfold watch_at
  rw [List.getD_eq_getElem?_getD]
  rcases Nat.lt_or_ge i st.watches.length with hi | hi
  · left
    rw [List.getElem?_eq_getElem hi]
    exact List.getElem_mem hi
  · right
    rw [List.getElem?_eq_none hi]
    rfl

theorem demand_at_ne_of_owns_nothing {st : world} {h : Int} (hh : h ≠ -1)
    (ho : owns_nothing st h) (j : Nat) : (demand_at st j).client_id ≠ h := by
  rcases demand_at_mem_or_free st j with g | g
  · exact ho.2.1 _ g
  · rw [g]; exact fun e => hh e.symm

theorem watch_at_ne_of_owns_nothing {st : world} {h : Int} (hh : h ≠ -1)
    (ho : owns_nothing st h) (i : Nat) : (watch_at st i).client_id ≠ h := by
  rcases watch_at_mem_or_free st i with g | g
  · exact ho.2.2 _ g
  · rw [g]; exact fun e => hh e.symm

theorem owns_nothing_remove_client_resources (st : world) (h : Int) (hh : h ≠ -1) :
    owns_nothing (remove_client_resources st h) h := by
  dsimp only [remove_client_resources, owns_nothing]
  rw [client_put_supplies, client_put_demands, client_put_watches]
  refine ⟨?_, ?_, ?_⟩
  · intro s hs
    obtain ⟨v, _, rfl⟩ := List.mem_map.1 hs
    split_ifs with e
    · exact fun e1 => hh e1.symm
    · exact e
  · intro d hd
    obtain ⟨v, _, rfl⟩ := List.mem_map.1 hd
    split_ifs with e
    · exact fun e1 => hh e1.symm
    · exact e
  · intro w hw
    obtain ⟨v, _, rfl⟩ := List.mem_map.1 hw
    split_ifs with e
    · exact fun e1 : (-1 : Int) = h => hh e1.symm
    · exact e

theorem getD_map_if {α : Type} (p : α → Prop) [DecidablePred p] (f : α → α) (l : List α)
    (d : α) (hd : ¬ p d) (i : Nat) :
    (l.map fun a => if p a then f a else a).getD i d
      = if p (l.getD i d) then f (l.getD i d) else l.getD i d := by
  rw [List.getD_eq_getElem?_getD, List.getD_eq_getElem?_getD, List.getElem?_map]
  rcases Nat.lt_or_ge i l.length with hi | hi
  · rw [List.getElem?_eq_getElem hi]
    rfl
  · rw [List.getElem?_eq_none hi]
    simp [hd]

theorem owns_nothing_match (st : world) (h : Int) (hh : h ≠ -1) (j i : Nat)
    (ho : owns_nothing st h) : owns_nothing (match_demand_and_supply st j i) h := by
  refine ⟨?_, ?_, ?_⟩
  · rw [match_demand_and_supply_supplies]
    intro s hs
    rcases List.mem_or_eq_of_mem_set hs with g | g
    · exact ho.1 s g
    · rw [g]
      unfold settled_supply
      split_ifs
      · exact fun e => hh e.symm
      · exact supply_at_ne_of_owns_nothing hh ho i
  · rw [match_demand_and_supply_demands]
    intro d hd
    rcases List.mem_or_eq_of_mem_set hd with g | g
    · exact ho.2.1 d g
    · rw [g]; exact fun e => hh e.symm
  · rw [match_demand_and_supply_watches]
    exact ho.2.2

theorem not_for_settlement_events (h : Int) (s : supply) (d : demand)
    (hs : s.client_id ≠ h) (hd : d.client_id ≠ h) :
    ∀ e ∈ settlement_events s d, not_for h e := by
  intro e he msg
  unfold settlement_events at he
  rcases List.mem_append.1 he with g | g
  · rcases List.mem_append.1 g with g1 | g1
    · split_ifs at g1
      · rw [List.mem_singleton.1 g1]
        exact fun e1 => hd (event.enqueue.inj e1).1
      · exact absurd g1 (List.not_mem_nil e)
    · split_ifs at g1
      · rw [List.mem_singleton.1 g1]
        exact fun e1 => hs (event.enqueue.inj e1).1
      · exact absurd g1 (List.not_mem_nil e)
  · split_ifs at g
    · rw [List.mem_singleton.1 g]
      exact fun e1 => hs (event.enqueue.inj e1).1
    · exact absurd g (List.not_mem_nil e)

/-- The conjunction of "owns nothing" and "no notification for `h` was added", as a
relation between the state before and the state after. -/
theorem quiet_foldl_range (h : Int) (f : world → Nat → world)
    (hf : ∀ w i, owns_nothing w h → owns_nothing (f w i) h ∧ extends_with (not_for h) w (f w i))
    (st : world) (k : Nat) (ho : owns_nothing st h) :
    owns_nothing ((List.range k).foldl f st) h ∧
      extends_with (not_for h) st ((List.range k).foldl f st) := by
  induction k with
  | zero => exact ⟨ho, extends_with_refl _ st⟩
  | succ k ih =>
    rw [List.range_succ, List.foldl_append, List.foldl_cons, List.foldl_nil]
    obtain ⟨g1, g2⟩ := hf _ k ih.1
    exact ⟨g1, extends_with_trans ih.2 g2⟩

theorem quiet_check_for_match_body (h : Int) (hh : h ≠ -1) (j : Nat) (st : world) (i : Nat)
    (ho : owns_nothing st h) :
    owns_nothing (check_for_match_body j st i) h ∧
      extends_with (not_for h) st (check_for_match_body j st i) := by
  unfold check_for_match_body
  split_ifs
  · exact ⟨owns_nothing_match st h hh j i ho,
      _, match_demand_and_supply_trace st j i,
      not_for_settlement_events h _ _ (supply_at_ne_of_owns_nothing hh ho i)
        (demand_at_ne_of_owns_nothing hh ho j)⟩
  · exact ⟨ho, extends_with_refl _ st⟩

theorem quiet_check_for_match (h : Int) (hh : h ≠ -1) (st : world) (c : Int)
    (ho : owns_nothing st h) :
    owns_nothing (check_for_match st c) h ∧
      extends_with (not_for h) st (check_for_match st c) := by
  refine quiet_foldl_range h _ ?_ st _ ho
  intro w j hw
  unfold check_for_match_demand
  split_ifs
  · exact quiet_foldl_range h _ (quiet_check_for_match_body h hh j) w _ hw
  · exact ⟨hw, extends_with_refl _ w⟩

theorem quiet_check_for_watch_events (h : Int) (hh : h ≠ -1) (st : world) (idx : Nat)
    (ho : owns_nothing st h) :
    owns_nothing (check_for_watch_events_on_new_supply st idx) h ∧
      extends_with (not_for h) st (check_for_watch_events_on_new_supply st idx) := by
  unfold check_for_watch_events_on_new_supply
  split_ifs
  · exact ⟨ho, extends_with_refl _ st⟩
  · refine quiet_foldl_range h _ ?_ st _ ho
    intro w i hw
    obtain ⟨b1, b2, b3, _, b5⟩ := watch_event_body_spec idx w i
    refine ⟨⟨by rw [b1]; exact hw.1, by rw [b2]; exact hw.2.1, by rw [b3]; exact hw.2.2⟩,
      _, b5, ?_⟩
    intro e he msg
    unfold watch_slot_events at he
    split_ifs at he
    · rw [List.mem_singleton.1 he]
      exact fun e1 => watch_at_ne_of_owns_nothing hh hw i (event.enqueue.inj e1).1
    · exact absurd he (List.not_mem_nil e)

/-- C11: after `remove_client_resources(h)` no supply, demand or watch slot is owned
by `h` and the registry slot `h` is free (socket and id are -1); every slot of the
three tables that was not owned by `h` and every other registry entry is unchanged;
and in that state, as in every state in which `h` owns nothing, a matching pass or
a watch scan settles nothing for `h`: it leaves `h` without slots and enqueues no
notification for `h`. -/
theorem remove_client_resources_spec (st : world) (h : Int) (h0 : 0 ≤ h)
    (hlt : h < st.clients.length) :
    owns_nothing (remove_client_resources st h) h ∧
    (client_at (remove_client_resources st h) h).client_socket = -1 ∧
    (client_at (remove_client_resources st h) h).client_id = -1 ∧
    (∀ i, (supply_at st i).client_id ≠ h →
      supply_at (remove_client_resources st h) i = supply_at st i) ∧
    (∀ j, (demand_at st j).client_id ≠ h →
      demand_at (remove_client_resources st h) j = demand_at st j) ∧
    (∀ i, (watch_at st i).client_id ≠ h →
      watch_at (remove_client_resources st h) i = watch_at st i) ∧
    (∀ c, c ≠ h → client_at (remove_client_resources st h) c = client_at st c) ∧
    (∀ j i, (demand_at st j).client_id = h ∨ (supply_at st i).client_id = h →
      check_case_match (remove_client_resources st h) j i = 0) ∧
    (∀ (w : world), owns_nothing w h →
      (∀ c, owns_nothing (check_for_match w c) h ∧
        extends_with (not_for h) w (check_for_match w c)) ∧
      (∀ idx, owns_nothing (check_for_watch_events_on_new_supply w idx) h ∧
        extends_with (not_for h) w (check_for_watch_events_on_new_supply w idx))) := by
  have hh : h ≠ -1 := by omega
  have hs : ∀ i, supply_at (remove_client_resources st h) i
      = if (supply_at st i).client_id = h then free_supply else supply_at st i := by
    intro i
    dsimp only [remove_client_resources, supply_at]
    rw [client_put_supplies]
    exact getD_map_if (fun s : supply => s.client_id = h) (fun _ => free_supply) _ _
      (fun e : (-1 : Int) = h => hh e.symm) i
  have hd : ∀ j, demand_at (remove_client_resources st h) j
      = if (demand_at st j).client_id = h then free_demand else demand_at st j := by
    intro j
    dsimp only [remove_client_resources, demand_at]
    rw [client_put_demands]
    exact getD_map_if (fun d : demand => d.client_id = h) (fun _ => free_demand) _ _
      (fun e : (-1 : Int) = h => hh e.symm) j
  have hw : ∀ i, watch_at (remove_client_resources st h) i
      = if (watch_at st i).client_id = h
        then { watch_at st i with client_id := -1, watch_id := 0 } else watch_at st i := by
    intro i
    dsimp only [remove_client_resources, watch_at]
    rw [client_put_watches]
    exact getD_map_if (fun w : watch_t => w.client_id = h)
      (fun w => { w with client_id := -1, watch_id := 0 }) _ _
      (fun e : (-1 : Int) = h => hh e.symm) i
  have hc : ∀ c, client_at (remove_client_resources st h) c
      = if c = h then { client_at st h with client_socket := -1, client_id := -1 }
        else client_at st c := by
    intro c
    dsimp only [remove_client_resources]
    rw [client_at_client_put]
    by_cases e : c = h
    · rw [if_pos ⟨h0, hlt, e⟩, if_pos e]
      rfl
    · rw [if_neg (fun g => e g.2.2), if_neg e]
      rfl
  refine ⟨owns_nothing_remove_client_resources st h hh, ?_, ?_, ?_, ?_, ?_, ?_, ?_, ?_⟩
  · rw [hc, if_pos rfl]
  · rw [hc, if_pos rfl]
  · intro i hi
    rw [hs, if_neg hi]
  · intro j hj
    rw [hd, if_neg hj]
  · intro i hi
    rw [hw, if_neg hi]
  · intro c hne
    rw [hc, if_neg hne]
  · rintro j i (g | g)
    · exact check_case_match_of_free_demand _ j i (by rw [hd, if_pos g]; rfl)
    · exact check_case_match_of_free_supply _ j i (by rw [hs, if_pos g]; rfl)
  · intro w how
    exact ⟨fun c => quiet_check_for_match h hh w c how,
      fun idx => quiet_check_for_watch_events h hh w idx how⟩

/-- C11 on `waiting_world`, where client 1 holds a watch and a demand: after its
release client 1 owns nothing, its registry slot is free, and the entry of client 0
is as before. -/
theorem remove_client_resources_spec_witness :
    (demand_at waiting_world 0).client_id = 1 ∧ (watch_at waiting_world 0).client_id = 1 ∧
    owns_nothing (remove_client_resources waiting_world 1) 1 ∧
    (client_at (remove_client_resources waiting_world 1) 1).client_socket = -1 ∧
    (client_at (remove_client_resources waiting_world 1) 1).client_id = -1 ∧
    client_at (remove_client_resources waiting_world 1) 0 = client_at waiting_world 0 ∧
    demand_at (remove_client_resources waiting_world 1) 0 = free_demand :=
  have h := remove_client_resources_spec waiting_world 1 (by decide) (by decide)
  ⟨by decide, by decide, h.1, h.2.1, h.2.2.1, h.2.2.2.2.2.2.1 0 (by decide), by decide⟩

/-! ### Registering a client -/

theorem same_sessions_refl (st : world) : same_sessions st st := rfl

theorem same_sessions_trans {a b c : world} (h1 : same_sessions a b) (h2 : same_sessions b c) :
    same_sessions a c := Eq.trans h2 h1

theorem same_sessions_of_same_registry {st st1 : world} (h : same_registry st st1) :
    same_sessions st st1 := by
  unfold same_sessions
  unfold same_registry at h
  have := congrArg (List.map fun k : Int × Int × Int × Int => (k.1, k.2.2.2)) h
  simpa [List.map_map, Function.comp, registry_key, session_key] using this

theorem same_sessions_of_clients_eq {st st1 : world} (h : st1.clients = st.clients) :
    same_sessions st st1 := by
  unfold same_sessions
  rw [h]

theorem same_sessions_length {st st1 : world} (h : same_sessions st st1) :
    st1.clients.length = st.clients.length := by
  have := congrArg List.length h
  simpa using this

theorem same_sessions_client_at {st st1 : world} (h : same_sessions st st1) (c : Int) :
    session_key (client_at st1 c) = session_key (client_at st c) := by
  unfold client_at
  split_ifs
  · have h1 := List.getD_map st1.clients free_client (n := c.toNat) session_key
    have h2 := List.getD_map st.clients free_client (n := c.toNat) session_key
    rw [← h1, ← h2, h]
  · rfl

theorem same_sessions_client_socket {st st1 : world} (h : same_sessions st st1) (c : Int) :
    (client_at st1 c).client_socket = (client_at st c).client_socket :=
  congrArg Prod.snd (same_sessions_client_at h c)

theorem same_sessions_client_id {st st1 : world} (h : same_sessions st st1) (c : Int) :
    (client_at st1 c).client_id = (client_at st c).client_id :=
  congrArg Prod.fst (same_sessions_client_at h c)

theorem live_of_same_sessions {st st1 : world} (h : same_sessions st st1) (c : Int)
    (hl : live st c) : live st1 c := by
  unfold live at *
  rw [same_sessions_length h, same_sessions_client_socket h]
  exact hl

theorem same_sessions_client_put (st : world) (h : Int) (v : client)
    (hv : session_key v = session_key (client_at st h)) :
    same_sessions st (client_put st h v) := by
  unfold same_sessions client_put
  split_ifs with h0
  · unfold client_at at hv
    rw [if_pos h0] at hv
    exact map_set_of_key_eq session_key st.clients h.toNat v free_client hv
  · rfl

theorem same_sessions_command (st : world) (fd h : Int) (cmd : command) :
    same_sessions st (command_thread_func st fd h cmd) := by
  cases cmd with
  | move x y => exact same_sessions_client_put st h _ rfl
  | demand a b c =>
    refine same_sessions_trans (b := sock_write (add_new_demand st h a b c) fd ok_reply) ?_
      (same_sessions_of_same_registry (same_registry_check_for_match _ h))
    apply same_sessions_of_clients_eq
    show (add_new_demand st h a b c).clients = st.clients
    unfold add_new_demand
    split <;> rfl
  | supply dist a b c =>
    have h1 : same_sessions st (sock_write (add_new_supply st h dist a b c).1 fd ok_reply) := by
      apply same_sessions_of_clients_eq
      show (add_new_supply st h dist a b c).1.clients = st.clients
      unfold add_new_supply
      split <;> rfl
    have h2 := same_sessions_trans h1
      (same_sessions_of_same_registry (same_registry_check_for_match _ h))
    show same_sessions st (let r := add_new_supply st h dist a b c
          let st1 := check_for_match (sock_write r.1 fd ok_reply) h
          if r.2 ≠ -1 then check_for_watch_events_on_new_supply st1 r.2.toNat else st1)
    dsimp only
    split_ifs
    · exact same_sessions_trans h2
        (same_sessions_of_same_registry (same_registry_check_for_watch_events _ _))
    · exact h2
  | watch r =>
    apply same_sessions_of_clients_eq
    show (add_new_watch st h r).clients = st.clients
    dsimp only [add_new_watch]
    split <;> rfl
  | unwatch => exact same_sessions_refl st
  | listsupplies => exact same_sessions_of_clients_eq (list_supplies_frame st h).2.2.2
  | listdemands => exact same_sessions_of_clients_eq (list_demands_frame st h).2.2.2
  | mysupplies => exact same_sessions_of_clients_eq (my_supplies_frame st h).2.2.2
  | mydemands => exact same_sessions_of_clients_eq (my_demands_frame st h).2.2.2
  | quit => exact same_sessions_refl st
  | invalid => exact same_sessions_refl st

theorem same_sessions_notification_thread_func (st : world) (h : Int) :
    same_sessions st (notification_thread_func st h) := by
  dsimp only [notification_thread_func, notify_client]
  split_ifs
  · exact same_sessions_client_put st h _ rfl
  · have h1 := same_sessions_client_put st h
      { client_at st h with
        notif_tail := ((client_at st h).notif_tail + 1).tmod MAX_NOTIFICATIONS } rfl
    exact h1
  · exact same_sessions_refl st

theorem client_at_nat (st : world) (i : Nat) :
    client_at st (i : Int) = st.clients.getD i free_client := by
  unfold client_at
  rw [if_pos (Int.ofNat_nonneg i)]
  rfl

/-- The registry after `register_client` found slot `i`. -/
theorem register_client_of_some (st : world) (fd : Int) (i : Nat)
    (h : first_index (fun c : client => c.client_socket = -1) st.clients = some i) :
    register_client st fd
      = ({ st with clients := st.clients.set i (registered_entry (client_at st i) fd i) },
          some i) := by
  unfold register_client
  rw [h, client_at_nat]
  rfl

theorem client_at_remove_client_resources_of_ne (st : world) (h c : Int) (hne : c ≠ h) :
    client_at (remove_client_resources st h) c = client_at st c := by
  dsimp only [remove_client_resources]
  rw [client_at_client_put, if_neg (fun g => hne g.2.2)]
  rfl

theorem remove_client_resources_clients_length (st : world) (h : Int) :
    (remove_client_resources st h).clients.length = st.clients.length := by
  dsimp only [remove_client_resources]
  rw [client_put_clients_length]

theorem live_remove_client_resources_of_ne (st : world) (h c : Int) (hne : c ≠ h)
    (hl : live st c) : live (remove_client_resources st h) c := by
  unfold live at *
  rw [remove_client_resources_clients_length, client_at_remove_client_resources_of_ne st h c hne]
  exact hl

theorem client_at_set_nat (st : world) (i : Nat) (v : client) (c : Int) :
    client_at { st with clients := st.clients.set i v } c
      = if (i : Int) < st.clients.length ∧ c = i then v else client_at st c := by
  have := client_at_client_put st (i : Int) c v
  unfold client_put at this
  rw [if_pos (Int.ofNat_nonneg i)] at this
  simp only [Int.toNat_ofNat] at this
  rw [this]
  simp [Int.ofNat_nonneg]

/-- C12: when a registry slot is free, `register_client` returns the lowest index `i`
whose slot is free (`client_socket = -1`), stores the socket, `client_id = i`,
position (0,0) and `notif_head = notif_tail = 0` there, and changes no other
registry slot and no table; `i` differs from the handle of every connected client,
which stay connected; and a connected handle stays connected under every line, every
delivery of a notification and every release of another handle, so it is free
again, and can be returned again, only after `remove_client_resources` on it. -/
theorem register_client_spec (st : world) (fd : Int)
    (hfree : ∃ j : Nat, j < st.clients.length ∧ (client_at st j).client_socket = -1) :
    ∃ i : Nat, (register_client st fd).2 = some i ∧ i < st.clients.length ∧
      (client_at st i).client_socket = -1 ∧
      (∀ j : Nat, j < i → (client_at st j).client_socket ≠ -1) ∧
      client_at (register_client st fd).1 i = registered_entry (client_at st i) fd i ∧
      (client_at (register_client st fd).1 i).notif_head
        = (client_at (register_client st fd).1 i).notif_tail ∧
      (∀ c : Int, c ≠ i → client_at (register_client st fd).1 c = client_at st c) ∧
      (register_client st fd).1.supplies = st.supplies ∧
      (register_client st fd).1.demands = st.demands ∧
      (register_client st fd).1.watches = st.watches ∧
      (∀ h, live st h → h ≠ i ∧ live (register_client st fd).1 h) ∧
      (∀ h, live st h →
        (∀ fd1 h1 cmd, live (command_thread_func st fd1 h1 cmd) h) ∧
        (∀ h1, live (notification_thread_func st h1) h) ∧
        (∀ h1, h1 ≠ h → live (remove_client_resources st h1) h)) := by
  obtain ⟨j0, hj0, hs0⟩ := hfree
  rw [client_at_nat, List.getD_eq_getElem?_getD, List.getElem?_eq_getElem hj0] at hs0
  obtain ⟨i, hi⟩ := first_index_isSome_of_mem (fun c : client => c.client_socket = -1)
    st.clients _ (List.getElem_mem hj0) (by simpa using hs0)
  obtain ⟨hlt, hp, hlow⟩ := first_index_some _ _ _ hi
  have hsock : (client_at st i).client_socket = -1 := by
    rw [client_at_nat, List.getD_eq_getElem?_getD, List.getElem?_eq_getElem hlt]
    simpa using hp
  have hr := register_client_of_some st fd i hi
  have hput : ∀ c : Int, client_at (register_client st fd).1 c
      = if c = i then registered_entry (client_at st i) fd i else client_at st c := by
    intro c
    rw [hr]
    dsimp only
    rw [client_at_set_nat]
    by_cases e : c = i
    · rw [if_pos ⟨by exact_mod_cast hlt, e⟩, if_pos e]
    · rw [if_neg (fun g => e g.2), if_neg e]
  refine ⟨i, by rw [hr], hlt, hsock, ?_, ?_, ?_, ?_, by rw [hr], by rw [hr], by rw [hr], ?_, ?_⟩
  · intro j hj
    have := hlow j hj
    rw [client_at_nat, List.getD_eq_getElem?_getD,
      List.getElem?_eq_getElem (lt_trans hj hlt)]
    simpa using this
  · rw [hput, if_pos rfl]
  · rw [hput, if_pos rfl]
    rfl
  · intro c hne
    rw [hput, if_neg hne]
  · intro h hl
    have hne : h ≠ i := by
      intro e
      rw [e] at hl
      exact hl.2.2 hsock
    refine ⟨hne, hl.1, ?_, ?_⟩
    · rw [hr]
      simpa using hl.2.1
    · rw [hput, if_neg hne]
      exact hl.2.2
  · intro h hl
    exact ⟨fun fd1 h1 cmd => live_of_same_sessions (same_sessions_command st fd1 h1 cmd) h hl,
      fun h1 => live_of_same_sessions (same_sessions_notification_thread_func st h1) h hl,
      fun h1 hne => live_remove_client_resources_of_ne st h1 h (Ne.symm hne) hl⟩

/-- C12 on `market_world`, whose two registry slots are taken, after client 0 is
released: the next connection, on socket 9, gets handle 0 again, with position
(0,0), and client 1 keeps its entry. -/
theorem register_client_spec_witness :
    (register_client (remove_client_resources market_world 0) 9).2 = some 0 ∧
    (client_at (register_client (remove_client_resources market_world 0) 9).1 0).client_socket
      = 9 ∧
    (client_at (register_client (remove_client_resources market_world 0) 9).1 0).client_id
      = 0 ∧
    client_at (register_client (remove_client_resources market_world 0) 9).1 1
      = client_at market_world 1 ∧
    (register_client market_world 9).2 = none := by
  have hx := register_client_spec (remove_client_resources market_world 0) 9
    ⟨0, by decide, by decide⟩
  obtain ⟨i, hx⟩ := hx
  have h1 := hx.1
  have h7 := hx.2.2.2.2.2.2.1
  refine ⟨by decide, by decide, by decide, ?_, by decide⟩
  have hi : i = 0 := by
    have : (register_client (remove_client_resources market_world 0) 9).2 = some 0 := by decide
    rw [this] at h1
    exact (Option.some.inj h1).symm
  subst hi
  exact (h7 1 (by decide)).trans
    (client_at_remove_client_resources_of_ne market_world 0 1 (by decide))

/-! ### Insertion into the tables -/

theorem first_index_of_is_lowest {α : Type} (p : α → Bool) (l : List α) (i : Nat)
    (h : is_lowest p l i) : first_index p l = some i := by
  obtain ⟨hi, hp, hlow⟩ := h
  obtain ⟨k, hk⟩ := first_index_isSome_of_mem p l _ (List.get_mem l i hi) hp
  obtain ⟨hklt, hkp, hklow⟩ := first_index_some p l k hk
  rw [hk]
  congr 1
  rcases Nat.lt_trichotomy k i with g | g | g
  · have := hlow k g
    rw [List.get_eq_getElem, hkp] at this
    exact Bool.noConfusion this
  · exact g
  · have := hklow i g
    rw [hp] at this
    exact Bool.noConfusion this

theorem first_index_none_of_all {α : Type} (p : α → Bool) (l : List α)
    (h : ∀ a ∈ l, p a = false) : first_index p l = none := by
  cases hf : first_index p l with
  | none => rfl
  | some i =>
    obtain ⟨hi, hp, _⟩ := first_index_some p l i hf
    have := h _ (List.getElem_mem hi)
    rw [hp] at this
    exact Bool.noConfusion this

theorem getD_set_of_ne {α : Type} (l : List α) (i k : Nat) (v d : α) (hne : k ≠ i) :
    (l.set i v).getD k d = l.getD k d := by
  simp [List.getD_eq_getElem?_getD, List.getElem?_set, Ne.symm hne]

theorem trace_check_for_match (st : world) (c : Int) :
    ∃ E, (check_for_match st c).trace = st.trace ++ E := by
  obtain ⟨E, hE, _⟩ := extends_with_check_for_match 0 st c
  exact ⟨E, hE⟩

/-- C13 as stated fails for `add_new_watch`: after `watch 3` from client 1 the only
watch slot of `market_world` is taken, so the table has no free slot, yet `watch 5`
from client 1 changes the table. -/
theorem add_new_watch_changes_full_table :
    (∀ w ∈ (command_thread_func market_world 5 1 (.watch 3)).watches, w.client_id ≠ -1) ∧
    (add_new_watch (command_thread_func market_world 5 1 (.watch 3)) 1 5).watches
      ≠ (command_thread_func market_world 5 1 (.watch 3)).watches := by
  decide

/-- C13, amended: `add_new_supply` and `add_new_demand` write the new entry (owner,
position of the caller, amounts, radius) into the lowest-indexed free slot of their
table and change no other slot, and leave the table unchanged when it has no free
slot, `add_new_supply` returning the slot index or -1; `add_new_watch` first frees
the watch slots owned by the caller, then writes the new entry into the
lowest-indexed free slot of the table so obtained, and never changes a slot owned by
another client; in every case the command replies `OK`. -/
theorem add_new_entry_spec (st : world) (h : Int) :
    (∀ dist a b c,
      (∀ i, is_lowest (fun s : supply => s.client_id = -1) st.supplies i →
        add_new_supply st h dist a b c
          = ({ st with supplies := st.supplies.set i (posted_supply st h dist a b c) }, (i : Int)) ∧
        supply_at (add_new_supply st h dist a b c).1 i = posted_supply st h dist a b c ∧
        ∀ k, k ≠ i → supply_at (add_new_supply st h dist a b c).1 k = supply_at st k) ∧
      ((∀ s ∈ st.supplies, s.client_id ≠ -1) → add_new_supply st h dist a b c = (st, -1)) ∧
      (∀ fd, ∃ E, (command_thread_func st fd h (.supply dist a b c)).trace
        = st.trace ++ event.write fd ok_reply :: E)) ∧
    (∀ a b c,
      (∀ i, is_lowest (fun d : demand => d.client_id = -1) st.demands i →
        add_new_demand st h a b c
          = { st with demands := st.demands.set i (posted_demand st h a b c) } ∧
        demand_at (add_new_demand st h a b c) i = posted_demand st h a b c ∧
        ∀ k, k ≠ i → demand_at (add_new_demand st h a b c) k = demand_at st k) ∧
      ((∀ d ∈ st.demands, d.client_id ≠ -1) → add_new_demand st h a b c = st) ∧
      (∀ fd, ∃ E, (command_thread_func st fd h (.demand a b c)).trace
        = st.trace ++ event.write fd ok_reply :: E)) ∧
    (∀ r,
      (∀ i, is_lowest (fun w : watch_t => w.client_id = -1) (free_watches_of h st.watches) i →
        add_new_watch st h r
          = { st with watches := (free_watches_of h st.watches).set i (posted_watch st h r) }) ∧
      ((∀ w ∈ free_watches_of h st.watches, w.client_id ≠ -1) →
        add_new_watch st h r = { st with watches := free_watches_of h st.watches }) ∧
      (∀ k, (watch_at st k).client_id ≠ -1 → (watch_at st k).client_id ≠ h →
        watch_at (add_new_watch st h r) k = watch_at st k) ∧
      (∀ fd, (command_thread_func st fd h (.watch r)).trace
        = st.trace ++ [event.write fd ok_reply])) := by
  refine ⟨?_, ?_, ?_⟩
  · intro dist a b c
    refine ⟨?_, ?_, ?_⟩
    · intro i hi
      have hlt := hi.1
      have e : add_new_supply st h dist a b c
          = ({ st with supplies := st.supplies.set i (posted_supply st h dist a b c) },
              (i : Int)) := by
        unfold add_new_supply
        rw [first_index_of_is_lowest _ _ _ hi]
        rfl
      rw [e]
      refine ⟨rfl, ?_, ?_⟩
      · simp [supply_at, List.getD_eq_getElem?_getD, hlt]
      · intro k hk
        exact getD_set_of_ne _ _ _ _ _ hk
    · intro hfull
      unfold add_new_supply
      rw [first_index_none_of_all _ _ (fun s hs => by simpa using hfull s hs)]
    · intro fd
      show ∃ E, (let r := add_new_supply st h dist a b c
          let st1 := check_for_match (sock_write r.1 fd ok_reply) h
          if r.2 ≠ -1 then check_for_watch_events_on_new_supply st1 r.2.toNat else st1).trace
          = _
      dsimp only
      have ht : (add_new_supply st h dist a b c).1.trace = st.trace := by
        unfold add_new_supply
        split <;> rfl
      obtain ⟨E, hE⟩ := trace_check_for_match
        (sock_write (add_new_supply st h dist a b c).1 fd ok_reply) h
      have hE2 : (check_for_match (sock_write (add_new_supply st h dist a b c).1 fd ok_reply)
          h).trace = st.trace ++ event.write fd ok_reply :: E := by
        rw [hE]
        show ((add_new_supply st h dist a b c).1.trace ++ [event.write fd ok_reply]) ++ E = _
        rw [ht, List.append_assoc]
        rfl
      split_ifs
      · obtain ⟨_, _, _, _, X, hX, _⟩ := check_for_watch_events_frame
          (check_for_match (sock_write (add_new_supply st h dist a b c).1 fd ok_reply) h)
          (add_new_supply st h dist a b c).2.toNat
        refine ⟨E ++ X, ?_⟩
        rw [hX, hE2, List.append_assoc]
        rfl
      · exact ⟨E, hE2⟩
  · intro a b c
    refine ⟨?_, ?_, ?_⟩
    · intro i hi
      have hlt := hi.1
      have e : add_new_demand st h a b c
          = { st with demands := st.demands.set i (posted_demand st h a b c) } := by
        unfold add_new_demand
        rw [first_index_of_is_lowest _ _ _ hi]
        rfl
      rw [e]
      refine ⟨rfl, ?_, ?_⟩
      · simp [demand_at, List.getD_eq_getElem?_getD, hlt]
      · intro k hk
        exact getD_set_of_ne _ _ _ _ _ hk
    · intro hfull
      unfold add_new_demand
      rw [first_index_none_of_all _ _ (fun s hs => by simpa using hfull s hs)]
    · intro fd
      obtain ⟨E, hE⟩ := trace_check_for_match
        (sock_write (add_new_demand st h a b c) fd ok_reply) h
      refine ⟨E, ?_⟩
      show (check_for_match (sock_write (add_new_demand st h a b c) fd ok_reply) h).trace = _
      rw [hE]
      have ht : (add_new_demand st h a b c).trace = st.trace := by
        unfold add_new_demand
        split <;> rfl
      show ((add_new_demand st h a b c).trace ++ [event.write fd ok_reply]) ++ E = _
      rw [ht, List.append_assoc]
      rfl
  · intro r
    refine ⟨?_, ?_, ?_, ?_⟩
    · intro i hi
      dsimp only [add_new_watch]
      have := first_index_of_is_lowest _ _ _ hi
      unfold free_watches_of at this
      rw [this]
      rfl
    · intro hfull
      dsimp only [add_new_watch]
      have := first_index_none_of_all (fun w : watch_t => decide (w.client_id = -1))
        (free_watches_of h st.watches) (fun s hs => by simpa using hfull s hs)
      unfold free_watches_of at this
      rw [this]
      rfl
    · intro k hocc hne
      have hfw : (free_watches_of h st.watches).getD k free_watch = watch_at st k := by
        unfold free_watches_of watch_at
        by_cases hh : h = -1
        · rw [List.getD_eq_getElem?_getD, List.getD_eq_getElem?_getD, List.getElem?_map]
          rcases Nat.lt_or_ge k st.watches.length with hk | hk
          · rw [List.getElem?_eq_getElem hk]
            have : st.watches[k].client_id ≠ h := by
              have := hne
              unfold watch_at at this
              rw [List.getD_eq_getElem?_getD, List.getElem?_eq_getElem hk] at this
              exact this
            simp [this]
          · rw [List.getElem?_eq_none hk]
            rfl
        · rw [getD_map_if (fun w : watch_t => w.client_id = h)
            (fun w => { w with client_id := -1, watch_id := 0 }) _ _
            (fun e : (-1 : Int) = h => hh e.symm) k]
          unfold watch_at at hne
          rw [if_neg hne]
      unfold watch_at
      rw [add_new_watch_watches]
      cases hf : first_index (fun w : watch_t => decide (w.client_id = -1))
          (free_watches_of h st.watches) with
      | none => exact hfw
      | some i =>
        dsimp only
        obtain ⟨hi, hp, _⟩ := first_index_some _ _ _ hf
        have hki : k ≠ i := by
          intro e
          subst e
          rw [List.getD_eq_getElem?_getD, List.getElem?_eq_getElem hi] at hfw
          have hp1 : (free_watches_of h st.watches)[k].client_id = -1 := by simpa using hp
          apply hocc
          rw [← hfw]
          exact hp1
        rw [getD_set_of_ne _ _ _ _ _ hki]
        exact hfw
    · intro fd
      show (add_new_watch st h r).trace ++ [event.write fd ok_reply] = _
      have ht : (add_new_watch st h r).trace = st.trace := by
        dsimp only [add_new_watch]
        split <;> rfl
      rw [ht]

/-- C13, amended, on `full_supply_world`: both supply slots are taken, a third
`supply` line stores nothing, `add_new_supply` returns -1, and the line is answered
with `OK`. -/
theorem add_new_entry_spec_witness :
    (∀ s ∈ full_supply_world.supplies, s.client_id ≠ -1) ∧
    add_new_supply full_supply_world 0 1 1 1 1 = (full_supply_world, -1) ∧
    (command_thread_func full_supply_world 4 0 (.supply 1 1 1 1)).trace
      = full_supply_world.trace ++ [event.write 4 ok_reply] :=
  ⟨by decide, (add_new_entry_spec full_supply_world 0).1 1 1 1 1 |>.2.1 (by decide), by decide⟩

/-! ### The notification ring -/

theorem strncpy_length (msg : String) (n : Nat) : (strncpy msg n).data.length ≤ n := by
  unfold strncpy
  simp [List.length_take]

theorem strncpy_of_length_le (msg : String) (n : Nat) (h : msg.data.length ≤ n) :
    strncpy msg n = msg := by
  unfold strncpy
  rw [List.take_of_length_le h]

theorem enqueue_notification_of_full (st : world) (h : Int) (msg : String)
    (hf : ring_full (client_at st h)) :
    enqueue_notification st h msg
      = { st with trace := st.trace ++ [event.enqueue h msg] } := by
  dsimp only [enqueue_notification]
  exact if_pos hf

theorem enqueue_notification_of_not_full (st : world) (h : Int) (msg : String)
    (hf : ¬ ring_full (client_at st h)) :
    enqueue_notification st h msg
      = client_put { st with trace := st.trace ++ [event.enqueue h msg] } h
          { client_at st h with
            notifications :=
              (client_at st h).notifications.set (client_at st h).notif_head.toNat
                (strncpy msg 255)
            notif_head := ((client_at st h).notif_head + 1).tmod MAX_NOTIFICATIONS } := by
  dsimp only [enqueue_notification]
  exact if_neg hf

theorem enqueue_notification_client_at (st : world) (h : Int) (msg : String) (c : Int)
    (h0 : 0 ≤ h) (hlt : h < st.clients.length) :
    client_at (enqueue_notification st h msg) c
      = if c = h ∧ ¬ ring_full (client_at st h) then
          { client_at st h with
            notifications :=
              (client_at st h).notifications.set (client_at st h).notif_head.toNat
                (strncpy msg 255)
            notif_head := ((client_at st h).notif_head + 1).tmod MAX_NOTIFICATIONS }
        else client_at st c := by
  by_cases hf : ring_full (client_at st h)
  · rw [enqueue_notification_of_full st h msg hf, if_neg (fun g => g.2 hf)]
    rfl
  · rw [enqueue_notification_of_not_full st h msg hf, client_at_client_put]
    by_cases e : c = h
    · rw [if_pos ⟨h0, hlt, e⟩, if_pos ⟨e, hf⟩]
    · rw [if_neg (fun g => e g.2.2), if_neg (fun g => e g.1)]
      rfl

theorem enqueue_notification_client_at_of_ne (st : world) (h : Int) (msg : String) (c : Int)
    (hne : c ≠ h) : client_at (enqueue_notification st h msg) c = client_at st c := by
  by_cases hf : ring_full (client_at st h)
  · rw [enqueue_notification_of_full st h msg hf]
    rfl
  · rw [enqueue_notification_of_not_full st h msg hf, client_at_client_put,
      if_neg (fun g => hne g.2.2)]
    rfl

/-- C14: for a client with a well-formed ring, `enqueue_notification` on a full ring
leaves the whole registry unchanged, the entry of the client included; on a ring
that is not full it stores the message, cut to its first 255 characters, in the
buffer at `notif_head`, leaves every other buffer as it was, sets `notif_head` to
`(notif_head + 1) mod MAX_NOTIFICATIONS` and keeps `notif_tail` and the other
fields; in both cases the entries of the other clients and the three tables are
unchanged. -/
theorem enqueue_notification_spec (st : world) (h : Int) (msg : String)
    (h0 : 0 ≤ h) (hlt : h < st.clients.length) (hok : ring_ok (client_at st h)) :
    (ring_full (client_at st h) →
      (enqueue_notification st h msg).clients = st.clients) ∧
    (¬ ring_full (client_at st h) →
      (client_at (enqueue_notification st h msg) h).notifications.getD
          (client_at st h).notif_head.toNat "" = strncpy msg 255 ∧
      (strncpy msg 255).data = msg.data.take 255 ∧
      (∀ k, k ≠ (client_at st h).notif_head.toNat →
        (client_at (enqueue_notification st h msg) h).notifications.getD k ""
          = (client_at st h).notifications.getD k "") ∧
      (client_at (enqueue_notification st h msg) h).notif_head
        = ((client_at st h).notif_head + 1) % MAX_NOTIFICATIONS ∧
      (client_at (enqueue_notification st h msg) h).notif_tail = (client_at st h).notif_tail ∧
      registry_key (client_at (enqueue_notification st h msg) h)
        = registry_key (client_at st h)) ∧
    (∀ c, c ≠ h → client_at (enqueue_notification st h msg) c = client_at st c) ∧
    (enqueue_notification st h msg).supplies = st.supplies ∧
    (enqueue_notification st h msg).demands = st.demands ∧
    (enqueue_notification st h msg).watches = st.watches ∧
    (enqueue_notification st h msg).trace = st.trace ++ [event.enqueue h msg] := by
  obtain ⟨hh0, hh1, ht0, ht1, hlen, hmsg⟩ := hok
  refine ⟨?_, ?_, fun c hne => enqueue_notification_client_at_of_ne st h msg c hne,
    enqueue_notification_supplies st h msg, enqueue_notification_demands st h msg,
    enqueue_notification_watches st h msg, enqueue_notification_trace st h msg⟩
  · intro hf
    rw [enqueue_notification_of_full st h msg hf]
  · intro hf
    rw [enqueue_notification_client_at st h msg h h0 hlt, if_pos ⟨rfl, hf⟩]
    dsimp only
    have hidx : (client_at st h).notif_head.toNat < (client_at st h).notifications.length := by
      rw [hlen]
      unfold MAX_NOTIFICATIONS at hh1 ⊢
      omega
    refine ⟨?_, rfl, ?_, ?_, rfl, rfl⟩
    · simp [List.getD_eq_getElem?_getD, hidx]
    · intro k hk
      exact getD_set_of_ne _ _ _ _ _ hk
    · rw [Int.tmod_eq_emod (by omega) (by unfold MAX_NOTIFICATIONS; omega)]


theorem ring_ok_of_empty_buffers (c : client)
    (hn : c.notifications = List.replicate MAX_NOTIFICATIONS.toNat "")
    (hh0 : 0 ≤ c.notif_head) (hh1 : c.notif_head < MAX_NOTIFICATIONS)
    (ht0 : 0 ≤ c.notif_tail) (ht1 : c.notif_tail < MAX_NOTIFICATIONS) : ring_ok c := by
  refine ⟨hh0, hh1, ht0, ht1, by rw [hn, List.length_replicate], ?_⟩
  intro m hm
  rw [hn] at hm
  rw [List.eq_of_mem_replicate hm]
  exact Nat.zero_le _

/-- C14, two instances: in `full_ring_world` the ring of client 1 is full and a call
changes no registry entry; in `market_world` the ring of client 1 is empty and a
message of 300 characters is stored in buffer 0 cut to 255 characters, the head
becoming 1. -/
theorem enqueue_notification_spec_witness :
    ring_full (client_at full_ring_world 1) ∧
    (enqueue_notification full_ring_world 1 "late").clients = full_ring_world.clients ∧
    ¬ ring_full (client_at market_world 1) ∧
    (client_at (enqueue_notification market_world 1 ⟨List.replicate 300 'x'⟩) 1).notifications.getD
        0 "" = ⟨List.replicate 255 'x'⟩ ∧
    (client_at (enqueue_notification market_world 1 ⟨List.replicate 300 'x'⟩) 1).notif_head = 1 :=
  have hfull := enqueue_notification_spec full_ring_world 1 "late" (by decide) (by decide)
    (ring_ok_of_empty_buffers _ rfl (by decide) (by decide) (by decide) (by decide))
  have hfree := enqueue_notification_spec market_world 1 ⟨List.replicate 300 'x'⟩ (by decide)
    (by decide) (ring_ok_of_empty_buffers _ rfl (by decide) (by decide) (by decide) (by decide))
  ⟨by decide, hfull.1 (by decide), by decide,
    ((hfree.2.1 (by decide)).1).trans (by unfold strncpy; rw [List.take_replicate]; rfl),
    ((hfree.2.1 (by decide)).2.2.2.1).trans (by decide)⟩

theorem ring_pending_enqueue (c : client) (msg : String) (hok : ring_ok c)
    (hf : ¬ ring_full c) :
    ring_pending
        { c with
          notifications := c.notifications.set c.notif_head.toNat (strncpy msg 255)
          notif_head := (c.notif_head + 1).tmod MAX_NOTIFICATIONS }
      = ring_pending c ++ [strncpy msg 255] := by
  obtain ⟨hh0, hh1, ht0, ht1, hlen, _⟩ := hok
  unfold ring_full at hf
  rw [Int.tmod_eq_emod (by omega) (by unfold MAX_NOTIFICATIONS; omega)] at hf ⊢
  unfold MAX_NOTIFICATIONS at hh1 ht1 hlen hf
  unfold ring_pending MAX_NOTIFICATIONS
  dsimp only
  have hn : (((c.notif_head + 1) % 1000 - c.notif_tail) % 1000).toNat
      = ((c.notif_head - c.notif_tail) % 1000).toNat + 1 := by omega
  rw [hn, List.range_succ, List.map_append, List.map_cons, List.map_nil]
  congr 1
  · apply List.map_congr_left
    intro k hk
    rw [List.mem_range] at hk
    apply getD_set_of_ne
    simp only [Int.ofNat_eq_coe]
    omega
  · congr 1
    have hidx : ((c.notif_tail + Int.ofNat ((c.notif_head - c.notif_tail) % 1000).toNat) % 1000).toNat
        = c.notif_head.toNat := by
      simp only [Int.ofNat_eq_coe]
      omega
    rw [hidx]
    have hlt : c.notif_head.toNat < c.notifications.length := by omega
    simp [List.getD_eq_getElem?_getD, hlt]

theorem ring_ok_enqueue (c : client) (msg : String) (hok : ring_ok c) :
    ring_ok
        { c with
          notifications := c.notifications.set c.notif_head.toNat (strncpy msg 255)
          notif_head := (c.notif_head + 1).tmod MAX_NOTIFICATIONS } := by
  obtain ⟨hh0, hh1, ht0, ht1, hlen, hmsg⟩ := hok
  unfold ring_ok
  dsimp only
  rw [Int.tmod_eq_emod (by omega) (by unfold MAX_NOTIFICATIONS; omega)]
  unfold MAX_NOTIFICATIONS at *
  refine ⟨by omega, by omega, ht0, ht1, by rw [List.length_set]; exact hlen, ?_⟩
  intro m hm
  rcases List.mem_or_eq_of_mem_set hm with g | g
  · exact hmsg m g
  · rw [g]
    exact strncpy_length msg 255

theorem ring_pending_dequeue (c : client) (hok : ring_ok c) (hne : c.notif_tail ≠ c.notif_head) :
    ring_pending c
      = c.notifications.getD c.notif_tail.toNat ""
        :: ring_pending { c with notif_tail := (c.notif_tail + 1).tmod MAX_NOTIFICATIONS } := by
  obtain ⟨hh0, hh1, ht0, ht1, hlen, _⟩ := hok
  rw [Int.tmod_eq_emod (by omega) (by unfold MAX_NOTIFICATIONS; omega)]
  unfold MAX_NOTIFICATIONS at hh1 ht1 hlen
  unfold ring_pending MAX_NOTIFICATIONS
  dsimp only
  have hn : ((c.notif_head - c.notif_tail) % 1000).toNat
      = ((c.notif_head - (c.notif_tail + 1) % 1000) % 1000).toNat + 1 := by omega
  rw [hn, List.range_succ_eq_map, List.map_cons, List.map_map]
  congr 1
  · congr 1
    simp only [Int.ofNat_eq_coe]
    omega
  · apply List.map_congr_left
    intro k _
    simp only [Function.comp, Int.ofNat_eq_coe]
    congr 1
    have : ((Nat.succ k : Nat) : Int) = (k : Int) + 1 := by omega
    rw [this]
    omega

theorem ring_ok_dequeue (c : client) (hok : ring_ok c) :
    ring_ok { c with notif_tail := (c.notif_tail + 1).tmod MAX_NOTIFICATIONS } := by
  obtain ⟨hh0, hh1, ht0, ht1, hlen, hmsg⟩ := hok
  unfold ring_ok
  dsimp only
  rw [Int.tmod_eq_emod (by omega) (by unfold MAX_NOTIFICATIONS; omega)]
  unfold MAX_NOTIFICATIONS at *
  exact ⟨hh0, hh1, by omega, by omega, hlen, hmsg⟩

theorem ring_ok_free_client : ring_ok free_client :=
  ring_ok_of_empty_buffers free_client rfl (by decide) (by decide) (by decide) (by decide)

theorem ring_ok_client_at {st : world} (hok : rings_ok st) (h : Int) :
    ring_ok (client_at st h) := by
  unfold client_at
  split_ifs
  · rw [List.getD_eq_getElem?_getD]
    by_cases hl : h.toNat < st.clients.length
    · rw [List.getElem?_eq_getElem hl]
      exact hok _ (List.getElem_mem hl)
    · rw [List.getElem?_eq_none (Nat.le_of_not_lt hl)]
      exact ring_ok_free_client
  · exact ring_ok_free_client

theorem rings_ok_client_put {st : world} (hok : rings_ok st) (h : Int) (v : client)
    (hv : ring_ok v) : rings_ok (client_put st h v) := by
  unfold client_put
  split_ifs
  · intro c hc
    rcases List.mem_or_eq_of_mem_set hc with g | g
    · exact hok c g
    · rw [g]
      exact hv
  · exact hok

theorem rings_ok_enqueue (st : world) (h : Int) (msg : String) (hok : rings_ok st) :
    rings_ok (enqueue_notification st h msg) := by
  by_cases hf : ring_full (client_at st h)
  · rw [enqueue_notification_of_full st h msg hf]
    exact hok
  · rw [enqueue_notification_of_not_full st h msg hf]
    have hok1 : rings_ok { st with trace := st.trace ++ [event.enqueue h msg] } := hok
    exact rings_ok_client_put hok1 h _ (ring_ok_enqueue _ msg (ring_ok_client_at hok h))

theorem notification_thread_func_of_empty (st : world) (h : Int)
    (he : (client_at st h).notif_tail = (client_at st h).notif_head) :
    notification_thread_func st h = st := by
  dsimp only [notification_thread_func]
  exact if_neg (fun g => g he)

theorem notification_thread_func_of_pending (st : world) (h : Int)
    (hne : (client_at st h).notif_tail ≠ (client_at st h).notif_head) :
    notification_thread_func st h
      = notify_client
          (client_put st h
            { client_at st h with
              notif_tail := ((client_at st h).notif_tail + 1).tmod MAX_NOTIFICATIONS })
          (client_at st h).client_socket
          (strncpy ((client_at st h).notifications.getD (client_at st h).notif_tail.toNat "")
            255) := by
  have h1 := same_sessions_client_put st h
    { client_at st h with
      notif_tail := ((client_at st h).notif_tail + 1).tmod MAX_NOTIFICATIONS } rfl
  have hs := same_sessions_client_socket h1 h
  rw [← hs]
  dsimp only [notification_thread_func]
  exact if_pos hne

theorem notify_client_clients (st : world) (fd : Int) (msg : String) :
    (notify_client st fd msg).clients = st.clients := by
  unfold notify_client
  split_ifs <;> rfl

theorem client_at_of_clients_eq {st st1 : world} (h : st1.clients = st.clients) (c : Int) :
    client_at st1 c = client_at st c := by
  unfold client_at
  rw [h]

theorem notification_thread_func_client_at_of_ne (st : world) (h c : Int) (hne : c ≠ h) :
    client_at (notification_thread_func st h) c = client_at st c := by
  by_cases he : (client_at st h).notif_tail = (client_at st h).notif_head
  · rw [notification_thread_func_of_empty st h he]
  · rw [notification_thread_func_of_pending st h he,
      client_at_of_clients_eq (notify_client_clients _ _ _), client_at_client_put,
      if_neg (fun g => hne g.2.2)]

theorem rings_ok_notification_thread_func (st : world) (h : Int) (hok : rings_ok st) :
    rings_ok (notification_thread_func st h) := by
  by_cases he : (client_at st h).notif_tail = (client_at st h).notif_head
  · rw [notification_thread_func_of_empty st h he]
    exact hok
  · rw [notification_thread_func_of_pending st h he]
    have h1 := rings_ok_client_put hok h _ (ring_ok_dequeue _ (ring_ok_client_at hok h))
    intro c hc
    rw [notify_client_clients] at hc
    exact h1 c hc

theorem written_append (t u : List event) : written (t ++ u) = written t ++ written u := by
  unfold written
  exact List.filterMap_append _ _ _

theorem same_sessions_ring_step (st : world) (op : ring_op) :
    same_sessions st (ring_step st op) := by
  cases op with
  | produce c msg => exact same_sessions_of_same_registry (same_registry_enqueue st c msg)
  | consume c => exact same_sessions_notification_thread_func st c

theorem accepted_for_cons (h : Int) (st : world) (op : ring_op) (ops : List ring_op) :
    accepted_for h st (op :: ops)
      = accepted_for h st [op] ++ accepted_for h (ring_step st op) ops := by
  cases op with
  | produce c msg =>
    show _ ++ accepted_for h (enqueue_notification st c msg) ops
      = (_ ++ accepted_for h (enqueue_notification st c msg) []) ++ _
    simp [accepted_for]
    rfl
  | consume c => rfl

theorem sent_by_cons (h : Int) (st : world) (op : ring_op) (ops : List ring_op) :
    sent_by h st (op :: ops) = sent_by h st [op] ++ sent_by h (ring_step st op) ops := by
  cases op with
  | produce c msg =>
    show sent_by h (enqueue_notification st c msg) ops
      = sent_by h (enqueue_notification st c msg) [] ++ _
    simp [sent_by]
    rfl
  | consume c =>
    show _ ++ sent_by h (notification_thread_func st c) ops
      = (_ ++ sent_by h (notification_thread_func st c) []) ++ _
    simp [sent_by]
    rfl

/-- One step keeps the ring of `h` well formed; what the consumer of `h` sends in the
step, followed by what waits in the ring of `h` after it, is what waited before
followed by the message of the step when it is an accepted call for `h`. -/
theorem ring_step_sent (st : world) (h : Int) (op : ring_op)
    (h0 : 0 ≤ h) (hlt : h < st.clients.length)
    (hsock : (client_at st h).client_socket ≠ -1)
    (hok : ring_ok (client_at st h)) :
    ring_ok (client_at (ring_step st op) h) ∧
    (∀ e ∈ sent_by h st [op], ∃ buf, e = event.write (client_at st h).client_socket buf) ∧
    written (sent_by h st [op]) ++ ring_pending (client_at (ring_step st op) h)
      = ring_pending (client_at st h)
        ++ (accepted_for h st [op]).map (fun m => strncpy m 255) := by
  cases op with
  | produce c msg =>
    have hacc : accepted_for h st [ring_op.produce c msg]
        = if c = h ∧ ¬ ring_full (client_at st h) then [msg] else [] := by
      simp [accepted_for]
    have hsent : sent_by h st [ring_op.produce c msg] = [] := rfl
    rw [hacc, hsent]
    show ring_ok (client_at (enqueue_notification st c msg) h) ∧ _ ∧
      written [] ++ ring_pending (client_at (enqueue_notification st c msg) h) = _
    refine ⟨?_, fun e he => absurd he (List.not_mem_nil e), ?_⟩
    · by_cases e : c = h
      · subst e
        rw [enqueue_notification_client_at st c msg c h0 hlt]
        by_cases hf : ring_full (client_at st c)
        · rw [if_neg (fun g => g.2 hf)]
          exact hok
        · rw [if_pos ⟨rfl, hf⟩]
          exact ring_ok_enqueue _ msg hok
      · rw [enqueue_notification_client_at_of_ne st c msg h (Ne.symm e)]
        exact hok
    · show [] ++ ring_pending (client_at (enqueue_notification st c msg) h) = _
      rw [List.nil_append]
      by_cases e : c = h
      · subst e
        rw [enqueue_notification_client_at st c msg c h0 hlt]
        by_cases hf : ring_full (client_at st c)
        · rw [if_neg (fun g => g.2 hf), if_neg (fun g => g.2 hf)]
          simp
        · rw [if_pos ⟨rfl, hf⟩, if_pos ⟨rfl, hf⟩, ring_pending_enqueue _ msg hok hf]
          simp
      · rw [enqueue_notification_client_at_of_ne st c msg h (Ne.symm e),
          if_neg (fun g => e g.1)]
        simp
  | consume c =>
    have hacc : accepted_for h st [ring_op.consume c] = [] := rfl
    have hsent : sent_by h st [ring_op.consume c]
        = if c = h then (notification_thread_func st c).trace.drop st.trace.length else [] := by
      show _ ++ sent_by h (notification_thread_func st c) [] = _
      simp [sent_by]
    rw [hacc, hsent, List.map_nil, List.append_nil]
    show ring_ok (client_at (notification_thread_func st c) h) ∧ _ ∧
      _ ++ ring_pending (client_at (notification_thread_func st c) h) = _
    by_cases e : c = h
    · subst e
      rw [if_pos rfl]
      by_cases he : (client_at st c).notif_tail = (client_at st c).notif_head
      · rw [notification_thread_func_of_empty st c he, List.drop_length]
        exact ⟨hok, fun e he => absurd he (List.not_mem_nil e), rfl⟩
      · have hput : client_at (notification_thread_func st c) c
            = { client_at st c with
                notif_tail := ((client_at st c).notif_tail + 1).tmod MAX_NOTIFICATIONS } := by
          rw [notification_thread_func_of_pending st c he,
            client_at_of_clients_eq (notify_client_clients _ _ _), client_at_client_put,
            if_pos ⟨h0, hlt, rfl⟩]
        have hm : strncpy ((client_at st c).notifications.getD
            (client_at st c).notif_tail.toNat "") 255
            = (client_at st c).notifications.getD (client_at st c).notif_tail.toNat "" := by
          apply strncpy_of_length_le
          rw [List.getD_eq_getElem?_getD]
          by_cases hl : (client_at st c).notif_tail.toNat < (client_at st c).notifications.length
          · rw [List.getElem?_eq_getElem hl]
            exact hok.2.2.2.2.2 _ (List.getElem_mem hl)
          · rw [List.getElem?_eq_none (Nat.le_of_not_lt hl)]
            exact Nat.zero_le _
        have htr : (notification_thread_func st c).trace
            = st.trace ++ [event.write (client_at st c).client_socket
                ((client_at st c).notifications.getD (client_at st c).notif_tail.toNat "")] := by
          rw [notification_thread_func_of_pending st c he]
          unfold notify_client
          rw [if_neg hsock, hm]
          simp only [sock_write, client_put_trace]
        rw [hput, htr, List.drop_left]
        refine ⟨ring_ok_dequeue _ hok, ?_, ?_⟩
        · intro e he1
          rw [List.mem_singleton] at he1
          exact ⟨_, he1⟩
        · rw [ring_pending_dequeue _ hok he]
          simp [written]
    · rw [if_neg e, notification_thread_func_client_at_of_ne st c h (Ne.symm e)]
      exact ⟨hok, fun e he => absurd he (List.not_mem_nil e), rfl⟩

/-- C15: for a connected client `h` whose ring is well formed, after any sequence of
calls of `enqueue_notification` and of consumer iterations, for any clients and
whatever descriptor numbers the sessions hold, the consumer of `h` sends only on the
socket of `h`, and the messages it sends, in the order of the sends, followed by
the messages still waiting in the ring of `h`, are exactly: what was waiting before,
then the messages accepted for `h` during the sequence (each cut to 255 characters),
in the order of the calls.  The ring stays well formed. -/
theorem notification_queue_fifo (st : world) (h : Int) (ops : List ring_op)
    (hlive : live st h) (hok : ring_ok (client_at st h)) :
    ring_ok (client_at (ring_run st ops) h) ∧
    (∀ e ∈ sent_by h st ops, ∃ buf, e = event.write (client_at st h).client_socket buf) ∧
    written (sent_by h st ops) ++ ring_pending (client_at (ring_run st ops) h)
      = ring_pending (client_at st h)
        ++ (accepted_for h st ops).map (fun m => strncpy m 255) := by
  induction ops generalizing st with
  | nil => exact ⟨hok, fun e he => absurd he (List.not_mem_nil e), by simp [ring_run, accepted_for, sent_by, written]⟩
  | cons op ops ih =>
    obtain ⟨h0, hlt, hsock⟩ := hlive
    obtain ⟨hok1, hs1, heq1⟩ := ring_step_sent st h op h0 hlt hsock hok
    have hss := same_sessions_ring_step st op
    have hs : (client_at (ring_step st op) h).client_socket = (client_at st h).client_socket :=
      same_sessions_client_socket hss h
    have hlive1 : live (ring_step st op) h :=
      ⟨h0, by rw [same_sessions_length hss]; exact hlt, by rw [hs]; exact hsock⟩
    obtain ⟨hok2, hs2, heq2⟩ := ih (ring_step st op) hlive1 hok1
    rw [hs] at hs2
    refine ⟨hok2, ?_, ?_⟩
    · intro e he
      rw [sent_by_cons, List.mem_append] at he
      rcases he with g | g
      · exact hs1 e g
      · exact hs2 e g
    · show written (sent_by h st (op :: ops))
          ++ ring_pending (client_at (ring_run (ring_step st op) ops) h) = _
      rw [sent_by_cons, written_append, List.append_assoc, heq2, ← List.append_assoc, heq1,
        accepted_for_cons h st op ops, List.map_append, List.append_assoc]

theorem client_at_of_neg (st : world) (c : Int) (hc : c < 0) : client_at st c = free_client := by
  unfold client_at
  exact if_neg (by omega)

theorem client_at_of_length_le (st : world) (c : Int) (hc : (st.clients.length : Int) ≤ c) :
    client_at st c = free_client := by
  unfold client_at
  split_ifs
  · exact List.getD_eq_default _ _ (by omega)
  · rfl

set_option maxRecDepth 8000 in
/-- C15, an instance with wrap-around and a shared descriptor number: in
`forked_world` both sessions hold their connection as descriptor 4 and both indices
of the ring of client 1 are 999; the consumer of client 1 sends the three messages
accepted for client 1 in the order of the calls, each once, the message for client 0
is sent by the consumer of client 0, and the ring of client 1 ends empty with both
indices at 2. -/
theorem notification_queue_fifo_witness :
    live forked_world 1 ∧
    (client_at forked_world 0).client_socket = 4 ∧
    (client_at forked_world 1).client_socket = 4 ∧
    (client_at forked_world 1).notif_head = 999 ∧ (client_at forked_world 1).notif_tail = 999 ∧
    accepted_for 1 forked_world wrap_ops = ["a", "b", "c"] ∧
    sent_by 1 forked_world wrap_ops
      = [event.write 4 "a", event.write 4 "b", event.write 4 "c"] ∧
    sent_by 0 forked_world wrap_ops = [event.write 4 "z"] ∧
    (client_at (ring_run forked_world wrap_ops) 1).notif_head = 2 ∧
    (client_at (ring_run forked_world wrap_ops) 1).notif_tail = 2 ∧
    written (sent_by 1 forked_world wrap_ops)
        ++ ring_pending (client_at (ring_run forked_world wrap_ops) 1)
      = ring_pending (client_at forked_world 1)
        ++ (accepted_for 1 forked_world wrap_ops).map (fun m => strncpy m 255) :=
  ⟨by decide, by decide, by decide, by decide, by decide, by decide, by decide, by decide,
    by decide, by decide,
    (notification_queue_fifo forked_world 1 wrap_ops (by decide)
      (ring_ok_of_empty_buffers _ rfl (by decide) (by decide) (by decide) (by decide))).2.2⟩

theorem rings_ok_of_clients_eq {st st1 : world} (h : st1.clients = st.clients)
    (hok : rings_ok st) : rings_ok st1 := by
  unfold rings_ok
  rw [h]
  exact hok

theorem rings_ok_match (st : world) (j i : Nat) (hok : rings_ok st) :
    rings_ok (match_demand_and_supply st j i) := by
  have e : ∀ (w : world) (b : Prop) [Decidable b] (c : Int) (m : String), rings_ok w →
      rings_ok (if b then enqueue_notification w c m else w) := by
    intro w b _ c m hw
    split_ifs
    · exact rings_ok_enqueue w c m hw
    · exact hw
  have h2 := e _ ((supply_at st i).client_id ≠ -1) (supply_at st i).client_id
    (supply_message (supply_at st i) (demand_at st j))
    (e st ((demand_at st j).client_id ≠ -1) (demand_at st j).client_id
      (demand_message (demand_at st j) (supply_at st i)) hok)
  have hite : ∀ (b : Prop) [Decidable b] (u v : world), rings_ok u → rings_ok v →
      rings_ok (if b then u else v) := by
    intro b _ u v hu hv
    split_ifs
    · exact hu
    · exact hv
  unfold match_demand_and_supply
  dsimp only
  apply hite
  · exact e (remove_demand _ j) _ _ _ h2
  · exact h2

theorem rings_ok_foldl_range (f : world → Nat → world)
    (hf : ∀ w i, rings_ok w → rings_ok (f w i)) (st : world) (k : Nat) (hok : rings_ok st) :
    rings_ok ((List.range k).foldl f st) := by
  induction k with
  | zero => exact hok
  | succ k ih =>
    rw [List.range_succ, List.foldl_append, List.foldl_cons, List.foldl_nil]
    exact hf _ k ih

theorem rings_ok_check_for_match_body (j : Nat) (st : world) (i : Nat) (hok : rings_ok st) :
    rings_ok (check_for_match_body j st i) := by
  unfold check_for_match_body
  split_ifs
  · exact rings_ok_match st j i hok
  · exact hok

theorem rings_ok_check_for_match_demand (n : Nat) (st : world) (j : Nat) (hok : rings_ok st) :
    rings_ok (check_for_match_demand n st j) := by
  unfold check_for_match_demand
  split_ifs
  · exact rings_ok_foldl_range _ (rings_ok_check_for_match_body j) st n hok
  · exact hok

theorem rings_ok_check_for_match (st : world) (c : Int) (hok : rings_ok st) :
    rings_ok (check_for_match st c) :=
  rings_ok_foldl_range _ (rings_ok_check_for_match_demand _) st _ hok

theorem rings_ok_watch_event_body (idx : Nat) (st : world) (i : Nat) (hok : rings_ok st) :
    rings_ok (watch_event_body idx st i) := by
  unfold watch_event_body
  dsimp only
  split_ifs
  · exact rings_ok_enqueue _ _ _ hok
  · exact hok
  · exact hok

theorem rings_ok_check_for_watch_events (st : world) (idx : Nat) (hok : rings_ok st) :
    rings_ok (check_for_watch_events_on_new_supply st idx) := by
  unfold check_for_watch_events_on_new_supply
  split_ifs
  · exact hok
  · exact rings_ok_foldl_range _ (rings_ok_watch_event_body idx) st _ hok

theorem rings_ok_command (st : world) (fd h : Int) (cmd : command) (hok : rings_ok st) :
    rings_ok (command_thread_func st fd h cmd) := by
  cases cmd with
  | move x y =>
    exact rings_ok_client_put hok h _
      ⟨(ring_ok_client_at hok h).1, (ring_ok_client_at hok h).2.1, (ring_ok_client_at hok h).2.2.1,
        (ring_ok_client_at hok h).2.2.2.1, (ring_ok_client_at hok h).2.2.2.2.1,
        (ring_ok_client_at hok h).2.2.2.2.2⟩
  | demand a b c =>
    refine rings_ok_check_for_match _ h (rings_ok_of_clients_eq ?_ hok)
    show (add_new_demand st h a b c).clients = st.clients
    unfold add_new_demand
    split <;> rfl
  | supply dist a b c =>
    have h1 : rings_ok (sock_write (add_new_supply st h dist a b c).1 fd ok_reply) := by
      refine rings_ok_of_clients_eq ?_ hok
      show (add_new_supply st h dist a b c).1.clients = st.clients
      unfold add_new_supply
      split <;> rfl
    have h2 := rings_ok_check_for_match _ h h1
    show rings_ok (let r := add_new_supply st h dist a b c
          let st1 := check_for_match (sock_write r.1 fd ok_reply) h
          if r.2 ≠ -1 then check_for_watch_events_on_new_supply st1 r.2.toNat else st1)
    dsimp only
    split_ifs
    · exact rings_ok_check_for_watch_events _ _ h2
    · exact h2
  | watch r =>
    refine rings_ok_of_clients_eq ?_ hok
    show (add_new_watch st h r).clients = st.clients
    dsimp only [add_new_watch]
    split <;> rfl
  | unwatch => exact hok
  | listsupplies => exact rings_ok_of_clients_eq (list_supplies_frame st h).2.2.2 hok
  | listdemands => exact rings_ok_of_clients_eq (list_demands_frame st h).2.2.2 hok
  | mysupplies => exact rings_ok_of_clients_eq (my_supplies_frame st h).2.2.2 hok
  | mydemands => exact rings_ok_of_clients_eq (my_demands_frame st h).2.2.2 hok
  | quit => exact hok
  | invalid => exact hok

theorem rings_ok_register_client (st : world) (fd : Int) (hok : rings_ok st) :
    rings_ok (register_client st fd).1 := by
  cases hf : first_index (fun c : client => c.client_socket = -1) st.clients with
  | none =>
    unfold register_client
    rw [hf]
    exact hok
  | some i =>
    rw [register_client_of_some st fd i hf]
    intro c hc
    rcases List.mem_or_eq_of_mem_set hc with g | g
    · exact hok c g
    · obtain ⟨_, _, _, _, hlen, hmsg⟩ := ring_ok_client_at hok (i : Int)
      rw [g]
      exact ⟨show (0 : Int) ≤ 0 by decide, show (0 : Int) < MAX_NOTIFICATIONS by decide,
        show (0 : Int) ≤ 0 by decide, show (0 : Int) < MAX_NOTIFICATIONS by decide, hlen, hmsg⟩

theorem rings_ok_remove_client_resources (st : world) (h : Int) (hok : rings_ok st) :
    rings_ok (remove_client_resources st h) := by
  unfold remove_client_resources
  dsimp only
  have hok1 : rings_ok
      { st with
        supplies := st.supplies.map fun s => if s.client_id = h then free_supply else s
        demands := st.demands.map fun d => if d.client_id = h then free_demand else d
        watches := st.watches.map fun w =>
          if w.client_id = h then { w with client_id := -1, watch_id := 0 } else w } := hok
  have hc := ring_ok_client_at hok1 h
  exact rings_ok_client_put hok1 h _ hc

/-- In every state the server reaches, every ring of the registry is well formed. -/
theorem rings_ok_reachable_by (ok : command → Prop) (st : world) (hr : reachable_by ok st) :
    rings_ok st := by
  induction hr with
  | init a b c d =>
    intro c hc
    rw [List.eq_of_mem_replicate hc]
    exact ring_ok_free_client
  | connect fd i _ _ _ ih => exact rings_ok_register_client _ fd ih
  | line h cmd _ _ _ ih => exact rings_ok_command _ _ h cmd ih
  | notify h _ _ ih => exact rings_ok_notification_thread_func _ h ih
  | disconnect h _ _ ih => exact rings_ok_remove_client_resources _ h ih

/-! ### The notifications of a settlement -/

theorem ring_pending_length (c : client) :
    (ring_pending c).length = ((c.notif_head - c.notif_tail) % MAX_NOTIFICATIONS).toNat := by
  unfold ring_pending
  rw [List.length_map, List.length_range]

theorem ring_full_iff (c : client) (hok : ring_ok c) :
    ring_full c ↔ (ring_pending c).length = 999 := by
  obtain ⟨hh0, hh1, ht0, ht1, _, _⟩ := hok
  rw [ring_pending_length]
  unfold ring_full
  rw [Int.tmod_eq_emod (by omega) (by unfold MAX_NOTIFICATIONS; omega)]
  unfold MAX_NOTIFICATIONS at *
  omega

theorem ring_pending_length_le (c : client) (hok : ring_ok c) :
    (ring_pending c).length ≤ 999 := by
  obtain ⟨hh0, hh1, ht0, ht1, _, _⟩ := hok
  rw [ring_pending_length]
  unfold MAX_NOTIFICATIONS at *
  omega

/-- The ring of `c` after a call of `enqueue_notification` for `c1`. -/
theorem ring_pending_after_enqueue (st : world) (c c1 : Int) (msg : String)
    (h0 : 0 ≤ c) (hlt : c < st.clients.length) (hok : ring_ok (client_at st c)) :
    ring_ok (client_at (enqueue_notification st c1 msg) c) ∧
    ring_pending (client_at (enqueue_notification st c1 msg) c)
      = ring_pending (client_at st c)
        ++ (if c1 = c ∧ ¬ ring_full (client_at st c) then [strncpy msg 255] else []) := by
  by_cases e : c1 = c
  · subst e
    rw [enqueue_notification_client_at st c1 msg c1 h0 hlt]
    by_cases hf : ring_full (client_at st c1)
    · rw [if_neg (fun g => g.2 hf), if_neg (fun g => g.2 hf)]
      exact ⟨hok, by simp⟩
    · rw [if_pos ⟨rfl, hf⟩, if_pos ⟨rfl, hf⟩]
      exact ⟨ring_ok_enqueue _ msg hok, ring_pending_enqueue _ msg hok hf⟩
  · rw [enqueue_notification_client_at_of_ne st c1 msg c (Ne.symm e), if_neg (fun g => e g.1)]
    exact ⟨hok, by simp⟩

/-- The ring of `c` after the calls of `calls`, when it has room for the messages
addressed to `c`: they are appended in order, each cut to 255 characters. -/
theorem ring_pending_enqueue_all (c : Int) (calls : List (Int × String)) (st : world)
    (h0 : 0 ≤ c) (hlt : c < st.clients.length) (hok : ring_ok (client_at st c))
    (hroom : (ring_pending (client_at st c)).length + (calls_for c calls).length ≤ 999) :
    ring_pending (client_at (enqueue_all st calls) c)
      = ring_pending (client_at st c) ++ (calls_for c calls).map fun m => strncpy m 255 := by
  induction calls generalizing st with
  | nil => simp [enqueue_all, calls_for]
  | cons p calls ih =>
    obtain ⟨hok1, hp1⟩ := ring_pending_after_enqueue st c p.1 p.2 h0 hlt hok
    have hlt1 : c < (enqueue_notification st p.1 p.2).clients.length := by
      rw [enqueue_notification_clients_length]
      exact hlt
    show ring_pending (client_at (enqueue_all (enqueue_notification st p.1 p.2) calls) c) = _
    by_cases e : p.1 = c
    · have hcf : calls_for c (p :: calls) = p.2 :: calls_for c calls := by
        simp [calls_for, List.filter_cons, e]
      rw [hcf] at hroom ⊢
      rw [List.length_cons] at hroom
      have hnf : ¬ ring_full (client_at st c) := by
        rw [ring_full_iff _ hok]
        omega
      rw [if_pos ⟨e, hnf⟩] at hp1
      rw [ih (enqueue_notification st p.1 p.2) hlt1 hok1
        (by rw [hp1, List.length_append, List.length_singleton]; omega), hp1]
      simp
    · have hcf : calls_for c (p :: calls) = calls_for c calls := by
        simp [calls_for, List.filter_cons, e]
      rw [hcf] at hroom ⊢
      rw [if_neg (fun g => e g.1), List.append_nil] at hp1
      rw [ih (enqueue_notification st p.1 p.2) hlt1 hok1 (by rw [hp1]; exact hroom), hp1]

theorem enqueue_all_trace (calls : List (Int × String)) (st : world) :
    (enqueue_all st calls).trace = st.trace ++ calls.map fun p => event.enqueue p.1 p.2 := by
  induction calls generalizing st with
  | nil => simp [enqueue_all]
  | cons p calls ih =>
    show (enqueue_all (enqueue_notification st p.1 p.2) calls).trace = _
    rw [ih, enqueue_notification_trace]
    simp

theorem enqueue_all_client_at_of_not_mem (c : Int) (calls : List (Int × String)) (st : world)
    (hc : ∀ p ∈ calls, p.1 ≠ c) : client_at (enqueue_all st calls) c = client_at st c := by
  induction calls generalizing st with
  | nil => rfl
  | cons p calls ih =>
    show client_at (enqueue_all (enqueue_notification st p.1 p.2) calls) c = _
    rw [ih _ (fun q hq => hc q (List.mem_cons_of_mem _ hq)),
      enqueue_notification_client_at_of_ne st p.1 p.2 c (Ne.symm (hc p (List.mem_cons_self _ _)))]

theorem match_demand_and_supply_clients (st : world) (j i : Nat)
    (hd : (demand_at st j).client_id ≠ -1) (hs : (supply_at st i).client_id ≠ -1) :
    (match_demand_and_supply st j i).clients
      = (enqueue_all st (settlement_calls (supply_at st i) (demand_at st j))).clients := by
  have hclients : ∀ (w w1 : world) (c : Int) (m : String), w1.clients = w.clients →
      (enqueue_notification w1 c m).clients = (enqueue_notification w c m).clients := by
    intro w w1 c m hw
    have hca : client_at w1 c = client_at w c := client_at_of_clients_eq hw c
    dsimp only [enqueue_notification, client_put]
    rw [hca]
    split_ifs <;> simp [hw]
  unfold match_demand_and_supply settlement_calls
  dsimp only
  simp only [if_pos hd, if_pos hs]
  by_cases hz : (supply_at st i).a_amount - (demand_at st j).a_amount = 0 ∧
      (supply_at st i).b_amount - (demand_at st j).b_amount = 0 ∧
      (supply_at st i).c_amount - (demand_at st j).c_amount = 0
  · simp only [if_pos hz]
    exact hclients _ _ _ _ rfl
  · simp only [if_neg hz]
    rfl

theorem settlement_calls_receiver (s : supply) (d : demand) (p : Int × String)
    (hp : p ∈ settlement_calls s d) : p.1 = d.client_id ∨ p.1 = s.client_id := by
  unfold settlement_calls at hp
  rw [List.mem_append] at hp
  rcases hp with g | g
  · rw [List.mem_cons, List.mem_singleton] at g
    rcases g with g | g
    · exact Or.inl (by rw [g])
    · exact Or.inr (by rw [g])
  · split_ifs at g
    · rw [List.mem_singleton] at g
      exact Or.inr (by rw [g])
    · exact absurd g (List.not_mem_nil _)

/-- C19: for a pair that `check_case_match` accepts, `match_demand_and_supply` calls
`enqueue_notification`, in this order, with the fulfilment message for the owner of
the demand, with the delivery message for the owner of the supply, built from the
supply as it is before the deduction, and, exactly when the deduction leaves all
three amounts zero, with the supply-removed message for the owner of the supply;
the registry after the settlement is the registry after these calls, so the entry of
every client other than the two owners is unchanged, and a well-formed ring with
room for the messages addressed to its client holds them, after what it held
before, in that order. -/
theorem match_demand_and_supply_notifications (st : world) (j i : Nat)
    (hm : check_case_match st j i = 1) :
    (match_demand_and_supply st j i).trace
      = st.trace ++ (settlement_calls (supply_at st i) (demand_at st j)).map
          (fun p => event.enqueue p.1 p.2) ∧
    (match_demand_and_supply st j i).clients
      = (enqueue_all st (settlement_calls (supply_at st i) (demand_at st j))).clients ∧
    settlement_calls (supply_at st i) (demand_at st j)
      = [((demand_at st j).client_id, demand_message (demand_at st j) (supply_at st i)),
         ((supply_at st i).client_id, supply_message (supply_at st i) (demand_at st j))]
        ++ (if (supply_at (match_demand_and_supply st j i) i).client_id = -1
            then [((supply_at st i).client_id, removed_message)] else []) ∧
    is_fulfilment (demand_message (demand_at st j) (supply_at st i)) = true ∧
    is_delivery (supply_message (supply_at st i) (demand_at st j)) = true ∧
    (∀ c, c ≠ (demand_at st j).client_id → c ≠ (supply_at st i).client_id →
      client_at (match_demand_and_supply st j i) c = client_at st c) ∧
    (∀ c : Int, 0 ≤ c → c < st.clients.length → ring_ok (client_at st c) →
      (ring_pending (client_at st c)).length
          + (calls_for c (settlement_calls (supply_at st i) (demand_at st j))).length ≤ 999 →
      ring_pending (client_at (match_demand_and_supply st j i) c)
        = ring_pending (client_at st c)
          ++ (calls_for c (settlement_calls (supply_at st i) (demand_at st j))).map
              fun m => strncpy m 255) := by
  obtain ⟨hd, hs, _⟩ := (check_case_match_eq_one_iff st j i).1 hm
  have hcl := match_demand_and_supply_clients st j i hd hs
  have hfree : (supply_at (match_demand_and_supply st j i) i).client_id = -1 ↔
      (supply_at st i).a_amount - (demand_at st j).a_amount = 0 ∧
      (supply_at st i).b_amount - (demand_at st j).b_amount = 0 ∧
      (supply_at st i).c_amount - (demand_at st j).c_amount = 0 := by
    have hi := supply_at_occupied_lt st i hs
    have hsa : supply_at (match_demand_and_supply st j i) i
        = settled_supply (supply_at st i) (demand_at st j) := by
      simp [supply_at, match_demand_and_supply_supplies, List.getD_eq_getElem?_getD, hi]
    rw [hsa]
    unfold settled_supply
    split_ifs with hz
    · simp [free_supply, hz]
    · simp [hz, hs]
  refine ⟨?_, hcl, ?_, is_fulfilment_demand_message _ _, is_delivery_supply_message _ _, ?_, ?_⟩
  · rw [match_demand_and_supply_trace]
    unfold settlement_events settlement_calls
    rw [if_pos hd, if_pos hs]
    split_ifs with h1 h2 h2 <;> simp_all
  · unfold settlement_calls
    congr 1
    by_cases hz : (supply_at st i).a_amount - (demand_at st j).a_amount = 0 ∧
        (supply_at st i).b_amount - (demand_at st j).b_amount = 0 ∧
        (supply_at st i).c_amount - (demand_at st j).c_amount = 0
    · rw [if_pos hz, if_pos (hfree.2 hz)]
    · rw [if_neg hz, if_neg (fun g => hz (hfree.1 g))]
  · intro c hcd hcs
    rw [client_at_of_clients_eq hcl c]
    apply enqueue_all_client_at_of_not_mem
    intro p hp
    rcases settlement_calls_receiver _ _ p hp with g | g
    · rw [g]
      exact Ne.symm hcd
    · rw [g]
      exact Ne.symm hcs
  · intro c h0 hlt hok hroom
    rw [client_at_of_clients_eq hcl c]
    exact ring_pending_enqueue_all c _ st h0 hlt hok hroom


/-- C19 on `depletion_world`: the settlement of the demand `(4,0,0)` of client 1
notifies client 1 and then client 0, the delivery message showing the supply
`(10,0,0)` as it was before the deduction; the settlement of the demand `(10,0,0)`
adds the supply-removed message for client 0, whose ring then holds the delivery
message followed by the supply-removed message. -/
theorem match_demand_and_supply_notifications_witness :
    check_case_match (depletion_world 4) 0 0 = 1 ∧
    check_case_match (depletion_world 10) 0 0 = 1 ∧
    (match_demand_and_supply (depletion_world 4) 0 0).trace
      = [event.enqueue 1 "Your demand at (1,1), [4,0,0] is fulfilled by a supply at (0,0).\n",
         event.enqueue 0 ("Your supply at (0,0), [10,0,0] with distance 5 is delivered to a "
           ++ "demand at (1,1) [4,0,0].\n")] ∧
    (match_demand_and_supply (depletion_world 10) 0 0).trace
      = [event.enqueue 1 "Your demand at (1,1), [10,0,0] is fulfilled by a supply at (0,0).\n",
         event.enqueue 0 ("Your supply at (0,0), [10,0,0] with distance 5 is delivered to a "
           ++ "demand at (1,1) [10,0,0].\n"),
         event.enqueue 0 "Your supply is removed from map.\n"] ∧
    ring_pending (client_at (match_demand_and_supply (depletion_world 10) 0 0) 0)
      = [("Your supply at (0,0), [10,0,0] with distance 5 is delivered to a "
           ++ "demand at (1,1) [10,0,0].\n"),
         "Your supply is removed from map.\n"] :=
  have h4 := match_demand_and_supply_notifications (depletion_world 4) 0 0 (by decide)
  have h10 := match_demand_and_supply_notifications (depletion_world 10) 0 0 (by decide)
  ⟨by decide, by decide, h4.1.trans (by decide), h10.1.trans (by decide),
    (h10.2.2.2.2.2.2 0 (by decide) (by decide)
      (ring_ok_of_empty_buffers _ rfl (by decide) (by decide) (by decide) (by decide))
      (by decide)).trans (by decide)⟩

/-! ### The list commands -/

theorem filter_eq_map_range {α : Type} (p : α → Bool) (d : α) (l : List α) :
    l.filter p
      = ((List.range l.length).filter fun i => p (l.getD i d)).map fun i => l.getD i d := by
  induction l with
  | nil => rfl
  | cons a t ih =>
    rw [List.length_cons, List.range_succ_eq_map, List.filter_cons, List.filter_cons,
      List.filter_map]
    have h0 : (a :: t).getD 0 d = a := rfl
    have hs : ((fun i => (a :: t).getD i d) ∘ Nat.succ) = fun i => t.getD i d := by
      funext i
      rfl
    have hp : ((fun i => p ((a :: t).getD i d)) ∘ Nat.succ) = fun i => p (t.getD i d) := by
      funext i
      rfl
    rw [h0, hp]
    split_ifs
    · rw [List.map_cons, List.map_map, hs, h0, ← ih]
    · rw [List.map_map, hs, ← ih]

theorem foldl_sock_write_trace {α : Type} (f : α → String) (fd : Int) (l : List α) (st : world) :
    (l.foldl (fun w a => sock_write w fd (f a)) st).trace
      = st.trace ++ l.map fun a => event.write fd (f a) := by
  induction l generalizing st with
  | nil => simp
  | cons a t ih =>
    rw [List.foldl_cons, ih]
    simp [sock_write]

theorem supply_listing_trace (st : world) (fd : Int) (p : supply → Bool) :
    ((st.supplies.filter p).foldl (fun w s => sock_write w fd (supply_line s))
        (sock_write st fd (supplies_header (st.supplies.countP p)))).trace
      = st.trace ++ listing fd (supplies_header (supply_slots st p).length)
          ((supply_slots st p).map fun i => supply_line (supply_at st i)) := by
  have hf : st.supplies.filter p = (supply_slots st p).map fun i => supply_at st i :=
    filter_eq_map_range p free_supply st.supplies
  rw [foldl_sock_write_trace, List.countP_eq_length_filter, hf, List.length_map, List.map_map]
  simp [sock_write, listing, Function.comp]

theorem demand_listing_trace (st : world) (fd : Int) (p : demand → Bool) :
    ((st.demands.filter p).foldl (fun w d => sock_write w fd (demand_line d))
        (sock_write st fd (demands_header (st.demands.countP p)))).trace
      = st.trace ++ listing fd (demands_header (demand_slots st p).length)
          ((demand_slots st p).map fun j => demand_line (demand_at st j)) := by
  have hf : st.demands.filter p = (demand_slots st p).map fun j => demand_at st j :=
    filter_eq_map_range p free_demand st.demands
  rw [foldl_sock_write_trace, List.countP_eq_length_filter, hf, List.length_map, List.map_map]
  simp [sock_write, listing, Function.comp]

theorem range_filter_sorted (n : Nat) (p : Nat → Bool) :
    ((List.range n).filter p).Pairwise (· < ·) :=
  List.Pairwise.filter _ (List.pairwise_lt_range n)

/-- C17: each list command writes to the socket of the caller one header and then one
row per listed slot and nothing else: the header carries the number of rows, the
listed slots are the occupied slots of the table (`listsupplies`, `listdemands`) or
the slots owned by the caller (`mysupplies`, `mydemands`) in ascending order, the
row of a slot is the line formatted from the X, Y, A, B, C (and, for a supply, D)
of that slot, and the tables and the registry are unchanged. -/
theorem list_commands_spec (st : world) (h : Int) :
    ((list_supplies st h).trace
        = st.trace ++ listing (client_at st h).client_socket
            (supplies_header (supply_slots st fun s => s.client_id ≠ -1).length)
            ((supply_slots st fun s => s.client_id ≠ -1).map
              fun i => supply_line (supply_at st i)) ∧
      (list_demands st h).trace
        = st.trace ++ listing (client_at st h).client_socket
            (demands_header (demand_slots st fun d => d.client_id ≠ -1).length)
            ((demand_slots st fun d => d.client_id ≠ -1).map
              fun j => demand_line (demand_at st j)) ∧
      (my_supplies st h).trace
        = st.trace ++ listing (client_at st h).client_socket
            (supplies_header (supply_slots st fun s => s.client_id = h).length)
            ((supply_slots st fun s => s.client_id = h).map
              fun i => supply_line (supply_at st i)) ∧
      (my_demands st h).trace
        = st.trace ++ listing (client_at st h).client_socket
            (demands_header (demand_slots st fun d => d.client_id = h).length)
            ((demand_slots st fun d => d.client_id = h).map
              fun j => demand_line (demand_at st j))) ∧
    (∀ p, (supply_slots st p).Pairwise (· < ·) ∧
      ∀ i, i ∈ supply_slots st p ↔ i < st.supplies.length ∧ p (supply_at st i) = true) ∧
    (∀ p, (demand_slots st p).Pairwise (· < ·) ∧
      ∀ j, j ∈ demand_slots st p ↔ j < st.demands.length ∧ p (demand_at st j) = true) ∧
    (∀ n : Nat, (supplies_header n).data
      = ("There are " ++ toString n ++ " supplies in total.\n" ++ "X | Y | A | B | C | D |\n"
          ++ "-------+-------+-----+-----+-----+-------+\n").data.take 511) ∧
    (∀ n : Nat, (demands_header n).data
      = ("There are " ++ toString n ++ " demands in total.\n" ++ "X | Y | A | B | C |\n"
          ++ "-------+-------+-----+-----+-----+\n").data.take 511) ∧
    (∀ s : supply, (supply_line s).data
      = (fmt_wd 7 s.x ++ "|" ++ fmt_wd 7 s.y ++ "|" ++ fmt_wd 5 s.a_amount ++ "|"
          ++ fmt_wd 5 s.b_amount ++ "|" ++ fmt_wd 5 s.c_amount ++ "|" ++ fmt_wd 7 s.distance
          ++ "|\n").data.take 127) ∧
    (∀ d : demand, (demand_line d).data
      = (fmt_wd 7 d.x ++ "|" ++ fmt_wd 7 d.y ++ "|" ++ fmt_wd 5 d.a_amount ++ "|"
          ++ fmt_wd 5 d.b_amount ++ "|" ++ fmt_wd 5 d.c_amount ++ "|\n").data.take 127) ∧
    (∀ cmd, cmd = command.listsupplies ∨ cmd = command.listdemands ∨ cmd = command.mysupplies
        ∨ cmd = command.mydemands →
      (command_thread_func st (client_at st h).client_socket h cmd).supplies = st.supplies ∧
      (command_thread_func st (client_at st h).client_socket h cmd).demands = st.demands ∧
      (command_thread_func st (client_at st h).client_socket h cmd).watches = st.watches ∧
      (command_thread_func st (client_at st h).client_socket h cmd).clients = st.clients) := by
  refine ⟨⟨supply_listing_trace st _ _, demand_listing_trace st _ _, supply_listing_trace st _ _,
    demand_listing_trace st _ _⟩, ?_, ?_, ?_, ?_, ?_, ?_, ?_⟩
  · intro p
    refine ⟨range_filter_sorted _ _, fun i => ?_⟩
    unfold supply_slots
    rw [List.mem_filter, List.mem_range]
  · intro p
    refine ⟨range_filter_sorted _ _, fun j => ?_⟩
    unfold demand_slots
    rw [List.mem_filter, List.mem_range]
  · intro n
    have hts : toString (n : Int) = toString n := rfl
    unfold supplies_header fmt_d snprintf
    rw [hts]
  · intro n
    have hts : toString (n : Int) = toString n := rfl
    unfold demands_header fmt_d snprintf
    rw [hts]
  · intro s
    unfold supply_line snprintf
    rfl
  · intro d
    unfold demand_line snprintf
    rfl
  · intro cmd hc
    rcases hc with g | g | g | g <;> subst g
    · exact list_supplies_frame st h
    · exact list_demands_frame st h
    · exact my_supplies_frame st h
    · exact my_demands_frame st h

/-- C17 on `listing_world`: the replies to `mysupplies` and `listdemands` from client 1,
where client 0 holds supply slot 0 and client 1 holds supply slot 1 and demand
slot 0. -/
theorem list_commands_spec_witness :
    supply_slots listing_world (fun s => s.client_id ≠ -1) = [0, 1] ∧
    supply_slots listing_world (fun s => s.client_id = 1) = [1] ∧
    (my_supplies listing_world 1).trace
      = listing_world.trace
        ++ [event.write 5 ("There are 1 supplies in total.\n" ++ "X | Y | A | B | C | D |\n"
              ++ "-------+-------+-----+-----+-----+-------+\n"),
            event.write 5 "      2|      2|    4|    5|    6|      7|\n"] ∧
    (list_demands listing_world 1).trace
      = listing_world.trace
        ++ [event.write 5 ("There are 1 demands in total.\n" ++ "X | Y | A | B | C |\n"
              ++ "-------+-------+-----+-----+-----+\n"),
            event.write 5 "      2|      2|    9|    9|    9|\n"] :=
  ⟨by decide, by decide, (list_commands_spec listing_world 1).1.2.2.1.trans (by decide),
    (list_commands_spec listing_world 1).1.2.1.trans (by decide)⟩

/-! ### Owners are connected clients -/

theorem owns_nothing_of_tables_eq {st st1 : world} (h : Int) (hs : st1.supplies = st.supplies)
    (hd : st1.demands = st.demands) (hw : st1.watches = st.watches)
    (ho : owns_nothing st h) : owns_nothing st1 h := by
  unfold owns_nothing
  rw [hs, hd, hw]
  exact ho

theorem owns_nothing_add_new_demand (st : world) (h a b c k : Int) (hne : k ≠ h)
    (ho : owns_nothing st k) : owns_nothing (add_new_demand st h a b c) k := by
  unfold add_new_demand
  split
  · refine ⟨ho.1, ?_, ho.2.2⟩
    intro d hd
    rcases List.mem_or_eq_of_mem_set hd with g | g
    · exact ho.2.1 d g
    · rw [g]
      exact Ne.symm hne
  · exact ho

theorem owns_nothing_add_new_supply (st : world) (h dist a b c k : Int) (hne : k ≠ h)
    (ho : owns_nothing st k) : owns_nothing (add_new_supply st h dist a b c).1 k := by
  unfold add_new_supply
  split
  · refine ⟨?_, ho.2.1, ho.2.2⟩
    intro s hs
    rcases List.mem_or_eq_of_mem_set hs with g | g
    · exact ho.1 s g
    · rw [g]
      exact Ne.symm hne
  · exact ho

theorem owns_nothing_remove_watch (st : world) (h k : Int) (hk : k ≠ -1)
    (ho : owns_nothing st k) : owns_nothing (remove_watch st h) k := by
  refine ⟨ho.1, ho.2.1, ?_⟩
  intro w hw
  obtain ⟨v, hv, rfl⟩ := List.mem_map.1 hw
  split_ifs
  · exact Ne.symm hk
  · exact ho.2.2 v hv

theorem owns_nothing_add_new_watch (st : world) (h r k : Int) (hk : k ≠ -1) (hne : k ≠ h)
    (ho : owns_nothing st k) : owns_nothing (add_new_watch st h r) k := by
  have h1 := owns_nothing_remove_watch st h k hk ho
  unfold remove_watch at h1
  dsimp only [add_new_watch]
  split
  · refine ⟨h1.1, h1.2.1, ?_⟩
    intro w hw
    rcases List.mem_or_eq_of_mem_set hw with g | g
    · exact h1.2.2 w g
    · rw [g]
      exact Ne.symm hne
  · exact h1

theorem owns_nothing_command (st : world) (fd h : Int) (cmd : command) (k : Int) (hk : k ≠ -1)
    (hne : k ≠ h) (ho : owns_nothing st k) :
    owns_nothing (command_thread_func st fd h cmd) k := by
  cases cmd with
  | move x y =>
    exact owns_nothing_of_tables_eq k (move_client_frame st h x y).1
      (move_client_frame st h x y).2.1 (move_client_frame st h x y).2.2.1 ho
  | demand a b c =>
    have h1 : owns_nothing (sock_write (add_new_demand st h a b c) fd ok_reply) k :=
      owns_nothing_add_new_demand st h a b c k hne ho
    exact (quiet_check_for_match k hk _ h h1).1
  | supply dist a b c =>
    have h1 : owns_nothing (sock_write (add_new_supply st h dist a b c).1 fd ok_reply) k :=
      owns_nothing_add_new_supply st h dist a b c k hne ho
    have h2 := (quiet_check_for_match k hk _ h h1).1
    show owns_nothing (let r := add_new_supply st h dist a b c
          let st1 := check_for_match (sock_write r.1 fd ok_reply) h
          if r.2 ≠ -1 then check_for_watch_events_on_new_supply st1 r.2.toNat else st1) k
    dsimp only
    split_ifs
    · exact (quiet_check_for_watch_events k hk _ _ h2).1
    · exact h2
  | watch r => exact owns_nothing_add_new_watch st h r k hk hne ho
  | unwatch => exact owns_nothing_remove_watch st h k hk ho
  | listsupplies =>
    exact owns_nothing_of_tables_eq k (list_supplies_frame st h).1 (list_supplies_frame st h).2.1
      (list_supplies_frame st h).2.2.1 ho
  | listdemands =>
    exact owns_nothing_of_tables_eq k (list_demands_frame st h).1 (list_demands_frame st h).2.1
      (list_demands_frame st h).2.2.1 ho
  | mysupplies =>
    exact owns_nothing_of_tables_eq k (my_supplies_frame st h).1 (my_supplies_frame st h).2.1
      (my_supplies_frame st h).2.2.1 ho
  | mydemands =>
    exact owns_nothing_of_tables_eq k (my_demands_frame st h).1 (my_demands_frame st h).2.1
      (my_demands_frame st h).2.2.1 ho
  | quit => exact ho
  | invalid => exact ho

theorem notification_thread_func_tables (st : world) (h : Int) :
    (notification_thread_func st h).supplies = st.supplies ∧
    (notification_thread_func st h).demands = st.demands ∧
    (notification_thread_func st h).watches = st.watches := by
  dsimp only [notification_thread_func, notify_client, sock_write]
  split_ifs <;> simp

theorem register_client_tables (st : world) (fd : Int) :
    (register_client st fd).1.supplies = st.supplies ∧
    (register_client st fd).1.demands = st.demands ∧
    (register_client st fd).1.watches = st.watches := by
  unfold register_client
  split <;> exact ⟨rfl, rfl, rfl⟩

theorem owns_nothing_remove_client_resources_of_ne (st : world) (h k : Int) (hk : k ≠ -1)
    (ho : owns_nothing st k) : owns_nothing (remove_client_resources st h) k := by
  dsimp only [remove_client_resources, owns_nothing]
  rw [client_put_supplies, client_put_demands, client_put_watches]
  refine ⟨?_, ?_, ?_⟩
  · intro s hs
    obtain ⟨v, hv, rfl⟩ := List.mem_map.1 hs
    split_ifs
    · exact Ne.symm hk
    · exact ho.1 v hv
  · intro d hd
    obtain ⟨v, hv, rfl⟩ := List.mem_map.1 hd
    split_ifs
    · exact Ne.symm hk
    · exact ho.2.1 v hv
  · intro w hw
    obtain ⟨v, hv, rfl⟩ := List.mem_map.1 hw
    split_ifs
    · exact Ne.symm hk
    · exact ho.2.2 v hv

theorem live_iff_of_same_sessions {st st1 : world} (h : same_sessions st st1) (c : Int) :
    live st1 c ↔ live st c := by
  unfold live
  rw [same_sessions_length h, same_sessions_client_socket h]

theorem first_index_of_register_client (st : world) (fd : Int) (i : Nat)
    (h : (register_client st fd).2 = some i) :
    first_index (fun c : client => c.client_socket = -1) st.clients = some i := by
  unfold register_client at h
  cases hf : first_index (fun c : client => c.client_socket = -1) st.clients with
  | none =>
    rw [hf] at h
    exact absurd h (by simp)
  | some k =>
    rw [hf] at h
    simpa using h

theorem live_register_client (st : world) (fd : Int) (i : Nat)
    (h : (register_client st fd).2 = some i) (c : Int) (hc : c ≠ i)
    : live (register_client st fd).1 c ↔ live st c := by
  have hf := first_index_of_register_client st fd i h
  rw [register_client_of_some st fd i hf]
  unfold live
  rw [client_at_set_nat, if_neg (fun g => hc g.2)]
  simp

theorem remove_client_resources_socket (st : world) (h : Int) (h0 : 0 ≤ h)
    (hlt : h < st.clients.length) :
    (client_at (remove_client_resources st h) h).client_socket = -1 := by
  dsimp only [remove_client_resources]
  rw [client_at_client_put, if_pos ⟨h0, by simpa using hlt, rfl⟩]

theorem client_at_mem_or_free (st : world) (h : Int) :
    client_at st h ∈ st.clients ∨ client_at st h = free_client := by
  unfold client_at
  split_ifs
  · rw [List.getD_eq_getElem?_getD]
    rcases Nat.lt_or_ge h.toNat st.clients.length with hi | hi
    · left
      rw [List.getElem?_eq_getElem hi]
      exact List.getElem_mem hi
    · right
      rw [List.getElem?_eq_none hi]
      rfl
  · exact Or.inr rfl

/-- The two invariants behind the ownership rule, in every state the server
reaches: a handle that is not connected owns no slot, and the registry entry of a
connected handle carries that handle. -/
theorem no_orphans_reachable_by (ok : command → Prop) (st : world) (hr : reachable_by ok st) :
    no_orphans st ∧ ids_ok st := by
  induction hr with
  | init a b c d =>
    constructor
    · intro h hh _
      refine ⟨?_, ?_, ?_⟩
      · intro s hs
        rw [List.eq_of_mem_replicate hs]
        exact Ne.symm hh
      · intro s hs
        rw [List.eq_of_mem_replicate hs]
        exact Ne.symm hh
      · intro s hs
        rw [List.eq_of_mem_replicate hs]
        exact Ne.symm hh
    · intro h hl
      exfalso
      apply hl.2.2
      rcases client_at_mem_or_free (init_world a b c d) h with g | g
      · rw [List.eq_of_mem_replicate g]
        rfl
      · rw [g]
        rfl
  | @connect st0 fd i _ _ hi ih =>
    constructor
    · intro h hh hnl
      have hno : ¬ live st0 h := by
        intro hl
        by_cases e : h = i
        · have hf := first_index_of_register_client st0 fd i hi
          obtain ⟨hlt, hfree, _⟩ := first_index_some _ _ _ hf
          apply hl.2.2
          rw [e, client_at_nat, List.getD_eq_getElem?_getD, List.getElem?_eq_getElem hlt]
          simpa using hfree
        · exact hnl ((live_register_client st0 fd i hi h e).2 hl)
      exact owns_nothing_of_tables_eq h (register_client_tables st0 fd).1
        (register_client_tables st0 fd).2.1 (register_client_tables st0 fd).2.2 (ih.1 h hh hno)
    · intro h hl
      have hf := first_index_of_register_client st0 fd i hi
      by_cases e : h = i
      · obtain ⟨hlt, _, _⟩ := first_index_some _ _ _ hf
        rw [register_client_of_some st0 fd i hf, client_at_set_nat, e,
          if_pos ⟨by exact_mod_cast hlt, rfl⟩]
        rfl
      · have hl0 := (live_register_client st0 fd i hi h e).1 hl
        rw [register_client_of_some st0 fd i hf, client_at_set_nat, if_neg (fun g => e g.2)]
        exact ih.2 h hl0
  | @line st0 h cmd _ hlive _ ih =>
    have hss := same_sessions_command st0 (client_at st0 h).client_socket h cmd
    constructor
    · intro k hk hnl
      have hnl0 : ¬ live st0 k := fun g => hnl ((live_iff_of_same_sessions hss k).2 g)
      have hne : k ≠ h := fun e => hnl0 (e ▸ hlive)
      exact owns_nothing_command st0 _ h cmd k hk hne (ih.1 k hk hnl0)
    · intro k hl
      rw [same_sessions_client_id hss k]
      exact ih.2 k ((live_iff_of_same_sessions hss k).1 hl)
  | @notify st0 h _ _ ih =>
    have hss := same_sessions_notification_thread_func st0 h
    constructor
    · intro k hk hnl
      have hnl0 : ¬ live st0 k := fun g => hnl ((live_iff_of_same_sessions hss k).2 g)
      exact owns_nothing_of_tables_eq k (notification_thread_func_tables st0 h).1
        (notification_thread_func_tables st0 h).2.1 (notification_thread_func_tables st0 h).2.2
        (ih.1 k hk hnl0)
    · intro k hl
      rw [same_sessions_client_id hss k]
      exact ih.2 k ((live_iff_of_same_sessions hss k).1 hl)
  | @disconnect st0 h _ hlive ih =>
    constructor
    · intro k hk hnl
      by_cases e : k = h
      · rw [e]
        exact owns_nothing_remove_client_resources st0 h (e ▸ hk)
      · have hnl0 : ¬ live st0 k :=
          fun g => hnl (live_remove_client_resources_of_ne st0 h k e g)
        exact owns_nothing_remove_client_resources_of_ne st0 h k hk (ih.1 k hk hnl0)
    · intro k hl
      have e : k ≠ h := by
        intro e
        apply hl.2.2
        rw [e]
        exact remove_client_resources_socket st0 h hlive.1 hlive.2.1
      have hl0 : live st0 k := by
        unfold live at hl ⊢
        rw [remove_client_resources_clients_length,
          client_at_remove_client_resources_of_ne st0 h k e] at hl
        exact hl
      rw [client_at_remove_client_resources_of_ne st0 h k e]
      exact ih.2 k hl0

/-- C18: in every state the server reaches, every supply, demand and watch slot is
free (owner -1) or its owner is the handle of a connected client, whose registry
entry carries that handle; a handle that is not connected, in particular one that
has been released, owns no slot. -/
theorem owners_are_connected (st : world) (hr : reachable st) :
    owners_ok st ∧
    (∀ i, owner_ok st (supply_at st i).client_id) ∧
    (∀ j, owner_ok st (demand_at st j).client_id) ∧
    (∀ i, owner_ok st (watch_at st i).client_id) ∧
    (∀ h : Int, h ≠ -1 → ¬ live st h → owns_nothing st h) ∧
    (∀ h : Int, live st h →
      ¬ live (remove_client_resources st h) h ∧ owns_nothing (remove_client_resources st h) h) := by
  obtain ⟨hno, hid⟩ := no_orphans_reachable_by _ st hr
  have key : ∀ o : Int, ¬ owns_nothing st o → owner_ok st o := by
    intro o hown
    by_cases e : o = -1
    · exact Or.inl e
    · by_cases hl : live st o
      · exact Or.inr ⟨hl, hid o hl⟩
      · exact absurd (hno o e hl) hown
  have hs : ∀ s ∈ st.supplies, owner_ok st s.client_id :=
    fun s hs => key _ (fun ho => ho.1 s hs rfl)
  have hd : ∀ d ∈ st.demands, owner_ok st d.client_id :=
    fun d hd => key _ (fun ho => ho.2.1 d hd rfl)
  have hw : ∀ w ∈ st.watches, owner_ok st w.client_id :=
    fun w hw => key _ (fun ho => ho.2.2 w hw rfl)
  refine ⟨⟨hs, hd, hw⟩, ?_, ?_, ?_, hno, ?_⟩
  · intro i
    rcases supply_at_mem_or_free st i with g | g
    · exact hs _ g
    · rw [g]
      exact Or.inl rfl
  · intro j
    rcases demand_at_mem_or_free st j with g | g
    · exact hd _ g
    · rw [g]
      exact Or.inl rfl
  · intro i
    rcases watch_at_mem_or_free st i with g | g
    · exact hw _ g
    · rw [g]
      exact Or.inl rfl
  · intro h hl
    have hne : h ≠ -1 := by
      intro e
      have := hl.1
      omega
    exact ⟨fun g => g.2.2 (remove_client_resources_socket st h hl.1 hl.2.1),
      owns_nothing_remove_client_resources st h hne⟩

/-- C18 on `waiting_world`, where client 1 holds a demand and a watch: every owner is
a connected client, and after the release of client 1 its former slots are free and
every owner is still a connected client. -/
theorem owners_are_connected_witness :
    (demand_at waiting_world 0).client_id = 1 ∧ (watch_at waiting_world 0).client_id = 1 ∧
    live waiting_world 1 ∧
    owners_ok waiting_world ∧
    owners_ok (remove_client_resources waiting_world 1) ∧
    ¬ live (remove_client_resources waiting_world 1) 1 ∧
    owns_nothing (remove_client_resources waiting_world 1) 1 :=
  ⟨by decide, by decide, by decide,
    (owners_are_connected waiting_world waiting_world_reachable).1,
    (owners_are_connected (remove_client_resources waiting_world 1)
      (reachable_by.disconnect 1 waiting_world_reachable (by decide))).1,
    ((owners_are_connected waiting_world waiting_world_reachable).2.2.2.2.2 1 (by decide)).1,
    ((owners_are_connected waiting_world waiting_world_reachable).2.2.2.2.2 1 (by decide)).2⟩

/-! ### The line decoder -/

/-- The decoder on sample lines: extra white space, a sign, text behind the last
integer and text behind a command word are accepted; a missing integer or a leading
space is not. -/
theorem decode_examples :
    decode "move 3 -4".data = .move 3 (-4) ∧
    decode "move   3    +4 and more".data = .move 3 4 ∧
    decode "move3 4".data = .move 3 4 ∧
    decode "demand 1 2 3".data = .demand 1 2 3 ∧
    decode "supply 10 5 5 5".data = .supply 10 5 5 5 ∧
    decode "watch 5".data = .watch 5 ∧
    decode "unwatch".data = .unwatch ∧
    decode "unwatchXYZ".data = .unwatch ∧
    decode "listsupplies".data = .listsupplies ∧
    decode "quit".data = .quit ∧
    decode "quitter".data = .quit ∧
    decode "move 3".data = .invalid ∧
    decode " move 3 4".data = .invalid ∧
    decode "hello".data = .invalid ∧
    decode "".data = .invalid ∧
    c_lines "move 1 2\nunwatch\nqui".data = (["move 1 2".data, "unwatch".data], "qui".data) ∧
    listed_form "move 3 -4".data = true ∧
    listed_form "unwatchXYZ".data = false ∧
    listed_form "move 1 2 junk".data = false := by
  decide

/-- A line is decoded as invalid exactly when every test of the cascade fails. -/
theorem decode_eq_invalid_iff (l : List Char) :
    decode l = .invalid ↔
      (sscanf l "move" 2).length ≠ 2 ∧ (sscanf l "demand" 3).length ≠ 3 ∧
      (sscanf l "supply" 4).length ≠ 4 ∧ (sscanf l "watch" 1).length ≠ 1 ∧
      strncmp_eq l "unwatch" = false ∧ strncmp_eq l "listsupplies" = false ∧
      strncmp_eq l "listdemands" = false ∧ strncmp_eq l "mysupplies" = false ∧
      strncmp_eq l "mydemands" = false ∧ strncmp_eq l "quit" = false := by
  unfold decode
  split
  · rename_i x y h
    simp [h]
  · rename_i h2
    have g2 : (sscanf l "move" 2).length ≠ 2 := by
      intro hl
      obtain ⟨a, b, hab⟩ := List.length_eq_two.1 hl
      exact h2 a b hab
    split
    · rename_i a b c h
      simp [h]
    · rename_i h3
      have g3 : (sscanf l "demand" 3).length ≠ 3 := by
        intro hl
        obtain ⟨a, b, c, habc⟩ := List.length_eq_three.1 hl
        exact h3 a b c habc
      split
      · rename_i d a b c h
        simp [h]
      · rename_i h4
        have g4 : (sscanf l "supply" 4).length ≠ 4 := by
          intro hl
          match hs : sscanf l "supply" 4, hl with
          | [d, a, b, c], _ => exact h4 d a b c hs
        split
        · rename_i r h
          simp [h]
        · rename_i h1
          have g1 : (sscanf l "watch" 1).length ≠ 1 := by
            intro hl
            obtain ⟨a, ha⟩ := List.length_eq_one.1 hl
            exact h1 a ha
          split_ifs <;> simp_all

/-- C16 as stated fails: `unwatchXYZ` is none of the listed command forms, yet in
`waiting_world`, where client 1 holds a watch in slot 0, the handler treats the line
as `unwatch`: it replies `OK`, not the error reply, and frees the watch slot. -/
theorem trailing_text_is_accepted :
    listed_form "unwatchXYZ".data = false ∧
    (watch_at waiting_world 0).client_id = 1 ∧
    (run_lines waiting_world 5 1 ["unwatchXYZ".data]).1.trace
      = waiting_world.trace ++ [event.write 5 "OK\n"] ∧
    (watch_at (run_lines waiting_world 5 1 ["unwatchXYZ".data]).1 0).client_id = -1 := by
  decide

/-- C16, amended: for every line that every test of the cascade rejects, the handler
makes exactly one write, to the socket of the session, of the error reply, whose
first 23 characters are `Error: Invalid command` and a newline; it changes no
supply, demand or watch slot and no registry entry, so no position; and the
function does not return: the inner loop goes on with the next line. -/
theorem invalid_line_spec (st : world) (client_socket client_id : Int) (l : List Char)
    (ls : List (List Char)) (hinv : decode l = .invalid) :
    (command_thread_func st client_socket client_id (decode l)).trace
      = st.trace ++ [event.write client_socket error_reply] ∧
    error_reply.data.take 23 = "Error: Invalid command\n".data ∧
    (command_thread_func st client_socket client_id (decode l)).supplies = st.supplies ∧
    (command_thread_func st client_socket client_id (decode l)).demands = st.demands ∧
    (command_thread_func st client_socket client_id (decode l)).watches = st.watches ∧
    (command_thread_func st client_socket client_id (decode l)).clients = st.clients ∧
    (run_lines st client_socket client_id [l]).2 = false ∧
    run_lines st client_socket client_id (l :: ls)
      = run_lines (command_thread_func st client_socket client_id (decode l)) client_socket
          client_id ls ∧
    ((sscanf l "move" 2).length ≠ 2 ∧ (sscanf l "demand" 3).length ≠ 3 ∧
      (sscanf l "supply" 4).length ≠ 4 ∧ (sscanf l "watch" 1).length ≠ 1 ∧
      strncmp_eq l "unwatch" = false ∧ strncmp_eq l "listsupplies" = false ∧
      strncmp_eq l "listdemands" = false ∧ strncmp_eq l "mysupplies" = false ∧
      strncmp_eq l "mydemands" = false ∧ strncmp_eq l "quit" = false) := by
  have hq : decode l ≠ .quit := by
    rw [hinv]
    decide
  have hrun : ∀ ks, run_lines st client_socket client_id (l :: ks)
      = run_lines (command_thread_func st client_socket client_id (decode l)) client_socket
          client_id ks := by
    intro ks
    show (if decode l = .quit then _ else _) = _
    rw [if_neg hq]
  refine ⟨?_, by decide, ?_, ?_, ?_, ?_, ?_, hrun ls, (decode_eq_invalid_iff l).1 hinv⟩
  · rw [hinv]
    rfl
  · rw [hinv]
    rfl
  · rw [hinv]
    rfl
  · rw [hinv]
    rfl
  · rw [hinv]
    rfl
  · rw [hrun []]
    rfl

/-- C16, amended, on `waiting_world`: the lines `hello` and `move 3`, sent by client 1
before a valid `move 3 4`, are each answered with the error reply and change
nothing; the third line is then executed. -/
theorem invalid_line_spec_witness :
    decode "hello".data = .invalid ∧ decode "move 3".data = .invalid ∧
    (command_thread_func waiting_world 5 1 (decode "hello".data)).trace
      = waiting_world.trace ++ [event.write 5 error_reply] ∧
    (command_thread_func waiting_world 5 1 (decode "hello".data)).watches
      = waiting_world.watches ∧
    (run_lines waiting_world 5 1 ["hello".data, "move 3".data, "move 3 4".data]).1.trace
      = waiting_world.trace
        ++ [event.write 5 error_reply, event.write 5 error_reply, event.write 5 "OK\n"] ∧
    (client_at (run_lines waiting_world 5 1
      ["hello".data, "move 3".data, "move 3 4".data]).1 1).x = 3 :=
  have h := invalid_line_spec waiting_world 5 1 "hello".data
    ["move 3".data, "move 3 4".data] (by decide)
  ⟨by decide, by decide, h.1, h.2.2.2.2.1, by decide, by decide⟩

/-! ### The line loop -/

theorem command_loop_zero (client_socket client_id : Int) (s : session) :
    command_loop client_socket client_id 0 s = s := rfl

theorem command_loop_succ (client_socket client_id : Int) (n : Nat) (s : session) :
    command_loop client_socket client_id (n + 1) s
      = command_loop_step client_socket client_id (command_loop client_socket client_id n s) := by
  unfold command_loop
  rw [List.range_succ, List.foldl_append, List.foldl_cons, List.foldl_nil]

theorem command_loop_step_of_returned (client_socket client_id : Int) (s : session)
    (x : loop_return) (h : s.returned = some x) :
    command_loop_step client_socket client_id s = s := by
  unfold command_loop_step
  rw [h]

/-- A session that has returned stays as it is. -/
theorem command_loop_of_returned (client_socket client_id : Int) (n : Nat) (s : session)
    (x : loop_return) (h : s.returned = some x) :
    command_loop client_socket client_id n s = s := by
  induction n with
  | zero => rfl
  | succ n ih => rw [command_loop_succ, ih, command_loop_step_of_returned _ _ s x h]

/-- Bytes without a newline and without a NUL byte hold no complete line: the inner
loop processes nothing and keeps them all. -/
theorem c_lines_of_no_newline (bytes : List Char)
    (h : ∀ c ∈ bytes, c ≠ Char.ofNat 10 ∧ c ≠ Char.ofNat 0) : c_lines bytes = ([], bytes) := by
  induction bytes with
  | nil => rfl
  | cons c cs ih =>
    have hc := h c (List.mem_cons_self _ _)
    have ih1 := ih (fun d hd => h d (List.mem_cons_of_mem _ hd))
    unfold c_lines
    rw [if_neg hc.2, if_neg hc.1, ih1]

/-- The value `read` returns is positive unless the stream has ended, the call
failed, or the call was made with `count = 0` (or found no byte waiting). -/
theorem sys_read_nonpositive_iff (count : Nat) (r : read_result) :
    (sys_read count r).1 ≤ 0 ↔
      r = .eof ∨ r = .error ∨ ∃ bytes, r = .data bytes ∧ (count = 0 ∨ bytes = []) := by
  cases r with
  | data bytes =>
    simp only [sys_read, List.length_take, reduceCtorEq, false_or, read_result.data.injEq,
      exists_eq_left']
    constructor
    · intro h
      have h1 : min count bytes.length = 0 := by omega
      rcases Nat.min_eq_zero_iff.1 h1 with g | g
      · exact Or.inl g
      · exact Or.inr (List.length_eq_zero.1 g)
    · intro h
      rcases h with g | g
      · simp [g]
      · simp [g]
  | eof => simp [sys_read]
  | error => simp [sys_read]

/-- The loop returns only behind a line decoded as `quit` or at a `read` that returned
a value `<= 0`; the latter happens at the end of the stream, at an error, and also
when the buffer holds 1023 bytes, where `read` is called with `count = 0` and
returns 0, whether bytes are waiting or not. -/
theorem command_loop_step_returns (client_socket client_id : Int) (s : session)
    (x : loop_return) (h0 : s.returned = none)
    (h1 : (command_loop_step client_socket client_id s).returned = some x) :
    (x = .after_read 0 ∧ 1024 - s.buffer.length - 1 = 0) ∨
    ∃ r rest, s.conn = r :: rest ∧
      ((x = .after_quit ∧ 0 < (sys_read (1024 - s.buffer.length - 1) r).1 ∧
          ∃ l ∈ (c_lines (s.buffer ++ (sys_read (1024 - s.buffer.length - 1) r).2.1)).1,
            decode l = .quit) ∨
        (x = .after_read (sys_read (1024 - s.buffer.length - 1) r).1 ∧
          (r = .eof ∨ r = .error))) := by
  have hquit : ∀ (w : world) (ls : List (List Char)),
      (run_lines w client_socket client_id ls).2 = true → ∃ l ∈ ls, decode l = .quit := by
    intro w ls
    induction ls generalizing w with
    | nil =>
      intro h
      exact absurd h (by simp [run_lines])
    | cons l ls ih =>
      intro h
      by_cases hq : decode l = .quit
      · exact ⟨l, List.mem_cons_self _ _, hq⟩
      · unfold run_lines at h
        rw [if_neg hq] at h
        obtain ⟨k, hk, hkq⟩ := ih _ h
        exact ⟨k, List.mem_cons_of_mem _ hk, hkq⟩
  unfold command_loop_step at h1
  rw [h0] at h1
  cases hc : s.conn with
  | nil =>
    rw [hc] at h1
    dsimp only at h1
    by_cases hz : 1024 - s.buffer.length - 1 = 0
    · rw [if_pos hz] at h1
      exact Or.inl ⟨by simpa using h1.symm, hz⟩
    · rw [if_neg hz] at h1
      exact absurd h1 (by simp [h0])
  | cons r rest =>
    rw [hc] at h1
    dsimp only at h1
    by_cases he : r = .data [] ∧ 0 < 1024 - s.buffer.length - 1
    · rw [if_pos he] at h1
      exact absurd h1 (by simp [h0])
    · rw [if_neg he] at h1
      by_cases hle : (sys_read (1024 - s.buffer.length - 1) r).1 ≤ 0
      · rw [if_pos hle] at h1
        have hx : x = .after_read (sys_read (1024 - s.buffer.length - 1) r).1 := by
          simpa using h1.symm
        rcases (sys_read_nonpositive_iff _ r).1 hle with g | g | ⟨bytes, g, g1⟩
        · exact Or.inr ⟨r, rest, rfl, Or.inr ⟨hx, Or.inl g⟩⟩
        · exact Or.inr ⟨r, rest, rfl, Or.inr ⟨hx, Or.inr g⟩⟩
        · have hz : 1024 - s.buffer.length - 1 = 0 := by
            rcases g1 with g1 | g1
            · exact g1
            · by_contra hne
              exact he ⟨by rw [g, g1], Nat.pos_of_ne_zero hne⟩
          refine Or.inl ⟨?_, hz⟩
          rw [hx, g, hz]
          simp [sys_read]
      · rw [if_neg hle] at h1
        refine Or.inr ⟨r, rest, rfl, Or.inl ?_⟩
        dsimp only at h1
        by_cases hr : (run_lines s.st client_socket client_id
            (c_lines (s.buffer ++ (sys_read (1024 - s.buffer.length - 1) r).2.1)).1).2 = true
        · rw [if_pos hr] at h1
          refine ⟨by simpa using h1.symm, by omega, hquit _ _ hr⟩
        · rw [if_neg hr] at h1
          exact absurd h1 (by simp)

theorem c_lines_rest_length (bytes : List Char) : (c_lines bytes).2.length ≤ bytes.length := by
  induction bytes with
  | nil => exact Nat.le_refl _
  | cons c cs ih =>
    unfold c_lines
    split_ifs
    · exact Nat.zero_le _
    · exact Nat.le_succ_of_le ih
    · split
      · exact Nat.succ_le_succ ih
      · exact Nat.le_succ_of_le ih

theorem command_loop_step_buffer_length (client_socket client_id : Int) (s : session)
    (h : s.buffer.length ≤ 1023) :
    (command_loop_step client_socket client_id s).buffer.length ≤ 1023 := by
  have hmain : ∀ r : read_result,
      (c_lines (s.buffer ++ (sys_read (1024 - s.buffer.length - 1) r).2.1)).2.length ≤ 1023 := by
    intro r
    refine Nat.le_trans (c_lines_rest_length _) ?_
    rw [List.length_append]
    have hr : (sys_read (1024 - s.buffer.length - 1) r).2.1.length
        ≤ 1024 - s.buffer.length - 1 := by
      cases r with
      | data bytes => simp [sys_read, List.length_take]
      | eof => simp [sys_read]
      | error => simp [sys_read]
    omega
  unfold command_loop_step
  split
  · exact h
  · split_ifs <;> exact h
  · rename_i r rest _ _
    dsimp only
    split_ifs <;> first | exact h | exact hmain r

/-- The buffer of a session never holds more than 1023 bytes, so `buffer[buffer_len]`
stays inside the array and `sizeof(buffer) - buffer_len - 1` does not wrap. -/
theorem command_loop_buffer_length (client_socket client_id : Int) (n : Nat) (s : session)
    (h : s.buffer.length ≤ 1023) :
    (command_loop client_socket client_id n s).buffer.length ≤ 1023 := by
  induction n with
  | zero => exact h
  | succ n ih =>
    rw [command_loop_succ]
    exact command_loop_step_buffer_length _ _ _ ih

/-- C20, the divergence: when the first 1023 bytes a client sends hold no newline (and
no NUL byte) and more bytes follow, the first `read` fills the buffer, the inner loop
finds no line, and the second `read` is called with `count = 1024 - 1023 - 1 = 0`; it
returns 0 although bytes are waiting in the socket, and `command_thread_func`
returns: no line was processed, no `quit` among them, nothing was written, and the
connection reported neither the end of the stream nor an error. -/
theorem long_line_ends_session (st : world) (client_socket client_id : Int)
    (bytes more : List Char) (rest : List read_result) (n : Nat)
    (hlen : bytes.length = 1023)
    (hnl : ∀ c ∈ bytes, c ≠ Char.ofNat 10 ∧ c ≠ Char.ofNat 0) (hmore : more ≠ []) :
    command_loop client_socket client_id (n + 2) ⟨st, [], .data (bytes ++ more) :: rest, none⟩
      = ⟨st, bytes, .data more :: rest, some (.after_read 0)⟩ := by
  have h1 : command_loop_step client_socket client_id
      ⟨st, [], .data (bytes ++ more) :: rest, none⟩
      = ⟨st, bytes, .data more :: rest, none⟩ := by
    have ht : (bytes ++ more).take 1023 = bytes := by
      rw [← hlen]
      exact List.take_left' rfl
    have hd : (bytes ++ more).drop 1023 = more := by
      rw [← hlen]
      exact List.drop_left' rfl
    have hne : bytes ++ more ≠ [] := by
      intro e
      exact hmore (List.append_eq_nil.1 e).2
    simp [command_loop_step, sys_read, ht, hd, hlen, hmore, hne,
      c_lines_of_no_newline bytes hnl, run_lines]
  have h2 : command_loop_step client_socket client_id ⟨st, bytes, .data more :: rest, none⟩
      = ⟨st, bytes, .data more :: rest, some (.after_read 0)⟩ := by
    simp [command_loop_step, sys_read, hlen, hmore]
  have h3 : command_loop client_socket client_id 2
      ⟨st, [], .data (bytes ++ more) :: rest, none⟩
      = ⟨st, bytes, .data more :: rest, some (.after_read 0)⟩ := by
    rw [command_loop_succ, command_loop_succ, command_loop_zero, h1, h2]
  have h4 : command_loop client_socket client_id (n + 2)
      ⟨st, [], .data (bytes ++ more) :: rest, none⟩
      = command_loop client_socket client_id n
          (command_loop client_socket client_id 2
            ⟨st, [], .data (bytes ++ more) :: rest, none⟩) := by
    unfold command_loop
    rw [Nat.add_comm, List.range_add, List.foldl_append, List.foldl_map]
  rw [h4, h3]
  exact command_loop_of_returned _ _ n _ (.after_read 0) rfl

/-- C20 on a fresh session of client 1 in `market_world`: the client sends 1023 times
the letter `a`, a newline and the line `listsupplies`; the loop returns at the second
`read` with `bytes_read = 0`, the newline and the line `listsupplies` still waiting
in the socket and nothing written.  The same client sending `aaa`, a newline and
`listsupplies` gets the error reply and the list, and the session stays in the
loop. -/
theorem long_line_ends_session_witness :
    (List.replicate 1023 'a').length = 1023 ∧
    command_loop 5 1 2
        ⟨market_world, [], [.data (List.replicate 1023 'a' ++ "\nlistsupplies\n".data)], none⟩
      = ⟨market_world, List.replicate 1023 'a', [.data "\nlistsupplies\n".data],
          some (.after_read 0)⟩ ∧
    (command_loop 5 1 2
        ⟨market_world, [], [.data ("aaa".data ++ "\nlistsupplies\n".data)], none⟩).returned
      = none ∧
    (command_loop 5 1 2
        ⟨market_world, [], [.data ("aaa".data ++ "\nlistsupplies\n".data)], none⟩).st.trace
      = market_world.trace
        ++ [event.write 5 error_reply,
            event.write 5 ("There are 0 supplies in total.\n" ++ "X | Y | A | B | C | D |\n"
              ++ "-------+-------+-----+-----+-----+-------+\n")] :=
  ⟨List.length_replicate _ _,
    long_line_ends_session market_world 5 1 (List.replicate 1023 'a') "\nlistsupplies\n".data []
      0 (List.length_replicate _ _)
      (fun c hc => by
        rw [List.eq_of_mem_replicate hc]
        decide)
      (by decide),
    by decide, by decide⟩

/-! ### A matching pass ends in a fixed point -/

theorem shrinks_refl (st : world) : shrinks st st :=
  ⟨fun _ _ => ⟨rfl, rfl, rfl, rfl, le_refl _, le_refl _, le_refl _⟩, fun _ _ => rfl⟩

theorem shrinks_trans {a b c : world} (h1 : shrinks a b) (h2 : shrinks b c) : shrinks a c := by
  constructor
  · intro i hi
    obtain ⟨e0, e1, e2, e3, l1, l2, l3⟩ := h2.1 i hi
    have hb : (supply_at b i).client_id ≠ -1 := by
      rw [← e0]
      exact hi
    obtain ⟨f0, f1, f2, f3, m1, m2, m3⟩ := h1.1 i hb
    exact ⟨e0.trans f0, e1.trans f1, e2.trans f2, e3.trans f3, le_trans l1 m1, le_trans l2 m2,
      le_trans l3 m3⟩
  · intro j hj
    have e := h2.2 j hj
    have hb : (demand_at b j).client_id ≠ -1 := by
      rw [← e]
      exact hj
    exact e.trans (h1.2 j hb)

/-- A pair accepted after the store has shrunk was accepted before. -/
theorem check_case_match_of_shrinks {st st1 : world} (h : shrinks st st1) (j i : Nat)
    (hm : check_case_match st1 j i = 1) : check_case_match st j i = 1 := by
  obtain ⟨hd, hs, hdist, ha, hb, hc⟩ := (check_case_match_eq_one_iff st1 j i).1 hm
  obtain ⟨e0, e1, e2, e3, l1, l2, l3⟩ := h.1 i hs
  have ed := h.2 j hd
  rw [check_case_match_eq_one_iff]
  rw [ed] at hd hdist ha hb hc
  rw [e0] at hs
  rw [e1, e2, e3] at hdist
  exact ⟨hd, hs, hdist, by omega, by omega, by omega⟩

theorem demand_at_mem_of_occupied (st : world) (j : Nat)
    (h : (demand_at st j).client_id ≠ -1) : demand_at st j ∈ st.demands := by
  rcases demand_at_mem_or_free st j with g | g
  · exact g
  · rw [g] at h
    exact absurd rfl h

theorem supply_at_mem_of_occupied (st : world) (i : Nat)
    (h : (supply_at st i).client_id ≠ -1) : supply_at st i ∈ st.supplies := by
  rcases supply_at_mem_or_free st i with g | g
  · exact g
  · rw [g] at h
    exact absurd rfl h

theorem shrinks_match (st : world) (j i : Nat) (hm : check_case_match st j i = 1)
    (hn : demands_nonneg st) : shrinks st (match_demand_and_supply st j i) := by
  obtain ⟨hd, hs, _, _, _, _⟩ := (check_case_match_eq_one_iff st j i).1 hm
  obtain ⟨na, nb, nc⟩ := hn _ (demand_at_mem_of_occupied st j hd) hd
  have hi := supply_at_occupied_lt st i hs
  have hj := demand_at_occupied_lt st j hd
  constructor
  · intro k hk
    by_cases e : k = i
    · subst e
      rw [supply_at_match_self st j k hi] at hk ⊢
      unfold settled_supply at hk ⊢
      split_ifs at hk ⊢ with hz
      · exact absurd rfl hk
      · dsimp only
        exact ⟨rfl, rfl, rfl, rfl, by omega, by omega, by omega⟩
    · rw [supply_at_match_of_ne st j i k e]
      exact ⟨rfl, rfl, rfl, rfl, le_refl _, le_refl _, le_refl _⟩
  · intro k hk
    by_cases e : k = j
    · subst e
      rw [demand_at_match_self st k i hj] at hk
      exact absurd rfl hk
    · exact demand_at_match_of_ne st j i k e

theorem demands_nonneg_of_shrinks {st st1 : world} (h : shrinks st st1)
    (hn : demands_nonneg st) : demands_nonneg st1 := by
  intro d hd hocc
  obtain ⟨j, hj, rfl⟩ := List.getElem_of_mem hd
  have e : demand_at st1 j = st1.demands[j] := by
    simp [demand_at, List.getD_eq_getElem?_getD, hj]
  rw [← e] at hocc ⊢
  have e2 := h.2 j hocc
  rw [e2] at hocc ⊢
  exact hn _ (demand_at_mem_of_occupied st j hocc) hocc

/-- The inner loop for demand `j`: the store shrinks, and no supply below `m` is left
that the demand could be settled against. -/
theorem check_for_match_supplies_settles (st : world) (j m : Nat) (hn : demands_nonneg st) :
    shrinks st (check_for_match_supplies st j m) ∧
    ∀ i, i < m → check_case_match (check_for_match_supplies st j m) j i = 0 := by
  induction m with
  | zero => exact ⟨shrinks_refl st, fun i hi => absurd hi (Nat.not_lt_zero i)⟩
  | succ m ih =>
    obtain ⟨hsh, hnone⟩ := ih
    rw [check_for_match_supplies_succ]
    rcases check_case_match_cases (check_for_match_supplies st j m) j m with h1 | h0
    · rw [check_for_match_body_of_match _ j m h1]
      have hj := demand_at_occupied_lt _ j ((check_case_match_eq_one_iff _ j m).1 h1).1
      refine ⟨shrinks_trans hsh (shrinks_match _ j m h1 (demands_nonneg_of_shrinks hsh hn)), ?_⟩
      intro i _
      apply check_case_match_of_free_demand
      rw [demand_at_match_self _ j m hj]
      rfl
    · rw [check_for_match_body_of_not_match _ j m (by rw [h0]; decide)]
      refine ⟨hsh, fun i hi => ?_⟩
      rcases Nat.lt_succ_iff_lt_or_eq.1 hi with g | g
      · exact hnone i g
      · rw [g]
        exact h0

/-- One round of the outer loop, for demand `j`. -/
theorem check_for_match_demand_settles (st : world) (j n : Nat) (hn : demands_nonneg st)
    (hlen : st.supplies.length ≤ n) :
    shrinks st (check_for_match_demand n st j) ∧
    ∀ i, check_case_match (check_for_match_demand n st j) j i = 0 := by
  unfold check_for_match_demand
  split_ifs with hocc
  · obtain ⟨hsh, hnone⟩ := check_for_match_supplies_settles st j n hn
    refine ⟨hsh, fun i => ?_⟩
    by_cases hi : i < n
    · exact hnone i hi
    · apply check_case_match_of_free_supply
      by_contra hs
      have := supply_at_occupied_lt _ i hs
      rw [(check_for_match_supplies_lengths st j n).1] at this
      omega
  · exact ⟨shrinks_refl st, fun i =>
      check_case_match_of_free_demand st j i (by simpa using hocc)⟩

theorem check_for_match_upto_settles (st : world) (k : Nat) (hn : demands_nonneg st) :
    shrinks st (check_for_match_upto st k) ∧
    ∀ j, j < k → ∀ i, check_case_match (check_for_match_upto st k) j i = 0 := by
  induction k with
  | zero => exact ⟨shrinks_refl st, fun j hj => absurd hj (Nat.not_lt_zero j)⟩
  | succ k ih =>
    obtain ⟨hsh, hnone⟩ := ih
    rw [check_for_match_upto_succ]
    have hlen : (check_for_match_upto st k).supplies.length ≤ st.supplies.length :=
      le_of_eq (check_for_match_upto_lengths st k).1
    obtain ⟨hsh1, hk⟩ := check_for_match_demand_settles (check_for_match_upto st k) k
      st.supplies.length (demands_nonneg_of_shrinks hsh hn) hlen
    refine ⟨shrinks_trans hsh hsh1, fun j hj i => ?_⟩
    rcases Nat.lt_succ_iff_lt_or_eq.1 hj with g | g
    · rcases check_case_match_cases
        (check_for_match_demand st.supplies.length (check_for_match_upto st k) k) j i with h1 | h0
      · have := check_case_match_of_shrinks hsh1 j i h1
        rw [hnone j g i] at this
        exact absurd this (by decide)
      · exact h0
    · rw [g]
      exact hk i

theorem check_for_match_settles (st : world) (c : Int) (hn : demands_nonneg st) :
    shrinks st (check_for_match st c) ∧ ∀ j i, check_case_match (check_for_match st c) j i = 0 := by
  obtain ⟨hsh, hnone⟩ := check_for_match_upto_settles st st.demands.length hn
  refine ⟨hsh, fun j i => ?_⟩
  by_cases hj : j < st.demands.length
  · exact hnone j hj i
  · apply check_case_match_of_free_demand
    by_contra hd
    have := demand_at_occupied_lt _ j hd
    unfold check_for_match at this
    rw [(check_for_match_upto_lengths st _).2.1] at this
    omega

/-- C24: when every occupied demand has non-negative amounts, after `check_for_match`
no demand slot and supply slot are left with `check_case_match = 1`, and a second
pass, for any caller, returns the same store, registry and trace: it settles
nothing and enqueues nothing. -/
theorem check_for_match_fixed_point (st : world) (c c1 : Int) (hn : demands_nonneg st) :
    (∀ j i, check_case_match (check_for_match st c) j i = 0) ∧
    check_for_match (check_for_match st c) c1 = check_for_match st c := by
  have h := (check_for_match_settles st c hn).2
  refine ⟨h, check_for_match_of_none _ c1 (fun j i => ?_)⟩
  rw [h j i]
  decide

/-- C24 on `contested_world`: the pass settles the demand `(3,3,3)` of slot 0, leaves
the supply with `(2,2,2)` and the demand `(4,4,4)` of slot 1 unsettled, and a second
pass changes nothing.  In `negative_demand_world`, where a demand carries negative
amounts, the first pass raises the supply to `(7,7,7)` and the second pass then
settles the demand `(6,6,6)` that the first pass had left. -/
theorem check_for_match_fixed_point_witness :
    demands_nonneg contested_world ∧
    (supply_at (check_for_match contested_world 1) 0).a_amount = 2 ∧
    (demand_at (check_for_match contested_world 1) 0).client_id = -1 ∧
    (demand_at (check_for_match contested_world 1) 1).client_id = 1 ∧
    check_for_match (check_for_match contested_world 1) 0 = check_for_match contested_world 1 ∧
    ¬ demands_nonneg negative_demand_world ∧
    check_case_match (check_for_match negative_demand_world 1) 0 0 = 1 ∧
    check_for_match (check_for_match negative_demand_world 1) 1
      ≠ check_for_match negative_demand_world 1 :=
  ⟨by decide, by decide, by decide, by decide,
    (check_for_match_fixed_point contested_world 1 0 (by decide)).2, by decide, by decide,
    by decide⟩

/-! ### Matching only takes from the supplies -/

theorem supplies_nonneg_match (st : world) (j i : Nat) (hok : supplies_nonneg st)
    (hm : check_case_match st j i = 1) : supplies_nonneg (match_demand_and_supply st j i) := by
  obtain ⟨_, _, _, ha, hb, hc⟩ := (check_case_match_eq_one_iff st j i).1 hm
  unfold supplies_nonneg
  rw [match_demand_and_supply_supplies]
  intro s hs hocc
  rcases List.mem_or_eq_of_mem_set hs with g | g
  · exact hok s g hocc
  · rw [g] at hocc ⊢
    unfold settled_supply at hocc ⊢
    split_ifs at hocc ⊢ with hz
    · exact absurd rfl hocc
    · dsimp only
      exact ⟨by omega, by omega, by omega⟩

theorem supplies_nonneg_check_for_match_body (j : Nat) (st : world) (i : Nat)
    (hok : supplies_nonneg st) : supplies_nonneg (check_for_match_body j st i) := by
  rcases check_case_match_cases st j i with h1 | h0
  · rw [check_for_match_body_of_match st j i h1]
    exact supplies_nonneg_match st j i hok h1
  · rw [check_for_match_body_of_not_match st j i (by rw [h0]; decide)]
    exact hok

theorem supplies_nonneg_check_for_match_supplies (st : world) (j m : Nat)
    (hok : supplies_nonneg st) : supplies_nonneg (check_for_match_supplies st j m) := by
  induction m with
  | zero => exact hok
  | succ m ih =>
    rw [check_for_match_supplies_succ]
    exact supplies_nonneg_check_for_match_body j _ m ih

theorem supplies_nonneg_check_for_match (st : world) (c : Int) (hok : supplies_nonneg st) :
    supplies_nonneg (check_for_match st c) := by
  unfold check_for_match
  generalize st.demands.length = k
  induction k with
  | zero => exact hok
  | succ k ih =>
    rw [check_for_match_upto_succ]
    unfold check_for_match_demand
    split_ifs
    · exact supplies_nonneg_check_for_match_supplies _ k _ ih
    · exact ih

/-- C25: when every occupied supply and demand has non-negative amounts, after
`check_for_match` every occupied supply has non-negative amounts; a supply slot that
is occupied after the pass was occupied before it, by the same owner, and none of
its three amounts has grown; a demand slot that is occupied after the pass held the
same demand before it; so a supply or demand slot that was free is still free. -/
theorem check_for_match_only_takes (st : world) (c : Int) (hs : supplies_nonneg st)
    (hd : demands_nonneg st) :
    supplies_nonneg (check_for_match st c) ∧
    (∀ i, (supply_at (check_for_match st c) i).client_id ≠ -1 →
      0 ≤ (supply_at (check_for_match st c) i).a_amount ∧
      0 ≤ (supply_at (check_for_match st c) i).b_amount ∧
      0 ≤ (supply_at (check_for_match st c) i).c_amount ∧
      (supply_at (check_for_match st c) i).client_id = (supply_at st i).client_id ∧
      (supply_at (check_for_match st c) i).a_amount ≤ (supply_at st i).a_amount ∧
      (supply_at (check_for_match st c) i).b_amount ≤ (supply_at st i).b_amount ∧
      (supply_at (check_for_match st c) i).c_amount ≤ (supply_at st i).c_amount) ∧
    (∀ j, (demand_at (check_for_match st c) j).client_id ≠ -1 →
      demand_at (check_for_match st c) j = demand_at st j) ∧
    (∀ i, (supply_at st i).client_id = -1 → (supply_at (check_for_match st c) i).client_id = -1) ∧
    (∀ j, (demand_at st j).client_id = -1 →
      (demand_at (check_for_match st c) j).client_id = -1) := by
  have hnn := supplies_nonneg_check_for_match st c hs
  obtain ⟨hsup, hdem⟩ := (check_for_match_settles st c hd).1
  refine ⟨hnn, ?_, hdem, ?_, ?_⟩
  · intro i hi
    obtain ⟨e0, _, _, _, l1, l2, l3⟩ := hsup i hi
    obtain ⟨n1, n2, n3⟩ := hnn _ (supply_at_mem_of_occupied _ i hi) hi
    exact ⟨n1, n2, n3, e0, l1, l2, l3⟩
  · intro i hfree
    by_contra hocc
    have e0 := (hsup i hocc).1
    rw [hfree] at e0
    exact hocc e0
  · intro j hfree
    by_contra hocc
    have e := hdem j hocc
    rw [e] at hocc
    exact hocc hfree

/-- C25 on `contested_world`: the pass takes `(3,3,3)` from the supply `(5,5,5)`,
leaving `(2,2,2)`, and the free supply slot 1 stays free. -/
theorem check_for_match_only_takes_witness :
    supplies_nonneg contested_world ∧ demands_nonneg contested_world ∧
    supply_at (check_for_match contested_world 1) 0 = ⟨0, 0, 2, 2, 2, 10, 0⟩ ∧
    (supply_at (check_for_match contested_world 1) 1).client_id = -1 ∧
    supplies_nonneg (check_for_match contested_world 1) :=
  ⟨by decide, by decide, by decide,
    (check_for_match_only_takes contested_world 1 (by decide) (by decide)).2.2.2.1 1
      (by decide),
    (check_for_match_only_takes contested_world 1 (by decide) (by decide)).1⟩

/-! ### The bounds of the notification ring -/

/-- C26: in every state the server reaches, for every registry slot `h`, `notif_head`
and `notif_tail` lie in `0 .. MAX_NOTIFICATIONS - 1` and the number of waiting
messages is `(notif_head - notif_tail) mod MAX_NOTIFICATIONS`, at most 999; a call of
`enqueue_notification` for `h` appends the message to the waiting ones when fewer
than 999 are waiting and changes no registry entry when 999 are waiting; and both
queue operations keep every ring within these bounds. -/
theorem ring_bounds (st : world) (hr : reachable st) (h : Int) (msg : String)
    (h0 : 0 ≤ h) (hlt : h < st.clients.length) :
    (0 ≤ (client_at st h).notif_head ∧ (client_at st h).notif_head < MAX_NOTIFICATIONS ∧
      0 ≤ (client_at st h).notif_tail ∧ (client_at st h).notif_tail < MAX_NOTIFICATIONS) ∧
    (ring_pending (client_at st h)).length
      = (((client_at st h).notif_head - (client_at st h).notif_tail) % MAX_NOTIFICATIONS).toNat ∧
    (ring_pending (client_at st h)).length ≤ 999 ∧
    ((ring_pending (client_at st h)).length < 999 →
      ring_pending (client_at (enqueue_notification st h msg) h)
        = ring_pending (client_at st h) ++ [strncpy msg 255]) ∧
    ((ring_pending (client_at st h)).length = 999 →
      (enqueue_notification st h msg).clients = st.clients) ∧
    (∀ (c : Int) (m : String), rings_ok (enqueue_notification st c m)) ∧
    (∀ c : Int, rings_ok (notification_thread_func st c)) := by
  have hall := rings_ok_reachable_by _ st hr
  have hok := ring_ok_client_at hall h
  refine ⟨⟨hok.1, hok.2.1, hok.2.2.1, hok.2.2.2.1⟩, ring_pending_length _,
    ring_pending_length_le _ hok, ?_, ?_, fun c m => rings_ok_enqueue st c m hall,
    fun c => rings_ok_notification_thread_func st c hall⟩
  · intro hlen
    have hnf : ¬ ring_full (client_at st h) := by
      rw [ring_full_iff _ hok]
      omega
    have := (ring_pending_after_enqueue st h h msg h0 hlt hok).2
    rw [if_pos ⟨rfl, hnf⟩] at this
    exact this
  · intro hlen
    have hf : ring_full (client_at st h) := (ring_full_iff _ hok).2 hlen
    rw [enqueue_notification_of_full st h msg hf]

/-- C26 on `market_world`: the ring of client 1 is empty, with both indices 0, and a
message for client 1 is accepted. -/
theorem ring_bounds_witness :
    (client_at market_world 1).notif_head = 0 ∧ (client_at market_world 1).notif_tail = 0 ∧
    (ring_pending (client_at market_world 1)).length = 0 ∧
    ring_pending (client_at (enqueue_notification market_world 1 "news") 1) = ["news"] :=
  ⟨by decide, by decide, by decide,
    ((ring_bounds market_world market_world_reachable 1 "news" (by decide) (by decide)).2.2.2.1
      (by decide)).trans (by decide)⟩

/-! ### The locking discipline -/

theorem run_locks_append (s : locks) (l1 l2 : List act) :
    run_locks s (l1 ++ l2) = (run_locks s l1).bind fun s1 => run_locks s1 l2 := by
  induction l1 generalizing s with
  | nil => rfl
  | cons a l ih =>
    show (match lock_step s a with
      | some s1 => run_locks s1 (l ++ l2)
      | none => none) = (match lock_step s a with
      | some s1 => run_locks s1 l
      | none => none).bind fun s1 => run_locks s1 l2
    cases lock_step s a with
    | none => rfl
    | some s1 => exact ih s1

/-- Actions that keep the mutexes held, one after the other, keep them. -/
theorem run_locks_append_of_keep (s : locks) (l1 l2 : List act)
    (h1 : run_locks s l1 = some s) (h2 : run_locks s l2 = some s) :
    run_locks s (l1 ++ l2) = some s := by
  rw [run_locks_append, h1]
  exact h2

theorem run_locks_loop_acts (s : locks) (f : world → Nat → world)
    (g : world → Nat → List act) (hg : ∀ w k, run_locks s (g w k) = some s) (st : world)
    (n : Nat) : run_locks s (loop_acts f g st n) = some s := by
  induction n with
  | zero => rfl
  | succ n ih => exact run_locks_append_of_keep s _ _ ih (hg _ n)

theorem run_locks_enqueue_notification_acts (g : Bool) (c : Int) :
    run_locks ⟨g, none⟩ (enqueue_notification_acts c) = some ⟨g, none⟩ := by
  simp [enqueue_notification_acts, run_locks, lock_step]

theorem run_locks_store_cons (l : List act) (h : run_locks ⟨true, none⟩ l = some ⟨true, none⟩) :
    run_locks ⟨true, none⟩ (act.store :: l) = some ⟨true, none⟩ := h

theorem run_locks_ite (s : locks) (b : Prop) [Decidable b] (l1 l2 : List act)
    (h1 : run_locks s l1 = some s) (h2 : run_locks s l2 = some s) :
    run_locks s (if b then l1 else l2) = some s := by
  split_ifs
  · exact h1
  · exact h2

theorem run_locks_match_demand_and_supply_acts (st : world) (j i : Nat) :
    run_locks ⟨true, none⟩ (match_demand_and_supply_acts st j i) = some ⟨true, none⟩ := by
  unfold match_demand_and_supply_acts
  dsimp only
  refine run_locks_append_of_keep _ _ _ (run_locks_append_of_keep _ _ _
    (run_locks_append_of_keep _ _ _ (run_locks_append_of_keep _ _ _ rfl ?_) ?_) rfl) ?_
  · exact run_locks_ite _ _ _ _ (run_locks_enqueue_notification_acts true _) rfl
  · exact run_locks_ite _ _ _ _ (run_locks_enqueue_notification_acts true _) rfl
  · refine run_locks_ite _ _ _ _ (run_locks_append_of_keep _ _ _ ?_ rfl) rfl
    exact run_locks_ite _ _ _ _ (run_locks_enqueue_notification_acts true _) rfl

theorem run_locks_check_for_match_body_acts (j : Nat) (st : world) (i : Nat) :
    run_locks ⟨true, none⟩ (check_for_match_body_acts j st i) = some ⟨true, none⟩ :=
  run_locks_store_cons _
    (run_locks_ite _ _ _ _ (run_locks_match_demand_and_supply_acts st j i) rfl)

theorem run_locks_check_for_match_demand_acts (n : Nat) (st : world) (j : Nat) :
    run_locks ⟨true, none⟩ (check_for_match_demand_acts n st j) = some ⟨true, none⟩ :=
  run_locks_store_cons _
    (run_locks_ite _ _ _ _
      (run_locks_loop_acts _ _ _ (run_locks_check_for_match_body_acts j) st n) rfl)

theorem run_locks_check_for_match_acts (st : world) :
    run_locks ⟨true, none⟩ (check_for_match_acts st) = some ⟨true, none⟩ :=
  run_locks_loop_acts _ _ _ (run_locks_check_for_match_demand_acts _) st _

theorem run_locks_watch_event_body_acts (idx : Nat) (st : world) (i : Nat) :
    run_locks ⟨true, none⟩ (watch_event_body_acts idx st i) = some ⟨true, none⟩ :=
  run_locks_store_cons _
    (run_locks_ite _ _ _ _
      (run_locks_ite _ _ _ _ (run_locks_enqueue_notification_acts true _) rfl) rfl)

theorem run_locks_check_for_watch_events_acts (st : world) (idx : Nat) :
    run_locks ⟨true, none⟩ (check_for_watch_events_on_new_supply_acts st idx)
      = some ⟨true, none⟩ :=
  run_locks_store_cons _
    (run_locks_ite _ _ _ _ rfl
      (run_locks_loop_acts _ _ _ (run_locks_watch_event_body_acts idx) st _))

theorem run_locks_list_acts {α : Type} (l : List α) (p : α → Bool) :
    run_locks ⟨true, none⟩ (list_acts l p) = some ⟨true, none⟩ := by
  unfold list_acts
  refine run_locks_append_of_keep _ _ _ (run_locks_append_of_keep _ _ _ ?_ rfl) ?_
  · induction l with
    | nil => rfl
    | cons a t ih => exact ih
  · induction l with
    | nil => rfl
    | cons a t ih =>
      rw [List.flatMap_cons]
      refine run_locks_append_of_keep _ _ _ ?_ ih
      split_ifs <;> rfl

theorem run_locks_command_body_acts (st : world) (fd cid : Int) (cmd : command) :
    run_locks ⟨true, none⟩ (command_body_acts st fd cid cmd) = some ⟨true, none⟩ := by
  cases cmd with
  | move x y => rfl
  | demand a b c => exact run_locks_append_of_keep _ _ _ rfl (run_locks_check_for_match_acts _)
  | supply d a b c =>
    exact run_locks_append_of_keep _ _ _
      (run_locks_append_of_keep _ _ _ rfl (run_locks_check_for_match_acts _))
      (run_locks_ite _ _ _ _ (run_locks_check_for_watch_events_acts _ _) rfl)
  | watch r => rfl
  | unwatch => rfl
  | listsupplies => exact run_locks_list_acts _ _
  | listdemands => exact run_locks_list_acts _ _
  | mysupplies => exact run_locks_list_acts _ _
  | mydemands => exact run_locks_list_acts _ _
  | quit => rfl
  | invalid => rfl

theorem run_locks_replicate_flatten (s : locks) (l : List act) (n : Nat)
    (h : run_locks s l = some s) : run_locks s (List.replicate n l).flatten = some s := by
  induction n with
  | zero => rfl
  | succ n ih =>
    rw [List.replicate_succ, List.flatten_cons]
    exact run_locks_append_of_keep s _ _ h ih

theorem not_touches_global_append (l1 l2 : List act)
    (h1 : ∀ a ∈ l1, touches_global a = false) (h2 : ∀ a ∈ l2, touches_global a = false) :
    ∀ a ∈ l1 ++ l2, touches_global a = false := by
  intro a ha
  rcases List.mem_append.1 ha with h | h
  · exact h1 a h
  · exact h2 a h

theorem not_touches_global_ite (b : Prop) [Decidable b] (l1 l2 : List act)
    (h1 : ∀ a ∈ l1, touches_global a = false) (h2 : ∀ a ∈ l2, touches_global a = false) :
    ∀ a ∈ (if b then l1 else l2), touches_global a = false := by
  split_ifs
  · exact h1
  · exact h2

theorem not_touches_global_nil : ∀ a ∈ ([] : List act), touches_global a = false :=
  fun a ha => absurd ha (List.not_mem_nil a)

theorem not_touches_global_store_cons (l : List act)
    (h : ∀ a ∈ l, touches_global a = false) :
    ∀ a ∈ act.store :: l, touches_global a = false := by
  intro a ha
  rcases List.mem_cons.1 ha with g | g
  · rw [g]
    rfl
  · exact h a g

theorem not_touches_global_enqueue (c : Int) :
    ∀ a ∈ enqueue_notification_acts c, touches_global a = false := by
  intro a ha
  simp only [enqueue_notification_acts, List.mem_cons, List.mem_singleton,
    List.not_mem_nil, or_false] at ha
  rcases ha with h | h | h <;> rw [h] <;> rfl

theorem not_touches_global_match (st : world) (j i : Nat) :
    ∀ a ∈ match_demand_and_supply_acts st j i, touches_global a = false := by
  unfold match_demand_and_supply_acts
  dsimp only
  have hs : ∀ a ∈ [act.store], touches_global a = false := by decide
  have hss : ∀ a ∈ [act.store, act.store], touches_global a = false := by decide
  refine not_touches_global_append _ _ (not_touches_global_append _ _
    (not_touches_global_append _ _ (not_touches_global_append _ _ hs ?_) ?_) hss) ?_
  · exact not_touches_global_ite _ _ _ (not_touches_global_enqueue _) not_touches_global_nil
  · exact not_touches_global_ite _ _ _ (not_touches_global_enqueue _) not_touches_global_nil
  · refine not_touches_global_ite _ _ _
      (not_touches_global_append _ _ ?_ hs) not_touches_global_nil
    exact not_touches_global_ite _ _ _ (not_touches_global_enqueue _) not_touches_global_nil

theorem not_touches_global_loop_acts (f : world → Nat → world) (g : world → Nat → List act)
    (st : world) (n : Nat) (hg : ∀ w k, ∀ a ∈ g w k, touches_global a = false) :
    ∀ a ∈ loop_acts f g st n, touches_global a = false := by
  induction n with
  | zero =>
    intro a ha
    exact absurd ha (List.not_mem_nil a)
  | succ n ih =>
    intro a ha
    rcases List.mem_append.1 ha with h | h
    · exact ih a h
    · exact hg _ n a h

theorem not_touches_global_check_for_match_acts (st : world) :
    ∀ a ∈ check_for_match_acts st, touches_global a = false := by
  refine not_touches_global_loop_acts _ _ st _ (fun w j => ?_)
  refine not_touches_global_store_cons _ (not_touches_global_ite _ _ _ ?_
    not_touches_global_nil)
  refine not_touches_global_loop_acts _ _ w _ (fun v i => ?_)
  exact not_touches_global_store_cons _
    (not_touches_global_ite _ _ _ (not_touches_global_match v j i) not_touches_global_nil)

theorem not_touches_global_check_for_watch_events_acts (st : world) (idx : Nat) :
    ∀ a ∈ check_for_watch_events_on_new_supply_acts st idx, touches_global a = false := by
  refine not_touches_global_store_cons _ (not_touches_global_ite _ _ _
    not_touches_global_nil ?_)
  refine not_touches_global_loop_acts _ _ st _ (fun w i => ?_)
  exact not_touches_global_store_cons _
    (not_touches_global_ite _ _ _
      (not_touches_global_ite _ _ _ (not_touches_global_enqueue _) not_touches_global_nil)
      not_touches_global_nil)

theorem not_touches_global_list_acts {α : Type} (l : List α) (p : α → Bool) :
    ∀ a ∈ list_acts l p, touches_global a = false := by
  intro a ha
  unfold list_acts at ha
  simp only [List.mem_append, List.mem_map, List.mem_flatMap, List.mem_cons,
    List.mem_singleton, List.not_mem_nil, or_false] at ha
  rcases ha with (⟨_, _, h⟩ | h | h) | ⟨x, _, h⟩
  · rw [← h]
    rfl
  · rw [h]
    rfl
  · rw [h]
    rfl
  · rcases h with h | h
    · rw [h]
      rfl
    · split_ifs at h
      · simp only [List.mem_cons, List.mem_singleton, List.not_mem_nil, or_false] at h
        rcases h with h | h <;> rw [h] <;> rfl
      · exact absurd h (List.not_mem_nil a)

theorem locked_queues_list_acts {α : Type} (l : List α) (p : α → Bool) :
    locked_queues (list_acts l p) = [] := by
  unfold locked_queues
  rw [List.filterMap_eq_nil_iff]
  intro a ha
  unfold list_acts at ha
  simp only [List.mem_append, List.mem_map, List.mem_flatMap, List.mem_cons,
    List.mem_singleton, List.not_mem_nil, or_false] at ha
  rcases ha with (⟨_, _, h⟩ | h | h) | ⟨x, _, h⟩
  · rw [← h]
  · rw [h]
  · rw [h]
  · rcases h with h | h
    · rw [h]
    · split_ifs at h
      · simp only [List.mem_cons, List.mem_singleton, List.not_mem_nil, or_false] at h
        rcases h with h | h <;> rw [h]
      · exact absurd h (List.not_mem_nil a)

theorem not_touches_global_command_body_acts (st : world) (fd cid : Int) (cmd : command) :
    ∀ a ∈ command_body_acts st fd cid cmd, touches_global a = false := by
  have h2 : ∀ a ∈ [act.store, act.io], touches_global a = false := by decide
  have h1 : ∀ a ∈ [act.io], touches_global a = false := by decide
  cases cmd with
  | move x y => exact h2
  | demand a b c =>
    exact not_touches_global_append _ _ h2 (not_touches_global_check_for_match_acts _)
  | supply d a b c =>
    exact not_touches_global_append _ _
      (not_touches_global_append _ _ h2 (not_touches_global_check_for_match_acts _))
      (not_touches_global_ite _ _ _ (not_touches_global_check_for_watch_events_acts _ _)
        not_touches_global_nil)
  | watch r => exact h2
  | unwatch => exact h2
  | listsupplies => exact not_touches_global_list_acts _ _
  | listdemands => exact not_touches_global_list_acts _ _
  | mysupplies => exact not_touches_global_list_acts _ _
  | mydemands => exact not_touches_global_list_acts _ _
  | quit => exact h1
  | invalid => exact h1

theorem locked_queues_append (l1 l2 : List act) :
    locked_queues (l1 ++ l2) = locked_queues l1 ++ locked_queues l2 := by
  unfold locked_queues
  exact List.filterMap_append _ _ _

theorem enqueued_to_append (t1 t2 : List event) :
    enqueued_to (t1 ++ t2) = enqueued_to t1 ++ enqueued_to t2 := by
  unfold enqueued_to
  exact List.filterMap_append _ _ _

/-- The rings locked by a loop are the clients it calls `enqueue_notification` for,
when that holds for its body. -/
theorem enqueued_to_loop (f : world → Nat → world) (g : world → Nat → List act)
    (hg : ∀ w k, enqueued_to (f w k).trace = enqueued_to w.trace ++ locked_queues (g w k))
    (st : world) (n : Nat) :
    enqueued_to ((List.range n).foldl f st).trace
      = enqueued_to st.trace ++ locked_queues (loop_acts f g st n) := by
  induction n with
  | zero => simp [loop_acts, locked_queues]
  | succ n ih =>
    rw [List.range_succ, List.foldl_append, List.foldl_cons, List.foldl_nil, hg, ih]
    show _ = _ ++ locked_queues (loop_acts f g st n ++ g ((List.range n).foldl f st) n)
    rw [locked_queues_append, List.append_assoc]

theorem enqueued_to_match (st : world) (j i : Nat) :
    enqueued_to (match_demand_and_supply st j i).trace
      = enqueued_to st.trace ++ locked_queues (match_demand_and_supply_acts st j i) := by
  rw [match_demand_and_supply_trace, enqueued_to_append]
  congr 1
  unfold settlement_events match_demand_and_supply_acts
  dsimp only
  simp only [locked_queues_append, enqueued_to_append]
  split_ifs <;> simp_all [locked_queues, enqueued_to, enqueue_notification_acts]

theorem enqueued_to_check_for_match_body (j : Nat) (st : world) (i : Nat) :
    enqueued_to (check_for_match_body j st i).trace
      = enqueued_to st.trace ++ locked_queues (check_for_match_body_acts j st i) := by
  unfold check_for_match_body check_for_match_body_acts
  split_ifs
  · rw [enqueued_to_match]
    rfl
  · simp [locked_queues]

theorem enqueued_to_check_for_match_demand (n : Nat) (st : world) (j : Nat) :
    enqueued_to (check_for_match_demand n st j).trace
      = enqueued_to st.trace ++ locked_queues (check_for_match_demand_acts n st j) := by
  unfold check_for_match_demand check_for_match_demand_acts
  split_ifs
  · exact enqueued_to_loop _ _ (enqueued_to_check_for_match_body j) st n
  · simp [locked_queues]

theorem enqueued_to_check_for_match (st : world) (c : Int) :
    enqueued_to (check_for_match st c).trace
      = enqueued_to st.trace ++ locked_queues (check_for_match_acts st) :=
  enqueued_to_loop _ _ (enqueued_to_check_for_match_demand _) st _

theorem enqueued_to_watch_event_body (idx : Nat) (st : world) (i : Nat) :
    enqueued_to (watch_event_body idx st i).trace
      = enqueued_to st.trace ++ locked_queues (watch_event_body_acts idx st i) := by
  unfold watch_event_body watch_event_body_acts
  dsimp only
  split_ifs <;>
    simp [locked_queues, enqueued_to, enqueue_notification_acts, List.filterMap_append]

theorem enqueued_to_check_for_watch_events (st : world) (idx : Nat) :
    enqueued_to (check_for_watch_events_on_new_supply st idx).trace
      = enqueued_to st.trace
        ++ locked_queues (check_for_watch_events_on_new_supply_acts st idx) := by
  unfold check_for_watch_events_on_new_supply check_for_watch_events_on_new_supply_acts
  split_ifs
  · simp [locked_queues]
  · exact enqueued_to_loop _ _ (enqueued_to_watch_event_body idx) st _

theorem enqueued_to_foldl_sock_write {α : Type} (f : α → String) (fd : Int) (l : List α)
    (st : world) :
    enqueued_to (l.foldl (fun w a => sock_write w fd (f a)) st).trace = enqueued_to st.trace := by
  rw [foldl_sock_write_trace, enqueued_to_append]
  have : enqueued_to (l.map fun a => event.write fd (f a)) = [] := by
    unfold enqueued_to
    rw [List.filterMap_map]
    exact List.filterMap_eq_nil_iff.2 (fun _ _ => rfl)
  rw [this, List.append_nil]

/-- The mutexes of rings taken while a line is processed are, in order, those of the
clients for which the line calls `enqueue_notification`. -/
theorem enqueued_to_command (st : world) (fd cid : Int) (cmd : command) :
    enqueued_to (command_thread_func st fd cid cmd).trace
      = enqueued_to st.trace ++ locked_queues (command_thread_func_acts st fd cid cmd) := by
  have hw : ∀ (w : world) (b : String), enqueued_to (sock_write w fd b).trace
      = enqueued_to w.trace := by
    intro w b
    show enqueued_to (w.trace ++ [event.write fd b]) = _
    rw [enqueued_to_append]
    simp [enqueued_to]
  show _ = _ ++ locked_queues (act.lock_global :: (command_body_acts st fd cid cmd
    ++ [act.unlock_global]))
  have hwrap : ∀ l : List act, locked_queues (act.lock_global :: (l ++ [act.unlock_global]))
      = locked_queues l := by
    intro l
    simp [locked_queues, List.filterMap_append, List.filterMap_cons]
  rw [hwrap]
  cases cmd with
  | move x y =>
    show enqueued_to (sock_write (move_client st cid x y) fd ok_reply).trace = _
    rw [hw, (move_client_frame st cid x y).2.2.2.1]
    simp [command_body_acts, locked_queues]
  | demand a b c =>
    show enqueued_to (check_for_match (sock_write (add_new_demand st cid a b c) fd ok_reply)
      cid).trace = _ ++ locked_queues ([act.store, act.io] ++ check_for_match_acts _)
    rw [enqueued_to_check_for_match, hw, locked_queues_append]
    have ht : (add_new_demand st cid a b c).trace = st.trace := by
      unfold add_new_demand
      split <;> rfl
    rw [ht]
    simp [locked_queues]
  | supply d a b c =>
    have ht : (add_new_supply st cid d a b c).1.trace = st.trace := by
      unfold add_new_supply
      split <;> rfl
    show enqueued_to (let r := add_new_supply st cid d a b c
          let st1 := check_for_match (sock_write r.1 fd ok_reply) cid
          if r.2 ≠ -1 then check_for_watch_events_on_new_supply st1 r.2.toNat else st1).trace
      = _ ++ locked_queues (let r := add_new_supply st cid d a b c
          let st1 := sock_write r.1 fd ok_reply
          [act.store, act.io] ++ check_for_match_acts st1
            ++ (if r.2 ≠ -1 then
                check_for_watch_events_on_new_supply_acts (check_for_match st1 cid) r.2.toNat
              else []))
    dsimp only
    rw [locked_queues_append, locked_queues_append]
    split_ifs
    · rw [enqueued_to_check_for_watch_events, enqueued_to_check_for_match, hw, ht]
      simp [locked_queues]
    · rw [enqueued_to_check_for_match, hw, ht]
      simp [locked_queues]
  | watch r =>
    show enqueued_to (sock_write (add_new_watch st cid r) fd ok_reply).trace = _
    rw [hw]
    have ht : (add_new_watch st cid r).trace = st.trace := by
      dsimp only [add_new_watch]
      split <;> rfl
    rw [ht]
    simp [command_body_acts, locked_queues]
  | unwatch =>
    show enqueued_to (sock_write (remove_watch st cid) fd ok_reply).trace = _
    rw [hw]
    simp [command_body_acts, locked_queues, remove_watch]
  | listsupplies =>
    show enqueued_to (list_supplies st cid).trace = _ ++ locked_queues (list_acts _ _)
    unfold list_supplies
    dsimp only
    rw [enqueued_to_foldl_sock_write, locked_queues_list_acts]
    simp [sock_write, enqueued_to_append, enqueued_to]
  | listdemands =>
    show enqueued_to (list_demands st cid).trace = _ ++ locked_queues (list_acts _ _)
    unfold list_demands
    dsimp only
    rw [enqueued_to_foldl_sock_write, locked_queues_list_acts]
    simp [sock_write, enqueued_to_append, enqueued_to]
  | mysupplies =>
    show enqueued_to (my_supplies st cid).trace = _ ++ locked_queues (list_acts _ _)
    unfold my_supplies
    dsimp only
    rw [enqueued_to_foldl_sock_write, locked_queues_list_acts]
    simp [sock_write, enqueued_to_append, enqueued_to]
  | mydemands =>
    show enqueued_to (my_demands st cid).trace = _ ++ locked_queues (list_acts _ _)
    unfold my_demands
    dsimp only
    rw [enqueued_to_foldl_sock_write, locked_queues_list_acts]
    simp [sock_write, enqueued_to_append, enqueued_to]
  | quit =>
    show enqueued_to (sock_write st fd ok_reply).trace = _
    rw [hw]
    simp [command_body_acts, locked_queues]
  | invalid =>
    show enqueued_to (sock_write st fd error_reply).trace = _
    rw [hw]
    simp [command_body_acts, locked_queues]

/-- C21: the actions of one line of `command_thread_func`, whatever the command and the
state, start with taking the global mutex and end with releasing it, every access
to a table or a position in between is made with the global mutex held, and no other
action takes or releases it; `register_client` and `remove_client_resources` follow
the same rule; `enqueue_notification` and the rounds of `notification_thread_func`
take and release only the mutex of the ring of their client, access that ring only
with its mutex held, and contain no action on the global mutex. -/
theorem lock_discipline (st : world) (client_socket client_id : Int) (cmd : command) :
    run_locks ⟨false, none⟩ (command_thread_func_acts st client_socket client_id cmd)
      = some ⟨false, none⟩ ∧
    run_locks ⟨true, none⟩ (command_body_acts st client_socket client_id cmd)
      = some ⟨true, none⟩ ∧
    (∀ a ∈ command_body_acts st client_socket client_id cmd, touches_global a = false) ∧
    enqueued_to (command_thread_func st client_socket client_id cmd).trace
      = enqueued_to st.trace
        ++ locked_queues (command_thread_func_acts st client_socket client_id cmd) ∧
    run_locks ⟨false, none⟩ register_client_acts = some ⟨false, none⟩ ∧
    run_locks ⟨false, none⟩ remove_client_resources_acts = some ⟨false, none⟩ ∧
    (∀ (g : Bool) (c : Int),
      run_locks ⟨g, none⟩ (enqueue_notification_acts c) = some ⟨g, none⟩ ∧
      ∀ a ∈ enqueue_notification_acts c, touches_global a = false) ∧
    (∀ (g : Bool) (c : Int) (waits sent : Nat),
      run_locks ⟨g, none⟩ (notification_thread_func_acts c waits sent) = some ⟨g, none⟩ ∧
      ∀ a ∈ notification_thread_func_acts c waits sent, touches_global a = false) := by
  have hbody := run_locks_command_body_acts st client_socket client_id cmd
  refine ⟨?_, hbody, not_touches_global_command_body_acts st client_socket client_id cmd,
    enqueued_to_command st client_socket client_id cmd, rfl, rfl, ?_, ?_⟩
  · show run_locks ⟨true, none⟩ (command_body_acts st client_socket client_id cmd
      ++ [act.unlock_global]) = some ⟨false, none⟩
    rw [run_locks_append, hbody]
    rfl
  · intro g c
    refine ⟨run_locks_enqueue_notification_acts g c, ?_⟩
    intro a ha
    simp only [enqueue_notification_acts, List.mem_cons, List.mem_singleton,
      List.not_mem_nil, or_false] at ha
    rcases ha with h | h | h <;> rw [h] <;> rfl
  · intro g c waits sent
    constructor
    · unfold notification_thread_func_acts
      rw [List.append_assoc, List.append_assoc, List.append_assoc]
      show run_locks ⟨g, some c⟩ _ = _
      have hw : run_locks ⟨g, some c⟩ (List.replicate waits [act.ring c, act.wait_queue c]).flatten
          = some ⟨g, some c⟩ :=
        run_locks_replicate_flatten _ _ _ (by simp [run_locks, lock_step])
      have hs : run_locks ⟨g, some c⟩ (List.replicate sent
          [act.ring c, act.ring c, act.unlock_queue c, act.registry, act.io, act.lock_queue c,
            act.ring c]).flatten = some ⟨g, some c⟩ :=
        run_locks_replicate_flatten _ _ _ (by simp [run_locks, lock_step])
      simp only [List.append_eq, List.nil_append]
      rw [run_locks_append, hw]
      show run_locks ⟨g, some c⟩ ([act.ring c] ++ _) = _
      rw [run_locks_append]
      have h1 : run_locks ⟨g, some c⟩ [act.ring c] = some ⟨g, some c⟩ := by
        simp [run_locks, lock_step]
      rw [h1]
      show run_locks ⟨g, some c⟩ _ = _
      rw [run_locks_append, hs]
      simp [run_locks, lock_step]
    · intro a ha
      unfold notification_thread_func_acts at ha
      simp only [List.mem_append, List.mem_flatten, List.mem_replicate, List.mem_cons,
        List.mem_singleton, List.not_mem_nil, or_false] at ha
      rcases ha with (((h | ⟨l, ⟨_, rfl⟩, h⟩) | h) | ⟨l, ⟨_, rfl⟩, h⟩) | h
      · rw [h]; rfl
      · simp only [List.mem_cons, List.mem_singleton, List.not_mem_nil, or_false] at h
        rcases h with h | h <;> rw [h] <;> rfl
      · rw [h]; rfl
      · simp only [List.mem_cons, List.mem_singleton, List.not_mem_nil, or_false] at h
        rcases h with h | h | h | h | h | h | h <;> rw [h] <;> rfl
      · rw [h]; rfl

/-! ### The compiled server at the edge of `int` -/

theorem far_world_reachable : reachable far_world :=
  reachable_by.line 0 (.move (-2) 0)
    (reachable_by.line 1 (.move 2147483647 (-2147483648)) market_world_reachable (by decide)
      trivial)
    (by decide) trivial

/-- C5: in `far_world`, a state the server reaches, the demander stands at
(2147483647, -2147483648) and the supplier at (-2, 0): their Manhattan distance is
4294967297, far above the radius 1 of the supply, but the compiled
`manhattan_distance` returns -1.  Posting `demand 1 1 1` and `supply 1 5 5 5`, in
either order, the compiled server settles the pair: the demand slot is freed, the
supply is left with `(4,4,4)`, and the fulfilment and delivery notices are
enqueued. -/
theorem false_match_by_overflow :
    reachable far_world ∧
    no_supplies far_world ∧ no_demands far_world ∧
    ((client_at far_world 1).x, (client_at far_world 1).y) = (2147483647, -2147483648) ∧
    ((client_at far_world 0).x, (client_at far_world 0).y) = (-2, 0) ∧
    |(2147483647 : Int) - (-2)| + |(-2147483648 : Int) - 0| = 4294967297 ∧
    manhattan_distance_wrapped 2147483647 (-2147483648) (-2) 0 = -1 ∧
    demand_at far_demand_first 0 = free_demand ∧
    supply_at far_demand_first 0 = ⟨-2, 0, 4, 4, 4, 1, 0⟩ ∧
    (far_demand_first.trace.drop far_world.trace.length).filter is_engine_notice
      = [event.enqueue 1
          "Your demand at (2147483647,-2147483648), [1,1,1] is fulfilled by a supply at (-2,0).\n",
        event.enqueue 0
          "Your supply at (-2,0), [5,5,5] with distance 1 is delivered to a demand at (2147483647,-2147483648) [1,1,1].\n"] ∧
    demand_at far_supply_first 0 = free_demand ∧
    supply_at far_supply_first 0 = ⟨-2, 0, 4, 4, 4, 1, 0⟩ ∧
    (far_supply_first.trace.drop far_world.trace.length).filter is_engine_notice
      = [event.enqueue 1
          "Your demand at (2147483647,-2147483648), [1,1,1] is fulfilled by a supply at (-2,0).\n",
        event.enqueue 0
          "Your supply at (-2,0), [5,5,5] with distance 1 is delivered to a demand at (2147483647,-2147483648) [1,1,1].\n"] :=
  ⟨far_world_reachable, by decide, by decide, by decide, by decide, by decide, by decide,
    by decide, by decide, by decide, by decide, by decide, by decide⟩

theorem far_watch_world_reachable : reachable far_watch_world :=
  reachable_by.line 0 (.move (-1) 0)
    (reachable_by.line 1 (.move 100 100)
      (reachable_by.line 1 (.watch 1)
        (reachable_by.line 1 (.move 2147483647 0) market_world_reachable (by decide) trivial)
        (by decide) trivial)
      (by decide) trivial)
    (by decide) trivial

/-- C10: in `far_watch_world`, a state the server reaches, client 1 has sent `watch 1`
at `p = (2147483647, 0)` and moved on to (100, 100), and the watch slot still holds
`p`.  Client 0, at `s = (-1, 0)`, sends `supply 5 1 1 1`: `dist(p, s)` is 2147483648,
above the radius 1, but the compiled `manhattan_distance` returns -2147483648 and the
compiled server enqueues a supply-appeared notice to client 1. -/
theorem far_watch_is_notified :
    reachable far_watch_world ∧
    far_watch_world.watches = [⟨2147483647, 0, 1, 1⟩] ∧
    ((client_at far_watch_world 1).x, (client_at far_watch_world 1).y) = (100, 100) ∧
    ((client_at far_watch_world 0).x, (client_at far_watch_world 0).y) = (-1, 0) ∧
    |(2147483647 : Int) - (-1)| + |(0 : Int) - 0| = 2147483648 ∧
    manhattan_distance_wrapped 2147483647 0 (-1) 0 = -2147483648 ∧
    (command_thread_func_wrapped far_watch_world 4 0 (.supply 5 1 1 1)).trace
      = far_watch_world.trace
        ++ [event.write 4 ok_reply, event.enqueue 1 "A supply [1,1,1] is inserted at (-1,0).\n"] ∧
    (command_thread_func far_watch_world 4 0 (.supply 5 1 1 1)).trace
      = far_watch_world.trace ++ [event.write 4 ok_reply] := by
  refine ⟨far_watch_world_reachable, by decide, by decide, by decide, by decide, by decide,
    by decide, by decide⟩

/-- With a negative amount in a `demand` line the subtraction of the compiled
`match_demand_and_supply` overflows: after `supply 10 2147483647 1 1` of client 0 and
`demand -1 0 0` of client 1 in `market_world` the supply slot is occupied and holds
the amounts `(-2147483648, 1, 1)`. -/
theorem negative_demand_wraps_supply :
    supply_at (command_thread_func_wrapped
      (command_thread_func_wrapped market_world 4 0 (.supply 10 2147483647 1 1)) 5 1
      (.demand (-1) 0 0)) 0 = ⟨0, 0, -2147483648, 1, 1, 10, 0⟩ := by
  decide

/-! ### The compiled matching pass keeps supplies positive -/

theorem check_case_match_wrapped_eq_one (st : world) (j i : Nat)
    (h : check_case_match_wrapped st j i = 1) :
    (demand_at st j).client_id ≠ -1 ∧ (supply_at st i).client_id ≠ -1 ∧
    (supply_at st i).a_amount ≥ (demand_at st j).a_amount ∧
    (supply_at st i).b_amount ≥ (demand_at st j).b_amount ∧
    (supply_at st i).c_amount ≥ (demand_at st j).c_amount := by
  dsimp only [check_case_match_wrapped] at h
  split_ifs at h with h1 h2
  · omega
  · exact ⟨fun e => h1 (Or.inl e), fun e => h1 (Or.inr e), h2.2⟩
  · omega

theorem check_case_match_wrapped_cases (st : world) (j i : Nat) :
    check_case_match_wrapped st j i = 1 ∨ check_case_match_wrapped st j i = 0 := by
  dsimp only [check_case_match_wrapped]
  split_ifs <;> simp

/-- A settlement of the compiled server on a store with `amounts_ok` computes the
three differences without overflow: it is the settlement of the model. -/
theorem match_demand_and_supply_wrapped_of_amounts_ok (st : world) (j i : Nat)
    (hok : amounts_ok st) (hm : check_case_match_wrapped st j i = 1) :
    match_demand_and_supply_wrapped st j i = match_demand_and_supply st j i := by
  obtain ⟨hd, hs, ha, hb, hc⟩ := check_case_match_wrapped_eq_one st j i hm
  obtain ⟨hpos, hmax, hdem⟩ := hok
  obtain ⟨na, nb, nc⟩ := hdem _ (demand_at_mem_of_occupied st j hd) hd
  obtain ⟨ma, mb, mc⟩ := hmax _ (supply_at_mem_of_occupied st i hs) hs
  unfold INT_MAX at ma mb mc
  have ea := wrap_int_of_range ((supply_at st i).a_amount - (demand_at st j).a_amount)
    (by omega) (by omega)
  have eb := wrap_int_of_range ((supply_at st i).b_amount - (demand_at st j).b_amount)
    (by omega) (by omega)
  have ec := wrap_int_of_range ((supply_at st i).c_amount - (demand_at st j).c_amount)
    (by omega) (by omega)
  unfold match_demand_and_supply_wrapped match_demand_and_supply
  dsimp only
  rw [ea, eb, ec]

theorem amounts_ok_of_eq {st st1 : world} (hs : st1.supplies = st.supplies)
    (hd : st1.demands = st.demands) (hok : amounts_ok st) : amounts_ok st1 := by
  unfold amounts_ok supplies_ok demands_nonneg at *
  rw [hs, hd]
  exact hok

theorem amounts_ok_match (st : world) (j i : Nat) (hok : amounts_ok st)
    (hm : check_case_match_wrapped st j i = 1) :
    amounts_ok (match_demand_and_supply st j i) := by
  obtain ⟨hd, hs, ha, hb, hc⟩ := check_case_match_wrapped_eq_one st j i hm
  obtain ⟨hpos, hmax, hdem⟩ := hok
  obtain ⟨na, nb, nc⟩ := hdem _ (demand_at_mem_of_occupied st j hd) hd
  obtain ⟨ma, mb, mc⟩ := hmax _ (supply_at_mem_of_occupied st i hs) hs
  refine ⟨?_, ?_, ?_⟩
  · unfold supplies_ok
    rw [match_demand_and_supply_supplies]
    intro s hs1 hocc
    rcases List.mem_or_eq_of_mem_set hs1 with g | g
    · exact hpos s g hocc
    · rw [g] at hocc ⊢
      exact settled_supply_ok _ _ ha hb hc hocc
  · rw [match_demand_and_supply_supplies]
    intro s hs1 hocc
    rcases List.mem_or_eq_of_mem_set hs1 with g | g
    · exact hmax s g hocc
    · rw [g] at hocc ⊢
      unfold settled_supply at hocc ⊢
      split_ifs at hocc ⊢ with hz
      · exact absurd rfl hocc
      · dsimp only
        exact ⟨by omega, by omega, by omega⟩
  · unfold demands_nonneg
    rw [match_demand_and_supply_demands]
    intro d hd1 hocc
    rcases List.mem_or_eq_of_mem_set hd1 with g | g
    · exact hdem d g hocc
    · rw [g] at hocc
      exact absurd rfl hocc

theorem amounts_ok_check_for_match_body_wrapped (j : Nat) (st : world) (i : Nat)
    (hok : amounts_ok st) : amounts_ok (check_for_match_body_wrapped j st i) := by
  unfold check_for_match_body_wrapped
  split_ifs with h
  · rcases check_case_match_wrapped_cases st j i with h1 | h0
    · rw [match_demand_and_supply_wrapped_of_amounts_ok st j i hok h1]
      exact amounts_ok_match st j i hok h1
    · exact absurd h0 h.2
  · exact hok

theorem check_for_match_supplies_wrapped_succ (st : world) (j m : Nat) :
    check_for_match_supplies_wrapped st j (m + 1)
      = check_for_match_body_wrapped j (check_for_match_supplies_wrapped st j m) m := by
  simp [check_for_match_supplies_wrapped, List.range_succ, List.foldl_append]

theorem check_for_match_upto_wrapped_succ (st : world) (k : Nat) :
    check_for_match_upto_wrapped st (k + 1)
      = check_for_match_demand_wrapped st.supplies.length (check_for_match_upto_wrapped st k)
          k := by
  simp [check_for_match_upto_wrapped, List.range_succ, List.foldl_append]

theorem amounts_ok_check_for_match_supplies_wrapped (st : world) (j m : Nat)
    (hok : amounts_ok st) : amounts_ok (check_for_match_supplies_wrapped st j m) := by
  induction m with
  | zero => exact hok
  | succ m ih =>
    rw [check_for_match_supplies_wrapped_succ]
    exact amounts_ok_check_for_match_body_wrapped j _ m ih

theorem amounts_ok_check_for_match_upto_wrapped (st : world) (k : Nat)
    (hok : amounts_ok st) : amounts_ok (check_for_match_upto_wrapped st k) := by
  induction k with
  | zero => exact hok
  | succ k ih =>
    rw [check_for_match_upto_wrapped_succ]
    unfold check_for_match_demand_wrapped
    split_ifs
    · exact amounts_ok_check_for_match_supplies_wrapped _ k _ ih
    · exact ih

theorem watch_scan_wrapped_frame (idx : Nat) (st : world) (k : Nat) :
    ((List.range k).foldl (watch_event_body_wrapped idx) st).supplies = st.supplies ∧
    ((List.range k).foldl (watch_event_body_wrapped idx) st).demands = st.demands := by
  induction k with
  | zero => exact ⟨rfl, rfl⟩
  | succ k ih =>
    rw [List.range_succ, List.foldl_append]
    simp only [List.foldl_cons, List.foldl_nil]
    unfold watch_event_body_wrapped
    dsimp only
    split_ifs
    · rw [enqueue_notification_supplies, enqueue_notification_demands]
      exact ih
    · exact ih
    · exact ih

theorem check_for_watch_events_wrapped_frame (st : world) (idx : Nat) :
    (check_for_watch_events_on_new_supply_wrapped st idx).supplies = st.supplies ∧
    (check_for_watch_events_on_new_supply_wrapped st idx).demands = st.demands := by
  unfold check_for_watch_events_on_new_supply_wrapped
  split_ifs
  · exact ⟨rfl, rfl⟩
  · exact watch_scan_wrapped_frame idx st _

theorem amounts_ok_add_new_demand (st : world) (h a b c : Int) (hok : amounts_ok st)
    (hv : valid_amounts (.demand a b c)) : amounts_ok (add_new_demand st h a b c) := by
  obtain ⟨hpos, hmax, hdem⟩ := hok
  unfold add_new_demand
  split
  · refine ⟨hpos, hmax, ?_⟩
    intro d hd hocc
    rcases List.mem_or_eq_of_mem_set hd with g | g
    · exact hdem d g hocc
    · rw [g]
      exact hv
  · exact ⟨hpos, hmax, hdem⟩

theorem amounts_ok_add_new_supply (st : world) (h dist a b c : Int) (hok : amounts_ok st)
    (hv : valid_amounts (.supply dist a b c)) :
    amounts_ok (add_new_supply st h dist a b c).1 := by
  obtain ⟨hpos, hmax, hdem⟩ := hok
  unfold add_new_supply
  split
  · refine ⟨?_, ?_, hdem⟩
    · intro s hs hocc
      rcases List.mem_or_eq_of_mem_set hs with g | g
      · exact hpos s g hocc
      · rw [g]
        exact hv.1
    · intro s hs hocc
      rcases List.mem_or_eq_of_mem_set hs with g | g
      · exact hmax s g hocc
      · rw [g]
        exact hv.2
  · exact ⟨hpos, hmax, hdem⟩

theorem amounts_ok_command_wrapped (st : world) (fd h : Int) (cmd : command)
    (hok : amounts_ok st) (hv : valid_amounts cmd) :
    amounts_ok (command_thread_func_wrapped st fd h cmd) := by
  cases cmd with
  | move x y =>
    exact amounts_ok_of_eq (move_client_frame st h x y).1 (move_client_frame st h x y).2.1 hok
  | demand a b c =>
    exact amounts_ok_check_for_match_upto_wrapped _ _
      (amounts_ok_of_eq rfl rfl (amounts_ok_add_new_demand st h a b c hok hv))
  | supply dist a b c =>
    have h1 : amounts_ok (check_for_match_wrapped
        (sock_write (add_new_supply st h dist a b c).1 fd ok_reply) h) :=
      amounts_ok_check_for_match_upto_wrapped _ _
        (amounts_ok_of_eq rfl rfl (amounts_ok_add_new_supply st h dist a b c hok hv))
    show amounts_ok (let r := add_new_supply st h dist a b c
          let st1 := check_for_match_wrapped (sock_write r.1 fd ok_reply) h
          if r.2 ≠ -1 then check_for_watch_events_on_new_supply_wrapped st1 r.2.toNat else st1)
    dsimp only
    split_ifs
    · exact amounts_ok_of_eq (check_for_watch_events_wrapped_frame _ _).1
        (check_for_watch_events_wrapped_frame _ _).2 h1
    · exact h1
  | watch r =>
    refine amounts_ok_of_eq ?_ ?_ hok
    · show (add_new_watch st h r).supplies = st.supplies
      dsimp only [add_new_watch]
      split <;> rfl
    · show (add_new_watch st h r).demands = st.demands
      dsimp only [add_new_watch]
      split <;> rfl
  | unwatch => exact hok
  | listsupplies =>
    exact amounts_ok_of_eq (list_supplies_frame st h).1 (list_supplies_frame st h).2.1 hok
  | listdemands =>
    exact amounts_ok_of_eq (list_demands_frame st h).1 (list_demands_frame st h).2.1 hok
  | mysupplies =>
    exact amounts_ok_of_eq (my_supplies_frame st h).1 (my_supplies_frame st h).2.1 hok
  | mydemands =>
    exact amounts_ok_of_eq (my_demands_frame st h).1 (my_demands_frame st h).2.1 hok
  | quit => exact hok
  | invalid => exact hok

theorem amounts_ok_reachable_wrapped (st : world)
    (hr : reachable_by_wrapped valid_amounts st) : amounts_ok st := by
  induction hr with
  | init mc ms md mw =>
    refine ⟨?_, ?_, ?_⟩
    · intro s hs hocc
      rw [List.eq_of_mem_replicate hs] at hocc
      exact absurd rfl hocc
    · intro s hs hocc
      rw [List.eq_of_mem_replicate hs] at hocc
      exact absurd rfl hocc
    · intro d hd hocc
      rw [List.eq_of_mem_replicate hd] at hocc
      exact absurd rfl hocc
  | connect fd i _ _ _ ih =>
    refine amounts_ok_of_eq ?_ ?_ ih
    · unfold register_client
      split <;> rfl
    · unfold register_client
      split <;> rfl
  | line h cmd _ _ hv ih => exact amounts_ok_command_wrapped _ _ h cmd ih hv
  | notify h _ _ ih =>
    refine amounts_ok_of_eq ?_ ?_ ih
    · dsimp only [notification_thread_func, notify_client, sock_write]
      split_ifs <;> simp
    · dsimp only [notification_thread_func, notify_client, sock_write]
      split_ifs <;> simp
  | disconnect h _ _ ih =>
    obtain ⟨hpos, hmax, hdem⟩ := ih
    refine ⟨?_, ?_, ?_⟩
    · intro s hs hocc
      dsimp only [remove_client_resources] at hs
      rw [client_put_supplies] at hs
      obtain ⟨v, hv, rfl⟩ := List.mem_map.1 hs
      split_ifs at hocc ⊢ with e
      · exact absurd rfl hocc
      · exact hpos v hv hocc
    · intro s hs hocc
      dsimp only [remove_client_resources] at hs
      rw [client_put_supplies] at hs
      obtain ⟨v, hv, rfl⟩ := List.mem_map.1 hs
      split_ifs at hocc ⊢ with e
      · exact absurd rfl hocc
      · exact hmax v hv hocc
    · intro d hd hocc
      dsimp only [remove_client_resources] at hd
      rw [client_put_demands] at hd
      obtain ⟨v, hv, rfl⟩ := List.mem_map.1 hd
      split_ifs at hocc ⊢ with e
      · exact absurd rfl hocc
      · exact hdem v hv hocc

theorem amounts_ok_passes_through_wrapped (st : world)
    (hp : passes_through_wrapped valid_amounts st) : amounts_ok st := by
  cases hp with
  | between hr => exact amounts_ok_reachable_wrapped st hr
  | in_demand h a b c k m hr _ hv =>
    exact amounts_ok_check_for_match_supplies_wrapped _ k m
      (amounts_ok_check_for_match_upto_wrapped _ k
        (amounts_ok_of_eq rfl rfl
          (amounts_ok_add_new_demand _ h a b c (amounts_ok_reachable_wrapped _ hr) hv)))
  | in_supply h dist a b c k m hr _ hv =>
    exact amounts_ok_check_for_match_supplies_wrapped _ k m
      (amounts_ok_check_for_match_upto_wrapped _ k
        (amounts_ok_of_eq rfl rfl
          (amounts_ok_add_new_supply _ h dist a b c (amounts_ok_reachable_wrapped _ hr) hv)))

theorem market_world_reachable_by_wrapped (ok : command → Prop)
    (hmove : ∀ x y, ok (.move x y)) : reachable_by_wrapped ok market_world := by
  have h0 : reachable_by_wrapped ok (init_world 2 2 2 1) := reachable_by_wrapped.init 2 2 2 1
  have h1 : reachable_by_wrapped ok (register_client (init_world 2 2 2 1) 4).1 :=
    reachable_by_wrapped.connect 4 0 h0 (by decide) (by decide)
  have h2 : reachable_by_wrapped ok
      (register_client (register_client (init_world 2 2 2 1) 4).1 5).1 :=
    reachable_by_wrapped.connect 5 1 h1 (by decide) (by decide)
  have h3 := reachable_by_wrapped.line 0 (.move 0 0) h2 (by decide) (hmove 0 0)
  exact reachable_by_wrapped.line 1 (.move 2 2) h3 (by decide) (hmove 2 2)

/-- C6 as stated fails: after client 0 of `market_world` sends `supply 5 0 0 0` the
state, reachable in the model and by the compiled server alike, holds an occupied
supply slot with bundle `(0,0,0)`. -/
theorem zero_supply_is_stored :
    reachable (command_thread_func market_world (client_at market_world 0).client_socket 0
      (.supply 5 0 0 0)) ∧
    supply_at (command_thread_func market_world (client_at market_world 0).client_socket 0
      (.supply 5 0 0 0)) 0 = ⟨0, 0, 0, 0, 0, 5, 0⟩ ∧
    reachable_by_wrapped (fun _ => True) (command_thread_func_wrapped market_world
      (client_at market_world 0).client_socket 0 (.supply 5 0 0 0)) ∧
    supply_at (command_thread_func_wrapped market_world
      (client_at market_world 0).client_socket 0 (.supply 5 0 0 0)) 0
        = ⟨0, 0, 0, 0, 0, 5, 0⟩ :=
  ⟨reachable_by.line 0 (.supply 5 0 0 0) market_world_reachable (by decide) trivial, by decide,
    reachable_by_wrapped.line 0 (.supply 5 0 0 0)
      (market_world_reachable_by_wrapped _ (fun _ _ => trivial)) (by decide) trivial,
    by decide⟩

/-- C6, amended: when every `supply` line carries three non-negative `int` amounts
that are not all zero and every `demand` line three non-negative amounts, then in
every state the compiled server passes through, between lines and inside a matching
pass, every occupied supply slot has three non-negative amounts of which at least
one is positive; so a supply that takes part in a settlement is of that kind; a
settlement computes its three differences without overflow, and it frees the supply
slot exactly when it leaves all three amounts zero. -/
theorem supplies_stay_positive (st : world) (hp : passes_through_wrapped valid_amounts st) :
    (∀ i, (supply_at st i).client_id ≠ -1 → positive_supply (supply_at st i)) ∧
    (∀ j i, check_case_match_wrapped st j i = 1 → positive_supply (supply_at st i)) ∧
    (∀ j i, check_case_match_wrapped st j i = 1 →
      match_demand_and_supply_wrapped st j i = match_demand_and_supply st j i ∧
      ((supply_at (match_demand_and_supply_wrapped st j i) i).client_id = -1 ↔
        (supply_at st i).a_amount - (demand_at st j).a_amount = 0 ∧
        (supply_at st i).b_amount - (demand_at st j).b_amount = 0 ∧
        (supply_at st i).c_amount - (demand_at st j).c_amount = 0)) := by
  have hok := amounts_ok_passes_through_wrapped st hp
  refine ⟨fun i => supplies_ok_supply_at hok.1 i, ?_, ?_⟩
  · intro j i hm
    exact supplies_ok_supply_at hok.1 i (check_case_match_wrapped_eq_one st j i hm).2.1
  · intro j i hm
    have hocc := (check_case_match_wrapped_eq_one st j i hm).2.1
    have he := match_demand_and_supply_wrapped_of_amounts_ok st j i hok hm
    refine ⟨he, ?_⟩
    rw [he, supply_at_match_self st j i (supply_at_occupied_lt st i hocc)]
    unfold settled_supply
    split_ifs with hz
    · exact ⟨fun _ => hz, fun _ => rfl⟩
    · exact ⟨fun e => absurd e hocc, fun e => absurd e hz⟩

/-- On `market_world`: client 0 sends `supply 10 5 5 5` and client 1 `demand 1 1 1`;
inside the matching pass of the compiled server, after the settlement, the supply
slot holds the bundle `(4,4,4)`, which is positive. -/
theorem supplies_stay_positive_witness :
    supply_at (check_for_match_supplies_wrapped (check_for_match_upto_wrapped
        (sock_write (add_new_demand (command_thread_func_wrapped market_world
            (client_at market_world 0).client_socket 0 (.supply 10 5 5 5)) 1 1 1 1)
          (client_at (command_thread_func_wrapped market_world
            (client_at market_world 0).client_socket 0 (.supply 10 5 5 5)) 1).client_socket
          ok_reply) 0) 0 1) 0 = ⟨0, 0, 4, 4, 4, 10, 0⟩ ∧
    positive_supply (supply_at (check_for_match_supplies_wrapped (check_for_match_upto_wrapped
        (sock_write (add_new_demand (command_thread_func_wrapped market_world
            (client_at market_world 0).client_socket 0 (.supply 10 5 5 5)) 1 1 1 1)
          (client_at (command_thread_func_wrapped market_world
            (client_at market_world 0).client_socket 0 (.supply 10 5 5 5)) 1).client_socket
          ok_reply) 0) 0 1) 0) :=
  ⟨by decide,
    (supplies_stay_positive _
      (passes_through_wrapped.in_demand 1 1 1 1 0 1
        (reachable_by_wrapped.line 0 (.supply 10 5 5 5)
          (market_world_reachable_by_wrapped valid_amounts (fun _ _ => trivial)) (by decide)
          (by decide))
        (by decide) (by decide))).1 0 (by decide)⟩

end SupDem

namespace Cipher

/-! ### The XOR pass -/

theorem xored_nil (dev : cipher_dev) (k : Int) : xored dev [] k = [] := rfl

theorem find_bucket_mem {dev : cipher_dev} {a : Nat} {b : bucket}
    (h : find_bucket dev a = some b) : b ∈ dev.buckets ∧ b.addr = a := by
  unfold find_bucket at h
  exact ⟨List.mem_of_find?_eq_some h, by simpa using List.find?_some h⟩

theorem put_bucket_addrs (dev : cipher_dev) (b : bucket) :
    (put_bucket dev b).buckets.map (fun x => x.addr) = dev.buckets.map fun x => x.addr := by
  unfold put_bucket
  simp only [List.map_map]
  apply List.map_congr_left
  intro x _
  simp only [Function.comp]
  split_ifs with h
  · exact h.symm
  · rfl

theorem put_bucket_frame (dev : cipher_dev) (b : bucket) :
    (put_bucket dev b).contexes = dev.contexes ∧ (put_bucket dev b).keyfirst = dev.keyfirst
      ∧ (put_bucket dev b).cipher = dev.cipher ∧ (put_bucket dev b).cipherlen = dev.cipherlen
      ∧ (put_bucket dev b).brk = dev.brk ∧ (put_bucket dev b).keylast = dev.keylast :=
  ⟨rfl, rfl, rfl, rfl, rfl, rfl⟩

theorem heap_ok_of_addrs {dev dev1 : cipher_dev}
    (ha : dev1.buckets.map (fun x => x.addr) = dev.buckets.map fun x => x.addr)
    (hb : dev.brk ≤ dev1.brk) (h : heap_ok dev) : heap_ok dev1 := by
  refine ⟨by rw [ha]; exact h.1, ?_⟩
  intro b hb1
  have : b.addr ∈ dev1.buckets.map (fun x => x.addr) := List.mem_map_of_mem _ hb1
  rw [ha] at this
  obtain ⟨x, hx, e⟩ := List.mem_map.1 this
  have := h.2 x hx
  omega

theorem heap_ok_put_bucket (dev : cipher_dev) (b : bucket) (h : heap_ok dev) :
    heap_ok (put_bucket dev b) :=
  heap_ok_of_addrs (put_bucket_addrs dev b) (le_refl _) h

theorem find_put_list (l : List bucket) (b : bucket)
    (h : (l.find? fun x => x.addr = b.addr).isSome) :
    (l.map fun x => if x.addr = b.addr then b else x).find? (fun x => x.addr = b.addr)
      = some b := by
  induction l with
  | nil => simp at h
  | cons x l ih =>
    rw [List.map_cons]
    by_cases hx : x.addr = b.addr
    · rw [if_pos hx, List.find?_cons]
      simp
    · rw [if_neg hx, List.find?_cons]
      rw [List.find?_cons] at h
      simp only [hx, decide_False] at h ⊢
      exact ih h

theorem find_bucket_put_bucket (dev : cipher_dev) (b : bucket)
    (h : (find_bucket dev b.addr).isSome) : find_bucket (put_bucket dev b) b.addr = some b :=
  find_put_list dev.buckets b h

theorem sum_put_list (l : List bucket) (b0 b : bucket)
    (hnd : (l.map fun x => x.addr).Nodup)
    (h : (l.find? fun x => x.addr = b.addr) = some b0) :
    ((l.map fun x => if x.addr = b.addr then b else x).map bucket_end).sum
      = (l.map bucket_end).sum + (bucket_end b - bucket_end b0) := by
  induction l with
  | nil => simp at h
  | cons x l ih =>
    rw [List.map_cons, List.nodup_cons] at hnd
    rw [List.map_cons, List.map_cons, List.sum_cons, List.map_cons, List.sum_cons]
    by_cases hx : x.addr = b.addr
    · rw [if_pos hx]
      rw [List.find?_cons] at h
      simp only [hx, decide_True, Option.some.injEq] at h
      have hrest : List.map (fun x => if x.addr = b.addr then b else x) l = l := by
        conv_rhs => rw [← List.map_id l]
        apply List.map_congr_left
        intro y hy
        have : y.addr ≠ b.addr := by
          intro e
          apply hnd.1
          rw [hx, ← e]
          exact List.mem_map_of_mem _ hy
        simp [this]
      rw [hrest, h]
      ring
    · rw [if_neg hx]
      rw [List.find?_cons] at h
      simp only [hx, decide_False] at h
      rw [ih hnd.2 h]
      ring

theorem stored_put_bucket (dev : cipher_dev) (b0 b : bucket) (hn : heap_ok dev)
    (h : find_bucket dev b.addr = some b0) :
    stored (put_bucket dev b) = stored dev + (bucket_end b - bucket_end b0) :=
  sum_put_list dev.buckets b0 b hn.1 h

theorem stored_append (dev : cipher_dev) (l : List bucket) (k : Nat) :
    stored { dev with buckets := dev.buckets ++ l, brk := k }
      = stored dev + (l.map bucket_end).sum := by
  simp [stored]

theorem find_bucket_append_fresh (dev : cipher_dev) (b : bucket) (k : Nat) (hn : heap_ok dev)
    (hb : b.addr = dev.brk) :
    find_bucket { dev with buckets := dev.buckets ++ [b], brk := k } b.addr = some b := by
  unfold find_bucket
  simp only
  rw [List.find?_append]
  have : List.find? (fun x => decide (x.addr = b.addr)) dev.buckets = none := by
    rw [List.find?_eq_none]
    intro x hx
    have := hn.2 x hx
    simp only [decide_eq_true_eq]
    omega
  rw [this]
  simp

theorem heap_ok_append_fresh (dev : cipher_dev) (b : bucket) (hn : heap_ok dev)
    (hb : b.addr = dev.brk) :
    heap_ok { dev with buckets := dev.buckets ++ [b], brk := dev.brk + 1 } := by
  refine ⟨?_, ?_⟩
  · simp only [List.map_append, List.map_cons, List.map_nil]
    rw [List.nodup_append]
    refine ⟨hn.1, List.nodup_singleton _, ?_⟩
    intro a ha ha1
    obtain ⟨x, hx, e⟩ := List.mem_map.1 ha
    have := hn.2 x hx
    simp only [List.mem_singleton] at ha1
    omega
  · intro x hx
    simp only [List.mem_append, List.mem_singleton] at hx
    rcases hx with hx | hx
    · have := hn.2 x hx
      show x.addr < dev.brk + 1
      omega
    · show x.addr < dev.brk + 1
      rw [hx, hb]
      omega

/-! ### One call of `cipher_write` -/

theorem same_key_refl (dev : cipher_dev) : same_key dev dev := ⟨rfl, rfl, rfl, rfl⟩

theorem same_key_trans {d1 d2 d3 : cipher_dev} (h1 : same_key d1 d2) (h2 : same_key d2 d3) :
    same_key d1 d3 :=
  ⟨h2.1.trans h1.1, h2.2.1.trans h1.2.1, h2.2.2.1.trans h1.2.2.1, h2.2.2.2.trans h1.2.2.2⟩

theorem cipher_xor_buffer_length (dev : cipher_dev) (data : List Nat) (k : Int)
    (r : List Nat × Int) (h : cipher_xor_buffer dev data k = .ok r) :
    r.1.length = data.length ∧ r.2 = k + data.length := by
  induction data generalizing k r with
  | nil =>
    simp only [cipher_xor_buffer, result.ok.injEq] at h
    subst h
    simp
  | cons b data ih =>
    rw [cipher_xor_buffer] at h
    split_ifs at h with h0
    cases hrec : cipher_xor_buffer dev data (k + 1) with
    | fault f => rw [hrec] at h; simp at h
    | ok r1 =>
      rw [hrec] at h
      simp only [result.ok.injEq] at h
      subst h
      have := ih (k + 1) r1 hrec
      simp only [List.length_cons, Nat.cast_succ]
      omega

theorem cipher_xor_buffer_returns (dev : cipher_dev) (hk : dev.cipherlen ≠ 0) (data : List Nat)
    (k : Int) : ∃ r, cipher_xor_buffer dev data k = .ok r := by
  induction data generalizing k with
  | nil => exact ⟨_, rfl⟩
  | cons b data ih =>
    obtain ⟨r, hr⟩ := ih (k + 1)
    rw [cipher_xor_buffer, if_neg hk, hr]
    exact ⟨_, rfl⟩

theorem current_bucket_ok (dev : cipher_dev) (ctx : fcontext)
    (cur : cipher_dev × fcontext × bucket) (hn : heap_ok dev)
    (h : current_bucket dev ctx = .ok cur) :
    heap_ok cur.1 ∧ find_bucket cur.1 cur.2.2.addr = some cur.2.2
      ∧ cur.2.1.next = some cur.2.2.addr ∧ bucket_end cur.2.2 < BUCKET_SIZE
      ∧ stored cur.1 = stored dev ∧ same_key dev cur.1
      ∧ cur.2.1.totalwritten = ctx.totalwritten ∧ cur.2.1.fp = ctx.fp
      ∧ cur.2.1.mode = ctx.mode ∧ cur.2.1.keyoff = ctx.keyoff := by
  unfold current_bucket at h
  simp only at h
  cases hnext : ctx.next with
  | none =>
    rw [hnext] at h
    simp only [result.ok.injEq] at h
    subst h
    refine ⟨heap_ok_append_fresh dev _ hn rfl, find_bucket_append_fresh dev _ _ hn rfl, rfl,
      (show ((0 : Nat) : Int) < 256 by decide), ?_, ⟨rfl, rfl, rfl, rfl⟩, rfl, rfl, rfl, rfl⟩
    rw [stored_append]
    simp [bucket_end]
  | some addr =>
    rw [hnext] at h
    simp only at h
    cases hb : find_bucket dev addr with
    | none => rw [hb] at h; simp at h
    | some b =>
      rw [hb] at h
      simp only at h
      split_ifs at h with hfull
      · simp only [result.ok.injEq] at h
        subst h
        have hn1 := heap_ok_put_bucket dev { b with refcount := b.refcount - 1 } hn
        refine ⟨heap_ok_append_fresh _ _ hn1 rfl, find_bucket_append_fresh _ _ _ hn1 rfl, rfl,
          (show ((0 : Nat) : Int) < 256 by decide), ?_, ⟨rfl, rfl, rfl, rfl⟩, rfl, rfl, rfl,
          rfl⟩
        rw [stored_append]
        have hb1 : find_bucket dev ({ b with refcount := b.refcount - 1 } : bucket).addr
            = some b := by
          show find_bucket dev b.addr = some b
          rw [(find_bucket_mem hb).2]
          exact hb
        rw [stored_put_bucket dev b _ hn hb1]
        simp [bucket_end]
      · simp only [result.ok.injEq] at h
        subst h
        refine ⟨hn, ?_, ?_, by simpa using hfull, rfl, same_key_refl dev, rfl, rfl, rfl, rfl⟩
        · show find_bucket dev b.addr = some b
          rw [(find_bucket_mem hb).2]
          exact hb
        · show ctx.next = some b.addr
          rw [(find_bucket_mem hb).2]
          exact hnext

theorem current_bucket_returns (dev : cipher_dev) (ctx : fcontext) (hl : next_is_live dev ctx) :
    ∃ cur, current_bucket dev ctx = .ok cur := by
  unfold current_bucket
  simp only
  cases hnext : ctx.next with
  | none => exact ⟨_, rfl⟩
  | some addr =>
    simp only
    have := hl addr hnext
    cases hb : find_bucket dev addr with
    | none => rw [hb] at this; simp at this
    | some b =>
      simp only
      split_ifs
      · exact ⟨_, rfl⟩
      · exact ⟨_, rfl⟩

theorem write_chunk_ok (dev : cipher_dev) (ctx : fcontext) (buf : List Nat)
    (r : cipher_dev × fcontext × Int) (hn : heap_ok dev) (hbuf : buf ≠ [])
    (h : write_chunk dev ctx buf = .ok r) :
    heap_ok r.1 ∧ next_is_live r.1 r.2.1 ∧ 1 ≤ r.2.2 ∧ r.2.2 ≤ buf.length
      ∧ stored r.1 = stored dev + r.2.2 ∧ same_key dev r.1
      ∧ r.2.1.totalwritten = ctx.totalwritten + r.2.2 ∧ r.2.1.fp = ctx.fp
      ∧ r.2.1.mode = ctx.mode := by
  unfold write_chunk at h
  cases hc : current_bucket dev ctx with
  | fault f => rw [hc] at h; simp at h
  | ok cur =>
    rw [hc] at h
    simp only at h
    obtain ⟨c1, c2, c3, c4, c5, c6, c7, c8, c9, _⟩ := current_bucket_ok dev ctx cur hn hc
    have hlen : 0 < buf.length := List.length_pos.2 hbuf
    cases hx : cipher_xor_buffer cur.1
        (List.take (if BUCKET_SIZE - bucket_end cur.2.2 < (buf.length : Int)
          then BUCKET_SIZE - bucket_end cur.2.2 else (buf.length : Int)).toNat buf)
        cur.2.1.keyoff with
    | fault f => rw [hx] at h; simp at h
    | ok x =>
      rw [hx] at h
      simp only [result.ok.injEq] at h
      have hxl := (cipher_xor_buffer_length _ _ _ _ hx).1
      rw [List.length_take] at hxl
      subst h
      simp only
      have hfind : find_bucket cur.1
          ({ cur.2.2 with buffer := cur.2.2.buffer ++ x.1 } : bucket).addr = some cur.2.2 := c2
      refine ⟨heap_ok_put_bucket _ _ c1, ?_, ?_, ?_, ?_, ?_, ?_, c8, c9⟩
      · intro a ha
        simp only at ha
        rw [c3, Option.some.injEq] at ha
        subst ha
        have := find_bucket_put_bucket cur.1
          { cur.2.2 with buffer := cur.2.2.buffer ++ x.1 } (by rw [hfind]; rfl)
        show (find_bucket (put_bucket cur.1 _) _).isSome
        rw [this]
        rfl
      · split_ifs <;> omega
      · split_ifs <;> omega
      · show stored (put_bucket cur.1 _) = _
        rw [stored_put_bucket cur.1 cur.2.2 _ c1 hfind, c5]
        simp only [bucket_end, List.length_append, Nat.cast_add, hxl]
        unfold bucket_end at c4
        split_ifs <;> omega
      · exact same_key_trans c6 ⟨rfl, rfl, rfl, rfl⟩
      · show cur.2.1.totalwritten + _ = _
        rw [c7]

theorem write_chunk_returns (dev : cipher_dev) (ctx : fcontext) (buf : List Nat)
    (hn : heap_ok dev) (hl : next_is_live dev ctx) (hk : dev.cipherlen ≠ 0) :
    ∃ r, write_chunk dev ctx buf = .ok r := by
  obtain ⟨cur, hc⟩ := current_bucket_returns dev ctx hl
  have hck := (current_bucket_ok dev ctx cur hn hc).2.2.2.2.2.1.2.2.2
  unfold write_chunk
  rw [hc]
  simp only
  obtain ⟨x, hx⟩ := cipher_xor_buffer_returns cur.1 (by rw [hck]; exact hk)
    (List.take (if BUCKET_SIZE - bucket_end cur.2.2 < (buf.length : Int)
          then BUCKET_SIZE - bucket_end cur.2.2 else (buf.length : Int)).toNat buf)
    cur.2.1.keyoff
  rw [hx]
  exact ⟨_, rfl⟩

theorem cipher_write_loop_ok (fuel : Nat) (dev : cipher_dev) (ctx : fcontext) (buf : List Nat)
    (total : Int) (r : cipher_dev × fcontext × Int) (hn : heap_ok dev)
    (h : cipher_write_loop fuel dev ctx buf total = .ok r) :
    heap_ok r.1 ∧ r.2.2 = total + buf.length ∧ stored r.1 = stored dev + buf.length
      ∧ same_key dev r.1 ∧ r.2.1.totalwritten = ctx.totalwritten + buf.length
      ∧ r.2.1.fp = ctx.fp ∧ r.2.1.mode = ctx.mode := by
  induction fuel generalizing dev ctx buf total with
  | zero =>
    unfold cipher_write_loop at h
    split_ifs at h with hb
    simp only [result.ok.injEq] at h
    subst h
    subst hb
    exact ⟨hn, by simp, by simp, same_key_refl dev, by simp, rfl, rfl⟩
  | succ fuel ih =>
    unfold cipher_write_loop at h
    split_ifs at h with hb
    · simp only [result.ok.injEq] at h
      subst h
      subst hb
      exact ⟨hn, by simp, by simp, same_key_refl dev, by simp, rfl, rfl⟩
    · simp only at h
      cases hw : write_chunk dev ctx buf with
      | fault f => rw [hw] at h; simp at h
      | ok w =>
        rw [hw] at h
        simp only at h
        obtain ⟨w1, _, w3, w4, w5, w6, w7, w8, w9⟩ := write_chunk_ok dev ctx buf w hn hb hw
        obtain ⟨i1, i2, i3, i4, i5, i6, i7⟩ := ih w.1 w.2.1 _ _ w1 h
        have hd : ((List.drop w.2.2.toNat buf).length : Int) = buf.length - w.2.2 := by
          rw [List.length_drop]
          omega
        rw [hd] at i2 i3 i5
        refine ⟨i1, by omega, by omega, same_key_trans w6 i4, by omega, i6.trans w8,
          i7.trans w9⟩

theorem cipher_write_loop_returns (fuel : Nat) (dev : cipher_dev) (ctx : fcontext)
    (buf : List Nat) (total : Int) (hn : heap_ok dev) (hl : next_is_live dev ctx)
    (hk : dev.cipherlen ≠ 0) (hf : buf.length ≤ fuel) :
    ∃ r, cipher_write_loop fuel dev ctx buf total = .ok r := by
  induction fuel generalizing dev ctx buf total with
  | zero =>
    have : buf = [] := List.length_eq_zero.1 (by omega)
    subst this
    unfold cipher_write_loop
    exact ⟨_, rfl⟩
  | succ fuel ih =>
    unfold cipher_write_loop
    split_ifs with hb
    · exact ⟨_, rfl⟩
    · simp only
      obtain ⟨w, hw⟩ := write_chunk_returns dev ctx buf hn hl hk
      rw [hw]
      simp only
      obtain ⟨w1, w2, w3, w4, _, w6, _⟩ := write_chunk_ok dev ctx buf w hn hb hw
      apply ih w.1 w.2.1 _ _ w1 w2 (by rw [w6.2.2.2]; exact hk)
      rw [List.length_drop]
      omega

/-! ### What every call keeps -/

theorem find_context_mem {dev : cipher_dev} {fp : Nat} {ctx : fcontext}
    (h : find_context dev fp = some ctx) : ctx ∈ dev.contexes ∧ ctx.fp = fp := by
  unfold find_context at h
  exact ⟨List.mem_of_find?_eq_some h, by simpa using List.find?_some h⟩

theorem find_put_context_list (l : List fcontext) (fp : Nat) (ctx1 : fcontext)
    (h : (l.find? fun c => c.fp = fp).isSome) (hfp : ctx1.fp = fp) :
    (l.map fun c => if c.fp = ctx1.fp then ctx1 else c).find? (fun c => c.fp = fp)
      = some ctx1 := by
  induction l with
  | nil => simp at h
  | cons x l ih =>
    rw [List.map_cons]
    by_cases hx : x.fp = fp
    · rw [if_pos (hx.trans hfp.symm), List.find?_cons]
      simp [hfp]
    · rw [if_neg (fun e => hx (e.trans hfp)), List.find?_cons]
      rw [List.find?_cons] at h
      simp only [hx, decide_False] at h ⊢
      exact ih h

theorem find_context_put_context (dev : cipher_dev) (fp : Nat) (ctx ctx1 : fcontext)
    (h : find_context dev fp = some ctx) (hfp : ctx1.fp = fp) :
    find_context (put_context dev ctx1) fp = some ctx1 :=
  find_put_context_list dev.contexes fp ctx1 (by unfold find_context at h; rw [h]; rfl) hfp

theorem dev_ok_put_context (dev : cipher_dev) (ctx : fcontext) (h : dev_ok dev)
    (h0 : 0 ≤ ctx.totalwritten) (h1 : ctx.totalwritten ≤ MAX_WRITE_LEN) :
    dev_ok (put_context dev ctx) := by
  obtain ⟨a, b, c, d, e⟩ := h
  refine ⟨a, ?_, c, d, e⟩
  intro x hx
  unfold put_context at hx
  simp only [List.mem_map] at hx
  obtain ⟨y, hy, rfl⟩ := hx
  split_ifs
  · exact ⟨h0, h1⟩
  · exact b y hy

theorem dev_ok_of_same_key {dev dev1 : cipher_dev} (h : dev_ok dev) (hn : heap_ok dev1)
    (hs : same_key dev dev1) : dev_ok dev1 := by
  obtain ⟨_, b, c, d, e⟩ := h
  obtain ⟨s1, s2, s3, s4⟩ := hs
  exact ⟨hn, by rw [s1]; exact b, by rw [s2]; exact c, by rw [s3, s4]; exact d,
    by rw [s4]; exact e⟩

theorem dev_ok_init : dev_ok cipher_init_module := by
  refine ⟨⟨by simp [cipher_init_module], by simp [cipher_init_module]⟩,
    by simp [cipher_init_module], rfl, rfl, by decide⟩

theorem dev_ok_open (dev : cipher_dev) (fp : Nat) (acc : accmode) (h : dev_ok dev) :
    dev_ok (cipher_open dev fp acc).1 := by
  obtain ⟨a, b, c, d, e⟩ := h
  have hmap : heap_ok { dev with
      buckets := dev.buckets.map fun b => { b with refcount := b.refcount + 1 } } :=
    @heap_ok_of_addrs dev _ (by simp [List.map_map, Function.comp]) (le_refl _) a
  cases acc with
  | rdwr => exact ⟨a, b, c, d, e⟩
  | rdonly =>
    unfold cipher_open
    refine ⟨⟨hmap.1, hmap.2⟩, ?_, c, d, e⟩
    intro x hx
    simp only [List.mem_cons] at hx
    rcases hx with hx | hx
    · subst hx
      split <;> exact ⟨le_refl _, show (0 : Int) ≤ 8192 by decide⟩
    · exact b x hx
  | wronly =>
    unfold cipher_open
    refine ⟨⟨hmap.1, hmap.2⟩, ?_, c, d, e⟩
    intro x hx
    simp only [List.mem_cons] at hx
    rcases hx with hx | hx
    · subst hx
      split <;> exact ⟨le_refl _, show (0 : Int) ≤ 8192 by decide⟩
    · exact b x hx

theorem release_addrs_sublist (l : List bucket) :
    ((l.filterMap fun b =>
        if b.refcount > 0 then
          if b.refcount - 1 = 0 then none else some { b with refcount := b.refcount - 1 }
        else some b).map fun b => b.addr).Sublist (l.map fun b => b.addr) := by
  induction l with
  | nil => simp
  | cons x l ih =>
    rw [List.filterMap_cons]
    split
    · exact ih.trans (by simp)
    · rename_i y hy
      rw [List.map_cons, List.map_cons]
      have : y.addr = x.addr := by
        split_ifs at hy <;> simp only [Option.some.injEq] at hy <;> subst hy <;> rfl
      rw [this]
      exact ih.cons₂ _

theorem heap_ok_of_sublist {dev dev1 : cipher_dev}
    (ha : (dev1.buckets.map fun x => x.addr).Sublist (dev.buckets.map fun x => x.addr))
    (hb : dev.brk ≤ dev1.brk) (h : heap_ok dev) : heap_ok dev1 := by
  refine ⟨ha.nodup h.1, ?_⟩
  intro b hb1
  have : b.addr ∈ dev.buckets.map (fun x => x.addr) := ha.subset (List.mem_map_of_mem _ hb1)
  obtain ⟨x, hx, e⟩ := List.mem_map.1 this
  have := h.2 x hx
  omega

theorem dev_ok_release (dev : cipher_dev) (fp : Nat) (h : dev_ok dev) :
    dev_ok (cipher_release dev fp) := by
  obtain ⟨a, b, c, d, e⟩ := h
  unfold cipher_release
  split
  · exact ⟨a, b, c, d, e⟩
  · refine ⟨@heap_ok_of_sublist dev _ (release_addrs_sublist dev.buckets) (le_refl _) a,
      ?_, c, d, e⟩
    intro x hx
    exact b x (List.mem_of_mem_filter hx)

theorem cipher_read_loop_ok (fuel : Nat) (dev : cipher_dev) (ctx : fcontext) (count : Int)
    (out : List Nat) (r : cipher_dev × fcontext × List Nat) (hn : heap_ok dev)
    (h : cipher_read_loop fuel dev ctx count out = .ok r) :
    heap_ok r.1 ∧ same_key dev r.1 ∧ r.2.1.totalwritten = ctx.totalwritten
      ∧ r.2.1.fp = ctx.fp := by
  induction fuel generalizing dev ctx count out with
  | zero =>
    unfold cipher_read_loop at h
    split_ifs at h with hc
    · simp only [result.ok.injEq] at h
      subst h
      exact ⟨hn, same_key_refl dev, rfl, rfl⟩
    · split at h
      · simp only [result.ok.injEq] at h
        subst h
        exact ⟨hn, same_key_refl dev, rfl, rfl⟩
      · simp at h
  | succ fuel ih =>
    unfold cipher_read_loop at h
    split_ifs at h with hc
    · simp only [result.ok.injEq] at h
      subst h
      exact ⟨hn, same_key_refl dev, rfl, rfl⟩
    · split at h
      · simp only [result.ok.injEq] at h
        subst h
        exact ⟨hn, same_key_refl dev, rfl, rfl⟩
      · rename_i addr hnext
        simp only at h
        split at h
        · simp at h
        · rename_i b hb
          split_ifs at h with h1 h2 h3
          · have hn1 : heap_ok { dev with
                buckets := dev.buckets.filter fun x => x.addr ≠ addr } :=
              @heap_ok_of_sublist dev _
                ((List.filter_sublist dev.buckets).map _) (le_refl _) hn
            obtain ⟨i1, i2, i3, i4⟩ := ih _ _ _ _ hn1 h
            exact ⟨i1, same_key_trans ⟨rfl, rfl, rfl, rfl⟩ i2, i3, i4⟩
          · obtain ⟨i1, i2, i3, i4⟩ := ih _ _ _ _ (heap_ok_put_bucket dev _ hn) h
            exact ⟨i1, same_key_trans ⟨rfl, rfl, rfl, rfl⟩ i2, i3, i4⟩
          all_goals
            split at h
            · simp at h
            · obtain ⟨i1, i2, i3, i4⟩ := ih _ _ _ _ hn h
              exact ⟨i1, i2, i3, i4⟩

theorem dev_ok_read (dev : cipher_dev) (fp : Nat) (count : Nat)
    (r : cipher_dev × List Nat × Int) (h : dev_ok dev) (hr : cipher_read dev fp count = .ok r) :
    dev_ok r.1 := by
  unfold cipher_read at hr
  cases hc : find_context dev fp with
  | none =>
    rw [hc] at hr
    simp only [result.ok.injEq] at hr
    subst hr
    exact h
  | some ctx =>
    rw [hc] at hr
    simp only at hr
    split at hr
    · simp at hr
    · rename_i x hx
      simp only [result.ok.injEq] at hr
      subst hr
      obtain ⟨i1, i2, i3, _⟩ := cipher_read_loop_ok _ _ _ _ _ _ h.1 hx
      have hb := h.2.1 ctx (find_context_mem hc).1
      exact dev_ok_put_context _ _ (dev_ok_of_same_key h i1 i2) (by rw [i3]; exact hb.1)
        (by rw [i3]; exact hb.2)

theorem dev_ok_write (dev : cipher_dev) (fp : Nat) (buf : List Nat) (r : cipher_dev × Int)
    (h : dev_ok dev) (hr : cipher_write dev fp buf = .ok r) : dev_ok r.1 := by
  unfold cipher_write at hr
  cases hc : find_context dev fp with
  | none =>
    rw [hc] at hr
    simp only [result.ok.injEq] at hr
    subst hr
    exact h
  | some ctx =>
    rw [hc] at hr
    simp only at hr
    have hb := h.2.1 ctx (find_context_mem hc).1
    split_ifs at hr with h1 h2
    · simp only [result.ok.injEq] at hr
      subst hr
      exact h
    · split at hr
      · simp at hr
      · rename_i x hx
        simp only [result.ok.injEq] at hr
        subst hr
        obtain ⟨i1, _, _, i4, i5, _⟩ := cipher_write_loop_ok _ _ _ _ _ _ h.1 hx
        rw [List.length_take] at i5
        unfold MAX_WRITE_LEN at *
        refine dev_ok_put_context _ _ (dev_ok_of_same_key h i1 i4) ?_ ?_
        · omega
        · show x.2.1.totalwritten ≤ 8192
          omega
    · split at hr
      · simp at hr
      · rename_i x hx
        simp only [result.ok.injEq] at hr
        subst hr
        obtain ⟨i1, _, _, i4, i5, _⟩ := cipher_write_loop_ok _ _ _ _ _ _ h.1 hx
        rw [List.length_take] at i5
        unfold MAX_WRITE_LEN at *
        refine dev_ok_put_context _ _ (dev_ok_of_same_key h i1 i4) ?_ ?_
        · omega
        · show x.2.1.totalwritten ≤ 8192
          omega

theorem dev_ok_reset_device (dev : cipher_dev) (key : List Nat) (hk : key.length ≤ 4095) :
    dev_ok (reset_device dev key) := by
  refine ⟨⟨by simp [reset_device], by simp [reset_device]⟩, ?_, rfl, rfl, ?_⟩
  · intro c hc
    simp only [reset_device, List.mem_map] at hc
    obtain ⟨y, _, rfl⟩ := hc
    exact ⟨le_refl _, show (0 : Int) ≤ 8192 by decide⟩
  · show ((key.length : Nat) : Int) ≤ 4095
    omega

theorem dev_ok_ioctl (dev : cipher_dev) (fp : Nat) (cmd : ioctl_cmd)
    (r : cipher_dev × Option Int × Int) (h : dev_ok dev)
    (hr : cipher_ioctl dev fp cmd = .ok r) : dev_ok r.1 := by
  unfold cipher_ioctl at hr
  cases hc : find_context dev fp with
  | none =>
    rw [hc] at hr
    simp only [result.ok.injEq] at hr
    subst hr
    exact h
  | some ctx =>
    rw [hc] at hr
    cases cmd with
    | CIPHER_IOCCLR =>
      simp only [result.ok.injEq] at hr
      subst hr
      exact dev_ok_reset_device dev _ (by decide)
    | CIPHER_IOCSKEY kbuf =>
      simp only [result.ok.injEq] at hr
      subst hr
      apply dev_ok_reset_device
      have h1 := (List.takeWhile_sublist (fun b => decide (b ≠ 0)) (l := kbuf.take 4095)).length_le
      have h2 := List.length_take_le 4095 kbuf
      omega
    | CIPHER_IOCQREM =>
      simp only at hr
      by_cases hm : ctx.mode = 0
      · rw [if_pos hm] at hr
        split at hr
        · simp at hr
        · simp only [result.ok.injEq] at hr
          subst hr
          exact h
      · rw [if_neg hm] at hr
        simp only [result.ok.injEq] at hr
        subst hr
        exact h

theorem dev_ok_step (dev dev1 : cipher_dev) (c : call) (h : dev_ok dev)
    (hs : step dev c = .ok dev1) : dev_ok dev1 := by
  cases c with
  | open_ fp acc =>
    simp only [step] at hs
    split_ifs at hs
    · simp only [result.ok.injEq] at hs
      subst hs
      exact h
    · simp only [result.ok.injEq] at hs
      subst hs
      exact dev_ok_open dev fp acc h
  | release fp =>
    simp only [step, result.ok.injEq] at hs
    subst hs
    exact dev_ok_release dev fp h
  | read fp count =>
    simp only [step] at hs
    split at hs
    · simp only [result.ok.injEq] at hs
      subst hs
      exact h
    · split_ifs at hs
      · split at hs
        · rename_i r hr
          simp only [result.ok.injEq] at hs
          subst hs
          exact dev_ok_read dev fp count r h hr
        · simp at hs
      · simp only [result.ok.injEq] at hs
        subst hs
        exact h
  | write fp buf =>
    simp only [step] at hs
    split at hs
    · simp only [result.ok.injEq] at hs
      subst hs
      exact h
    · split_ifs at hs
      · split at hs
        · rename_i r hr
          simp only [result.ok.injEq] at hs
          subst hs
          exact dev_ok_write dev fp buf r h hr
        · simp at hs
      · simp only [result.ok.injEq] at hs
        subst hs
        exact h
  | ioctl fp cmd =>
    simp only [step] at hs
    split at hs
    · rename_i r hr
      simp only [result.ok.injEq] at hs
      subst hs
      exact dev_ok_ioctl dev fp cmd r h hr
    · simp at hs

theorem dev_ok_run (cs : List call) (dev dev1 : cipher_dev) (h : dev_ok dev)
    (hr : run dev cs = .ok dev1) : dev_ok dev1 := by
  induction cs generalizing dev with
  | nil =>
    simp only [run, result.ok.injEq] at hr
    subst hr
    exact h
  | cons c cs ih =>
    rw [run] at hr
    split at hr
    · rename_i d hd
      exact ih d (dev_ok_step dev d c h hd) hr
    · simp at hr

theorem dev_ok_reachable (dev : cipher_dev) (h : reachable dev) : dev_ok dev := by
  obtain ⟨cs, hcs⟩ := h
  exact dev_ok_run cs _ dev dev_ok_init hcs

theorem run_append (cs : List call) (c : call) (dev dev1 dev2 : cipher_dev)
    (h1 : run dev cs = .ok dev1) (h2 : step dev1 c = .ok dev2) :
    run dev (cs ++ [c]) = .ok dev2 := by
  induction cs generalizing dev with
  | nil =>
    simp only [run, result.ok.injEq] at h1
    subst h1
    simp [run, h2]
  | cons x cs ih =>
    rw [run] at h1
    rw [List.cons_append, run]
    split at h1
    · rename_i d hd
      exact ih d h1
    · simp at h1

/-! ### The limit of a writer -/

theorem qrem_writer (dev : cipher_dev) (fp : Nat) (ctx : fcontext)
    (hc : find_context dev fp = some ctx) (hm : ctx.mode = 1)
    (h1 : ctx.totalwritten ≤ MAX_WRITE_LEN) :
    cipher_ioctl dev fp .CIPHER_IOCQREM
      = .ok (dev, some (MAX_WRITE_LEN - ctx.totalwritten), 0) := by
  unfold cipher_ioctl
  rw [hc]
  simp only
  rw [if_neg (by rw [hm]; decide)]
  by_cases h : ctx.totalwritten < MAX_WRITE_LEN
  · rw [if_pos h]
  · rw [if_neg h]
    have : MAX_WRITE_LEN - ctx.totalwritten = 0 := by omega
    rw [this]

/-- A writer context of a reachable device, with a non-empty key and a bucket
pointer that is null or points to a bucket of the list, has written `t` bytes with
`0 ≤ t ≤ 8192`; `CIPHER_IOCQREM` on it reports `8192 - t`; and `cipher_write` with
`count` bytes returns `min(count, 8192 - t)`, the device then being reachable,
storing that many bytes more, with `totalwritten = t + min(count, 8192 - t) ≤ 8192`
and `CIPHER_IOCQREM` reporting `8192 - totalwritten`. -/
theorem cipher_write_limit (dev : cipher_dev) (fp : Nat) (ctx : fcontext) (buf : List Nat)
    (hr : reachable dev) (hc : find_context dev fp = some ctx) (hm : ctx.mode = 1)
    (hk : dev.cipherlen ≠ 0) (hl : next_is_live dev ctx) :
    0 ≤ ctx.totalwritten ∧ ctx.totalwritten ≤ MAX_WRITE_LEN
      ∧ cipher_ioctl dev fp .CIPHER_IOCQREM
          = .ok (dev, some (MAX_WRITE_LEN - ctx.totalwritten), 0)
      ∧ ∃ dev1 ctx1,
          cipher_write dev fp buf
              = .ok (dev1, min (buf.length : Int) (MAX_WRITE_LEN - ctx.totalwritten))
            ∧ reachable dev1
            ∧ stored dev1
                = stored dev + min (buf.length : Int) (MAX_WRITE_LEN - ctx.totalwritten)
            ∧ find_context dev1 fp = some ctx1
            ∧ ctx1.totalwritten
                = ctx.totalwritten + min (buf.length : Int) (MAX_WRITE_LEN - ctx.totalwritten)
            ∧ ctx1.totalwritten ≤ MAX_WRITE_LEN
            ∧ cipher_ioctl dev1 fp .CIPHER_IOCQREM
                = .ok (dev1, some (MAX_WRITE_LEN - ctx1.totalwritten), 0) := by
  have hok := dev_ok_reachable dev hr
  have hb := hok.2.1 ctx (find_context_mem hc).1
  have hfp := (find_context_mem hc).2
  refine ⟨hb.1, hb.2, qrem_writer dev fp ctx hc hm hb.2, ?_⟩
  have hmain : ∃ dev1 ctx1,
      cipher_write dev fp buf
          = .ok (dev1, min (buf.length : Int) (MAX_WRITE_LEN - ctx.totalwritten))
        ∧ stored dev1
            = stored dev + min (buf.length : Int) (MAX_WRITE_LEN - ctx.totalwritten)
        ∧ find_context dev1 fp = some ctx1
        ∧ ctx1.totalwritten
            = ctx.totalwritten + min (buf.length : Int) (MAX_WRITE_LEN - ctx.totalwritten)
        ∧ ctx1.mode = 1 := by
    unfold cipher_write
    rw [hc]
    simp only
    by_cases hfull : ctx.totalwritten ≥ MAX_WRITE_LEN
    · rw [if_pos hfull]
      have hz : min (buf.length : Int) (MAX_WRITE_LEN - ctx.totalwritten) = 0 := by omega
      rw [hz]
      exact ⟨dev, ctx, rfl, by simp, hc, by simp, hm⟩
    · rw [if_neg hfull]
      have hcount : (if ctx.totalwritten + (buf.length : Int) > MAX_WRITE_LEN
            then MAX_WRITE_LEN - ctx.totalwritten else (buf.length : Int))
          = min (buf.length : Int) (MAX_WRITE_LEN - ctx.totalwritten) := by
        split_ifs <;> omega
      rw [hcount]
      have hlen : ((List.take
          (min (buf.length : Int) (MAX_WRITE_LEN - ctx.totalwritten)).toNat buf).length : Int)
          = min (buf.length : Int) (MAX_WRITE_LEN - ctx.totalwritten) := by
        rw [List.length_take]
        omega
      obtain ⟨r, hrl⟩ := cipher_write_loop_returns
        (min (buf.length : Int) (MAX_WRITE_LEN - ctx.totalwritten)).toNat dev ctx
        (List.take (min (buf.length : Int) (MAX_WRITE_LEN - ctx.totalwritten)).toNat buf) 0
        hok.1 hl hk (by rw [List.length_take]; omega)
      obtain ⟨_, i2, i3, i4, i5, i6, i7⟩ := cipher_write_loop_ok _ _ _ _ _ r hok.1 hrl
      rw [hrl]
      simp only
      rw [hlen] at i2 i3 i5
      refine ⟨_, r.2.1, by rw [i2, zero_add], ?_, ?_, i5, i7.trans hm⟩
      · rw [← i3]
        rfl
      · apply find_context_put_context _ _ ctx _ _ (i6.trans hfp)
        unfold find_context at hc ⊢
        rw [i4.1]
        exact hc
  obtain ⟨dev1, ctx1, h1, h2, h3, h4, h5⟩ := hmain
  have hle : ctx1.totalwritten ≤ MAX_WRITE_LEN := by
    rw [h4]
    omega
  refine ⟨dev1, ctx1, h1, ?_, h2, h3, h4, hle, qrem_writer dev1 fp ctx1 h3 h5 hle⟩
  obtain ⟨cs, hcs⟩ := hr
  refine ⟨cs ++ [.write fp buf], run_append cs _ _ dev dev1 hcs ?_⟩
  simp only [step, hc, hm, if_true, h1]

set_option maxRecDepth 4000 in
theorem cipher_write_limit_witness :
    reachable keyed_device ∧ find_context keyed_device 1 = some ⟨1, none, 0, 0, 1, 0⟩
      ∧ keyed_device.cipherlen ≠ 0 ∧ next_is_live keyed_device ⟨1, none, 0, 0, 1, 0⟩
      ∧ ∃ dev1, cipher_write keyed_device 1 (bytes "Testing new key") = .ok (dev1, 15)
          ∧ stored dev1 = 15
          ∧ cipher_ioctl dev1 1 .CIPHER_IOCQREM = .ok (dev1, some 8177, 0) := by
  have hr : reachable keyed_device :=
    ⟨[.open_ 1 .wronly, .ioctl 1 (.CIPHER_IOCSKEY (bytes "MY-SECRET-KEY"))], by decide⟩
  have hl : next_is_live keyed_device ⟨1, none, 0, 0, 1, 0⟩ := by
    intro a h
    simp at h
  obtain ⟨_, _, _, dev1, ctx1, hw, _, hs, _, ht, _, hq⟩ :=
    cipher_write_limit keyed_device 1 ⟨1, none, 0, 0, 1, 0⟩ (bytes "Testing new key") hr
      (by decide) (by decide) (by decide) hl
  have hmin : min (((bytes "Testing new key").length : Nat) : Int)
      (MAX_WRITE_LEN - (⟨1, none, 0, 0, 1, 0⟩ : fcontext).totalwritten) = 15 := by decide
  rw [hmin] at hw hs ht
  have hst : stored keyed_device = 0 := by decide
  refine ⟨hr, by decide, by decide, hl, dev1, hw, by rw [hs, hst]; rfl, ?_⟩
  rw [hq, ht]
  rfl

/-! ### Where the device loses or garbles data -/

set_option maxRecDepth 4000 in
/-- C22: in the run of `test.c` the write stores the 15 bytes of `Testing new key`,
encrypted, in one bucket that the writer alone holds; the writer's `close` drops that
reference and frees the bucket; the reader then opens an empty device and its `read`
of 99 bytes returns 0 bytes. -/
theorem written_data_is_freed_at_close :
    run cipher_init_module (test_calls.take 2) = .ok keyed_device
      ∧ cipher_write keyed_device 1 (bytes "Testing new key") = .ok (written_device, 15)
      ∧ cipher_ioctl written_device 1 .CIPHER_IOCQREM = .ok (written_device, some 8177, 0)
      ∧ (cipher_release written_device 1).buckets = []
      ∧ run cipher_init_module test_calls = .ok reopened_device
      ∧ cipher_read reopened_device 2 99 = .ok (reopened_device, [], 0) := by
  decide!

/-- C27: `CIPHER_IOCSKEY` with the empty string is accepted and leaves
`cipherlen = 0`, and the next `write` computes `keyoff % 0`. -/
theorem empty_key_is_accepted :
    run cipher_init_module [.open_ 1 .wronly, .ioctl 1 (.CIPHER_IOCSKEY [0])]
        = .ok unkeyed_device
      ∧ cipher_ioctl keyed_device 1 (.CIPHER_IOCSKEY []) = .ok (unkeyed_device, none, 0)
      ∧ unkeyed_device.cipherlen = 0
      ∧ cipher_write unkeyed_device 1 [84] = .fault .division_by_zero := by
  decide!

set_option maxRecDepth 8000 in
/-- C29: a writer stores 300 bytes under the default key, in a bucket of 256 bytes
and one of 44; a reader that opens then reads the 300 bytes back; once that reader
and a second one have closed, the first bucket is freed, the second one is the head
of the list and `keyfirst` is still 0, although the head's first byte was encrypted
at key offset 256, and `256 mod 24 = 16`; a reader that opens now reads 44 bytes that
are not the bytes written. -/
theorem keyfirst_is_never_advanced :
    run cipher_init_module two_bucket_calls = .ok two_bucket_device
      ∧ (∃ dev, cipher_read two_bucket_device 2 300 = .ok (dev, letters_300, 300))
      ∧ run cipher_init_module head_freed_calls = .ok head_freed_device
      ∧ head_freed_device.keyfirst = 0
      ∧ (256 : Int) % head_freed_device.cipherlen = 16
      ∧ head_freed_device.buckets.map (fun b => b.buffer)
          = [xored head_freed_device (letters_300.drop 256) 256]
      ∧ find_context head_freed_device 4 = some ⟨4, some 1, 0, 0, 0, 0⟩
      ∧ (∃ dev, cipher_read head_freed_device 4 300
          = .ok (dev, xored head_freed_device (xored head_freed_device (letters_300.drop 256) 256) 0,
              44))
      ∧ xored head_freed_device (xored head_freed_device (letters_300.drop 256) 256) 0
          ≠ letters_300.drop 256 := by
  refine ⟨by decide!, ⟨put_context { two_bucket_device with
      buckets := [{ addr := 0, refcount := 1,
                    buffer := xored cipher_init_module (letters_300.take 256) 0 },
                  { addr := 1, refcount := 3,
                    buffer := xored cipher_init_module (letters_300.drop 256) 256 }] }
      ⟨2, some 1, 44, 300, 0, 0⟩, by decide!⟩, by decide!, by decide!, by decide!, by decide!,
    by decide!, ⟨put_context { head_freed_device with
      buckets := [{ addr := 1, refcount := 1,
                    buffer := xored cipher_init_module (letters_300.drop 256) 256 }] }
      ⟨4, none, 0, 44, 0, 0⟩, by decide!⟩, by decide!⟩

/-- C23: two writers open the device, the first writes one byte and the second
closes.  The bucket was created with reference count 1, so the close of the
second writer frees it, and the first writer, who has written 1 byte and is told by
`CIPHER_IOCQREM` that 8191 remain, still points to it: its next `cipher_write` of one
byte reads the freed bucket instead of storing and returning 1. -/
theorem write_after_other_close_faults :
    run cipher_init_module [.open_ 1 .wronly, .open_ 2 .wronly, .write 1 [65]]
        = .ok { cipher_init_module with
            buckets := [⟨0, 1, [65 ^^^ 67]⟩]
            keylast := 1
            contexes := [⟨2, none, 0, 0, 1, 0⟩, ⟨1, some 0, 0, 1, 1, 1⟩]
            brk := 1 } ∧
    run cipher_init_module [.open_ 1 .wronly, .open_ 2 .wronly, .write 1 [65], .release 2]
        = .ok orphaned_writer_device ∧
    find_context orphaned_writer_device 1 = some ⟨1, some 0, 0, 1, 1, 1⟩ ∧
    find_bucket orphaned_writer_device 0 = none ∧
    cipher_ioctl orphaned_writer_device 1 .CIPHER_IOCQREM
      = .ok (orphaned_writer_device, some 8191, 0) ∧
    cipher_write orphaned_writer_device 1 [66] = .fault .use_after_free := by
  decide!

end Cipher

namespace Mm536

/-! ### The system call `check_addr` -/

theorem to_long_of_le (x : Nat) (h : x ≤ LONG_MAX) : to_long x = x := by
  unfold to_long
  unfold LONG_MAX at h
  have h1 : x % 2 ^ 64 = x := Nat.mod_eq_of_lt (by omega)
  rw [h1, if_pos (by omega)]

theorem find_vma_none (mm : mm_struct) (addr : Nat) (h : find_vma mm addr = none) :
    ¬ ∃ vma ∈ mm.mmap, inside addr vma := by
  unfold find_vma at h
  rw [List.find?_eq_none] at h
  rintro ⟨vma, hv, hin⟩
  have := h vma hv
  simp only [decide_eq_true_eq] at this
  exact this hin.2

theorem first_above (l : List vm_area_struct) (addr : Nat) (vma : vm_area_struct)
    (hp : l.Pairwise fun a b => a.vm_end ≤ b.vm_start)
    (h : (l.find? fun v => addr < v.vm_end) = some vma) :
    vma ∈ l ∧ addr < vma.vm_end ∧ ∀ w ∈ l, inside addr w → w = vma := by
  induction l with
  | nil => simp at h
  | cons x l ih =>
    rw [List.pairwise_cons] at hp
    rw [List.find?_cons] at h
    by_cases hx : addr < x.vm_end
    · simp only [hx, decide_True, Option.some.injEq] at h
      subst h
      refine ⟨List.mem_cons_self _ _, hx, ?_⟩
      intro w hw hin
      rcases List.mem_cons.1 hw with e | hw
      · exact e
      · have := hp.1 w hw
        unfold inside at hin
        omega
    · simp only [hx, decide_False] at h
      obtain ⟨i1, i2, i3⟩ := ih hp.2 h
      refine ⟨List.mem_cons_of_mem _ i1, i2, ?_⟩
      intro w hw hin
      rcases List.mem_cons.1 hw with e | hw
      · subst e
        unfold inside at hin
        omega
      · exact i3 w hw hin

theorem land_two_pow_ne_zero (n k : Nat) : n &&& 2 ^ k ≠ 0 ↔ n.testBit k = true := by
  rw [Nat.and_two_pow]
  cases n.testBit k <;> simp

/-- C30: for a memory map whose areas are in order, disjoint and below the largest
`long`, `check_addr` returns `-EINVAL` exactly when `addr` lies inside no area, and
then leaves the user buffer as it was; when `addr` lies inside an area, the call
returns 0 or `-EFAULT`, and when it returns 0 the buffer holds that area with
`start ≤ addr < end`, and each of the flags readable, writeable, executable, shared
and filemapped is 0 or 1, and is 1 exactly when the bit `VM_READ`, `VM_WRITE`,
`VM_EXEC`, `VM_SHARED` is set or the area has a backing file. -/
theorem check_addr_spec (mm : mm_struct) (addr : Nat) (buffer : Option vma_info)
    (writable : Bool) (hm : mmap_ok mm) :
    ((check_addr mm addr buffer writable).1 = -EINVAL
        ↔ ¬ ∃ vma ∈ mm.mmap, inside addr vma)
      ∧ ((check_addr mm addr buffer writable).1 = -EINVAL
          → (check_addr mm addr buffer writable).2 = buffer)
      ∧ ∀ vma ∈ mm.mmap, inside addr vma →
          ((check_addr mm addr buffer writable).1 = 0
              ∨ (check_addr mm addr buffer writable).1 = -EFAULT)
            ∧ ((check_addr mm addr buffer writable).1 = 0 ↔ writable = true)
            ∧ ((check_addr mm addr buffer writable).1 = 0 →
                ∃ k, (check_addr mm addr buffer writable).2 = some k
                  ∧ k.start = vma.vm_start ∧ k.end_ = vma.vm_end
                  ∧ k.start ≤ addr ∧ (addr : Int) < k.end_
                  ∧ k.flags.readable = (if vma.vm_flags.testBit 0 then 1 else 0)
                  ∧ k.flags.writeable = (if vma.vm_flags.testBit 1 then 1 else 0)
                  ∧ k.flags.executable = (if vma.vm_flags.testBit 2 then 1 else 0)
                  ∧ k.flags.shared = (if vma.vm_flags.testBit 3 then 1 else 0)
                  ∧ k.flags.filemapped = (if vma.vm_file.isSome then 1 else 0)) := by
  have hflag : ∀ n k : Nat, (if n &&& 2 ^ k ≠ 0 then 1 else 0 : Nat)
      = if n.testBit k then 1 else 0 := by
    intro n k
    by_cases h : n.testBit k = true
    · rw [if_pos ((land_two_pow_ne_zero n k).2 h), if_pos h]
    · rw [if_neg (fun e => h ((land_two_pow_ne_zero n k).1 e)), if_neg h]
  cases hf : find_vma mm addr with
  | none =>
    have hno := find_vma_none mm addr hf
    have hc : check_addr mm addr buffer writable = (-EINVAL, buffer) := by
      unfold check_addr
      rw [hf]
    rw [hc]
    refine ⟨⟨fun _ => hno, fun _ => rfl⟩, fun _ => rfl, ?_⟩
    intro vma hv hin
    exact absurd ⟨vma, hv, hin⟩ hno
  | some f =>
    obtain ⟨f1, f2, f3⟩ := first_above mm.mmap addr f hm.1 hf
    by_cases hlow : addr < f.vm_start
    · have hc : check_addr mm addr buffer writable = (-EINVAL, buffer) := by
        unfold check_addr
        rw [hf]
        simp only
        rw [if_pos hlow]
      have hno : ¬ ∃ vma ∈ mm.mmap, inside addr vma := by
        rintro ⟨w, hw, hin⟩
        have := f3 w hw hin
        subst this
        unfold inside at hin
        omega
      rw [hc]
      refine ⟨⟨fun _ => hno, fun _ => rfl⟩, fun _ => rfl, ?_⟩
      intro vma hv hin
      exact absurd ⟨vma, hv, hin⟩ hno
    · have hin : inside addr f := ⟨by omega, f2⟩
      have hc : check_addr mm addr buffer writable
          = if writable then (0, some (fill_kinfo mm f)) else (-EFAULT, buffer) := by
        unfold check_addr
        rw [hf]
        simp only
        rw [if_neg hlow]
      have h14 : -EFAULT ≠ -EINVAL := by decide
      have h0 : (0 : Int) ≠ -EINVAL := by decide
      have h140 : -EFAULT ≠ (0 : Int) := by decide
      cases writable with
      | false =>
        simp only [Bool.false_eq_true, if_false] at hc
        rw [hc]
        refine ⟨⟨fun e => absurd e h14, fun e => absurd ⟨f, f1, hin⟩ e⟩,
          fun e => absurd e h14, ?_⟩
        intro vma _ _
        exact ⟨Or.inr rfl, ⟨fun e => absurd e h140, fun e => absurd e (by decide)⟩,
          fun e => absurd e h140⟩
      | true =>
        simp only [if_true] at hc
        rw [hc]
        refine ⟨⟨fun e => absurd e h0, fun e => absurd ⟨f, f1, hin⟩ e⟩,
          fun e => absurd e h0, ?_⟩
        intro vma hv hvin
        have hvf := f3 vma hv hvin
        subst hvf
        have hb := hm.2 vma hv
        refine ⟨Or.inl rfl, ⟨fun _ => rfl, fun _ => rfl⟩, ?_⟩
        intro _
        have hs : to_long vma.vm_start = vma.vm_start := to_long_of_le _ (by omega)
        have he : to_long vma.vm_end = vma.vm_end := to_long_of_le _ hb.2
        refine ⟨fill_kinfo mm vma, rfl, hs, he, ?_, ?_, hflag vma.vm_flags 0,
          hflag vma.vm_flags 1, hflag vma.vm_flags 2, hflag vma.vm_flags 3, rfl⟩
        · show to_long vma.vm_start ≤ addr
          rw [hs]
          exact_mod_cast hvin.1
        · show (addr : Int) < to_long vma.vm_end
          rw [he]
          exact_mod_cast hvin.2

set_option maxRecDepth 4000 in
theorem check_addr_spec_witness :
    mmap_ok small_mm
      ∧ check_addr small_mm 0x500000 none true = (-EINVAL, none)
      ∧ (¬ ∃ vma ∈ small_mm.mmap, inside 0x500000 vma)
      ∧ check_addr small_mm 0x400010 none true
          = (0, some
              { start := 0x400000
                end_ := 0x401000
                flags := ⟨1, 0, 1, 0, 1, 0, 0⟩
                file := ⟨42, 8, 1, "/bin/true".data.map Char.toNat, 0⟩
                mm := ⟨36, 35, 1, 2, 10, 1, 3⟩ })
      ∧ check_addr small_mm 0x400010 none false = (-EFAULT, none) := by
  have h := check_addr_spec small_mm 0x500000 none true (by decide)
  exact ⟨by decide, by decide, h.1.1 (by decide), by decide, by decide⟩

end Mm536
